import Mathlib

/-!
# structs: descriptor-driven values and their binary codec

A shallow embedding of the `structs` engine (`structs_generic.c`,
`structs_type_string.c`, `structs_type_data.c`, `structs_type_pointer.c`,
`structs_type_array.c`, `structs_type_struct.c`, `structs_type_union.c`,
`structs.c`) and of its two loaders (`structs_json.c`, `structs_pack.c`), and
theorems about its copy, equality and encode/decode operations, the name
resolver `structs_find`, the operations that replace an item,
`structs_traverse`, the operations on the length of an array, `uninit`,
`structs_union_set`, the hex text of binary data and the state machines of
the loaders.

Modelling conventions.

* A C value is a footprint of bytes holding owning pointers.  Ownership is
  tree shaped (no aliasing), so a value is modelled by the tree `Value`;
  `calloc`/`free` and the offsets of fields are not visible in the model, a
  field or element is addressed by its position.
* Bytes are natural numbers below 256, a C string is the list of its bytes
  without the terminating NUL, and a byte buffer `(code, cmax)` is the list
  of its `cmax` bytes.
* An operation returning `-1` (or `NULL`) returns `Except.error e`, where
  `e` is the value left in `errno`.  Allocation never fails.
* Where the C code would dereference a null pointer or read outside a
  buffer the model answers `Errno.undefined`.
* A length or count is a natural number.  Where the C code keeps it in an
  `unsigned int` or hands it over as an `int`, the model cuts it to 32 bits as
  C does, and answers `Errno.undefined` where the code then leaves its
  buffers or overflows an `int`.
* `assert` is compiled out (`NDEBUG`): the statements after an `assert(0)`
  run.
* The result of `structs_find` is the descriptor found and the way from the
  value to the item found (`Loc`); a function that changes the value returns
  the value after the call next to its result.
* A loader works on its `info` and on a memory: the value that its `data`
  points to and `errno`.  A frame holds the way from that value to its item;
  a machine that has done what C does not define carries the mark
  `Errno.undefined` in its `error` and stops there.
-/

namespace Structs

/-! ## Results and values -/

/-- Value of `errno` after a failed call; `unset` is a failure return that
leaves `errno` as it was, `undefined` marks behaviour that C does not define
(null dereference, access outside a buffer, a footprint of the wrong shape). -/
inductive Errno where
  | EINVAL
  | ENOENT
  | EDOM
  | ENOSYS
  | ERANGE
  | EMLINK
  | unset
  | undefined
deriving DecidableEq, Repr

/-- The compile-time constant `BYTE_ORDER` of the host. -/
inductive ByteOrder where
  | LITTLE_ENDIAN
  | BIG_ENDIAN
deriving DecidableEq, Repr

/-- The class tag `tclass` of a descriptor. -/
inductive structs_tclass where
  | STRUCTS_TYPE_PRIMITIVE
  | STRUCTS_TYPE_POINTER
  | STRUCTS_TYPE_ARRAY
  | STRUCTS_TYPE_FIXEDARRAY
  | STRUCTS_TYPE_STRUCTURE
  | STRUCTS_TYPE_UNION
deriving DecidableEq, Repr

/-- The contents of a footprint, seen through the shape of its descriptor.
`region` is a run of plain bytes (host representation), `string` a `char *`
(`none` is `NULL`), `data` a `struct structs_data` (length and bytes),
`pointer` an owning `void *`, `array` a `struct structs_array` (its `length`
is the length of `elems`), `fixedarray` an inline vector, `structure` the
fields in field-table order, `union` a `struct structs_union` with its two
pointers `field_name` and `un`. -/
inductive Value where
  | region (bytes : List Nat)
  | string (s : Option (List Nat))
  | data (bytes : List Nat)
  | pointer (pdata : Option Value)
  | array (elems : List Value)
  | fixedarray (elems : List Value)
  | structure (fields : List Value)
  | union (field_name : Option (List Nat)) (un : Option Value)

/-- A descriptor, `struct structs_type`: its label, class and operation
table.  `zero` is the footprint of `size` zero bytes read at this type (what
`memset(data, 0, type->size)` leaves).  The first argument `type` of every
operation is the descriptor itself; `args` are captured by the operations. -/
structure structs_type where
  name : String
  tclass : structs_tclass
  zero : Value
  init : Except Errno Value
  copy : Value → Except Errno Value
  equal : Value → Value → Int
  encode : Value → Except Errno (List Nat)
  decode : List Nat → Except Errno (Value × Nat)

/-- An entry of a field table: `struct structs_field` (whose `offset` and
`size` are replaced by the position of the entry) and `struct structs_ufield`. -/
structure structs_field where
  name : List Nat
  type : structs_type

/-- The `int` that a decoder returns for a count `clen` of bytes it has kept
in an `unsigned int` or a `size_t`: the count is cut to 32 bits and read as a
signed number.  The number -1, from `2 ^ 32 - 1`, is the failure of the
caller's test, with `errno` as it was.  With another negative number the
caller would step back in its buffer by it, which the buffers of the model
do not follow: `undefined`. -/
def decode_count (data : Value) (clen : Nat) : Except Errno (Value × Nat) :=
  if clen % 2 ^ 32 < 2 ^ 31 then .ok (data, clen % 2 ^ 32)
  else if clen % 2 ^ 32 = 2 ^ 32 - 1 then .error .unset
  else .error .undefined

/-! ## structs_generic.c -/

/-- `structs_region_init`: `memset(data, 0, type->size)`. -/
def structs_region_init (zero : Value) : Except Errno Value :=
  .ok zero

/-- `structs_region_copy`: `memcpy(to, from, type->size)`. -/
def structs_region_copy (size : Nat) : Value → Except Errno Value
  | .region bytes => .ok (.region (bytes.take size))
  | _ => .error .undefined

/-- `structs_region_equal`: `memcmp(v1, v2, type->size) == 0`.  On footprints
of another shape, here and in the other `equal` functions, the model
answers 0. -/
def structs_region_equal (size : Nat) : Value → Value → Int
  | .region v1, .region v2 => if v1.take size = v2.take size then 1 else 0
  | _, _ => 0

/-- `structs_region_encode`. -/
def structs_region_encode (size : Nat) : Value → Except Errno (List Nat)
  | .region bytes => .ok (bytes.take size)
  | _ => .error .undefined

/-- `structs_region_decode`; the count returned is `type->size`, the `sizeof`
of the C type of the item. -/
def structs_region_decode (size : Nat) (code : List Nat) : Except Errno (Value × Nat) :=
  if code.length < size then .error .EINVAL
  else .ok (.region (code.take size), size)

/-- The byte swapping loop of the network-order codec: `n` more rounds from
index `i`, each exchanging `data[i]` and `data[length - 1 - i]`. -/
def netorder_swap (length : Nat) : Nat → Nat → List Nat → List Nat
  | 0, _, data => data
  | n + 1, i, data =>
    netorder_swap length n (i + 1)
      ((data.set i (data.getD (length - 1 - i) 0)).set (length - 1 - i) (data.getD i 0))

/-- `structs_region_encode_netorder`. -/
def structs_region_encode_netorder (bo : ByteOrder) (size : Nat) (data : Value) :
    Except Errno (List Nat) :=
  match structs_region_encode size data with
  | .error e => .error e
  | .ok code =>
    match bo with
    | .LITTLE_ENDIAN => .ok (netorder_swap code.length (code.length / 2) 0 code)
    | .BIG_ENDIAN => .ok code

/-- `structs_region_decode_netorder`.  On a little-endian host the first
`min cmax size` bytes are copied into a 16 byte buffer (whose other bytes are
not initialised, here 0), the first `size` bytes of the buffer are reversed
and `structs_region_decode` runs on the buffer with the clipped `cmax`. -/
def structs_region_decode_netorder (bo : ByteOrder) (size : Nat) (code : List Nat) :
    Except Errno (Value × Nat) :=
  match bo with
  | .LITTLE_ENDIAN =>
    if size > 16 then .error .ERANGE
    else
      let cmax := if code.length > size then size else code.length
      let buf := code.take cmax ++ List.replicate (16 - cmax) 0
      let buf := netorder_swap size (size / 2) 0 buf
      structs_region_decode size (buf.take cmax)
  | .BIG_ENDIAN => structs_region_decode size code

/-- `structs_notsupp_init`. -/
def structs_notsupp_init : Except Errno Value :=
  .error .ENOSYS

/-- `structs_notsupp_copy`. -/
def structs_notsupp_copy (_from : Value) : Except Errno Value :=
  .error .ENOSYS

/-- `structs_notsupp_equal`. -/
def structs_notsupp_equal (_v1 _v2 : Value) : Int :=
  -1

/-- `structs_notsupp_encode`. -/
def structs_notsupp_encode (_data : Value) : Except Errno (List Nat) :=
  .error .ENOSYS

/-- `structs_notsupp_decode`. -/
def structs_notsupp_decode (_code : List Nat) : Except Errno (Value × Nat) :=
  .error .ENOSYS

/-- `structs_ascii_copy`: ascify `from`, binify the text into `to`. -/
def structs_ascii_copy (ascify : Value → Except Errno (List Nat))
    (binify : List Nat → Except Errno Value) (v : Value) : Except Errno Value :=
  match ascify v with
  | .error e => .error e
  | .ok ascii => binify ascii

/-! ## structs_type_string.c -/

/-- `structs_string_binify`. -/
def structs_string_binify (as_null : Bool) (ascii : List Nat) : Except Errno Value :=
  if as_null = true ∧ ascii = [] then .ok (.string none)
  else .ok (.string (some ascii))

/-- `structs_string_init`. -/
def structs_string_init (as_null : Bool) : Except Errno Value :=
  structs_string_binify as_null []

/-- `structs_string_equal`; `strcmp` on a null pointer is undefined. -/
def structs_string_equal (as_null : Bool) : Value → Value → Int
  | .string s1, .string s2 =>
    if as_null = false then
      match s1, s2 with
      | some a, some b => if a = b then 1 else 0
      | _, _ => 0
    else
      let empty1 : Bool := s1 = none ∨ s1 = some []
      let empty2 : Bool := s2 = none ∨ s2 = some []
      if empty1 ≠ empty2 then 0
      else if empty1 = true then 1
      else if s1 = s2 then 1 else 0
  | _, _ => 0

/-- `structs_string_ascify`; `strdup(NULL)` is undefined. -/
def structs_string_ascify (as_null : Bool) : Value → Except Errno (List Nat)
  | .string none => if as_null = true then .ok [] else .error .undefined
  | .string (some s) => .ok s
  | _ => .error .undefined

/-- `structs_string_encode`: the text given by `structs_get_string` (with a
null name: the descriptor's `ascify`) and its terminating NUL.  The length
`strlen + 1` is stored into the `unsigned int` `code->length`: the first
`(strlen + 1) % 2 ^ 32` bytes are the encoding. -/
def structs_string_encode (ascify : Value → Except Errno (List Nat)) (data : Value) :
    Except Errno (List Nat) :=
  match ascify data with
  | .error e => .error e
  | .ok s => .ok ((s ++ [0]).take ((s.length + 1) % 2 ^ 32))

/-- The scan `for (slen = 0; slen < cmax && code[slen] != 0; slen++)`. -/
def structs_string_slen : List Nat → Nat
  | [] => 0
  | c :: code => if c = 0 then 0 else structs_string_slen code + 1

/-- `structs_string_decode`; the `size_t` `slen + 1` is returned as an `int`. -/
def structs_string_decode (binify : List Nat → Except Errno Value) (code : List Nat) :
    Except Errno (Value × Nat) :=
  let slen := structs_string_slen code
  if slen = code.length then .error .EINVAL
  else
    match binify (code.take slen) with
    | .error e => .error e
    | .ok v => decode_count v (slen + 1)

/-! ## structs_type_data.c -/

/-- `htonl` followed by `memcpy(.., &elength, 4)`: the four bytes of a
`u_int32_t`, most significant first. -/
def htonl (x : Nat) : List Nat :=
  [x / 2 ^ 24 % 256, x / 2 ^ 16 % 256, x / 2 ^ 8 % 256, x % 256]

/-- `memcpy(&elength, code, 4)` followed by `ntohl`. -/
def ntohl (code : List Nat) : Nat :=
  code.getD 0 0 * 2 ^ 24 + code.getD 1 0 * 2 ^ 16 + code.getD 2 0 * 2 ^ 8 + code.getD 3 0

/-- `structs_data_copy`. -/
def structs_data_copy : Value → Except Errno Value
  | .data bytes => .ok (.data bytes)
  | _ => .error .undefined

/-- `structs_data_equal`. -/
def structs_data_equal : Value → Value → Int
  | .data d1, .data d2 =>
    if d1.length = d2.length ∧ d1.take d1.length = d2.take d1.length then 1 else 0
  | _, _ => 0

/-- `structs_data_encode`.  The size `4 + d->length` of the region is an
`unsigned int`: when it wraps, the two `memcpy` write past the region. -/
def structs_data_encode : Value → Except Errno (List Nat)
  | .data bytes =>
    if 4 + bytes.length ≥ 2 ^ 32 then .error .undefined
    else .ok (htonl bytes.length ++ bytes)
  | _ => .error .undefined

/-- `structs_data_decode`.  The length check is `cmax < d->length`; when it
passes with `cmax < 4 + d->length` the `memcpy` reads past the buffer.  The
`unsigned int` `4 + d->length` is returned as an `int`. -/
def structs_data_decode (code : List Nat) : Except Errno (Value × Nat) :=
  if code.length < 4 then .error .EINVAL
  else
    let length := ntohl code
    if code.length < length then .error .EINVAL
    else if code.length < 4 + length then .error .undefined
    else decode_count (.data ((code.drop 4).take length)) (4 + length)

/-- `structs_fixeddata_encode`. -/
def structs_fixeddata_encode (size : Nat) : Value → Except Errno (List Nat)
  | .region bytes => .ok (bytes.take size)
  | _ => .error .undefined

/-- `structs_fixeddata_decode`. -/
def structs_fixeddata_decode (size : Nat) (code : List Nat) : Except Errno (Value × Nat) :=
  if code.length < size then .error .EINVAL
  else .ok (.region (code.take size), size)

/-! ## structs_type_pointer.c -/

/-- `structs_pointer_init`. -/
def structs_pointer_init (ptype : structs_type) : Except Errno Value :=
  match ptype.init with
  | .error e => .error e
  | .ok pdata => .ok (.pointer (some pdata))

/-- `structs_pointer_copy`. -/
def structs_pointer_copy (ptype : structs_type) : Value → Except Errno Value
  | .pointer (some from_pdata) =>
    match ptype.copy from_pdata with
    | .error e => .error e
    | .ok to_pdata => .ok (.pointer (some to_pdata))
  | _ => .error .undefined

/-- `structs_pointer_equal`. -/
def structs_pointer_equal (ptype : structs_type) : Value → Value → Int
  | .pointer (some pdata1), .pointer (some pdata2) => ptype.equal pdata1 pdata2
  | _, _ => 0

/-- `structs_pointer_encode`. -/
def structs_pointer_encode (ptype : structs_type) : Value → Except Errno (List Nat)
  | .pointer (some pdata) => ptype.encode pdata
  | _ => .error .undefined

/-- `structs_pointer_decode`. -/
def structs_pointer_decode (ptype : structs_type) (code : List Nat) :
    Except Errno (Value × Nat) :=
  match ptype.decode code with
  | .error e => .error e
  | .ok (pdata, r) => .ok (.pointer (some pdata), r)

/-! ## structs_type_array.c -/

/-- The macro `NUM_BYTES(x) (((x) + 7) / 8)` on an `unsigned int`. -/
def NUM_BYTES (x : Nat) : Nat :=
  (x + 7) % 2 ^ 32 / 8

/-- The statement `bits[i / 8] |= (1 << (i % 8))`. -/
def setbit (bits : List Nat) (i : Nat) : List Nat :=
  bits.set (i / 8) (bits.getD (i / 8) 0 ||| (1 <<< (i % 8)))

/-- The copy loop of `structs_array_copy` and `structs_fixedarray_copy`:
stops at the first element whose copy fails. -/
def structs_array_copy_loop (etype : structs_type) : List Value → Except Errno (List Value)
  | [] => .ok []
  | from_elem :: elems =>
    match etype.copy from_elem with
    | .error e => .error e
    | .ok to_elem =>
      match structs_array_copy_loop etype elems with
      | .error e => .error e
      | .ok to_elems => .ok (to_elem :: to_elems)

/-- `structs_array_copy`. -/
def structs_array_copy (tclass : structs_tclass) (etype : structs_type) :
    Value → Except Errno Value
  | .array elems =>
    if tclass ≠ .STRUCTS_TYPE_ARRAY then .error .EINVAL
    else
      match structs_array_copy_loop etype elems with
      | .error e => .error e
      | .ok to_elems => .ok (.array to_elems)
  | _ => .error .undefined

/-- The comparison loop `for (i = 0; i < length && (*etype->equal)(..); i++)`
followed by the test `i == length`. -/
def structs_array_equal_loop (etype : structs_type) : List Value → List Value → Bool
  | e1 :: elems1, e2 :: elems2 =>
    if etype.equal e1 e2 = 0 then false else structs_array_equal_loop etype elems1 elems2
  | [], _ => true
  | _ :: _, [] => false

/-- `structs_array_equal`. -/
def structs_array_equal (tclass : structs_tclass) (etype : structs_type) : Value → Value → Int
  | .array elems1, .array elems2 =>
    if tclass ≠ .STRUCTS_TYPE_ARRAY then 0
    else if elems1.length ≠ elems2.length then 0
    else if structs_array_equal_loop etype elems1 elems2 = true then 1 else 0
  | _, _ => 0

/-- The element loop of `structs_array_encode` and `structs_fixedarray_encode`
from index `i`: the bit array so far and the remaining elements give the
final bit array and the concatenated element encodings. -/
def structs_array_encode_loop (etype : structs_type) (delem : Value) :
    List Value → Nat → List Nat → Except Errno (List Nat × List Nat)
  | [], _, bits => .ok (bits, [])
  | elem :: elems, i, bits =>
    if etype.equal elem delem = 1 then
      structs_array_encode_loop etype delem elems (i + 1) bits
    else
      match etype.encode elem with
      | .error e => .error e
      | .ok ecode =>
        match structs_array_encode_loop etype delem elems (i + 1) (setbit bits i) with
        | .error e => .error e
        | .ok (bits', ecodes) => .ok (bits', ecode ++ ecodes)

/-- `structs_array_encode`.  The total `tlen` of the length word, the bit
array and the element encodings is an `unsigned int`: when it wraps, the
region allocated is shorter than what the `memcpy` of the copy loop write. -/
def structs_array_encode (tclass : structs_tclass) (etype : structs_type) :
    Value → Except Errno (List Nat)
  | .array elems =>
    let bitslen := NUM_BYTES elems.length
    if tclass ≠ .STRUCTS_TYPE_ARRAY then .error .EINVAL
    else
      match etype.init with
      | .error e => .error e
      | .ok delem =>
        match structs_array_encode_loop etype delem elems 0 (List.replicate bitslen 0) with
        | .error e => .error e
        | .ok (bits, ecodes) =>
          if 4 + bitslen + ecodes.length ≥ 2 ^ 32 then .error .undefined
          else .ok (htonl elems.length ++ (bits ++ ecodes))
  | _ => .error .undefined

/-- The element loop of `structs_array_decode` and `structs_fixedarray_decode`:
`n` more elements from index `i`; `bits` is the buffer from the bit array on,
`code` the buffer from the next encoded element on, `clen` the count so far.
Gives the elements and the count after the loop.  The count is an `int`: the
statement `clen += eclen` is undefined when the sum passes `INT_MAX`. -/
def structs_array_decode_loop (etype : structs_type) (bits : List Nat) :
    Nat → Nat → List Nat → Nat → Except Errno (List Value × Nat)
  | 0, _, _, clen => .ok ([], clen)
  | n + 1, i, code, clen =>
    match bits[i / 8]? with
    | none => .error .undefined
    | some b =>
      if b &&& (1 <<< (i % 8)) = 0 then
        match etype.init with
        | .error e => .error e
        | .ok edata =>
          match structs_array_decode_loop etype bits n (i + 1) code clen with
          | .error e => .error e
          | .ok (elems, clen1) => .ok (edata :: elems, clen1)
      else
        match etype.decode code with
        | .error e => .error e
        | .ok (edata, eclen) =>
          if clen + eclen ≥ 2 ^ 31 then .error .undefined
          else
            match structs_array_decode_loop etype bits n (i + 1) (code.drop eclen)
                (clen + eclen) with
            | .error e => .error e
            | .ok (elems, clen1) => .ok (edata :: elems, clen1)

/-- `structs_array_decode`; the count `clen` is an `int` that starts with the
length word and the bit array, which stay below `2 ^ 30`. -/
def structs_array_decode (tclass : structs_tclass) (etype : structs_type) (code : List Nat) :
    Except Errno (Value × Nat) :=
  if tclass ≠ .STRUCTS_TYPE_ARRAY then .error .EINVAL
  else if code.length < 4 then .error .EINVAL
  else
    let length := ntohl code
    let code := code.drop 4
    let bitslen := NUM_BYTES length
    if code.length < bitslen then .error .EINVAL
    else
      match structs_array_decode_loop etype code length 0 (code.drop bitslen)
          (4 + bitslen) with
      | .error e => .error e
      | .ok (elems, clen) => .ok (.array elems, clen)

/-- The loop of `structs_fixedarray_init`. -/
def structs_fixedarray_init_loop (etype : structs_type) : Nat → Except Errno (List Value)
  | 0 => .ok []
  | n + 1 =>
    match etype.init with
    | .error e => .error e
    | .ok elem =>
      match structs_fixedarray_init_loop etype n with
      | .error e => .error e
      | .ok elems => .ok (elem :: elems)

/-- `structs_fixedarray_init`. -/
def structs_fixedarray_init (etype : structs_type) (length : Nat) : Except Errno Value :=
  match structs_fixedarray_init_loop etype length with
  | .error e => .error e
  | .ok elems => .ok (.fixedarray elems)

/-- `structs_fixedarray_copy`.  The footprint holds `length` elements; one of
another length is not a footprint of this descriptor (`undefined`). -/
def structs_fixedarray_copy (tclass : structs_tclass) (etype : structs_type) (length : Nat) :
    Value → Except Errno Value
  | .fixedarray elems =>
    if tclass ≠ .STRUCTS_TYPE_FIXEDARRAY then .error .EINVAL
    else if elems.length ≠ length then .error .undefined
    else
      match structs_array_copy_loop etype elems with
      | .error e => .error e
      | .ok to_elems => .ok (.fixedarray to_elems)
  | _ => .error .undefined

/-- `structs_fixedarray_equal`.  Both footprints hold `length` elements; for
one of another length, which C would read past, the model answers 0. -/
def structs_fixedarray_equal (tclass : structs_tclass) (etype : structs_type) (length : Nat) :
    Value → Value → Int
  | .fixedarray elems1, .fixedarray elems2 =>
    if tclass ≠ .STRUCTS_TYPE_FIXEDARRAY then 0
    else if elems1.length ≠ length ∨ elems2.length ≠ length then 0
    else if structs_array_equal_loop etype elems1 elems2 = true then 1 else 0
  | _, _ => 0

/-- `structs_fixedarray_encode`; as for the copy, the footprint holds `length`
elements.  The total `tlen` of the bit array and the element encodings is an
`unsigned int`: when it wraps, the region allocated is shorter than what the
`memcpy` of the copy loop write. -/
def structs_fixedarray_encode (tclass : structs_tclass) (etype : structs_type) (length : Nat) :
    Value → Except Errno (List Nat)
  | .fixedarray elems =>
    let bitslen := NUM_BYTES length
    if tclass ≠ .STRUCTS_TYPE_FIXEDARRAY then .error .EINVAL
    else if elems.length ≠ length then .error .undefined
    else
      match etype.init with
      | .error e => .error e
      | .ok delem =>
        match structs_array_encode_loop etype delem elems 0 (List.replicate bitslen 0) with
        | .error e => .error e
        | .ok (bits, ecodes) =>
          if bitslen + ecodes.length ≥ 2 ^ 32 then .error .undefined
          else .ok (bits ++ ecodes)
  | _ => .error .undefined

/-- `structs_fixedarray_decode`; the count `clen` is an `int` that starts with
the bit array. -/
def structs_fixedarray_decode (tclass : structs_tclass) (etype : structs_type) (length : Nat)
    (code : List Nat) : Except Errno (Value × Nat) :=
  let bitslen := NUM_BYTES length
  if tclass ≠ .STRUCTS_TYPE_FIXEDARRAY then .error .EINVAL
  else if code.length < bitslen then .error .EINVAL
  else
    match structs_array_decode_loop etype code length 0 (code.drop bitslen) bitslen with
    | .error e => .error e
    | .ok (elems, clen) => .ok (.fixedarray elems, clen)

/-! ## structs_type_struct.c -/

/-- The loop of `structs_struct_init`: stops at the first field whose `init`
fails. -/
def structs_struct_init_loop : List structs_field → Except Errno (List Value)
  | [] => .ok []
  | field :: fields =>
    match field.type.init with
    | .error e => .error e
    | .ok fdata =>
      match structs_struct_init_loop fields with
      | .error e => .error e
      | .ok data => .ok (fdata :: data)

/-- `structs_struct_init`. -/
def structs_struct_init (tclass : structs_tclass) (fields : List structs_field) :
    Except Errno Value :=
  if tclass ≠ .STRUCTS_TYPE_STRUCTURE then .error .EINVAL
  else
    match structs_struct_init_loop fields with
    | .error e => .error e
    | .ok data => .ok (.structure data)

/-- The loop of `structs_struct_copy`: stops at the first field whose `copy`
fails. -/
def structs_struct_copy_loop : List structs_field → List Value → Except Errno (List Value)
  | [], _ => .ok []
  | field :: fields, fdata :: data =>
    match field.type.copy fdata with
    | .error e => .error e
    | .ok tdata =>
      match structs_struct_copy_loop fields data with
      | .error e => .error e
      | .ok tdatas => .ok (tdata :: tdatas)
  | _ :: _, [] => .error .undefined

/-- `structs_struct_copy`.  After a field copy has failed the fields copied
so far are released and `to` is zeroed, and the function goes on to its only
`return (0)`. -/
def structs_struct_copy (tclass : structs_tclass) (zero : Value) (fields : List structs_field) :
    Value → Except Errno Value
  | .structure data =>
    if tclass ≠ .STRUCTS_TYPE_STRUCTURE then .error .EINVAL
    else
      match structs_struct_copy_loop fields data with
      | .ok tdatas => .ok (.structure tdatas)
      | .error .undefined => .error .undefined
      | .error _ => .ok zero
  | _ => .error .undefined

/-- The loop of `structs_struct_equal`. -/
def structs_struct_equal_loop : List structs_field → List Value → List Value → Int
  | [], _, _ => 1
  | field :: fields, data1 :: v1, data2 :: v2 =>
    if field.type.equal data1 data2 = 0 then 0 else structs_struct_equal_loop fields v1 v2
  | _ :: _, _, _ => 0

/-- `structs_struct_equal`. -/
def structs_struct_equal (tclass : structs_tclass) (fields : List structs_field) :
    Value → Value → Int
  | .structure v1, .structure v2 =>
    if tclass ≠ .STRUCTS_TYPE_STRUCTURE then 0
    else structs_struct_equal_loop fields v1 v2
  | _, _ => 0

/-- The field loop of `structs_struct_encode` from index `i`: each field is
compared with a freshly initialised value of its type and left out when
`equal` answers 1, otherwise its bit is set and it is encoded. -/
def structs_struct_encode_loop :
    List structs_field → List Value → Nat → List Nat → Except Errno (List Nat × List Nat)
  | [], _, _, bits => .ok (bits, [])
  | field :: fields, fdata :: data, i, bits =>
    match field.type.init with
    | .error e => .error e
    | .ok dval =>
      if field.type.equal fdata dval = 1 then
        structs_struct_encode_loop fields data (i + 1) bits
      else
        match field.type.encode fdata with
        | .error e => .error e
        | .ok fcode =>
          match structs_struct_encode_loop fields data (i + 1) (setbit bits i) with
          | .error e => .error e
          | .ok (bits', fcodes) => .ok (bits', fcode ++ fcodes)
  | _ :: _, [], _, _ => .error .undefined

/-- `structs_struct_encode`.  The total `tlen` of the bit array and the field
encodings is an `unsigned int`: when it wraps, the region allocated is shorter
than what the `memcpy` of the copy loop write. -/
def structs_struct_encode (fields : List structs_field) : Value → Except Errno (List Nat)
  | .structure data =>
    let nfields := fields.length
    let bitslen := NUM_BYTES nfields
    match structs_struct_encode_loop fields data 0 (List.replicate bitslen 0) with
    | .error e => .error e
    | .ok (bits, fcodes) =>
      if bitslen + fcodes.length ≥ 2 ^ 32 then .error .undefined
      else .ok (bits ++ fcodes)
  | _ => .error .undefined

/-- The field loop of `structs_struct_decode` from index `i`; `bits` is the
buffer from the bit array on, `code` the buffer from the next encoded field
on.  Gives the fields and the sum of their counts, which the function keeps
in the `unsigned int` `clen`. -/
def structs_struct_decode_loop (bits : List Nat) :
    List structs_field → Nat → List Nat → Except Errno (List Value × Nat)
  | [], _, _ => .ok ([], 0)
  | field :: fields, i, code =>
    match bits[i / 8]? with
    | none => .error .undefined
    | some b =>
      if b &&& (1 <<< (i % 8)) = 0 then
        match field.type.init with
        | .error e => .error e
        | .ok fdata =>
          match structs_struct_decode_loop bits fields (i + 1) code with
          | .error e => .error e
          | .ok (data, clen) => .ok (fdata :: data, clen)
      else
        match field.type.decode code with
        | .error e => .error e
        | .ok (fdata, fclen) =>
          match structs_struct_decode_loop bits fields (i + 1) (code.drop fclen) with
          | .error e => .error e
          | .ok (data, clen) => .ok (fdata :: data, fclen + clen)

/-- `structs_struct_decode`; the `unsigned int` `clen`, the bit array and the
counts of the fields added up modulo `2 ^ 32`, is returned as an `int`. -/
def structs_struct_decode (fields : List structs_field) (code : List Nat) :
    Except Errno (Value × Nat) :=
  let nfields := fields.length
  let bitslen := NUM_BYTES nfields
  if code.length < bitslen then .error .EINVAL
  else
    match structs_struct_decode_loop code fields 0 (code.drop bitslen) with
    | .error e => .error e
    | .ok (data, clen) => decode_count (.structure data) (bitslen + clen)

/-! ## structs_type_union.c -/

/-- The search `for (field = fields; field->name != NULL &&
strcmp(field_name, field->name) != 0; field++)`. -/
def structs_union_field (fields : List structs_field) (field_name : List Nat) :
    Option structs_field :=
  match fields with
  | [] => none
  | field :: fields =>
    if field_name = field.name then some field else structs_union_field fields field_name

/-- `structs_union_init`. -/
def structs_union_init (fields : List structs_field) : Except Errno Value :=
  match fields with
  | [] => .error .EINVAL
  | field :: _ =>
    match field.type.init with
    | .error e => .error e
    | .ok un => .ok (.union (some field.name) (some un))

/-- `structs_union_copy`. -/
def structs_union_copy (fields : List structs_field) : Value → Except Errno Value
  | .union (some field_name) (some un) =>
    match structs_union_field fields field_name with
    | none => .error .EINVAL
    | some field =>
      match field.type.copy un with
      | .error e => .error e
      | .ok tun => .ok (.union (some field_name) (some tun))
  | _ => .error .undefined

/-- `structs_union_equal`. -/
def structs_union_equal (fields : List structs_field) : Value → Value → Int
  | .union (some name1) (some un1), .union (some name2) (some un2) =>
    if name1 ≠ name2 then 0
    else
      match structs_union_field fields name1 with
      | none => -1
      | some field => field.type.equal un1 un2
  | _, _ => 0

/-- `structs_union_encode`: the name of the field found, encoded by
`structs_string_encode` of `structs_type_string`, then the encoded field.
The sum `ncode.length + fcode.length` is an `unsigned int`: when it wraps, the
region allocated is shorter than what the two `memcpy` write. -/
def structs_union_encode (fields : List structs_field) : Value → Except Errno (List Nat)
  | .union (some field_name) (some un) =>
    match structs_union_field fields field_name with
    | none => .error .EINVAL
    | some field =>
      match structs_string_encode (structs_string_ascify false) (.string (some field.name)) with
      | .error e => .error e
      | .ok ncode =>
        match field.type.encode un with
        | .error e => .error e
        | .ok fcode =>
          if ncode.length + fcode.length ≥ 2 ^ 32 then .error .undefined
          else .ok (ncode ++ fcode)
  | _ => .error .undefined

/-- `structs_union_decode`; an unknown field name returns -1 without setting
`errno`.  The counts `nlen` and `flen` are `int`: the sum `nlen + flen` is
undefined when it passes `INT_MAX`. -/
def structs_union_decode (fields : List structs_field) (code : List Nat) :
    Except Errno (Value × Nat) :=
  match structs_string_decode (structs_string_binify false) code with
  | .error e => .error e
  | .ok (.string (some field_name), nlen) =>
    match structs_union_field fields field_name with
    | none => .error .unset
    | some field =>
      match field.type.decode (code.drop nlen) with
      | .error e => .error e
      | .ok (un, flen) =>
        if nlen + flen ≥ 2 ^ 31 then .error .undefined
        else .ok (.union (some field.name) (some un), nlen + flen)
  | .ok _ => .error .undefined

/-! ## The descriptors -/

/-- Modelled from the spec: the macro of `structs_type_int.c`, which is not
among the sources, for the integer descriptors such as `structs_type_uint32`:
a region of `size` bytes with the region `init`, `copy` and `equal` and the
network-order codec of `structs_generic.c`. -/
def STRUCTS_INT_TYPE (bo : ByteOrder) (name : String) (size : Nat) : structs_type where
  name := name
  tclass := .STRUCTS_TYPE_PRIMITIVE
  zero := .region (List.replicate size 0)
  init := structs_region_init (.region (List.replicate size 0))
  copy := structs_region_copy size
  equal := structs_region_equal size
  encode := structs_region_encode_netorder bo size
  decode := structs_region_decode_netorder bo size

/-- The descriptor `structs_type_uint32`. -/
def structs_type_uint32 (bo : ByteOrder) : structs_type :=
  STRUCTS_INT_TYPE bo "uint32" 4

/-- The macro `STRUCTS_STRING_TYPE(asnull)`. -/
def STRUCTS_STRING_TYPE (asnull : Bool) : structs_type where
  name := "string"
  tclass := .STRUCTS_TYPE_PRIMITIVE
  zero := .string none
  init := structs_string_init asnull
  copy := structs_ascii_copy (structs_string_ascify asnull) (structs_string_binify asnull)
  equal := structs_string_equal asnull
  encode := structs_string_encode (structs_string_ascify asnull)
  decode := structs_string_decode (structs_string_binify asnull)

/-- The descriptor `structs_type_string`, never `NULL`. -/
def structs_type_string : structs_type :=
  STRUCTS_STRING_TYPE false

/-- The descriptor `structs_type_string_null`. -/
def structs_type_string_null : structs_type :=
  STRUCTS_STRING_TYPE true

/-- The macro `STRUCTS_DATA_TYPE(charset)`; the character set only matters to
the text form. -/
def STRUCTS_DATA_TYPE (_charset : Option (List Nat)) : structs_type where
  name := "data"
  tclass := .STRUCTS_TYPE_PRIMITIVE
  zero := .data []
  init := structs_region_init (.data [])
  copy := structs_data_copy
  equal := structs_data_equal
  encode := structs_data_encode
  decode := structs_data_decode

/-- The descriptor `structs_type_data`. -/
def structs_type_data : structs_type :=
  STRUCTS_DATA_TYPE none

/-- The macro `STRUCTS_FIXEDDATA_TYPE(length)`. -/
def STRUCTS_FIXEDDATA_TYPE (length : Nat) : structs_type where
  name := "fixeddata"
  tclass := .STRUCTS_TYPE_PRIMITIVE
  zero := .region (List.replicate length 0)
  init := structs_region_init (.region (List.replicate length 0))
  copy := structs_region_copy length
  equal := structs_region_equal length
  encode := structs_fixeddata_encode length
  decode := structs_fixeddata_decode length

/-- The descriptor `structs_type_null` of `structs_type_null.c`. -/
def structs_type_null : structs_type where
  name := "null"
  tclass := .STRUCTS_TYPE_PRIMITIVE
  zero := .region []
  init := structs_notsupp_init
  copy := structs_notsupp_copy
  equal := structs_notsupp_equal
  encode := structs_notsupp_encode
  decode := structs_notsupp_decode

/-- The descriptor `structs_type_array_length` of `structs.c`, the read-only
length of an array (`sizeof(unsigned int)` is 4). -/
def structs_type_array_length (bo : ByteOrder) : structs_type where
  name := "uint"
  tclass := .STRUCTS_TYPE_PRIMITIVE
  zero := .region (List.replicate 4 0)
  init := structs_region_init (.region (List.replicate 4 0))
  copy := structs_region_copy 4
  equal := structs_region_equal 4
  encode := structs_region_encode_netorder bo 4
  decode := structs_notsupp_decode

/-- The descriptor `structs_type_union_field_name` of `structs.c`, the
read-only name of the active field of a union; its `args[0]` is a non-null
pointer, which `structs_string_equal` reads as a true `as_null`. -/
def structs_type_union_field_name : structs_type where
  name := "string"
  tclass := .STRUCTS_TYPE_PRIMITIVE
  zero := .string none
  init := structs_notsupp_init
  copy := structs_notsupp_copy
  equal := structs_string_equal true
  encode := structs_notsupp_encode
  decode := structs_notsupp_decode

/-- The macro `STRUCTS_POINTER_TYPE(reftype)`. -/
def STRUCTS_POINTER_TYPE (reftype : structs_type) : structs_type where
  name := "pointer"
  tclass := .STRUCTS_TYPE_POINTER
  zero := .pointer none
  init := structs_pointer_init reftype
  copy := structs_pointer_copy reftype
  equal := structs_pointer_equal reftype
  encode := structs_pointer_encode reftype
  decode := structs_pointer_decode reftype

/-- The macro `STRUCTS_ARRAY_TYPE(etype, etag)`. -/
def STRUCTS_ARRAY_TYPE (etype : structs_type) : structs_type where
  name := "array"
  tclass := .STRUCTS_TYPE_ARRAY
  zero := .array []
  init := structs_region_init (.array [])
  copy := structs_array_copy .STRUCTS_TYPE_ARRAY etype
  equal := structs_array_equal .STRUCTS_TYPE_ARRAY etype
  encode := structs_array_encode .STRUCTS_TYPE_ARRAY etype
  decode := structs_array_decode .STRUCTS_TYPE_ARRAY etype

/-- The macro `STRUCTS_FIXEDARRAY_TYPE(etype, esize, alen, etag)`. -/
def STRUCTS_FIXEDARRAY_TYPE (etype : structs_type) (alen : Nat) : structs_type where
  name := "fixedarray"
  tclass := .STRUCTS_TYPE_FIXEDARRAY
  zero := .fixedarray (List.replicate alen etype.zero)
  init := structs_fixedarray_init etype alen
  copy := structs_fixedarray_copy .STRUCTS_TYPE_FIXEDARRAY etype alen
  equal := structs_fixedarray_equal .STRUCTS_TYPE_FIXEDARRAY etype alen
  encode := structs_fixedarray_encode .STRUCTS_TYPE_FIXEDARRAY etype alen
  decode := structs_fixedarray_decode .STRUCTS_TYPE_FIXEDARRAY etype alen

/-- Modelled from the spec: the macro `STRUCTS_STRUCT_TYPE(sname, flist)` of
`structs_type_struct.h`, which is not among the sources: the structure
class with the five `structs_struct_*` operations over the field table. -/
def STRUCTS_STRUCT_TYPE (flist : List structs_field) : structs_type where
  name := "structure"
  tclass := .STRUCTS_TYPE_STRUCTURE
  zero := .structure (flist.map fun field => field.type.zero)
  init := structs_struct_init .STRUCTS_TYPE_STRUCTURE flist
  copy := structs_struct_copy .STRUCTS_TYPE_STRUCTURE
    (.structure (flist.map fun field => field.type.zero)) flist
  equal := structs_struct_equal .STRUCTS_TYPE_STRUCTURE flist
  encode := structs_struct_encode flist
  decode := structs_struct_decode flist

/-- Modelled from the spec: the macro `STRUCTS_UNION_TYPE(uname, flist)` of
`structs_type_union.h`, which is not among the sources: the union class
with the five `structs_union_*` operations over the field table. -/
def STRUCTS_UNION_TYPE (flist : List structs_field) : structs_type where
  name := "union"
  tclass := .STRUCTS_TYPE_UNION
  zero := .union none none
  init := structs_union_init flist
  copy := structs_union_copy flist
  equal := structs_union_equal flist
  encode := structs_union_encode flist
  decode := structs_union_decode flist

mutual
/-- The descriptors built from the leaf descriptors by the pointer, array,
fixed array, structure and union macros. -/
inductive Descriptor where
  | int (name : String) (size : Nat)
  | string (asnull : Bool)
  | data (charset : Option (List Nat))
  | fixeddata (length : Nat)
  | null
  | array_length
  | union_field_name
  | pointer (reftype : Descriptor)
  | array (etype : Descriptor)
  | fixedarray (etype : Descriptor) (alen : Nat)
  | structure (flist : FieldList)
  | union (flist : FieldList)
/-- A field table: `FIELD` is an entry, `END` the sentinel with a null name. -/
inductive FieldList where
  | END
  | FIELD (name : List Nat) (type : Descriptor) (rest : FieldList)
end

/-- The descriptor `structs_type_uint32` as a leaf. -/
def Descriptor.uint32 : Descriptor :=
  .int "uint32" 4

mutual
/-- The `struct structs_type` constant that a descriptor stands for. -/
def Descriptor.type (bo : ByteOrder) : Descriptor → structs_type
  | .int name size => STRUCTS_INT_TYPE bo name size
  | .string asnull => STRUCTS_STRING_TYPE asnull
  | .data charset => STRUCTS_DATA_TYPE charset
  | .fixeddata length => STRUCTS_FIXEDDATA_TYPE length
  | .null => structs_type_null
  | .array_length => structs_type_array_length bo
  | .union_field_name => structs_type_union_field_name
  | .pointer reftype => STRUCTS_POINTER_TYPE (reftype.type bo)
  | .array etype => STRUCTS_ARRAY_TYPE (etype.type bo)
  | .fixedarray etype alen => STRUCTS_FIXEDARRAY_TYPE (etype.type bo) alen
  | .structure flist => STRUCTS_STRUCT_TYPE (flist.fields bo)
  | .union flist => STRUCTS_UNION_TYPE (flist.fields bo)
/-- The field table of a field list. -/
def FieldList.fields (bo : ByteOrder) : FieldList → List structs_field
  | .END => []
  | .FIELD name type rest => ⟨name, type.type bo⟩ :: rest.fields bo
end

/-! ## Well-formed descriptors and the values of a descriptor -/

/-- The bytes of a C string: none is NUL, all are bytes. -/
def c_string (s : List Nat) : Bool :=
  s.all fun c => decide (0 < c) && decide (c < 256)

/-- A run of bytes. -/
def c_bytes (bytes : List Nat) : Bool :=
  bytes.all fun c => decide (c < 256)

/-- Number of entries of a field table. -/
def FieldList.length : FieldList → Nat
  | .END => 0
  | .FIELD _ _ rest => rest.length + 1

mutual
/-- The live values of a descriptor (shape honesty): the footprint has the
shape of the class, every length fits its `unsigned int` with room for the
`+ 7` of `NUM_BYTES` (for a data blob, for the `4 +` of its encoder), a
pointer and the `un` of a union are not null, a string that is not
`as_null` is not null, and `field_name` names an entry of the field table
whose type the payload has. -/
def Descriptor.hasType : Descriptor → Value → Bool
  | .int _ size, .region bytes => decide (bytes.length = size) && c_bytes bytes
  | .fixeddata length, .region bytes => decide (bytes.length = length) && c_bytes bytes
  | .null, .region bytes => decide (bytes = [])
  | .array_length, .region bytes => decide (bytes.length = 4) && c_bytes bytes
  | .string asnull, .string none => asnull
  | .string _, .string (some s) => c_string s
  | .union_field_name, .string (some s) => c_string s
  | .data _, .data bytes => c_bytes bytes && decide (bytes.length + 4 < 2 ^ 32)
  | .pointer reftype, .pointer (some pdata) => reftype.hasType pdata
  | .array etype, .array elems =>
    elems.all (fun elem => etype.hasType elem) && decide (elems.length + 7 < 2 ^ 32)
  | .fixedarray etype alen, .fixedarray elems =>
    decide (elems.length = alen) && elems.all (fun elem => etype.hasType elem)
  | .structure flist, .structure data => flist.hasTypes data
  | .union flist, .union (some field_name) (some un) => flist.hasVariant field_name un
  | _, _ => false
/-- The values of the fields of a structure, in field-table order. -/
def FieldList.hasTypes : FieldList → List Value → Bool
  | .END, [] => true
  | .FIELD _ type rest, fdata :: data => type.hasType fdata && rest.hasTypes data
  | _, _ => false
/-- The payload `un` has the type of the first entry called `field_name`
(the entry every `strcmp` search of the union code finds). -/
def FieldList.hasVariant : FieldList → List Nat → Value → Bool
  | .END, _, _ => false
  | .FIELD name type rest, field_name, un =>
    if field_name = name then type.hasType un else rest.hasVariant field_name un
end

mutual
/-- The descriptors built from structures, variable arrays, fixed arrays,
unions and pointers over the leaves `uint32` (a 4 byte network-order
region), string and data: every field name is a C string, a union has a
first entry (its default variant), and a field count or fixed length leaves
room for the `+ 7` of `NUM_BYTES`. -/
def Descriptor.wf : Descriptor → Bool
  | .int _ size => decide (size = 4)
  | .string _ => true
  | .data _ => true
  | .fixeddata _ => false
  | .null => false
  | .array_length => false
  | .union_field_name => false
  | .pointer reftype => reftype.wf
  | .array etype => etype.wf
  | .fixedarray etype alen => etype.wf && decide (alen + 7 < 2 ^ 32)
  | .structure flist => flist.wf && decide (flist.length + 7 < 2 ^ 32)
  | .union flist => flist.wf && decide (0 < flist.length)
/-- Every entry of a field table is well formed. -/
def FieldList.wf : FieldList → Bool
  | .END => true
  | .FIELD name type rest => c_string name && type.wf && rest.wf
end

mutual
/-- No `data` leaf occurs in the descriptor. -/
def Descriptor.no_data : Descriptor → Bool
  | .data _ => false
  | .pointer reftype => reftype.no_data
  | .array etype => etype.no_data
  | .fixedarray etype _ => etype.no_data
  | .structure flist => flist.no_data
  | .union flist => flist.no_data
  | _ => true
/-- No `data` leaf occurs in the field table. -/
def FieldList.no_data : FieldList → Bool
  | .END => true
  | .FIELD _ type rest => type.no_data && rest.no_data
end

mutual
/-- The number of bytes of the encoding of a value of which no field and no
element is left out: the length of an encoding is at most this number.  The
counts of the encoders are `unsigned int` and those of the decoders `int`;
the properties of the codec are stated for the values whose number is below
`2 ^ 31`. -/
def Descriptor.wire_bound : Descriptor → Value → Nat
  | .int _ size, _ => size
  | .fixeddata length, _ => length
  | .string _, .string (some s) => s.length + 1
  | .string _, .string none => 1
  | .data _, .data bytes => 4 + bytes.length
  | .pointer reftype, .pointer (some pdata) => reftype.wire_bound pdata
  | .array etype, .array elems =>
    4 + (elems.length + 7) / 8 + (elems.map fun elem => etype.wire_bound elem).sum
  | .fixedarray etype alen, .fixedarray elems =>
    (alen + 7) / 8 + (elems.map fun elem => etype.wire_bound elem).sum
  | .structure flist, .structure data => (flist.length + 7) / 8 + flist.wire_bounds data
  | .union flist, .union (some field_name) (some un) =>
    field_name.length + 1 + flist.wire_bound_variant field_name un
  | _, _ => 0
/-- The sum of the numbers of the fields of a structure. -/
def FieldList.wire_bounds : FieldList → List Value → Nat
  | .FIELD _ type rest, fdata :: data => type.wire_bound fdata + rest.wire_bounds data
  | _, _ => 0
/-- The number of the payload of a union, under the type of the first entry
called `field_name`. -/
def FieldList.wire_bound_variant : FieldList → List Nat → Value → Nat
  | .END, _, _ => 0
  | .FIELD name type rest, field_name, un =>
    if field_name = name then type.wire_bound un else rest.wire_bound_variant field_name un
end

/-- Bit `i` of a bit array: bit `i % 8`, counted from the least significant
bit, of byte `i / 8`. -/
def getbit (bits : List Nat) (i : Nat) : Bool :=
  (bits.getD (i / 8) 0).testBit (i % 8)

/-! ## Notions used to state the properties -/

/-- The field is encoded: its `init` succeeds and `equal` does not answer 1
on the field and the freshly initialised value. -/
def field_present (field : structs_field) (fdata : Value) : Bool :=
  match field.type.init with
  | .ok dval => decide (field.type.equal fdata dval ≠ 1)
  | .error _ => false

/-- The bytes a field contributes to the encoding of its structure: its own
encoding when it is present, nothing otherwise. -/
def field_code (field : structs_field) (fdata : Value) : List Nat :=
  if field_present field fdata = true then
    match field.type.encode fdata with
    | .ok fcode => fcode
    | .error _ => []
  else []

/-- The value a decoder gives a field: the decoding of its encoding when it
is present, the freshly initialised value otherwise. -/
def field_decoded (field : structs_field) (fdata : Value) : Value :=
  match field.type.init with
  | .error _ => fdata
  | .ok dval =>
    if field.type.equal fdata dval = 1 then dval
    else
      match field.type.encode fdata with
      | .error _ => fdata
      | .ok fcode =>
        match field.type.decode fcode with
        | .ok (v, _) => v
        | .error _ => fdata

/-- What the encode and decode loops need of one field and its value: the
default exists, and when the field is present its encoding exists and is
decoded again, whatever follows it, with its length reported. -/
def FieldCodec (field : structs_field) (fdata : Value) : Prop :=
  ∃ dval, field.type.init = .ok dval ∧
    (field.type.equal fdata dval ≠ 1 →
      ∃ fcode v, field.type.encode fdata = .ok fcode ∧
        ∀ s, field.type.decode (fcode ++ s) = .ok (v, fcode.length))

/-- The codec contract of a descriptor on a set `V` of values with the bound
`B` of their encodings: `init` gives a value of `V`, `equal` answers 0 or 1
and is symmetric, and every value whose bound is below `2 ^ 31` is encoded, in
no more bytes than its bound, and decoded back to an equal value with the
length of the encoding reported, whatever follows the encoding. -/
structure Codec (t : structs_type) (V : Value → Prop) (B : Value → Nat) : Prop where
  init_ok : ∃ d, t.init = .ok d ∧ V d
  equal_bool : ∀ a b, V a → V b → t.equal a b = 0 ∨ t.equal a b = 1
  equal_symm : ∀ a b, V a → V b → t.equal a b = 1 → t.equal b a = 1
  roundtrip : ∀ v, V v → B v < 2 ^ 31 → ∃ code v', t.encode v = .ok code ∧
    code.length ≤ B v ∧ V v' ∧
    t.equal v' v = 1 ∧ t.equal v v' = 1 ∧ ∀ s, t.decode (code ++ s) = .ok (v', code.length)

/-- Every strict prefix of an encoding of a value of `V` whose bound is below
`2 ^ 31` is rejected with `EINVAL`. -/
def Truncation (t : structs_type) (V : Value → Prop) (B : Value → Nat) : Prop :=
  ∀ v, V v → B v < 2 ^ 31 → ∀ code, t.encode v = .ok code →
    ∀ p q, p ++ q = code → q ≠ [] → t.decode p = .error .EINVAL

/-- Every value of `V` is copied to a value of `V` equal to it. -/
def Copies (t : structs_type) (V : Value → Prop) : Prop :=
  ∀ v, V v → ∃ c, t.copy v = .ok c ∧ V c ∧ t.equal v c = 1 ∧ t.equal c v = 1

/-- A property of every entry type of a field table. -/
def FieldList.All (P : Descriptor → Prop) : FieldList → Prop
  | .END => True
  | .FIELD _ type rest => P type ∧ rest.All P

/-- The type of the first entry of a field table with the given name. -/
def FieldList.lookup : FieldList → List Nat → Option Descriptor
  | .END, _ => none
  | .FIELD name type rest, field_name =>
    if field_name = name then some type else rest.lookup field_name

/-- The codec contract of a descriptor on its live values. -/
def Descriptor.codec (bo : ByteOrder) (T : Descriptor) : Prop :=
  Codec (T.type bo) (fun v => T.hasType v = true) T.wire_bound

/-! ## The scenarios -/

/-- The bytes of a `uint32` in the memory of the host. -/
def uint32_bytes (bo : ByteOrder) (x : Nat) : List Nat :=
  match bo with
  | .LITTLE_ENDIAN => [x % 256, x / 2 ^ 8 % 256, x / 2 ^ 16 % 256, x / 2 ^ 24 % 256]
  | .BIG_ENDIAN => [x / 2 ^ 24 % 256, x / 2 ^ 16 % 256, x / 2 ^ 8 % 256, x % 256]

/-- The structure `{ a: uint32, b: string, arr: array<uint32> }` of scenarios
E1 and E2; the names are the bytes of "a", "b" and "arr". -/
def E2_type : Descriptor :=
  .structure (.FIELD [97] .uint32 (.FIELD [98] (.string false)
    (.FIELD [97, 114, 114] (.array .uint32) .END)))

/-- The value of scenario E2: `a = 7`, `b = "hi"`, `arr = [100, 200]`. -/
def E2_value (bo : ByteOrder) : Value :=
  .structure [.region (uint32_bytes bo 7), .string (some [0x68, 0x69]),
    .array [.region (uint32_bytes bo 100), .region (uint32_bytes bo 200)]]

/-- The bytes expected by scenario E2. -/
def E2_code : List Nat :=
  [0x07, 0x00, 0x00, 0x00, 0x07, 0x68, 0x69, 0x00, 0x00, 0x00, 0x00, 0x02, 0x03,
    0x00, 0x00, 0x00, 0x64, 0x00, 0x00, 0x00, 0xC8]

/-- The union `{ x: uint32 | y: string }` of scenario E3; the names are the
bytes of "x" and "y". -/
def E3_type : Descriptor :=
  .union (.FIELD [120] .uint32 (.FIELD [121] (.string false) .END))

/-- A value of the union of scenario E3 whose active field is `y = "hello"`. -/
def E3_value : Value :=
  .union (some [121]) (some (.string (some [104, 101, 108, 108, 111])))

/-- What the decode loops need of one field and its value to reject a
truncated buffer: every strict prefix of the encoding of the field is
rejected with `EINVAL`. -/
def FieldTrunc (field : structs_field) (fdata : Value) : Prop :=
  ∀ fcode, field.type.encode fdata = .ok fcode →
    ∀ p q, p ++ q = fcode → q ≠ [] → field.type.decode p = .error .EINVAL

/-- Truncated encodings of the live values of a descriptor are rejected. -/
def Descriptor.truncation (bo : ByteOrder) (T : Descriptor) : Prop :=
  Truncation (T.type bo) (fun v => T.hasType v = true) T.wire_bound

/-- The live values of a descriptor are copied to equal values. -/
def Descriptor.copies (bo : ByteOrder) (T : Descriptor) : Prop :=
  Copies (T.type bo) (fun v => T.hasType v = true)

/-- A structure `{ a: string, n: null }`; the names are the bytes of "a" and
"n".  The `copy` of the second field is `structs_notsupp_copy`. -/
def null_field_type : Descriptor :=
  .structure (.FIELD [97] (.string false) (.FIELD [110] .null .END))

/-- A footprint of `null_field_type` whose string field is "x". -/
def null_field_value : Value :=
  .structure [.string (some [120]), .region []]

/-! ## structs.c: names and locations -/

/-- Modelled from the spec: the macro `STRUCTS_SEPARATOR` of `structs.h`,
which is not among the sources: the character '.'. -/
def STRUCTS_SEPARATOR : Nat :=
  46

/-- The bytes of the reserved name "length". -/
def name_length : List Nat :=
  [108, 101, 110, 103, 116, 104]

/-- The bytes of the reserved name "field_name". -/
def name_field_name : List Nat :=
  [102, 105, 101, 108, 100, 95, 110, 97, 109, 101]

/-- The statements `if ((next = strchr(name, STRUCTS_SEPARATOR)) != NULL)
next++`: the text after the first separator, `none` (for `NULL`) when the
name has no separator. -/
def structs_next : List Nat → Option (List Nat)
  | [] => none
  | c :: name => if c = STRUCTS_SEPARATOR then some name else structs_next name

/-- The test `strncmp(name, fname, fnlen) == 0 && (name[fnlen] == '\0' ||
name[fnlen] == STRUCTS_SEPARATOR)` for `fnlen = strlen(fname)`, together with
the assignment `next = (name[fnlen] != '\0') ? name + fnlen + 1 : NULL` that
follows it: `some next` when the test holds, `none` when it does not. -/
def structs_name_match : List Nat → List Nat → Option (Option (List Nat))
  | [], [] => some none
  | [], c :: name => if c = STRUCTS_SEPARATOR then some (some name) else none
  | f :: fname, c :: name => if c = f then structs_name_match fname name else none
  | _ :: _, [] => none

/-- The function `isdigit` of the C locale. -/
def isdigit (c : Nat) : Bool :=
  decide (48 ≤ c) && decide (c ≤ 57)

/-- The constant `ULONG_MAX` (64 bit `unsigned long`). -/
def ULONG_MAX : Nat :=
  2 ^ 64 - 1

/-- The digits read by `strtoul(name, &eptr, 10)` on a text starting with a
digit: the value read so far, then the value and the rest `eptr`. -/
def strtoul_digits : List Nat → Nat → Nat × List Nat
  | [], value => (value, [])
  | c :: s, value =>
    if isdigit c = true then strtoul_digits s (value * 10 + (c - 48)) else (value, c :: s)

/-- The index decoded by `index = strtoul(name, &eptr, 10)` under the test
`!isdigit(*name) || eptr == name || (*eptr != '\0' && *eptr !=
STRUCTS_SEPARATOR)`: `none` when the test sends the call to `ENOENT`.  A value
out of range is `ULONG_MAX`. -/
def structs_index (name : List Nat) : Option Nat :=
  match name with
  | [] => none
  | c :: _ =>
    if isdigit c = false then none
    else
      match strtoul_digits name 0 with
      | (value, []) => some (if value > ULONG_MAX then ULONG_MAX else value)
      | (value, e :: _) =>
        if e = STRUCTS_SEPARATOR then some (if value > ULONG_MAX then ULONG_MAX else value)
        else none

/-- One step of the way from a value to the item a name stands for: through
a pointer, to an element of an array or fixed array, to a field of a
structure (by position), to the payload `un` of a union, or to one of the
three read-only items: `&ary->length`, `&un->field_name`, and `args2` for
`&type->args[2].i` evaluated on `structs_type_array_length`. -/
inductive Step where
  | deref
  | elem (index : Nat)
  | felem (index : Nat)
  | member (index : Nat)
  | un
  | length
  | field_name
  | args2
deriving DecidableEq, Repr

/-- The pointer `data` that `structs_find` gives back, as the way to it from
the value the call started at. -/
abbrev Loc := List Step

/-- The four bytes of an `unsigned int` in the memory of the host. -/
def uint_bytes (bo : ByteOrder) (x : Nat) : List Nat :=
  uint32_bytes bo x

/-- The footprint found at a location.  The `args[2]` of
`structs_type_array_length` is not given by its initialiser and so is 0. -/
def Value.read (bo : ByteOrder) : Value → Loc → Option Value
  | v, [] => some v
  | .pointer (some pdata), .deref :: loc => pdata.read bo loc
  | .array elems, .elem index :: loc =>
    match elems[index]? with
    | some elem => elem.read bo loc
    | none => none
  | .fixedarray elems, .felem index :: loc =>
    match elems[index]? with
    | some elem => elem.read bo loc
    | none => none
  | .structure fields, .member index :: loc =>
    match fields[index]? with
    | some fdata => fdata.read bo loc
    | none => none
  | .union _ (some un), .un :: loc => un.read bo loc
  | .array elems, [.length] => some (.region (uint_bytes bo elems.length))
  | .union (some field_name) _, [.field_name] => some (.string (some field_name))
  | _, [.args2] => some (.region (uint_bytes bo 0))
  | _, _ => none

/-- The value after `memcpy(data, temp, type->size)` at a location of an item
proper.  The three read-only items have a descriptor whose `binify` and
`decode` are `structs_notsupp`, and no other caller than `structs_set` stores
into one; its store into the length of an array is `Value.memcpy`. -/
def Value.write : Value → Loc → Value → Option Value
  | _, [], temp => some temp
  | .pointer (some pdata), .deref :: loc, temp =>
    match pdata.write loc temp with
    | some p => some (.pointer (some p))
    | none => none
  | .array elems, .elem index :: loc, temp =>
    match elems[index]? with
    | some elem =>
      match elem.write loc temp with
      | some e => some (.array (elems.set index e))
      | none => none
    | none => none
  | .fixedarray elems, .felem index :: loc, temp =>
    match elems[index]? with
    | some elem =>
      match elem.write loc temp with
      | some e => some (.fixedarray (elems.set index e))
      | none => none
    | none => none
  | .structure fields, .member index :: loc, temp =>
    match fields[index]? with
    | some fdata =>
      match fdata.write loc temp with
      | some f => some (.structure (fields.set index f))
      | none => none
    | none => none
  | .union field_name (some un), .un :: loc, temp =>
    match un.write loc temp with
    | some u => some (.union field_name (some u))
    | none => none
  | _, _, _ => none

/-- The class `tclass` of a descriptor. -/
def Descriptor.tclass : Descriptor → structs_tclass
  | .pointer _ => .STRUCTS_TYPE_POINTER
  | .array _ => .STRUCTS_TYPE_ARRAY
  | .fixedarray _ _ => .STRUCTS_TYPE_FIXEDARRAY
  | .structure _ => .STRUCTS_TYPE_STRUCTURE
  | .union _ => .STRUCTS_TYPE_UNION
  | _ => .STRUCTS_TYPE_PRIMITIVE

/-! ## structs.c: structs_find -/

/-- What a call of `structs_find` leaves: the value it started at, as it is
after the call, and the result: `NULL` with its `errno`, or the descriptor
found with the pointer `*datap` to the item. -/
abbrev Found :=
  Value × Except Errno (Descriptor × Loc)

/-- The result of a call on a part of a value, seen from one step above: the
way to the item found starts with `step`. -/
def result_under (step : Step) :
    Except Errno (Descriptor × Loc) → Except Errno (Descriptor × Loc)
  | .ok (type, loc) => .ok (type, step :: loc)
  | .error e => .error e

/-- A result found inside a part of a value, seen from the whole value. -/
def Found.lift (rebuild : Value → Value) (step : Step) (r : Found) : Found :=
  (rebuild r.1, result_under step r.2)

/-- The head of `structs_find`: an empty name (or `NULL`) stops the
recursion, a primitive type has no sub-elements; `sub` is the rest of the
function. -/
def structs_find_head (type : Descriptor) (sub : List Nat → Value → Bool → Found)
    (name : Option (List Nat)) (data : Value) (set_union : Bool) : Found :=
  match name with
  | none => (data, .ok (type, []))
  | some [] => (data, .ok (type, []))
  | some (c :: name) =>
    if type.tclass = .STRUCTS_TYPE_PRIMITIVE then (data, .error .ENOENT)
    else sub (c :: name) data set_union

mutual
/-- The rest of `structs_find`, for a name that is not empty: the loop
through the pointers, the step into the aggregate and the recursion on the
sub-element.  With `assert` compiled out, a primitive type reached through a
pointer returns `NULL` and leaves `errno`.  A union whose `field_name` or `un`
is null is not a live value: the model answers `undefined` for it. -/
def structs_find_sub (bo : ByteOrder) : Descriptor → List Nat → Value → Bool → Found
  | .pointer reftype, name, data, set_union =>
    match data with
    | .pointer (some pdata) =>
      (structs_find_sub bo reftype name pdata set_union).lift
        (fun p => .pointer (some p)) .deref
    | _ => (data, .error .undefined)
  | .array etype, name, data, set_union =>
    match data with
    | .array elems =>
      if name = name_length then (data, .ok (.array_length, [.length]))
      else
        match structs_index name with
        | none => (data, .error .ENOENT)
        | some index =>
          match elems[index]? with
          | none => (data, .error .EDOM)
          | some elem =>
            (structs_find_head etype (structs_find_sub bo etype) (structs_next name) elem
              set_union).lift (fun e => .array (elems.set index e)) (.elem index)
    | _ => (data, .error .undefined)
  | .fixedarray etype alen, name, data, set_union =>
    match data with
    | .fixedarray elems =>
      if name = name_length then (data, .ok (.array_length, [.args2]))
      else
        match structs_index name with
        | none => (data, .error .ENOENT)
        | some index =>
          if index ≥ alen then (data, .error .EDOM)
          else
            match elems[index]? with
            | none => (data, .error .undefined)
            | some elem =>
              (structs_find_head etype (structs_find_sub bo etype) (structs_next name) elem
                set_union).lift (fun e => .fixedarray (elems.set index e)) (.felem index)
    | _ => (data, .error .undefined)
  | .structure flist, name, data, set_union =>
    match data with
    | .structure fields =>
      match structs_find_field bo flist name fields 0 set_union with
      | (fields', r) => (.structure fields', r)
    | _ => (data, .error .undefined)
  | .union flist, name, data, set_union =>
    match data with
    | .union (some field_name) (some un) =>
      if name = name_field_name then (data, .ok (.union_field_name, [.field_name]))
      else
        match flist.lookup field_name with
        | none => (data, .error .EINVAL)
        | some _ =>
          match structs_name_match field_name name with
          | some next =>
            match structs_find_active bo flist field_name next un set_union with
            | some r => r.lift (fun u => .union (some field_name) (some u)) .un
            | none => (data, .error .EINVAL)
          | none =>
            if set_union = false then (data, .error .ENOENT)
            else
              match structs_find_switch bo flist name with
              | (none, r) => (data, r)
              | (some (fname, new_un), r) =>
                (.union (some fname) (some new_un), result_under .un r)
    | _ => (data, .error .undefined)
  | _, _, data, _ => (data, .error .unset)
/-- The field search of the structure case of `structs_find`: the first
entry, in table order, whose name matches, and the recursion into its value;
`i` is the position of the first entry of the list in the table. -/
def structs_find_field (bo : ByteOrder) :
    FieldList → List Nat → List Value → Nat → Bool → List Value × Except Errno (Descriptor × Loc)
  | .END, _, fields, _, _ => (fields, .error .ENOENT)
  | .FIELD fname type rest, name, fields, i, set_union =>
    match fields with
    | [] => (fields, .error .undefined)
    | fdata :: fields' =>
      match structs_name_match fname name with
      | some next =>
        match structs_find_head type (structs_find_sub bo type) next fdata set_union with
        | (fdata', r) => (fdata' :: fields', result_under (.member i) r)
      | none =>
        match structs_find_field bo rest name fields' (i + 1) set_union with
        | (fields'', r) => (fdata :: fields'', r)
/-- The recursion of the union case of `structs_find` into the payload of the
active field `ofield`, the first entry whose name is `field_name`; `none`
when the table has no such entry. -/
def structs_find_active (bo : ByteOrder) :
    FieldList → List Nat → Option (List Nat) → Value → Bool → Option Found
  | .END, _, _, _, _ => none
  | .FIELD fname type rest, field_name, next, un, set_union =>
    if field_name = fname then
      some (structs_find_head type (structs_find_sub bo type) next un set_union)
    else structs_find_active bo rest field_name next un set_union
/-- The variant switch of the union case of `structs_find`: the first entry,
in table order, whose name matches; a new payload of its type is initialised
and probed with the rest of the name; after a good probe it is installed and
the recursion goes into it.  Gives the name and payload installed (`none`
when the union is left as it was) and the result. -/
def structs_find_switch (bo : ByteOrder) :
    FieldList → List Nat → Option (List Nat × Value) × Except Errno (Descriptor × Loc)
  | .END, _ => (none, .error .ENOENT)
  | .FIELD fname type rest, name =>
    match structs_name_match fname name with
    | none => structs_find_switch bo rest name
    | some next =>
      match (type.type bo).init with
      | .error e => (none, .error e)
      | .ok new_un =>
        match
          (match next with
          | none => ((new_un, .ok (type, [])) : Found)
          | some n => structs_find_head type (structs_find_sub bo type) (some n) new_un true)
        with
        | (_, .error e) => (none, .error e)
        | (new_un', .ok _) =>
          match structs_find_head type (structs_find_sub bo type) next new_un' true with
          | (new_un'', r) => (some (fname, new_un''), r)
end

/-- The function `structs_find`. -/
def structs_find (bo : ByteOrder) (type : Descriptor) (name : Option (List Nat)) (data : Value)
    (set_union : Bool) : Found :=
  structs_find_head type (structs_find_sub bo type) name data set_union

/-! ## structs_type_data.c: structs_fixeddata_binify -/

/-- The function `isspace` of the C locale. -/
def isspace (c : Nat) : Bool :=
  decide (c = 32) || (decide (9 ≤ c) && decide (c ≤ 13))

/-- The function `isxdigit`. -/
def isxdigit (c : Nat) : Bool :=
  isdigit c || (decide (65 ≤ c) && decide (c ≤ 70)) || (decide (97 ≤ c) && decide (c ≤ 102))

/-- The function `tolower` of the C locale. -/
def tolower (c : Nat) : Nat :=
  if 65 ≤ c ∧ c ≤ 90 then c + 32 else c

/-- The macro `HEXVAL` of `structs_type_data.c`. -/
def HEXVAL (c : Nat) : Nat :=
  if isdigit c = true then c - 48 else tolower c - 97 + 10

/-- The loop `while (isspace(*ascii)) ascii++`, for a text of bytes below 128
(`isspace` is not defined on a negative `char`). -/
def skip_space : List Nat → List Nat
  | [] => []
  | c :: ascii => if isspace c = true then skip_space ascii else c :: ascii

/-- One turn of the inner loop of `structs_fixeddata_binify`: the value of the
next hex digit and the text after it; `EINVAL` at the end of the text or at
another character. -/
def hex_digit (ascii : List Nat) : Except Errno (Nat × List Nat) :=
  match skip_space ascii with
  | [] => .error .EINVAL
  | c :: rest => if isxdigit c = true then .ok (HEXVAL c, rest) else .error .EINVAL

/-- The outer loop of `structs_fixeddata_binify` with `size - i` bytes to go
and the check of the end of the text. -/
def structs_fixeddata_binify_loop : Nat → List Nat → List Nat → Except Errno Value
  | 0, ascii, bytes =>
    match skip_space ascii with
    | [] => .ok (.region bytes)
    | _ :: _ => .error .EINVAL
  | n + 1, ascii, bytes =>
    match hex_digit ascii with
    | .error e => .error e
    | .ok (hi, ascii1) =>
      match hex_digit ascii1 with
      | .error e => .error e
      | .ok (lo, ascii2) =>
        structs_fixeddata_binify_loop n ascii2 (bytes ++ [(hi <<< 4 ||| lo) % 256])

/-- `structs_fixeddata_binify`. -/
def structs_fixeddata_binify (size : Nat) (ascii : List Nat) : Except Errno Value :=
  structs_fixeddata_binify_loop size ascii []

/-! ## The method binify of a descriptor -/

/-- `structs_notsupp_binify`. -/
def structs_notsupp_binify (_ascii : List Nat) : Except Errno Value :=
  .error .ENOSYS

/-- `structs_pointer_binify`: the text is binified into a new referent. -/
def structs_pointer_binify (binify : List Nat → Except Errno Value) (ascii : List Nat) :
    Except Errno Value :=
  match binify ascii with
  | .error e => .error e
  | .ok pdata => .ok (.pointer (some pdata))

/-- The method `binify` of a descriptor.  `structs_int_binify` and the base64
decoder behind `structs_data_binify` are not among the sources: for the
integer and data leaves the method is the parameter `leaf_binify`.  The
structure and union macros are taken to name `structs_notsupp_binify`, as
the array macros do. -/
def Descriptor.binify (leaf_binify : Descriptor → List Nat → Except Errno Value) :
    Descriptor → List Nat → Except Errno Value
  | .int name size => leaf_binify (.int name size)
  | .data charset => leaf_binify (.data charset)
  | .string asnull => structs_string_binify asnull
  | .fixeddata length => structs_fixeddata_binify length
  | .pointer reftype => structs_pointer_binify (reftype.binify leaf_binify)
  | _ => structs_notsupp_binify

/-! ## structs.c: the operations that replace an item -/

/-- The number that four bytes in the memory of the host hold as an
`unsigned int`. -/
def uint_value (bo : ByteOrder) (bytes : List Nat) : Nat :=
  match bo with
  | .LITTLE_ENDIAN =>
    bytes.getD 0 0 + bytes.getD 1 0 * 2 ^ 8 + bytes.getD 2 0 * 2 ^ 16 + bytes.getD 3 0 * 2 ^ 24
  | .BIG_ENDIAN => ntohl bytes

/-- The value after the `memcpy(to, copy, type->size)` of `structs_set`.  At
`&ary->length` the bytes copied become the length of the array: with a length
up to the number of its elements the array is its first elements (the others
are reached no more), and a greater length claims elements that `elems` does
not hold, a footprint outside the values of the model.  Everywhere else the
`memcpy` is `Value.write`. -/
def Value.memcpy (bo : ByteOrder) (to_data : Value) (loc : Loc) (copy : Value) :
    Option Value :=
  match loc.getLast?, to_data.read bo loc.dropLast, copy with
  | some .length, some (.array elems), .region bytes =>
    if uint_value bo bytes ≤ elems.length then
      to_data.write loc.dropLast (.array (elems.take (uint_value bo bytes)))
    else none
  | _, _, _ => to_data.write loc copy

/-- `structs_set`: the value of `to` after the call and the result.  The
descriptor of the length of an array has `structs_region_copy`, so that the
call stores into `&ary->length`; a store to `&type->args[2].i` of the constant
`structs_type_array_length` is `undefined`. -/
def structs_set (bo : ByteOrder) (type : Descriptor) (from_data : Value)
    (name : Option (List Nat)) (to_data : Value) : Value × Except Errno Unit :=
  match structs_find bo type name to_data false with
  | (to1, .error e) => (to1, .error e)
  | (to1, .ok (t, loc)) =>
    match (t.type bo).copy from_data with
    | .error e => (to1, .error e)
    | .ok copy =>
      match to1.memcpy bo loc copy with
      | some to2 => (to2, .ok ())
      | none => (to1, .error .undefined)

/-- `structs_set_string`: the value `data` after the call and the result; a
null `ascii` stands for the empty text. -/
def structs_set_string (bo : ByteOrder)
    (leaf_binify : Descriptor → List Nat → Except Errno Value) (type : Descriptor)
    (name : Option (List Nat)) (ascii : Option (List Nat)) (data : Value) :
    Value × Except Errno Unit :=
  match structs_find bo type name data true with
  | (data1, .error e) => (data1, .error e)
  | (data1, .ok (t, loc)) =>
    match t.binify leaf_binify (ascii.getD []) with
    | .error e => (data1, .error e)
    | .ok temp =>
      match data1.write loc temp with
      | some data2 => (data2, .ok ())
      | none => (data1, .error .undefined)

/-- `structs_set_binary`: the value `data` after the call and the number of
bytes decoded. -/
def structs_set_binary (bo : ByteOrder) (type : Descriptor) (name : Option (List Nat))
    (code : List Nat) (data : Value) : Value × Except Errno Nat :=
  match structs_find bo type name data false with
  | (data1, .error e) => (data1, .error e)
  | (data1, .ok (t, loc)) =>
    match (t.type bo).decode code with
    | .error e => (data1, .error e)
    | .ok (temp, clen) =>
      match data1.write loc temp with
      | some data2 => (data2, .ok clen)
      | none => (data1, .error .undefined)

/-! ## structs.c: structs_traverse -/

/-- The text that `%d` prints for an `int` that is not negative. -/
def printf_d (i : Nat) : List Nat :=
  (Nat.toDigits 10 i).map Char.toNat

/-- The local `dot` of `structs_trav`. -/
def trav_dot (name : List Nat) : List Nat :=
  if name = [] then [] else [46]

/-- The loops of `structs_trav` over the elements of an array or fixed array
from index `i` on; `trav` is the recursive call on one element.  The index
is an `int`: incrementing it past `INT_MAX` is undefined. -/
def structs_trav_elems (trav : List Nat → Value → List (List Nat) → Except Errno (List (List Nat)))
    (name : List Nat) : List Value → Nat → List (List Nat) → Except Errno (List (List Nat))
  | [], _, t => .ok t
  | edata :: elems, i, t =>
    if i ≥ 2 ^ 31 then .error .undefined
    else
      match trav (name ++ trav_dot name ++ printf_d i) edata t with
      | .error e => .error e
      | .ok t1 => structs_trav_elems trav name elems (i + 1) t1

mutual
/-- `structs_trav`: the list `t` after the call (allocation does not fail). -/
def structs_trav : Descriptor → List Nat → Value → List (List Nat) →
    Except Errno (List (List Nat))
  | .pointer reftype, name, data, t =>
    match data with
    | .pointer (some pdata) => structs_trav reftype name pdata t
    | _ => .error .undefined
  | .array etype, name, data, t =>
    match data with
    | .array elems => structs_trav_elems (structs_trav etype) name elems 0 t
    | _ => .error .undefined
  | .fixedarray etype alen, name, data, t =>
    match data with
    | .fixedarray elems =>
      if elems.length = alen then structs_trav_elems (structs_trav etype) name elems 0 t
      else .error .undefined
    | _ => .error .undefined
  | .structure flist, name, data, t =>
    match data with
    | .structure fields => structs_trav_fields flist name fields t
    | _ => .error .undefined
  | .union flist, name, data, t =>
    match data with
    | .union (some field_name) (some un) => structs_trav_active flist name field_name un t
    | _ => .error .undefined
  | _, name, _, t => .ok (t ++ [name])
/-- The loop of `structs_trav` over the fields of a structure. -/
def structs_trav_fields : FieldList → List Nat → List Value → List (List Nat) →
    Except Errno (List (List Nat))
  | .END, _, _, t => .ok t
  | .FIELD fname type rest, name, fields, t =>
    match fields with
    | [] => .error .undefined
    | edata :: fields1 =>
      match structs_trav type (name ++ trav_dot name ++ fname) edata t with
      | .error e => .error e
      | .ok t1 => structs_trav_fields rest name fields1 t1
/-- The union case of `structs_trav`: the search of the active field and the
call on its payload. -/
def structs_trav_active : FieldList → List Nat → List Nat → Value → List (List Nat) →
    Except Errno (List (List Nat))
  | .END, _, _, _, _ => .error .EINVAL
  | .FIELD fname type rest, name, field_name, un, t =>
    if field_name = fname then structs_trav type (name ++ trav_dot name ++ fname) un t
    else structs_trav_active rest name field_name un t
end

/-- `structs_traverse`: the list `*listp`; its length is the value returned. -/
def structs_traverse (type : Descriptor) (data : Value) : Except Errno (List (List Nat)) :=
  structs_trav type [] data []

/-! ## Paths of leaves, after the specification -/

/-- The leaves of the elements of an array from index `i` on, each path
starting with the decimal index. -/
def leaves_elems (leaves : Value → List (List (List Nat))) :
    List Value → Nat → List (List (List Nat))
  | [], _ => []
  | edata :: elems, i =>
    (leaves edata).map (fun p => printf_d i :: p) ++ leaves_elems leaves elems (i + 1)

mutual
/-- The paths of the leaves of a value, as lists of components, depth first
in field-table order and ascending element index: a leaf is a sub-value
whose class is PRIMITIVE after the pointers are dereferenced; the components
are structure field names, decimal array indices and active variant names. -/
def Descriptor.leaves : Descriptor → Value → List (List (List Nat))
  | .pointer reftype, .pointer (some pdata) => reftype.leaves pdata
  | .array etype, .array elems => leaves_elems etype.leaves elems 0
  | .fixedarray etype _, .fixedarray elems => leaves_elems etype.leaves elems 0
  | .structure flist, .structure fields => flist.leaves fields
  | .union flist, .union (some field_name) (some un) => flist.leaves_active field_name un
  | .pointer _, _ => []
  | .array _, _ => []
  | .fixedarray _ _, _ => []
  | .structure _, _ => []
  | .union _, _ => []
  | _, _ => [[]]
/-- The leaves of the fields of a structure. -/
def FieldList.leaves : FieldList → List Value → List (List (List Nat))
  | .FIELD fname type rest, edata :: fields =>
    (type.leaves edata).map (fun p => fname :: p) ++ rest.leaves fields
  | _, _ => []
/-- The leaves of the active variant of a union. -/
def FieldList.leaves_active : FieldList → List Nat → Value → List (List (List Nat))
  | .END, _, _ => []
  | .FIELD fname type rest, field_name, un =>
    if field_name = fname then (type.leaves un).map (fun p => fname :: p)
    else rest.leaves_active field_name un
end

/-- The components of a path joined with the separator. -/
def join_path (p : List (List Nat)) : List Nat :=
  [STRUCTS_SEPARATOR].intercalate p

mutual
/-- No field name of the descriptor is empty. -/
def Descriptor.named : Descriptor → Bool
  | .pointer reftype => reftype.named
  | .array etype => etype.named
  | .fixedarray etype _ => etype.named
  | .structure flist => flist.named
  | .union flist => flist.named
  | _ => true
/-- No field name of the table is empty. -/
def FieldList.named : FieldList → Bool
  | .END => true
  | .FIELD fname type rest => !fname.isEmpty && type.named && rest.named
end

mutual
/-- Every array of the value is shorter than `2 ^ 31`, so that the `int`
index of the loops of `structs_trav` counts it. -/
def Descriptor.short : Descriptor → Value → Bool
  | .pointer reftype, .pointer (some pdata) => reftype.short pdata
  | .array etype, .array elems =>
    decide (elems.length < 2 ^ 31) && elems.all (fun elem => etype.short elem)
  | .fixedarray etype _, .fixedarray elems =>
    decide (elems.length < 2 ^ 31) && elems.all (fun elem => etype.short elem)
  | .structure flist, .structure fields => flist.shorts fields
  | .union flist, .union (some field_name) (some un) => flist.short_active field_name un
  | _, _ => true
/-- The fields of a structure are short. -/
def FieldList.shorts : FieldList → List Value → Bool
  | .FIELD _ type rest, edata :: fields => type.short edata && rest.shorts fields
  | _, _ => true
/-- The active variant of a union is short. -/
def FieldList.short_active : FieldList → List Nat → Value → Bool
  | .END, _, _ => true
  | .FIELD fname type rest, field_name, un =>
    if field_name = fname then type.short un else rest.short_active field_name un
end

/-- The entries of a field table. -/
def FieldList.toList : FieldList → List (List Nat × Descriptor)
  | .END => []
  | .FIELD fname type rest => (fname, type) :: rest.toList

/-! ## More scenarios -/

/-- The text "hello". -/
def text_hello : List Nat :=
  [104, 101, 108, 108, 111]

/-- A union `{ x: uint32 | y: fixeddata(1) }`; the names are the bytes of "x"
and "y". -/
def hex_union_type : Descriptor :=
  .union (.FIELD [120] .uint32 (.FIELD [121] (.fixeddata 1) .END))

/-- A union `{ a: uint32 | a.b: string }`; the second name holds the
separator. -/
def dotted_union_type : Descriptor :=
  .union (.FIELD [97] .uint32 (.FIELD [97, 46, 98] (.string false) .END))

/-- A value of `dotted_union_type` whose active field is `a.b`. -/
def dotted_union_value : Value :=
  .union (some [97, 46, 98]) (some (.string (some [])))

/-- A structure `{ a: uint32, a.b: uint32 }`, the field "a" first. -/
def dotted_struct_type : Descriptor :=
  .structure (.FIELD [97] .uint32 (.FIELD [97, 46, 98] .uint32 .END))

/-- A structure `{ "": { a: uint32 } }` whose outer field name is empty. -/
def unnamed_struct_type : Descriptor :=
  .structure (.FIELD [] (.structure (.FIELD [97] .uint32 .END)) .END)

/-! ## Contracts of the resolver -/

/-- The contract of a resolver step `f` that may switch variants: a call that
fails leaves the value as it was, and a call that succeeds leaves a value on
which the same call succeeds again, with the same result and no change. -/
def FindStable {α : Type} (f : α → α × Except Errno (Descriptor × Loc)) : Prop :=
  ∀ data, (∀ e, (f data).2 = .error e → (f data).1 = data) ∧
    (∀ r, (f data).2 = .ok r → f (f data).1 = f data)

/-- A union `{ x: uint32 | y: { a: uint32 } }`; the names are the bytes of
"x", "y" and "a". -/
def nested_union_type : Descriptor :=
  .union (.FIELD [120] .uint32 (.FIELD [121] (.structure (.FIELD [97] .uint32 .END)) .END))

/-- The value of the unions `{ x: uint32 | ... }` after `init`: `x = 0`. -/
def union_x_value : Value :=
  .union (some [120]) (some (.region [0, 0, 0, 0]))

/-- The first component of a path: the text before the first separator. -/
def first_component (name : List Nat) : List Nat :=
  name.takeWhile (fun c => decide (c ≠ STRUCTS_SEPARATOR))

/-- The value of a text of decimal digits. -/
def decimal_value (digits : List Nat) : Nat :=
  digits.foldl (fun value c => value * 10 + (c - 48)) 0

/-- A path made of a first component and the rest: `none` when the path ends
with the component, `some rest` when a separator and `rest` follow it. -/
def path_of (component : List Nat) (rest : Option (List Nat)) : List Nat :=
  match rest with
  | none => component
  | some r => component ++ STRUCTS_SEPARATOR :: r

/-- The structure `{ a.b: uint32, a: uint32 }`: the fields of
`dotted_struct_type` in the other order. -/
def dotted_struct_swapped : Descriptor :=
  .structure (.FIELD [97, 46, 98] .uint32 (.FIELD [97] .uint32 .END))

/-- The name `structs_trav` builds from the name it is given and the
components below it, one `asprintf` after the other. -/
def trav_join (name : List Nat) (p : List (List Nat)) : List Nat :=
  p.foldl (fun ename c => ename ++ trav_dot ename ++ c) name

/-! ## structs.c: structs_get -/

/-- `structs_get`: the copy of the item written to `to`. -/
def structs_get (bo : ByteOrder) (type : Descriptor) (name : Option (List Nat))
    (from_data : Value) : Except Errno Value :=
  match structs_find bo type name from_data false with
  | (_, .error e) => .error e
  | (from1, .ok (t, loc)) =>
    match from1.read bo loc with
    | some item => (t.type bo).copy item
    | none => .error .undefined

/-! ## structs_type_array.c: the operations on the length of an array -/

/-- `structs_array_insert`: the value `data` after the call and the result.
The length of an array is an `unsigned int`: when `ary->length + 2` wraps, the
`realloc` gives too small a block and the stores that follow are past it
(`undefined`). -/
def structs_array_insert (bo : ByteOrder) (type : Descriptor) (name : Option (List Nat))
    (index : Nat) (data : Value) : Value × Except Errno Unit :=
  match structs_find bo type name data false with
  | (data1, .error e) => (data1, .error e)
  | (data1, .ok (t, loc)) =>
    match t with
    | .array etype =>
      match data1.read bo loc with
      | some (.array elems) =>
        if index > elems.length then (data1, .error .EDOM)
        else if elems.length + 2 ≥ 2 ^ 32 then (data1, .error .undefined)
        else
          match (etype.type bo).init with
          | .error e => (data1, .error e)
          | .ok elem =>
            match data1.write loc (.array (elems.take index ++ elem :: elems.drop index)) with
            | some data2 => (data2, .ok ())
            | none => (data1, .error .undefined)
      | _ => (data1, .error .undefined)
    | _ => (data1, .error .EINVAL)

/-- `structs_array_delete`: the value `data` after the call and the result. -/
def structs_array_delete (bo : ByteOrder) (type : Descriptor) (name : Option (List Nat))
    (index : Nat) (data : Value) : Value × Except Errno Unit :=
  match structs_find bo type name data false with
  | (data1, .error e) => (data1, .error e)
  | (data1, .ok (t, loc)) =>
    match t with
    | .array _ =>
      match data1.read bo loc with
      | some (.array elems) =>
        if index ≥ elems.length then (data1, .error .EDOM)
        else
          match data1.write loc (.array (elems.take index ++ elems.drop (index + 1))) with
          | some data2 => (data2, .ok ())
          | none => (data1, .error .undefined)
      | _ => (data1, .error .undefined)
    | _ => (data1, .error .EINVAL)

/-- The loop `for (idx = ary->length; idx < nitems; idx++)` of
`structs_array_setsize` with `n` more rounds: every round runs the `init` of
the element type, and the first failure ends the call. -/
def structs_array_setsize_loop (etype : structs_type) : Nat → Except Errno (List Value)
  | 0 => .ok []
  | n + 1 =>
    match etype.init with
    | .error e => .error e
    | .ok elem =>
      match structs_array_setsize_loop etype n with
      | .error e => .error e
      | .ok elems => .ok (elem :: elems)

/-- `structs_array_setsize`: the value `data` after the call and the result.
The loop index `idx` is an `int`: counting up to an `nitems` above `INT_MAX`
is undefined.  After a failed `init` the array keeps its length (and its old
`elems` pointer). -/
def structs_array_setsize (bo : ByteOrder) (type : Descriptor) (name : Option (List Nat))
    (nitems : Nat) (data : Value) (do_init : Bool) : Value × Except Errno Unit :=
  match structs_find bo type name data false with
  | (data1, .error e) => (data1, .error e)
  | (data1, .ok (t, loc)) =>
    match t with
    | .array etype =>
      match data1.read bo loc with
      | some (.array elems) =>
        if nitems = elems.length then (data1, .ok ())
        else if nitems = 0 then
          match data1.write loc (.array []) with
          | some data2 => (data2, .ok ())
          | none => (data1, .error .undefined)
        else
          let zeros := List.replicate (nitems - elems.length) (etype.type bo).zero
          if do_init = true then
            if nitems > elems.length ∧ nitems ≥ 2 ^ 31 then (data1, .error .undefined)
            else
              match structs_array_setsize_loop (etype.type bo) (nitems - elems.length) with
              | .error e => (data1, .error e)
              | .ok inits =>
                match data1.write loc (.array (elems.take nitems ++ inits)) with
                | some data2 => (data2, .ok ())
                | none => (data1, .error .undefined)
          else
            match data1.write loc (.array (elems.take nitems ++ zeros)) with
            | some data2 => (data2, .ok ())
            | none => (data1, .error .undefined)
      | _ => (data1, .error .undefined)
    | _ => (data1, .error .EINVAL)

/-- The function `strtoul(nptr, &eptr, 10)`: `none` when no conversion is
done (`eptr == nptr`), else the value and the rest `eptr`.  White space and
a sign may come first; a value with a minus sign is negated as an
`unsigned long`, and a value out of range is `ULONG_MAX`. -/
def strtoul (nptr : List Nat) : Option (Nat × List Nat) :=
  let convert (negative : Bool) (s : List Nat) : Option (Nat × List Nat) :=
    match s with
    | [] => none
    | c :: _ =>
      if isdigit c = false then none
      else
        match strtoul_digits s 0 with
        | (value, eptr) =>
          some (if value > ULONG_MAX then ULONG_MAX
            else if negative = true then (ULONG_MAX + 1 - value) % (ULONG_MAX + 1) else value,
            eptr)
  match skip_space nptr with
  | [] => none
  | c :: s =>
    if c = 45 then convert true s
    else if c = 43 then convert false s
    else convert false (c :: s)

/-- The index that `structs_array_prep` reads from a component of the name:
`index = strtoul(s + 1, &eptr, 10)` under the test `eptr == s + 1 || *eptr !=
'\0'`; `none` when the test sends the call to `ENOENT`. -/
def prep_index (component : List Nat) : Option Nat :=
  match strtoul component with
  | some (index, []) => some index
  | _ => none

/-- The components of a name: the texts between its separators, which the
loop of `structs_array_prep` visits with `strchr(s + 1, STRUCTS_SEPARATOR)`. -/
def split_path : List Nat → List (List Nat)
  | [] => [[]]
  | c :: name =>
    if c = STRUCTS_SEPARATOR then [] :: split_path name
    else
      match split_path name with
      | component :: components => (c :: component) :: components
      | [] => [[c]]

/-- The name before the separator `s` of the next round of the loop of
`structs_array_prep`: the name before this round's separator (`none` in the
first round, where `s` is the start of the buffer) and this round's
component. -/
def prep_done (done : Option (List Nat)) (component : List Nat) : List Nat :=
  match done with
  | none => component
  | some pre => pre ++ STRUCTS_SEPARATOR :: component

/-- The name that a round of the loop of `structs_array_prep` gives to
`structs_find`, `nbuf + (s != nbuf)` cut at `s`, once the loop has passed the
components `comps`: the empty name (`none`) in the first round, the
components passed, with their separators, in a later one. -/
def prep_before (comps : List (List Nat)) : Option (List Nat) :=
  match comps with
  | [] => none
  | _ :: _ => some (join_path comps)

/-- One round of the loop of `structs_array_prep`: `done` is the name before
the separator `s` (`none` in the first round, where the name given to
`structs_find` is empty) and `component` the text after `s` up to the next
separator.  Gives the value after the round; the loop goes on when the
result is `ok`. -/
def structs_array_prep_round (bo : ByteOrder) (type : Descriptor) (done : Option (List Nat))
    (component : List Nat) (data : Value) : Value × Except Errno Unit :=
  match structs_find bo type done data true with
  | (data1, .error e) => (data1, .error e)
  | (data1, .ok (atype, loc)) =>
    match atype with
    | .array etype =>
      match prep_index component with
      | none => (data1, .error .ENOENT)
      | some index =>
        match data1.read bo loc with
        | some (.array elems) =>
          if index < elems.length then (data1, .ok ())
          else if index ≠ elems.length then (data1, .error .ENOENT)
          else
            match structs_array_insert bo (.array etype) none elems.length (.array elems) with
            | (_, .error e) => (data1, .error e)
            | (ary, .ok _) =>
              match data1.write loc ary with
              | some data2 => (data2, .ok ())
              | none => (data1, .error .undefined)
        | _ => (data1, .error .undefined)
    | _ => (data1, .ok ())

/-- The loop of `structs_array_prep` over the components of the name, from
the one after the separator `s` on. -/
def structs_array_prep_loop (bo : ByteOrder) (type : Descriptor) :
    Option (List Nat) → List (List Nat) → Value → Value × Except Errno Unit
  | _, [], data => (data, .ok ())
  | done, component :: components, data =>
    match structs_array_prep_round bo type done component data with
    | (data1, .error e) => (data1, .error e)
    | (data1, .ok _) =>
      structs_array_prep_loop bo type (some (prep_done done component)) components data1

/-- `structs_array_prep`: the value `data` after the call and the result. -/
def structs_array_prep (bo : ByteOrder) (type : Descriptor) (name : Option (List Nat))
    (data : Value) : Value × Except Errno Unit :=
  match name with
  | none => (data, .ok ())
  | some [] => (data, .ok ())
  | some (c :: name) => structs_array_prep_loop bo type none (split_path (c :: name)) data

/-- The value of scenario E4: the E1 structure with `a = 0`, `b = ""` and an
array `arr` of the given elements. -/
def E4_value (arr : List Value) : Value :=
  .structure [.region [0, 0, 0, 0], .string (some []), .array arr]

/-! ## The method uninit of a descriptor -/

/-- The descriptors whose `uninit` is `structs_nothing_free`: the fixed data,
the null type and the two read-only items; the integer descriptors, whose
definitions are not among the sources, are taken to name it as well. -/
def Descriptor.nothing_free : Descriptor → Bool
  | .int _ _ => true
  | .fixeddata _ => true
  | .null => true
  | .array_length => true
  | .union_field_name => true
  | _ => false

/-- The calls `(*type->uninit)(type, NULL)` that are defined: those of
`structs_nothing_free`, and of a fixed array without elements.  Every other
`uninit` reads through its `data`. -/
def Descriptor.uninit_null : Descriptor → Bool
  | .fixedarray _ alen => decide (alen = 0)
  | type => type.nothing_free

/-- The loops that run the `uninit` of the element type over the elements of
an array or fixed array: the footprints the elements are left with, `none`
for one that holds a dangling pointer. -/
def uninit_elems (uninit : Value → Except Errno (Option Value)) :
    List Value → Except Errno (List (Option Value))
  | [] => .ok []
  | elem :: elems =>
    match uninit elem with
    | .error e => .error e
    | .ok r =>
      match uninit_elems uninit elems with
      | .error e => .error e
      | .ok rs => .ok (r :: rs)

/-- The footprint of a fixed array from those of its elements. -/
def fixedarray_footprint : List (Option Value) → Option (List Value)
  | [] => some []
  | none :: _ => none
  | some r :: rs =>
    match fixedarray_footprint rs with
    | none => none
    | some elems => some (r :: elems)

mutual
/-- The method `uninit` of a descriptor: `structs_nothing_free`,
`structs_string_free`, `structs_data_free`, `structs_pointer_free`,
`structs_array_free`, `structs_fixedarray_free`, `structs_struct_free` and
`structs_union_free`.  Gives the footprint after the call: `some` value, or
`none` when the footprint is left with a pointer to freed memory. -/
def Descriptor.uninit (bo : ByteOrder) : Descriptor → Value → Except Errno (Option Value)
  | .string _, data =>
    match data with
    | .string _ => .ok (some (.string none))
    | _ => .error .undefined
  | .data _, data =>
    match data with
    | .data _ => .ok (some (.data []))
    | _ => .error .undefined
  | .pointer reftype, data =>
    match data with
    | .pointer (some pdata) =>
      match reftype.uninit bo pdata with
      | .error e => .error e
      | .ok _ => .ok (some (.pointer none))
    | .pointer none =>
      if reftype.uninit_null = true then .ok (some (.pointer none)) else .error .undefined
    | _ => .error .undefined
  | .array etype, data =>
    match data with
    | .array elems =>
      match uninit_elems (etype.uninit bo) elems with
      | .error e => .error e
      | .ok _ => .ok (some (.array []))
    | _ => .error .undefined
  | .fixedarray etype alen, data =>
    match data with
    | .fixedarray elems =>
      if elems.length = alen then
        match uninit_elems (etype.uninit bo) elems with
        | .error e => .error e
        | .ok rs =>
          match fixedarray_footprint rs with
          | none => .ok none
          | some elems1 => .ok (some (.fixedarray elems1))
      else .error .undefined
    | _ => .error .undefined
  | .structure flist, data =>
    match data with
    | .structure fields =>
      match flist.uninit bo fields with
      | .error e => .error e
      | .ok _ => .ok (some ((Descriptor.structure flist).type bo).zero)
    | _ => .error .undefined
  | .union flist, data =>
    match data with
    | .union (some field_name) un => flist.uninit_active bo field_name un data
    | _ => .error .undefined
  | _, data => .ok (some data)
/-- The loop of `structs_struct_free` over the fields. -/
def FieldList.uninit (bo : ByteOrder) : FieldList → List Value → Except Errno Unit
  | .END, _ => .ok ()
  | .FIELD _ type rest, fields =>
    match fields with
    | [] => .error .undefined
    | fdata :: fields1 =>
      match type.uninit bo fdata with
      | .error e => .error e
      | .ok _ => rest.uninit bo fields1
/-- The body of `structs_union_free`: the search of the active field, the
`uninit` of its payload and `free(un->un)`, after which `un->un` dangles.
With `assert` compiled out, a field name that is not in the table returns
with the footprint as it was. -/
def FieldList.uninit_active (bo : ByteOrder) :
    FieldList → List Nat → Option Value → Value → Except Errno (Option Value)
  | .END, _, _, data => .ok (some data)
  | .FIELD fname type rest, field_name, un, data =>
    if field_name = fname then
      match un with
      | some u =>
        match type.uninit bo u with
        | .error e => .error e
        | .ok _ => .ok none
      | none => if type.uninit_null = true then .ok (some data) else .error .undefined
    else rest.uninit_active bo field_name un data
end

/-- The descriptors whose `uninit` leaves the footprint all zero: strings,
data, pointers, variable arrays and structures, and fixed arrays of such
elements. -/
def Descriptor.zeroing : Descriptor → Bool
  | .string _ => true
  | .data _ => true
  | .pointer _ => true
  | .array _ => true
  | .structure _ => true
  | .fixedarray etype _ => etype.zeroing
  | _ => false

mutual
/-- The descriptors whose `uninit` is defined on the zero footprint, where it
does nothing: no union, no pointer to anything but a `structs_nothing_free`
leaf, outside the element types of variable arrays. -/
def Descriptor.zero_safe : Descriptor → Bool
  | .pointer reftype => reftype.uninit_null
  | .fixedarray etype _ => etype.zero_safe
  | .structure flist => flist.zero_safe
  | .union _ => false
  | _ => true
/-- Every field type of the table is `zero_safe`. -/
def FieldList.zero_safe : FieldList → Bool
  | .END => true
  | .FIELD _ type rest => type.zero_safe && rest.zero_safe
end

/-! ## Equality and the encoding -/

/-- What the encoders need of `equal` on a set `V` of values: two values that
`equal` takes for equal have the same encoding, and `equal` does not tell them
apart when they are compared with a third value. -/
def EqCongr (t : structs_type) (V : Value → Prop) : Prop :=
  ∀ a b, V a → V b → t.equal a b = 1 →
    t.encode a = t.encode b ∧ ∀ d, V d → t.equal a d = t.equal b d

/-- Equal live values of a descriptor have the same encoding. -/
def Descriptor.eqcongr (bo : ByteOrder) (T : Descriptor) : Prop :=
  EqCongr (T.type bo) (fun v => T.hasType v = true)

/-! ## Traverse and find -/

/-- The descriptor reached after the pointers are dereferenced. -/
def Descriptor.deref : Descriptor → Descriptor
  | .pointer reftype => reftype.deref
  | type => type

/-- The names of a field table, in table order. -/
def FieldList.names : FieldList → List (List Nat)
  | .END => []
  | .FIELD fname _ rest => fname :: rest.names

mutual
/-- The field names of the descriptor are plain: none is empty, and the names
of the fields of a structure hold no separator and differ from one another. -/
def Descriptor.plain : Descriptor → Bool
  | .pointer reftype => reftype.plain
  | .array etype => etype.plain
  | .fixedarray etype _ => etype.plain
  | .structure flist => flist.plain_fields
  | .union flist => flist.plain_variants
  | _ => true
/-- The names of the fields of a structure are plain. -/
def FieldList.plain_fields : FieldList → Bool
  | .END => true
  | .FIELD fname type rest =>
    !fname.isEmpty && !fname.contains STRUCTS_SEPARATOR && !rest.names.contains fname
      && type.plain && rest.plain_fields
/-- The names of the fields of a union are not empty. -/
def FieldList.plain_variants : FieldList → Bool
  | .END => true
  | .FIELD fname type rest => !fname.isEmpty && type.plain && rest.plain_variants
end

/-- The rest of a path after its first component, as `structs_find` passes
it on: `NULL` when no component is left. -/
def path_rest : List (List Nat) → Option (List Nat)
  | [] => none
  | c :: p => some (join_path (c :: p))

/-- The path resolves in the value, with `set_union = 0`, to an item whose
descriptor has class PRIMITIVE after the pointers are dereferenced. -/
def Resolves (bo : ByteOrder) (T : Descriptor) (name : Option (List Nat)) (v : Value) : Prop :=
  ∃ t loc, (structs_find bo T name v false).2 = .ok (t, loc) ∧
    t.deref.tclass = .STRUCTS_TYPE_PRIMITIVE

/-! ## structs_type_union.c: structs_union_set -/

/-- The part of `structs_union_set` from the label `union_set_new` on: the
search of the new field, the `init` of a new payload, the `uninit` of the old
payload `old` (when there is one) and the installation of the new payload and
of the name of the field found. -/
def structs_union_set_new (bo : ByteOrder) (flist : FieldList) (field_name : List Nat)
    (old : Option (Descriptor × Option Value)) (data : Value) (loc : Loc) :
    Value × Except Errno Unit :=
  match flist.lookup field_name with
  | none => (data, .error .ENOENT)
  | some ftype =>
    match (ftype.type bo).init with
    | .error e => (data, .error e)
    | .ok new_un =>
      match
        (match old with
        | none => (.ok none : Except Errno (Option Value))
        | some (_, none) => .error .undefined
        | some (otype, some oun) => otype.uninit bo oun)
      with
      | .error e => (data, .error e)
      | .ok _ =>
        match data.write loc (.union (some field_name) (some new_un)) with
        | some data1 => (data1, .ok ())
        | none => (data, .error .undefined)

/-- `structs_union_set`: the value after the call and the result.  A union
whose `field_name` is null and whose `un` is not is read by `strcmp` through
the null pointer (`undefined`). -/
def structs_union_set (bo : ByteOrder) (type : Descriptor) (name : Option (List Nat))
    (data : Value) (field_name : List Nat) : Value × Except Errno Unit :=
  match structs_find bo type name data false with
  | (data1, .error e) => (data1, .error e)
  | (data1, .ok (.union flist, loc)) =>
    match data1.read bo loc with
    | some (.union none none) => structs_union_set_new bo flist field_name none data1 loc
    | some (.union none (some _)) => (data1, .error .undefined)
    | some (.union (some old_name) oun) =>
      match flist.lookup old_name with
      | none => (data1, .error .EINVAL)
      | some otype =>
        if old_name = field_name then (data1, .ok ())
        else structs_union_set_new bo flist field_name (some (otype, oun)) data1 loc
    | _ => (data1, .error .undefined)
  | (data1, .ok _) => (data1, .error .EINVAL)

/-- The contract of a `decode` on the buffers of bytes shorter than `2 ^ 29`:
what it gives is a value of `V`. -/
def DecodeSound (t : structs_type) (V : Value → Prop) : Prop :=
  ∀ code v n, c_bytes code = true → code.length < 2 ^ 29 → t.decode code = .ok (v, n) → V v

/-- The field table of `nested_union_type`: `{ x: uint32 | y: { a: uint32 } }`. -/
def nested_union_fields : FieldList :=
  .FIELD [120] .uint32 (.FIELD [121] (.structure (.FIELD [97] .uint32 .END)) .END)

/-! ## The bytes a decode consumes -/

/-- The contract of a `decode` that stays inside its buffer: the count it
returns is at most `cmax`. -/
def DecodeBound (t : structs_type) : Prop :=
  ∀ code v n, t.decode code = .ok (v, n) → n ≤ code.length

/-! ## structs_type_data.c: the text form of binary data -/

/-- The table `hexchars`: the characters "0123456789abcdef". -/
def hexchars : List Nat :=
  [48, 49, 50, 51, 52, 53, 54, 55, 56, 57, 97, 98, 99, 100, 101, 102]

/-- The two characters that the loops of `structs_data_ascify` and
`structs_fixeddata_ascify` store for one byte: `hexchars[(b >> 4) & 0x0f]` and
`hexchars[b & 0x0f]`. -/
def hex_pair (b : Nat) : List Nat :=
  [hexchars.getD ((b >>> 4) &&& 15) 0, hexchars.getD (b &&& 15) 0]

/-- `structs_data_ascify`.  The base64 encoder behind the character sets other
than the empty one is not among the sources: it is the parameter
`b64_encode`.  In the hex branch the index `i` is an `int` and `i * 2` is
computed up to `i = d->length`: a length of `2 ^ 30` or more overflows it. -/
def structs_data_ascify (charmap : Option (List Nat))
    (b64_encode : List Nat → Except Errno (List Nat)) : Value → Except Errno (List Nat)
  | .data bytes =>
    if charmap = some [] then
      if bytes.length ≥ 2 ^ 30 then .error .undefined
      else .ok (bytes.flatMap hex_pair)
    else b64_encode bytes
  | _ => .error .undefined

/-- The loop `for (blen = 0; *ascii != '\0'; blen++)` of the hex branch of
`structs_data_binify`, with the bytes stored so far; `n` bounds the number of
turns, each of which takes at least one character.  The two error returns
leave `errno` as it was. -/
def structs_data_binify_loop : Nat → List Nat → List Nat → Except Errno (List Nat)
  | 0, ascii, bdata =>
    match ascii with
    | [] => .ok bdata
    | _ :: _ => .error .undefined
  | n + 1, ascii, bdata =>
    match ascii with
    | [] => .ok bdata
    | _ :: _ =>
      match skip_space ascii with
      | [] => .ok bdata
      | c1 :: ascii1 =>
        if isxdigit c1 = false then .error .unset
        else
          match ascii1 with
          | [] => .error .unset
          | c2 :: ascii2 =>
            if isxdigit c2 = false then .error .unset
            else
              structs_data_binify_loop n ascii2
                (bdata ++ [((HEXVAL c1 <<< 4) ||| HEXVAL c2) % 256])

/-- `structs_data_binify`; the base64 decoder is the parameter `b64_decode`. -/
def structs_data_binify (charmap : Option (List Nat))
    (b64_decode : List Nat → Except Errno (List Nat)) (ascii : List Nat) : Except Errno Value :=
  if charmap = some [] then
    match structs_data_binify_loop ascii.length ascii [] with
    | .error e => .error e
    | .ok bdata => .ok (.data bdata)
  else
    match b64_decode ascii with
    | .error e => .error e
    | .ok bdata => .ok (.data bdata)

/-- `structs_fixeddata_ascify`; as in `structs_data_ascify` the index is an
`int`, and a footprint shorter than `type->size` is read past its end. -/
def structs_fixeddata_ascify (size : Nat) : Value → Except Errno (List Nat)
  | .region bytes =>
    if size ≥ 2 ^ 30 then .error .undefined
    else if bytes.length < size then .error .undefined
    else .ok ((bytes.take size).flatMap hex_pair)
  | _ => .error .undefined

/-! ## Equality as an equivalence -/

/-- The `equal` of a descriptor is an equivalence relation on the set `V` of
values: it answers 0 or 1, and the answer 1 is reflexive, symmetric and
transitive. -/
def EquivOn (t : structs_type) (V : Value → Prop) : Prop :=
  (∀ a, V a → t.equal a a = 1) ∧
  (∀ a b, V a → V b → t.equal a b = 0 ∨ t.equal a b = 1) ∧
  (∀ a b, V a → V b → t.equal a b = 1 → t.equal b a = 1) ∧
  (∀ a b c, V a → V b → V c → t.equal a b = 1 → t.equal b c = 1 → t.equal a c = 1)

mutual
/-- Every leaf of the descriptor (every descriptor in it that is not built by
the pointer, array, fixed array, structure or union macro) satisfies `P`. -/
def Descriptor.leaf_types (P : Descriptor → Prop) : Descriptor → Prop
  | .pointer reftype => reftype.leaf_types P
  | .array etype => etype.leaf_types P
  | .fixedarray etype _ => etype.leaf_types P
  | .structure flist => flist.leaf_types P
  | .union flist => flist.leaf_types P
  | .int name size => P (.int name size)
  | .string asnull => P (.string asnull)
  | .data charset => P (.data charset)
  | .fixeddata length => P (.fixeddata length)
  | .null => P .null
  | .array_length => P .array_length
  | .union_field_name => P .union_field_name
/-- Every leaf of the entry types of the field table satisfies `P`. -/
def FieldList.leaf_types (P : Descriptor → Prop) : FieldList → Prop
  | .END => True
  | .FIELD _ type rest => type.leaf_types P ∧ rest.leaf_types P
end

/-- The `equal` of a descriptor is an equivalence relation on its live
values. -/
def Descriptor.equiv (bo : ByteOrder) (T : Descriptor) : Prop :=
  EquivOn (T.type bo) (fun v => T.hasType v = true)

/-! ## structs_json.c: the state of the input machine -/

/-- The constant `MAX_JSON_INPUT_STACK`. -/
def MAX_JSON_INPUT_STACK : Nat := 32

/-- `struct json_input_stackframe`.  The pointer `data` is the way to the item
from the value that is being loaded; a null pointer is `none`. -/
structure json_input_stackframe where
  type : Option Descriptor
  name : Option (List Nat)
  data : Option Loc
  value : Option (List Nat)
  value_len : Nat
  index : Nat

/-- `struct json_input_info` without its logger; `error` is `none` for 0.
The loggers of the library leave `errno` as it is. -/
structure json_input_info where
  error : Option Errno
  depth : Int
  elem_tag : List Nat
  stack : List json_input_stackframe

/-- The memory that a loader works on besides its own state: the value that
the `data` of the caller points to, and `errno` (`none` is 0). -/
structure loader_memory where
  data : Value
  errno : Option Errno

/-- The memory after a call that failed with `e`: a failure that does not
store into `errno` leaves the number of an earlier failure there. -/
def loader_memory.failed (mem : loader_memory) (e : Errno) : loader_memory :=
  if e = .unset then mem else { mem with errno := some e }

/-- The memory after a call that worked in place on the item read at `data`
and left it as `item`.  The three read-only items are views of their array or
union; no call of a loader changes one. -/
def loader_memory.store (mem : loader_memory) (data : Loc) (item : Value) : loader_memory :=
  { mem with data := (mem.data.write data item).getD mem.data }

/-- A frame after `memset(frame, 0, sizeof(*frame))`. -/
def json_input_stackframe.zero : json_input_stackframe :=
  ⟨none, none, none, none, 0, 0⟩

/-- The frame `info->stack[i]`; there is none outside the array. -/
def json_input_info.frame (info : json_input_info) (i : Int) : Option json_input_stackframe :=
  if 0 ≤ i ∧ i < MAX_JSON_INPUT_STACK then info.stack[i.toNat]? else none

/-- A store to the frame `info->stack[i]`. -/
def json_input_info.set_frame (info : json_input_info) (i : Int)
    (frame : json_input_stackframe) : json_input_info :=
  { info with stack := info.stack.set i.toNat frame }

/-- The state of a machine that has done what C does not define; the mark is
kept in `error`, so that the machine stops. -/
def json_input_info.undefined (info : json_input_info) : json_input_info :=
  { info with error := some .undefined }

/-! ## structs_json.c: structs_json_input_pop -/

/-- `structs_json_input_pop`; the assertion is compiled out, and a frame below
the stack is outside the array. -/
def structs_json_input_pop (info : json_input_info) : json_input_info :=
  match info.frame info.depth with
  | none => info.undefined
  | some _ =>
    { info.set_frame info.depth json_input_stackframe.zero with depth := info.depth - 1 }

/-! ## structs_json.c: structs_json_input_next -/

/-- The loop of `structs_json_input_next` that follows the pointers. -/
def structs_json_input_next_deref : Descriptor → Loc → Descriptor × Loc
  | .pointer reftype, data => structs_json_input_next_deref reftype (data ++ [.deref])
  | type, data => (type, data)

/-- The end of `structs_json_input_next`: the check of the depth and the new
frame. -/
def structs_json_input_next_frame (info : json_input_info) (type : Descriptor) (data : Loc) :
    json_input_info :=
  if info.depth = MAX_JSON_INPUT_STACK - 1 then { info with error := some .EMLINK }
  else
    match info.frame (info.depth + 1) with
    | none => info.undefined
    | some frame =>
      { info.set_frame (info.depth + 1) { frame with type := some type, data := some data }
        with depth := info.depth + 1 }

/-- `structs_json_input_next`.  An array is emptied, a fixed array is replaced
by a new one and the `index` of the frame above the current one is reset
before the depth is checked. -/
def structs_json_input_next (bo : ByteOrder) (info : json_input_info) (mem : loader_memory)
    (type : Descriptor) (data : Loc) : json_input_info × loader_memory :=
  match structs_json_input_next_deref type data with
  | (.array etype, data1) =>
    match mem.data.read bo data1 with
    | none => (info.undefined, mem)
    | some old =>
      match (Descriptor.array etype).uninit bo old with
      | .error _ => (info.undefined, mem)
      | .ok _ =>
        (structs_json_input_next_frame info (.array etype) data1, mem.store data1 (.array []))
  | (.fixedarray etype alen, data1) =>
    match ((Descriptor.fixedarray etype alen).type bo).init with
    | .error e => ({ info with error := (mem.failed e).errno }, mem.failed e)
    | .ok fresh =>
      match mem.data.read bo data1 with
      | none => (info.undefined, mem)
      | some old =>
        match (Descriptor.fixedarray etype alen).uninit bo old with
        | .error _ => (info.undefined, mem)
        | .ok _ =>
          match info.frame (info.depth + 1) with
          | none => (info.undefined, mem.store data1 fresh)
          | some above =>
            (structs_json_input_next_frame
                (info.set_frame (info.depth + 1) { above with index := 0 })
                (.fixedarray etype alen) data1,
              mem.store data1 fresh)
  | (type1, data1) => (structs_json_input_next_frame info type1 data1, mem)

/-! ## structs_json.c: structs_json_input_nest -/

/-- The cases `STRUCTS_TYPE_STRUCTURE` and `STRUCTS_TYPE_UNION` of
`structs_json_input_nest`: the field is looked up by `structs_find`, which
switches a union. -/
def structs_json_input_nest_find (bo : ByteOrder) (info : json_input_info)
    (mem : loader_memory) (frame : json_input_stackframe) (type : Descriptor) :
    json_input_info × loader_memory × Option (Descriptor × Loc) :=
  match frame.data with
  | none => (info.undefined, mem, none)
  | some data =>
    match mem.data.read bo data with
    | none => (info.undefined, mem, none)
    | some item =>
      match structs_find bo type frame.name item true with
      | (item1, .error e) =>
        if ((mem.store data item1).failed e).errno = some .ENOENT then
          ({ info with error := some .EINVAL }, (mem.store data item1).failed e, none)
        else
          ({ info with error := ((mem.store data item1).failed e).errno },
            (mem.store data item1).failed e, none)
      | (item1, .ok (ftype, loc)) => (info, mem.store data item1, some (ftype, data ++ loc))

/-- `structs_json_input_nest` on the frame `info->stack[info->depth]`: the
state after the call and the `*typep` and `*datap` it stores, if it does.
Allocation does not fail.  A frame of a pointer type runs into the compiled-out
assertion and returns without an error. -/
def structs_json_input_nest (bo : ByteOrder) (info : json_input_info) (mem : loader_memory) :
    json_input_info × loader_memory × Option (Descriptor × Loc) :=
  match info.frame info.depth with
  | none => (info.undefined, mem, none)
  | some frame =>
    match frame.type with
    | none => (info.undefined, mem, none)
    | some (.pointer _) => (info, mem, none)
    | some (.structure flist) =>
      structs_json_input_nest_find bo info mem frame (.structure flist)
    | some (.union flist) => structs_json_input_nest_find bo info mem frame (.union flist)
    | some (.array etype) =>
      match frame.data with
      | none => (info.undefined, mem, none)
      | some data =>
        match mem.data.read bo data with
        | some (.array elems) =>
          if elems.length + 1 ≥ 2 ^ 32 then (info.undefined, mem, none)
          else
            match (etype.type bo).init with
            | .error e => ({ info with error := (mem.failed e).errno }, mem.failed e, none)
            | .ok elem =>
              (info, mem.store data (.array (elems ++ [elem])),
                some (etype, data ++ [.elem elems.length]))
        | _ => (info.undefined, mem, none)
    | some (.fixedarray etype alen) =>
      if frame.index ≥ alen then ({ info with error := some .EINVAL }, mem, none)
      else
        match frame.data with
        | none => (info.undefined, mem, none)
        | some data =>
          (info.set_frame info.depth { frame with index := frame.index + 1 }, mem,
            some (etype, data ++ [.felem frame.index]))
    | some _ => ({ info with error := some .EINVAL }, mem, none)

/-! ## structs_json.c: structs_json_input_start -/

/-- The statements after the label `done` of `structs_json_input_start`:
`frame` is the frame of the depth at which the function was entered. -/
def structs_json_input_start_done (info : json_input_info) (depth : Int) : json_input_info :=
  match info.frame depth with
  | none => info.undefined
  | some frame => info.set_frame depth { frame with name := none }

/-- The name that `structs_json_input_start` stores into its frame: the key,
or without a key the name of the frame below, read by `strdup`; the failure
is the `error` it records. -/
def structs_json_input_start_name (info : json_input_info) (key : Option (List Nat)) :
    Except Errno (List Nat) :=
  match key with
  | some k => .ok k
  | none =>
    if info.depth = 0 then .error .EINVAL
    else
      match info.frame (info.depth - 1) with
      | none => .error .undefined
      | some last_frame =>
        match last_frame.name with
        | none => .error .undefined
        | some name => .ok name

/-- The part of `structs_json_input_start` for the top level: the name must be
the tag, and the item to load is that of the first frame.  A frame of the
stack holds a `type` and a `data`; a null one is read through. -/
def structs_json_input_start_top (bo : ByteOrder) (info : json_input_info)
    (mem : loader_memory) (frame : json_input_stackframe) (name : List Nat) :
    json_input_info × loader_memory :=
  if name ≠ info.elem_tag then
    (structs_json_input_start_done { info with error := some .EINVAL } info.depth, mem)
  else
    match frame.type, frame.data with
    | some type, some data =>
      (structs_json_input_start_done (structs_json_input_next bo info mem type data).1
          info.depth,
        (structs_json_input_next bo info mem type data).2)
    | _, _ => (info.undefined, mem)

/-- The locals `type` and `data` of `structs_json_input_start` after the call
of `structs_json_input_nest`, which stores `found` into them or leaves them as
they were read from the frame. -/
def structs_json_input_start_item (frame : json_input_stackframe)
    (found : Option (Descriptor × Loc)) : Option (Descriptor × Loc) :=
  match found with
  | some (type, data) => some (type, data)
  | none =>
    match frame.type, frame.data with
    | some type, some data => some (type, data)
    | _, _ => none

/-- The part of `structs_json_input_start` below the top level, after the call
of `structs_json_input_nest` at the depth `depth` has left `info` and `mem`:
the name of the frame is kept when the item is an array or a fixed array. -/
def structs_json_input_start_sub (bo : ByteOrder) (info : json_input_info)
    (mem : loader_memory) (depth : Int) (item : Option (Descriptor × Loc)) :
    json_input_info × loader_memory :=
  if info.error ≠ none then (structs_json_input_start_done info depth, mem)
  else
    match item with
    | none => (info.undefined, mem)
    | some (type, data) =>
      if (structs_json_input_next bo info mem type data).1.error ≠ none then
        (structs_json_input_start_done (structs_json_input_next bo info mem type data).1 depth,
          (structs_json_input_next bo info mem type data).2)
      else if type.tclass = .STRUCTS_TYPE_ARRAY ∨ type.tclass = .STRUCTS_TYPE_FIXEDARRAY then
        structs_json_input_next bo info mem type data
      else
        (structs_json_input_start_done (structs_json_input_next bo info mem type data).1 depth,
          (structs_json_input_next bo info mem type data).2)

/-- `structs_json_input_start`. -/
def structs_json_input_start (bo : ByteOrder) (info : json_input_info) (mem : loader_memory)
    (key : Option (List Nat)) : json_input_info × loader_memory :=
  match info.frame info.depth with
  | none => (info.undefined, mem)
  | some frame =>
    if info.error ≠ none then (info, mem)
    else
      match structs_json_input_start_name info key with
      | .error e => ({ info with error := some e }, mem)
      | .ok name =>
        if info.depth = 0 then
          structs_json_input_start_top bo
            (info.set_frame info.depth { frame with name := some name }) mem frame name
        else
          structs_json_input_start_sub bo
            (structs_json_input_nest bo
              (info.set_frame info.depth { frame with name := some name }) mem).1
            (structs_json_input_nest bo
              (info.set_frame info.depth { frame with name := some name }) mem).2.1
            info.depth
            (structs_json_input_start_item frame
              (structs_json_input_nest bo
                (info.set_frame info.depth { frame with name := some name }) mem).2.2)

/-! ## structs_json.c: structs_json_input_str_value -/

/-- `structs_json_input_str_value`: the text is appended to the `value` of the
frame.  The length `len` is an `int` and `value_len` an `unsigned int`. -/
def structs_json_input_str_value (info : json_input_info) (mem : loader_memory)
    (s : List Nat) : json_input_info × loader_memory :=
  match info.frame info.depth with
  | none => (info.undefined, mem)
  | some frame =>
    if info.error ≠ none then (info, mem)
    else if s.length ≥ 2 ^ 31 ∨ frame.value_len + s.length + 1 ≥ 2 ^ 32 then
      (info.undefined, mem)
    else
      (info.set_frame info.depth
          { frame with
            value := some (frame.value.getD [] ++ s)
            value_len := frame.value_len + s.length },
        mem)

/-! ## structs_json.c: structs_json_input_unnest -/

/-- The test of `structs_json_input_unnest` for text that is not white space:
`value` is not null and the loop over its white space does not end at the
terminator. -/
def json_input_stackframe.has_text (frame : json_input_stackframe) : Bool :=
  match frame.value with
  | none => false
  | some value => decide (skip_space value ≠ [])

/-- The case `STRUCTS_TYPE_PRIMITIVE` of `structs_json_input_unnest`: the text
of the frame is stored into the item by `structs_set_string`; after a failure
the frame stays. -/
def structs_json_input_unnest_set (bo : ByteOrder)
    (leaf_binify : Descriptor → List Nat → Except Errno Value) (info : json_input_info)
    (mem : loader_memory) (frame : json_input_stackframe) (type : Descriptor)
    (data : Loc) : json_input_info × loader_memory :=
  match mem.data.read bo data with
  | none => (info.undefined, mem)
  | some item =>
    match structs_set_string bo leaf_binify type none frame.value item with
    | (item1, .error e) =>
      ({ info with error := ((mem.store data item1).failed e).errno },
        (mem.store data item1).failed e)
    | (item1, .ok _) => (structs_json_input_pop info, mem.store data item1)

/-- The end of `structs_json_input_unnest`: text that is not white space is an
error, otherwise the frame is popped. -/
def structs_json_input_unnest_done (info : json_input_info) (mem : loader_memory)
    (frame : json_input_stackframe) : json_input_info × loader_memory :=
  if frame.has_text = true then ({ info with error := some .EINVAL }, mem)
  else (structs_json_input_pop info, mem)

/-- `structs_json_input_unnest`.  For a union with text, the entry
`type->args[0].v` of an empty field table is the sentinel, whose `type` is
null. -/
def structs_json_input_unnest (bo : ByteOrder)
    (leaf_binify : Descriptor → List Nat → Except Errno Value) (info : json_input_info)
    (mem : loader_memory) : json_input_info × loader_memory :=
  match info.frame info.depth with
  | none => (info.undefined, mem)
  | some frame =>
    if info.error ≠ none then (info, mem)
    else
      match frame.type with
      | none => (info.undefined, mem)
      | some (.union flist) =>
        if frame.has_text = false then (structs_json_input_pop info, mem)
        else
          match flist with
          | .END => (info.undefined, mem)
          | .FIELD fname ftype _ =>
            if ftype.tclass ≠ .STRUCTS_TYPE_PRIMITIVE then
              structs_json_input_unnest_done info mem frame
            else
              match frame.data with
              | none => (info.undefined, mem)
              | some data =>
                match mem.data.read bo data with
                | none => (info.undefined, mem)
                | some item =>
                  match structs_union_set bo (.union flist) none item fname with
                  | (item1, .error e) =>
                    ({ info with error := ((mem.store data item1).failed e).errno },
                      (mem.store data item1).failed e)
                  | (item1, .ok _) =>
                    structs_json_input_unnest_set bo leaf_binify info (mem.store data item1)
                      frame ftype (data ++ [.un])
      | some type =>
        if type.tclass = .STRUCTS_TYPE_PRIMITIVE then
          match frame.data with
          | none => (info.undefined, mem)
          | some data => structs_json_input_unnest_set bo leaf_binify info mem frame type data
        else structs_json_input_unnest_done info mem frame

/-- `structs_json_input_end`. -/
def structs_json_input_end (bo : ByteOrder)
    (leaf_binify : Descriptor → List Nat → Except Errno Value) (info : json_input_info)
    (mem : loader_memory) : json_input_info × loader_memory :=
  structs_json_input_unnest bo leaf_binify info mem

/-! ## structs_json.c: the document and structs_json_input -/

mutual
/-- Modelled from the spec: the document tree that `json_loadb` of the jansson
library gives for an input; the library is not among the sources.  The
members of an object and the items of an array are in the order in which
`json_object_foreach` and `json_array_foreach` visit them; a real number
holds the text that `%g` prints for it. -/
inductive json_t where
  | JSON_OBJECT (members : json_members)
  | JSON_ARRAY (items : json_items)
  | JSON_STRING (str : List Nat)
  | JSON_INTEGER (value : Int)
  | JSON_REAL (text : List Nat)
  | JSON_TRUE
  | JSON_FALSE
  | JSON_NULL
/-- The members of an object. -/
inductive json_members where
  | done
  | member (key : List Nat) (jvalue : json_t) (rest : json_members)
/-- The items of an array. -/
inductive json_items where
  | done
  | item (jvalue : json_t) (rest : json_items)
end

/-- The text that `%lld` prints for a `long long`. -/
def printf_lld (i : Int) : List Nat :=
  if i < 0 then 45 :: printf_d (-i).toNat else printf_d i.toNat

/-- The statement after the loop over the items of an array in
`structs_json_input_data`: the name that the frame below kept for the
elements is freed. -/
def structs_json_input_data_array_done (info : json_input_info) : json_input_info :=
  if info.depth > 0 then
    match info.frame (info.depth - 1) with
    | none => info.undefined
    | some below =>
      match below.name with
      | none => info
      | some _ => info.set_frame (info.depth - 1) { below with name := none }
  else info

mutual
/-- `structs_json_input_data`. -/
def structs_json_input_data (bo : ByteOrder)
    (leaf_binify : Descriptor → List Nat → Except Errno Value) :
    json_t → json_input_info × loader_memory → json_input_info × loader_memory
  | .JSON_OBJECT members, s => structs_json_input_data_object bo leaf_binify members s
  | .JSON_ARRAY .done, s => s
  | .JSON_ARRAY (.item jvalue rest), s =>
    let r := structs_json_input_data_array bo leaf_binify (.item jvalue rest) s
    (structs_json_input_data_array_done r.1, r.2)
  | .JSON_STRING str, s => structs_json_input_str_value s.1 s.2 str
  | .JSON_INTEGER value, s => structs_json_input_str_value s.1 s.2 (printf_lld value)
  | .JSON_REAL text, s => structs_json_input_str_value s.1 s.2 text
  | .JSON_TRUE, s => structs_json_input_str_value s.1 s.2 [49]
  | .JSON_FALSE, s => structs_json_input_str_value s.1 s.2 [48]
  | .JSON_NULL, s => s
/-- The loop of `structs_json_input_data` over the members of an object. -/
def structs_json_input_data_object (bo : ByteOrder)
    (leaf_binify : Descriptor → List Nat → Except Errno Value) :
    json_members → json_input_info × loader_memory → json_input_info × loader_memory
  | .done, s => s
  | .member key jvalue rest, s =>
    let s1 := structs_json_input_start bo s.1 s.2 (some key)
    let s2 := structs_json_input_data bo leaf_binify jvalue s1
    let s3 := structs_json_input_end bo leaf_binify s2.1 s2.2
    structs_json_input_data_object bo leaf_binify rest s3
/-- The loop of `structs_json_input_data` over the items of an array. -/
def structs_json_input_data_array (bo : ByteOrder)
    (leaf_binify : Descriptor → List Nat → Except Errno Value) :
    json_items → json_input_info × loader_memory → json_input_info × loader_memory
  | .done, s => s
  | .item jvalue rest, s =>
    let s1 := structs_json_input_start bo s.1 s.2 none
    let s2 := structs_json_input_data bo leaf_binify jvalue s1
    let s3 := structs_json_input_end bo leaf_binify s2.1 s2.2
    structs_json_input_data_array bo leaf_binify rest s3
end

/-- The state that `structs_json_input` sets up before it parses: the info
from `calloc` with the tag and the first frame. -/
def structs_json_input_info (type : Descriptor) (elem_tag : List Nat) : json_input_info :=
  { error := none
    depth := 0
    elem_tag := elem_tag
    stack :=
      { json_input_stackframe.zero with type := some type, data := some [] } ::
        List.replicate (MAX_JSON_INPUT_STACK - 1) json_input_stackframe.zero }

/-- The loop `while (info->depth >= 0) structs_json_input_pop(info)`; each turn
lowers the depth by one, `turns` is the number of turns left. -/
def structs_json_input_pop_all : Nat → json_input_info → json_input_info
  | 0, info => info
  | turns + 1, info =>
    if info.depth ≥ 0 then structs_json_input_pop_all turns (structs_json_input_pop info)
    else info

/-- `structs_json_input` for arguments that are not null and an input that is
not empty: the return value and the memory after the call.  `parsed` is the
result of `json_loadb` on the input, `none` for a null result; `errno` is the
value before the call.  After a failure of the first `init` the function
reads its local `info`, which is not initialised then. -/
def structs_json_input (bo : ByteOrder)
    (leaf_binify : Descriptor → List Nat → Except Errno Value) (type : Descriptor)
    (elem_tag : List Nat) (parsed : Option json_t) (errno : Option Errno) :
    Except Errno (Int × loader_memory) :=
  match (type.type bo).init with
  | .error _ => .error .undefined
  | .ok data =>
    match parsed with
    | none => .ok (-1, ⟨data, errno⟩)
    | some result =>
      let r := structs_json_input_data bo leaf_binify result
        (structs_json_input_info type elem_tag, ⟨data, errno⟩)
      let retval : Int := if r.1.error ≠ none then -1 else 0
      if (structs_json_input_pop_all (r.1.depth + 1).toNat r.1).error = some .undefined then
        .error .undefined
      else .ok (retval, r.2)

/-! ## The events of a loader -/

/-- The three calls through which a front-end drives the machine of a loader:
`start` with a key or with a null key, `str_value` with a text, and `end`. -/
inductive loader_event where
  | start (key : Option (List Nat))
  | str_value (s : List Nat)
  | finish

/-- The JSON machine on one event. -/
def structs_json_input_event (bo : ByteOrder)
    (leaf_binify : Descriptor → List Nat → Except Errno Value) :
    loader_event → json_input_info × loader_memory → json_input_info × loader_memory
  | .start key, s => structs_json_input_start bo s.1 s.2 key
  | .str_value text, s => structs_json_input_str_value s.1 s.2 text
  | .finish, s => structs_json_input_end bo leaf_binify s.1 s.2

/-- The JSON machine on a sequence of events. -/
def structs_json_input_events (bo : ByteOrder)
    (leaf_binify : Descriptor → List Nat → Except Errno Value) :
    List loader_event → json_input_info × loader_memory → json_input_info × loader_memory
  | [], s => s
  | event :: events, s =>
    structs_json_input_events bo leaf_binify events
      (structs_json_input_event bo leaf_binify event s)

/-! ## structs_pack.c: the state of the unpack machine -/

/-- The constant `MAX_UNPACK_STACK`. -/
def MAX_UNPACK_STACK : Nat := 32

/-- `struct unpack_stackframe`.  The pointer `data` is the way to the item
from the value that is being loaded; a null pointer is `none`. -/
structure unpack_stackframe where
  type : Option Descriptor
  name : Option (List Nat)
  data : Option Loc
  value : Option (List Nat)
  value_len : Nat
  index : Nat

/-- `struct unpack_info` without its logger; `error` is `none` for 0.
The loggers of the library leave `errno` as it is. -/
structure unpack_info where
  error : Option Errno
  depth : Int
  elem_tag : List Nat
  stack : List unpack_stackframe

/-- A frame after `memset(frame, 0, sizeof(*frame))`. -/
def unpack_stackframe.zero : unpack_stackframe :=
  ⟨none, none, none, none, 0, 0⟩

/-- The frame `info->stack[i]`; there is none outside the array. -/
def unpack_info.frame (info : unpack_info) (i : Int) : Option unpack_stackframe :=
  if 0 ≤ i ∧ i < MAX_UNPACK_STACK then info.stack[i.toNat]? else none

/-- A store to the frame `info->stack[i]`. -/
def unpack_info.set_frame (info : unpack_info) (i : Int)
    (frame : unpack_stackframe) : unpack_info :=
  { info with stack := info.stack.set i.toNat frame }

/-- The state of a machine that has done what C does not define; the mark is
kept in `error`, so that the machine stops. -/
def unpack_info.undefined (info : unpack_info) : unpack_info :=
  { info with error := some .undefined }

/-! ## structs_pack.c: structs_unpack_pop -/

/-- `structs_unpack_pop`; the assertion is compiled out, and a frame below
the stack is outside the array. -/
def structs_unpack_pop (info : unpack_info) : unpack_info :=
  match info.frame info.depth with
  | none => info.undefined
  | some _ =>
    { info.set_frame info.depth unpack_stackframe.zero with depth := info.depth - 1 }

/-! ## structs_pack.c: structs_unpack_next -/

/-- The loop of `structs_unpack_next` that follows the pointers. -/
def structs_unpack_next_deref : Descriptor → Loc → Descriptor × Loc
  | .pointer reftype, data => structs_unpack_next_deref reftype (data ++ [.deref])
  | type, data => (type, data)

/-- The end of `structs_unpack_next`: the check of the depth and the new
frame. -/
def structs_unpack_next_frame (info : unpack_info) (type : Descriptor) (data : Loc) :
    unpack_info :=
  if info.depth = MAX_UNPACK_STACK - 1 then { info with error := some .EMLINK }
  else
    match info.frame (info.depth + 1) with
    | none => info.undefined
    | some frame =>
      { info.set_frame (info.depth + 1) { frame with type := some type, data := some data }
        with depth := info.depth + 1 }

/-- `structs_unpack_next`.  An array is emptied, a fixed array is replaced
by a new one and the `index` of the frame above the current one is reset
before the depth is checked. -/
def structs_unpack_next (bo : ByteOrder) (info : unpack_info) (mem : loader_memory)
    (type : Descriptor) (data : Loc) : unpack_info × loader_memory :=
  match structs_unpack_next_deref type data with
  | (.array etype, data1) =>
    match mem.data.read bo data1 with
    | none => (info.undefined, mem)
    | some old =>
      match (Descriptor.array etype).uninit bo old with
      | .error _ => (info.undefined, mem)
      | .ok _ =>
        (structs_unpack_next_frame info (.array etype) data1, mem.store data1 (.array []))
  | (.fixedarray etype alen, data1) =>
    match ((Descriptor.fixedarray etype alen).type bo).init with
    | .error e => ({ info with error := (mem.failed e).errno }, mem.failed e)
    | .ok fresh =>
      match mem.data.read bo data1 with
      | none => (info.undefined, mem)
      | some old =>
        match (Descriptor.fixedarray etype alen).uninit bo old with
        | .error _ => (info.undefined, mem)
        | .ok _ =>
          match info.frame (info.depth + 1) with
          | none => (info.undefined, mem.store data1 fresh)
          | some above =>
            (structs_unpack_next_frame
                (info.set_frame (info.depth + 1) { above with index := 0 })
                (.fixedarray etype alen) data1,
              mem.store data1 fresh)
  | (type1, data1) => (structs_unpack_next_frame info type1 data1, mem)

/-! ## structs_pack.c: structs_unpack_nest -/

/-- The cases `STRUCTS_TYPE_STRUCTURE` and `STRUCTS_TYPE_UNION` of
`structs_unpack_nest`: the field is looked up by `structs_find`, which
switches a union. -/
def structs_unpack_nest_find (bo : ByteOrder) (info : unpack_info)
    (mem : loader_memory) (frame : unpack_stackframe) (type : Descriptor) :
    unpack_info × loader_memory × Option (Descriptor × Loc) :=
  match frame.data with
  | none => (info.undefined, mem, none)
  | some data =>
    match mem.data.read bo data with
    | none => (info.undefined, mem, none)
    | some item =>
      match structs_find bo type frame.name item true with
      | (item1, .error e) =>
        if ((mem.store data item1).failed e).errno = some .ENOENT then
          ({ info with error := some .EINVAL }, (mem.store data item1).failed e, none)
        else
          ({ info with error := ((mem.store data item1).failed e).errno },
            (mem.store data item1).failed e, none)
      | (item1, .ok (ftype, loc)) => (info, mem.store data item1, some (ftype, data ++ loc))

/-- `structs_unpack_nest` on the frame `info->stack[info->depth]`: the
state after the call and the `*typep` and `*datap` it stores, if it does.
Allocation does not fail.  A frame of a pointer type runs into the compiled-out
assertion and returns without an error. -/
def structs_unpack_nest (bo : ByteOrder) (info : unpack_info) (mem : loader_memory) :
    unpack_info × loader_memory × Option (Descriptor × Loc) :=
  match info.frame info.depth with
  | none => (info.undefined, mem, none)
  | some frame =>
    match frame.type with
    | none => (info.undefined, mem, none)
    | some (.pointer _) => (info, mem, none)
    | some (.structure flist) =>
      structs_unpack_nest_find bo info mem frame (.structure flist)
    | some (.union flist) => structs_unpack_nest_find bo info mem frame (.union flist)
    | some (.array etype) =>
      match frame.data with
      | none => (info.undefined, mem, none)
      | some data =>
        match mem.data.read bo data with
        | some (.array elems) =>
          if elems.length + 1 ≥ 2 ^ 32 then (info.undefined, mem, none)
          else
            match (etype.type bo).init with
            | .error e => ({ info with error := (mem.failed e).errno }, mem.failed e, none)
            | .ok elem =>
              (info, mem.store data (.array (elems ++ [elem])),
                some (etype, data ++ [.elem elems.length]))
        | _ => (info.undefined, mem, none)
    | some (.fixedarray etype alen) =>
      if frame.index ≥ alen then ({ info with error := some .EINVAL }, mem, none)
      else
        match frame.data with
        | none => (info.undefined, mem, none)
        | some data =>
          (info.set_frame info.depth { frame with index := frame.index + 1 }, mem,
            some (etype, data ++ [.felem frame.index]))
    | some _ => ({ info with error := some .EINVAL }, mem, none)

/-! ## structs_pack.c: structs_unpack_start -/

/-- The statements after the label `done` of `structs_unpack_start`:
`frame` is the frame of the depth at which the function was entered. -/
def structs_unpack_start_done (info : unpack_info) (depth : Int) : unpack_info :=
  match info.frame depth with
  | none => info.undefined
  | some frame => info.set_frame depth { frame with name := none }

/-- The name that `structs_unpack_start` stores into its frame: the key,
or without a key the name of the frame below, read by `strdup`; the failure
is the `error` it records. -/
def structs_unpack_start_name (info : unpack_info) (key : Option (List Nat)) :
    Except Errno (List Nat) :=
  match key with
  | some k => .ok k
  | none =>
    if info.depth = 0 then .error .EINVAL
    else
      match info.frame (info.depth - 1) with
      | none => .error .undefined
      | some last_frame =>
        match last_frame.name with
        | none => .error .undefined
        | some name => .ok name

/-- The part of `structs_unpack_start` for the top level: the name must be
the tag, and the item to load is that of the first frame.  A frame of the
stack holds a `type` and a `data`; a null one is read through. -/
def structs_unpack_start_top (bo : ByteOrder) (info : unpack_info)
    (mem : loader_memory) (frame : unpack_stackframe) (name : List Nat) :
    unpack_info × loader_memory :=
  if name ≠ info.elem_tag then
    (structs_unpack_start_done { info with error := some .EINVAL } info.depth, mem)
  else
    match frame.type, frame.data with
    | some type, some data =>
      (structs_unpack_start_done (structs_unpack_next bo info mem type data).1
          info.depth,
        (structs_unpack_next bo info mem type data).2)
    | _, _ => (info.undefined, mem)

/-- The locals `type` and `data` of `structs_unpack_start` after the call
of `structs_unpack_nest`, which stores `found` into them or leaves them as
they were read from the frame. -/
def structs_unpack_start_item (frame : unpack_stackframe)
    (found : Option (Descriptor × Loc)) : Option (Descriptor × Loc) :=
  match found with
  | some (type, data) => some (type, data)
  | none =>
    match frame.type, frame.data with
    | some type, some data => some (type, data)
    | _, _ => none

/-- The part of `structs_unpack_start` below the top level, after the call
of `structs_unpack_nest` at the depth `depth` has left `info` and `mem`:
the name of the frame is kept when the item is an array or a fixed array. -/
def structs_unpack_start_sub (bo : ByteOrder) (info : unpack_info)
    (mem : loader_memory) (depth : Int) (item : Option (Descriptor × Loc)) :
    unpack_info × loader_memory :=
  if info.error ≠ none then (structs_unpack_start_done info depth, mem)
  else
    match item with
    | none => (info.undefined, mem)
    | some (type, data) =>
      if (structs_unpack_next bo info mem type data).1.error ≠ none then
        (structs_unpack_start_done (structs_unpack_next bo info mem type data).1 depth,
          (structs_unpack_next bo info mem type data).2)
      else if type.tclass = .STRUCTS_TYPE_ARRAY ∨ type.tclass = .STRUCTS_TYPE_FIXEDARRAY then
        structs_unpack_next bo info mem type data
      else
        (structs_unpack_start_done (structs_unpack_next bo info mem type data).1 depth,
          (structs_unpack_next bo info mem type data).2)

/-- `structs_unpack_start`. -/
def structs_unpack_start (bo : ByteOrder) (info : unpack_info) (mem : loader_memory)
    (key : Option (List Nat)) : unpack_info × loader_memory :=
  match info.frame info.depth with
  | none => (info.undefined, mem)
  | some frame =>
    if info.error ≠ none then (info, mem)
    else
      match structs_unpack_start_name info key with
      | .error e => ({ info with error := some e }, mem)
      | .ok name =>
        if info.depth = 0 then
          structs_unpack_start_top bo
            (info.set_frame info.depth { frame with name := some name }) mem frame name
        else
          structs_unpack_start_sub bo
            (structs_unpack_nest bo
              (info.set_frame info.depth { frame with name := some name }) mem).1
            (structs_unpack_nest bo
              (info.set_frame info.depth { frame with name := some name }) mem).2.1
            info.depth
            (structs_unpack_start_item frame
              (structs_unpack_nest bo
                (info.set_frame info.depth { frame with name := some name }) mem).2.2)

/-! ## structs_pack.c: structs_unpack_str_value -/

/-- `structs_unpack_str_value`: the text is appended to the `value` of the
frame.  The length `len` is an `int` and `value_len` an `unsigned int`. -/
def structs_unpack_str_value (info : unpack_info) (mem : loader_memory)
    (s : List Nat) : unpack_info × loader_memory :=
  match info.frame info.depth with
  | none => (info.undefined, mem)
  | some frame =>
    if info.error ≠ none then (info, mem)
    else if s.length ≥ 2 ^ 31 ∨ frame.value_len + s.length + 1 ≥ 2 ^ 32 then
      (info.undefined, mem)
    else
      (info.set_frame info.depth
          { frame with
            value := some (frame.value.getD [] ++ s)
            value_len := frame.value_len + s.length },
        mem)

/-! ## structs_pack.c: structs_unpack_unnest -/

/-- The test of `structs_unpack_unnest` for text that is not white space:
`value` is not null and the loop over its white space does not end at the
terminator. -/
def unpack_stackframe.has_text (frame : unpack_stackframe) : Bool :=
  match frame.value with
  | none => false
  | some value => decide (skip_space value ≠ [])

/-- The case `STRUCTS_TYPE_PRIMITIVE` of `structs_unpack_unnest`: the text
of the frame is stored into the item by `structs_set_string`; after a failure
the frame stays. -/
def structs_unpack_unnest_set (bo : ByteOrder)
    (leaf_binify : Descriptor → List Nat → Except Errno Value) (info : unpack_info)
    (mem : loader_memory) (frame : unpack_stackframe) (type : Descriptor)
    (data : Loc) : unpack_info × loader_memory :=
  match mem.data.read bo data with
  | none => (info.undefined, mem)
  | some item =>
    match structs_set_string bo leaf_binify type none frame.value item with
    | (item1, .error e) =>
      ({ info with error := ((mem.store data item1).failed e).errno },
        (mem.store data item1).failed e)
    | (item1, .ok _) => (structs_unpack_pop info, mem.store data item1)

/-- The end of `structs_unpack_unnest`: text that is not white space is an
error, otherwise the frame is popped. -/
def structs_unpack_unnest_done (info : unpack_info) (mem : loader_memory)
    (frame : unpack_stackframe) : unpack_info × loader_memory :=
  if frame.has_text = true then ({ info with error := some .EINVAL }, mem)
  else (structs_unpack_pop info, mem)

/-- `structs_unpack_unnest`.  For a union with text, the entry
`type->args[0].v` of an empty field table is the sentinel, whose `type` is
null. -/
def structs_unpack_unnest (bo : ByteOrder)
    (leaf_binify : Descriptor → List Nat → Except Errno Value) (info : unpack_info)
    (mem : loader_memory) : unpack_info × loader_memory :=
  match info.frame info.depth with
  | none => (info.undefined, mem)
  | some frame =>
    if info.error ≠ none then (info, mem)
    else
      match frame.type with
      | none => (info.undefined, mem)
      | some (.union flist) =>
        if frame.has_text = false then (structs_unpack_pop info, mem)
        else
          match flist with
          | .END => (info.undefined, mem)
          | .FIELD fname ftype _ =>
            if ftype.tclass ≠ .STRUCTS_TYPE_PRIMITIVE then
              structs_unpack_unnest_done info mem frame
            else
              match frame.data with
              | none => (info.undefined, mem)
              | some data =>
                match mem.data.read bo data with
                | none => (info.undefined, mem)
                | some item =>
                  match structs_union_set bo (.union flist) none item fname with
                  | (item1, .error e) =>
                    ({ info with error := ((mem.store data item1).failed e).errno },
                      (mem.store data item1).failed e)
                  | (item1, .ok _) =>
                    structs_unpack_unnest_set bo leaf_binify info (mem.store data item1)
                      frame ftype (data ++ [.un])
      | some type =>
        if type.tclass = .STRUCTS_TYPE_PRIMITIVE then
          match frame.data with
          | none => (info.undefined, mem)
          | some data => structs_unpack_unnest_set bo leaf_binify info mem frame type data
        else structs_unpack_unnest_done info mem frame

/-- `structs_unpack_end`. -/
def structs_unpack_end (bo : ByteOrder)
    (leaf_binify : Descriptor → List Nat → Except Errno Value) (info : unpack_info)
    (mem : loader_memory) : unpack_info × loader_memory :=
  structs_unpack_unnest bo leaf_binify info mem

/-- The MessagePack machine on one event. -/
def structs_unpack_event (bo : ByteOrder)
    (leaf_binify : Descriptor → List Nat → Except Errno Value) :
    loader_event → unpack_info × loader_memory → unpack_info × loader_memory
  | .start key, s => structs_unpack_start bo s.1 s.2 key
  | .str_value text, s => structs_unpack_str_value s.1 s.2 text
  | .finish, s => structs_unpack_end bo leaf_binify s.1 s.2

/-- The MessagePack machine on a sequence of events. -/
def structs_unpack_events (bo : ByteOrder)
    (leaf_binify : Descriptor → List Nat → Except Errno Value) :
    List loader_event → unpack_info × loader_memory → unpack_info × loader_memory
  | [], s => s
  | event :: events, s =>
    structs_unpack_events bo leaf_binify events (structs_unpack_event bo leaf_binify event s)

/-! ## The two machines side by side -/

/-- A frame of the MessagePack machine read as a frame of the JSON machine,
member by member. -/
def unpack_stackframe.json (frame : unpack_stackframe) : json_input_stackframe :=
  { type := frame.type
    name := frame.name
    data := frame.data
    value := frame.value
    value_len := frame.value_len
    index := frame.index }

/-- The state of the MessagePack machine read as a state of the JSON machine:
the same error code, depth and tag, and the same frames. -/
def unpack_info.json (info : unpack_info) : json_input_info :=
  { error := info.error
    depth := info.depth
    elem_tag := info.elem_tag
    stack := info.stack.map unpack_stackframe.json }

/-- A state of the MessagePack machine with its memory, read as one of the
JSON machine. -/
def unpack_info.json_state (s : unpack_info × loader_memory) :
    json_input_info × loader_memory :=
  (s.1.json, s.2)

/-- The state that `structs_unpack` sets up before it unpacks: the info from
`calloc` with the tag and the first frame. -/
def structs_unpack_info (type : Descriptor) (elem_tag : List Nat) : unpack_info :=
  { error := none
    depth := 0
    elem_tag := elem_tag
    stack :=
      { unpack_stackframe.zero with type := some type, data := some [] } ::
        List.replicate (MAX_UNPACK_STACK - 1) unpack_stackframe.zero }

/-! ## The bounds of a state -/

/-- The bounds that a state of the JSON machine keeps: the stack has its
`MAX_JSON_INPUT_STACK` frames and the depth is at least -1 and below
`MAX_JSON_INPUT_STACK`. -/
def json_input_info.bounded (info : json_input_info) : Prop :=
  info.stack.length = MAX_JSON_INPUT_STACK ∧ -1 ≤ info.depth ∧
    info.depth < MAX_JSON_INPUT_STACK

/-! ## A descriptor as deep as the stack -/

/-- The descriptor `type` under `n` structures of one field "f" each. -/
def depth_chain : Nat → Descriptor → Descriptor
  | 0, type => type
  | n + 1, type => .structure (.FIELD [102] (depth_chain n type) .END)

/-- A value of `depth_chain n type` from a value of `type`. -/
def depth_chain_value : Nat → Value → Value
  | 0, data => data
  | n + 1, data => .structure [depth_chain_value n data]

/-- The events of the document that opens the tag "r" and then `n` members
"f", one inside the other. -/
def depth_chain_events (n : Nat) : List loader_event :=
  .start (some [114]) :: List.replicate n (.start (some [102]))

/-- The document of `n` objects of one member "f" each, one inside the other,
around the document `obj`. -/
def depth_chain_doc : Nat → json_t → json_t
  | 0, obj => obj
  | n + 1, obj => .JSON_OBJECT (.member [102] (depth_chain_doc n obj) .done)

/-! ## Scenario E5 of the loader -/

/-- The element descriptor of scenario E5, `{ a: int }`, over an integer leaf. -/
def E5_elem (name : String) (size : Nat) : Descriptor :=
  .structure (.FIELD [97] (.int name size) .END)

/-- The descriptor of scenario E5, `{ arr: array of { a: int } }`. -/
def E5_type (name : String) (size : Nat) : Descriptor :=
  .structure (.FIELD [97, 114, 114] (.array (E5_elem name size)) .END)

/-- The members of the object under "root" in the document of scenario E5:
`"arr":[{"a":1},{"a":2}]`. -/
def E5_members : json_members :=
  .member [97, 114, 114]
    (.JSON_ARRAY (.item (.JSON_OBJECT (.member [97] (.JSON_INTEGER 1) .done))
      (.item (.JSON_OBJECT (.member [97] (.JSON_INTEGER 2) .done)) .done))) .done

/-- The document of scenario E5: `{"root":{"arr":[{"a":1},{"a":2}]}}`. -/
def E5_doc : json_t :=
  .JSON_OBJECT (.member [114, 111, 111, 116] (.JSON_OBJECT E5_members) .done)

/-- A state of the JSON machine in scenario E5: no error, the tag "root", and
the frames `frames` at the bottom of the stack, the others zero. -/
def E5_info (depth : Int) (frames : List json_input_stackframe) : json_input_info :=
  { error := none
    depth := depth
    elem_tag := [114, 111, 111, 116]
    stack := frames ++ List.replicate (MAX_JSON_INPUT_STACK - frames.length)
      json_input_stackframe.zero }

/-- A frame with a type, a name and a location, an index of 0 and the text
`value`. -/
def E5_frame (type : Descriptor) (name : Option (List Nat)) (data : Loc)
    (value : Option (List Nat)) : json_input_stackframe :=
  { type := some type, name := name, data := some data, value := value,
    value_len := (value.getD []).length, index := 0 }

/-- The frames of scenario E5 below the elements of the array: the first
frame, the frame of the top level, whose name is `name`, and the frame of the
array. -/
def E5_frames (type_name : String) (size : Nat) (name : Option (List Nat)) :
    List json_input_stackframe :=
  [E5_frame (E5_type type_name size) none [] none,
    E5_frame (E5_type type_name size) name [] none,
    E5_frame (.array (E5_elem type_name size)) none [.member 0] none]

/-- A `structs_int_binify` for the two texts of scenario E5: it reads "1" and
"2" as integers of four bytes in the memory of a big-endian host. -/
def E5_binify (_type : Descriptor) (ascii : List Nat) : Except Errno Value :=
  if ascii = [49] then .ok (.region [0, 0, 0, 1])
  else if ascii = [50] then .ok (.region [0, 0, 0, 2])
  else .error .EINVAL

/-- The items of a document array, from the list of them. -/
def json_items_of : List json_t → json_items
  | [] => .done
  | jvalue :: rest => .item jvalue (json_items_of rest)

/-- The item `{"a":v}` of the array of scenario E5 for the number `v`. -/
def E5_item (v : Int) : json_t :=
  .JSON_OBJECT (.member [97] (.JSON_INTEGER v) .done)

/-- The items `{"a":v}` of the array of scenario E5, one for each of the
numbers `values`. -/
def E5_items (values : List Int) : json_items :=
  json_items_of (values.map E5_item)

/-- The document of scenario E5 with the numbers `values` in its array:
`{"root":{"arr":[{"a":v}, ...]}}`. -/
def E5_doc_of (values : List Int) : json_t :=
  .JSON_OBJECT (.member [114, 111, 111, 116]
    (.JSON_OBJECT (.member [97, 114, 114] (.JSON_ARRAY (E5_items values)) .done)) .done)

/-- The contract of an item of a document array that is loaded into an
element of the descriptor `type` which `init` has left as `e0`: in every state
without an error whose frame at the depth `depth` is the new frame of the
element, with zero frames above it, the events of the item and the end event
after them pop that frame and leave `y` in the element. -/
def loads_item (bo : ByteOrder) (leaf_binify : Descriptor → List Nat → Except Errno Value)
    (type : Descriptor) (e0 : Value) (depth : Int) (item : json_t) (y : Value) : Prop :=
  ∀ (info : json_input_info) (mem : loader_memory) (loc : Loc),
    info.error = none → info.depth = depth →
    info.frame depth =
      some { json_input_stackframe.zero with type := some type, data := some loc } →
    (∀ k : Int, depth < k → k < MAX_JSON_INPUT_STACK →
      info.frame k = some json_input_stackframe.zero) →
    mem.data.read bo loc = some e0 →
    structs_json_input_end bo leaf_binify
        (structs_json_input_data bo leaf_binify item (info, mem)).1
        (structs_json_input_data bo leaf_binify item (info, mem)).2 =
      ({ info.set_frame depth json_input_stackframe.zero with depth := depth - 1 },
        mem.store loc y)

/-- The frame of element `i` of the array in scenario E5. -/
def E5_elem_frame (type_name : String) (size : Nat) (i : Nat) : json_input_stackframe :=
  E5_frame (E5_elem type_name size) none [.member 0, .elem i] none

/-- The frame of the field "a" of element `i` in scenario E5, with the text
`value`. -/
def E5_leaf_frame (type_name : String) (size : Nat) (i : Nat) (value : Option (List Nat)) :
    json_input_stackframe :=
  E5_frame (.int type_name size) none [.member 0, .elem i, .member 0] value

/-- The memory in scenario E5: the value `{ arr: elems }` and `errno`. -/
def E5_memory (elems : List Value) (errno : Option Errno) : loader_memory :=
  ⟨.structure [.array elems], errno⟩

/-- An element of the array of scenario E5 as `init` leaves it. -/
def E5_init (size : Nat) : Value :=
  .structure [.region (List.replicate size 0)]

/-- A state of the JSON machine whose error, when it has one that C defines,
stands with a depth inside the stack. -/
def json_input_info.settled (info : json_input_info) : Prop :=
  info.error = none ∨ info.error = some .undefined ∨ (info.frame info.depth).isSome = true

/-! ## Bit arrays -/

theorem and_shift_eq_zero (b k : Nat) : (b &&& (1 <<< k) = 0) ↔ b.testBit k = false := by
  rw [Nat.one_shiftLeft, Nat.and_two_pow]
  cases h : b.testBit k <;> simp [Nat.pos_pow_of_pos]

theorem setbit_length (bits : List Nat) (i : Nat) : (setbit bits i).length = bits.length := by
  simp [setbit]

theorem getbit_setbit (bits : List Nat) (i j : Nat) (h : i / 8 < bits.length) :
    getbit (setbit bits i) j = (decide (j = i) || getbit bits j) := by
  unfold getbit setbit
  by_cases hij : j / 8 = i / 8
  · rw [hij, List.getD_eq_getElem?_getD, List.getElem?_set_self h]
    simp only [Option.getD_some, Nat.testBit_or, Nat.one_shiftLeft, Nat.testBit_two_pow]
    by_cases hm : i % 8 = j % 8
    · have : j = i := by omega
      simp [this]
    · have : j ≠ i := by intro h; exact hm (by rw [h])
      simp [hm, this]
  · have hne : j ≠ i := by intro h; exact hij (by rw [h])
    rw [List.getD_eq_getElem?_getD, List.getElem?_set_ne (Ne.symm hij)]
    simp [hne, List.getD_eq_getElem?_getD]

theorem getbit_replicate (n j : Nat) : getbit (List.replicate n 0) j = false := by
  unfold getbit
  rw [List.getD_eq_getElem?_getD, List.getElem?_replicate]
  split <;> simp

theorem getbit_append (bits rest : List Nat) (j : Nat) (h : j / 8 < bits.length) :
    getbit (bits ++ rest) j = getbit bits j := by
  unfold getbit
  rw [List.getD_append _ _ _ _ h]

theorem NUM_BYTES_eq (x : Nat) (h : x + 7 < 2 ^ 32) : NUM_BYTES x = (x + 7) / 8 := by
  unfold NUM_BYTES
  rw [Nat.mod_eq_of_lt h]

/-! ## The encode and decode loops of a structure -/

theorem struct_encode_loop_ok (fields : List structs_field) (data : List Value)
    (h : List.Forall₂ FieldCodec fields data) :
    ∀ i bits, i + fields.length ≤ 8 * bits.length →
      ∃ bits', structs_struct_encode_loop fields data i bits
          = .ok (bits', (List.zipWith field_code fields data).flatten) ∧
        bits'.length = bits.length ∧
        ∀ j, getbit bits' j = (getbit bits j ||
          (decide (i ≤ j) && (List.zipWith field_present fields data).getD (j - i) false)) := by
  induction h with
  | nil =>
    intro i bits _
    exact ⟨bits, by simp [structs_struct_encode_loop], rfl, by simp⟩
  | @cons field fdata fields data hf _ ih =>
    intro i bits hi
    obtain ⟨dval, hinit, henc⟩ := hf
    simp only [List.length_cons] at hi
    by_cases heq : field.type.equal fdata dval = 1
    · obtain ⟨bits', hloop, hlen, hbits⟩ := ih (i + 1) bits (by omega)
      have hp : field_present field fdata = false := by simp [field_present, hinit, heq]
      have hc : field_code field fdata = [] := by simp [field_code, hp]
      refine ⟨bits', ?_, hlen, ?_⟩
      · simp [structs_struct_encode_loop, hinit, heq, hloop, hc]
      · intro j
        rw [hbits j, List.zipWith_cons_cons, hp]
        by_cases hj : i + 1 ≤ j
        · have : j - i = (j - (i + 1)) + 1 := by omega
          rw [this, List.getD_cons_succ]
          simp [hj, show i ≤ j by omega]
        · by_cases hj' : i ≤ j
          · have : j - i = 0 := by omega
            simp [hj, this]
          · simp [hj, hj']
    · obtain ⟨fcode, v, hcode, _⟩ := henc heq
      have hsl : (setbit bits i).length = bits.length := setbit_length bits i
      obtain ⟨bits', hloop, hlen, hbits⟩ := ih (i + 1) (setbit bits i) (by omega)
      have hp : field_present field fdata = true := by simp [field_present, hinit, heq]
      have hc : field_code field fdata = fcode := by simp [field_code, hp, hcode]
      refine ⟨bits', ?_, by omega, ?_⟩
      · simp [structs_struct_encode_loop, hinit, heq, hloop, hc, hcode]
      · intro j
        rw [hbits j, List.zipWith_cons_cons, hp, getbit_setbit bits i j (by omega)]
        by_cases hj : i + 1 ≤ j
        · have : j - i = (j - (i + 1)) + 1 := by omega
          rw [this, List.getD_cons_succ]
          have : j ≠ i := by omega
          simp [hj, show i ≤ j by omega, this]
        · by_cases hj' : i ≤ j
          · have : j = i := by omega
            simp [this]
          · have : j ≠ i := by omega
            simp [hj, hj', this]

theorem struct_decode_loop_ok (fields : List structs_field) (data : List Value)
    (h : List.Forall₂ FieldCodec fields data) :
    ∀ i B s,
      (∀ j, i ≤ j → j < i + fields.length → j / 8 < B.length ∧
        getbit B j = (List.zipWith field_present fields data).getD (j - i) false) →
      structs_struct_decode_loop B fields i ((List.zipWith field_code fields data).flatten ++ s)
        = .ok (List.zipWith field_decoded fields data,
            (List.zipWith field_code fields data).flatten.length) := by
  induction h with
  | nil =>
    intro i B s _
    simp [structs_struct_decode_loop]
  | @cons field fdata fields data hf _ ih =>
    intro i B s hB
    obtain ⟨dval, hinit, henc⟩ := hf
    obtain ⟨hlt, hbit⟩ := hB i (Nat.le_refl i) (by simp)
    have hrest : ∀ j, i + 1 ≤ j → j < i + 1 + fields.length → j / 8 < B.length ∧
        getbit B j = (List.zipWith field_present fields data).getD (j - (i + 1)) false := by
      intro j h1 h2
      obtain ⟨ha, hb⟩ := hB j (by omega) (by simp only [List.length_cons]; omega)
      refine ⟨ha, ?_⟩
      rw [hb, List.zipWith_cons_cons]
      have : j - i = (j - (i + 1)) + 1 := by omega
      rw [this, List.getD_cons_succ]
    obtain ⟨b, hget, hb⟩ : ∃ b, B[i / 8]? = some b ∧ b.testBit (i % 8) = getbit B i := by
      refine ⟨B[i / 8], List.getElem?_eq_getElem hlt, ?_⟩
      unfold getbit
      rw [List.getD_eq_getElem?_getD, List.getElem?_eq_getElem hlt]
      rfl
    simp only [Nat.sub_self, List.zipWith_cons_cons, List.getD_cons_zero] at hbit
    rw [hbit] at hb
    by_cases heq : field.type.equal fdata dval = 1
    · have hp : field_present field fdata = false := by simp [field_present, hinit, heq]
      have hc : field_code field fdata = [] := by simp [field_code, hp]
      have hd : field_decoded field fdata = dval := by simp [field_decoded, hinit, heq]
      have hz : b &&& (1 <<< (i % 8)) = 0 := by
        rw [and_shift_eq_zero, hb, hp]
      have := ih (i + 1) B s hrest
      simp [structs_struct_decode_loop, hget, hz, hinit, hc, hd, this]
    · obtain ⟨fcode, v, hcode, hdec⟩ := henc heq
      have hp : field_present field fdata = true := by simp [field_present, hinit, heq]
      have hc : field_code field fdata = fcode := by simp [field_code, hp, hcode]
      have hd : field_decoded field fdata = v := by
        have := hdec []
        simp only [List.append_nil] at this
        simp [field_decoded, hinit, heq, hcode, this]
      have hz : ¬ (b &&& (1 <<< (i % 8)) = 0) := by
        rw [and_shift_eq_zero, hb, hp]
        simp
      have := ih (i + 1) B s hrest
      simp [structs_struct_decode_loop, hget, hz, hc, hd, hdec, this, List.append_assoc]

theorem codec_loops (fields : List structs_field) (data : List Value)
    (h : List.Forall₂ FieldCodec fields data) (hn : fields.length + 7 < 2 ^ 32) :
    ∃ bits, structs_struct_encode_loop fields data 0 (List.replicate (NUM_BYTES fields.length) 0)
        = .ok (bits, (List.zipWith field_code fields data).flatten) ∧
      bits.length = (fields.length + 7) / 8 ∧
      (∀ j, j < fields.length →
        getbit bits j = (List.zipWith field_present fields data).getD j false) ∧
      ∀ s, structs_struct_decode_loop (bits ++ ((List.zipWith field_code fields data).flatten ++ s))
          fields 0 ((List.zipWith field_code fields data).flatten ++ s)
        = .ok (List.zipWith field_decoded fields data,
            (List.zipWith field_code fields data).flatten.length) := by
  have hnb := NUM_BYTES_eq fields.length hn
  obtain ⟨bits, henc, hlen, hbits⟩ := struct_encode_loop_ok fields data h 0
    (List.replicate (NUM_BYTES fields.length) 0) (by simp [hnb]; omega)
  have hlen' : bits.length = (fields.length + 7) / 8 := by simp [hlen, hnb]
  have hb : ∀ j, j < fields.length →
      getbit bits j = (List.zipWith field_present fields data).getD j false := by
    intro j _
    rw [hbits j, getbit_replicate]
    simp
  refine ⟨bits, henc, hlen', hb, ?_⟩
  intro s
  apply struct_decode_loop_ok fields data h
  intro j _ hj
  have hj8 : j / 8 < bits.length := by omega
  refine ⟨by simp; omega, ?_⟩
  rw [getbit_append _ _ _ hj8, hb j (by omega)]
  simp

theorem array_encode_loop_eq (etype : structs_type) (delem : Value)
    (h : etype.init = .ok delem) (name : List Nat) :
    ∀ elems i bits, structs_array_encode_loop etype delem elems i bits
      = structs_struct_encode_loop (List.replicate elems.length ⟨name, etype⟩) elems i bits := by
  intro elems
  induction elems with
  | nil => intro i bits; simp [structs_array_encode_loop, structs_struct_encode_loop]
  | cons elem elems ih =>
    intro i bits
    simp only [structs_array_encode_loop, List.length_cons, List.replicate_succ,
      structs_struct_encode_loop, h, ih]

theorem decode_count_ok (data : Value) (clen : Nat) (h : clen < 2 ^ 31) :
    decode_count data clen = .ok (data, clen) := by
  have h1 : clen % 2 ^ 32 = clen := Nat.mod_eq_of_lt (by omega)
  simp only [decode_count, h1, h, if_true]

theorem decode_count_le (data v : Value) (clen n : Nat) (h : decode_count data clen = .ok (v, n)) :
    v = data ∧ n ≤ clen ∧ n < 2 ^ 31 := by
  unfold decode_count at h
  split_ifs at h with h1 h2
  simp only [Except.ok.injEq, Prod.mk.injEq] at h
  exact ⟨h.1.symm, by rw [← h.2]; exact Nat.mod_le _ _, by rw [← h.2]; exact h1⟩

theorem array_decode_loop_eq (etype : structs_type) (bits : List Nat) (name : List Nat) :
    ∀ n i code clen vals k,
      structs_struct_decode_loop bits (List.replicate n ⟨name, etype⟩) i code = .ok (vals, k) →
      clen + k < 2 ^ 31 →
      structs_array_decode_loop etype bits n i code clen = .ok (vals, clen + k) := by
  intro n
  induction n with
  | zero =>
    intro i code clen vals k h _
    simp only [List.replicate_zero, structs_struct_decode_loop, Except.ok.injEq,
      Prod.mk.injEq] at h
    simp [structs_array_decode_loop, ← h.1, ← h.2]
  | succ n ih =>
    intro i code clen vals k h hk
    simp only [List.replicate_succ, structs_struct_decode_loop] at h
    simp only [structs_array_decode_loop]
    cases hb : bits[i / 8]? with
    | none => simp [hb] at h
    | some b =>
      simp only [hb] at h ⊢
      by_cases hz : b &&& (1 <<< (i % 8)) = 0
      · simp only [hz, if_true] at h ⊢
        cases hi : etype.init with
        | error e => simp [hi] at h
        | ok edata =>
          simp only [hi] at h ⊢
          cases hl : structs_struct_decode_loop bits (List.replicate n ⟨name, etype⟩) (i + 1)
              code with
          | error e => simp [hl] at h
          | ok r =>
            obtain ⟨elems, k1⟩ := r
            simp only [hl, Except.ok.injEq, Prod.mk.injEq] at h
            rw [ih (i + 1) code clen elems k1 hl (by omega)]
            simp [← h.1, ← h.2]
      · simp only [hz, if_false] at h ⊢
        cases hd : etype.decode code with
        | error e => simp [hd] at h
        | ok r0 =>
          obtain ⟨edata, eclen⟩ := r0
          simp only [hd] at h ⊢
          cases hl : structs_struct_decode_loop bits (List.replicate n ⟨name, etype⟩) (i + 1)
              (code.drop eclen) with
          | error e => simp [hl] at h
          | ok r =>
            obtain ⟨elems, k1⟩ := r
            simp only [hl, Except.ok.injEq, Prod.mk.injEq] at h
            have hk1 : ¬ clen + eclen ≥ 2 ^ 31 := by omega
            rw [if_neg hk1, ih (i + 1) (code.drop eclen) (clen + eclen) elems k1 hl (by omega)]
            simp only [Except.ok.injEq, Prod.mk.injEq]
            exact ⟨h.1, by omega⟩

theorem codec_field (t : structs_type) (V : Value → Prop) (B : Value → Nat) (name : List Nat)
    (hC : Codec t V B) (v : Value) (hv : V v) (hB : B v < 2 ^ 31) :
    FieldCodec ⟨name, t⟩ v ∧ V (field_decoded ⟨name, t⟩ v) ∧
      t.equal (field_decoded ⟨name, t⟩ v) v = 1 ∧ t.equal v (field_decoded ⟨name, t⟩ v) = 1 ∧
      (field_code ⟨name, t⟩ v).length ≤ B v := by
  obtain ⟨d, hinit, hd⟩ := hC.init_ok
  obtain ⟨code, v', hcode, hcl, hv', h1, h2, hdec⟩ := hC.roundtrip v hv hB
  refine ⟨⟨d, hinit, fun _ => ⟨code, v', hcode, hdec⟩⟩, ?_⟩
  by_cases heq : t.equal v d = 1
  · have : field_decoded ⟨name, t⟩ v = d := by simp [field_decoded, hinit, heq]
    rw [this]
    refine ⟨hd, hC.equal_symm v d hv hd heq, heq, ?_⟩
    simp [field_code, field_present, hinit, heq]
  · have hdec0 := hdec []
    simp only [List.append_nil] at hdec0
    have : field_decoded ⟨name, t⟩ v = v' := by simp [field_decoded, hinit, heq, hcode, hdec0]
    rw [this]
    refine ⟨hv', h1, h2, ?_⟩
    simp only [field_code, field_present, hinit, heq, ne_eq, not_false_eq_true, decide_True,
      if_true, hcode]
    exact hcl

/-! ## The leaf descriptors -/

theorem slen_append (s rest : List Nat) (h : c_string s = true) :
    structs_string_slen (s ++ 0 :: rest) = s.length := by
  induction s with
  | nil => simp [structs_string_slen]
  | cons c s ih =>
    simp only [c_string, List.all_cons, Bool.and_eq_true, decide_eq_true_eq] at h
    have hs : c_string s = true := by simpa [c_string] using h.2
    have hc : c ≠ 0 := by omega
    simp [structs_string_slen, hc, ih hs]

theorem slen_c_string (s : List Nat) (h : c_string s = true) :
    structs_string_slen s = s.length := by
  induction s with
  | nil => simp [structs_string_slen]
  | cons c s ih =>
    simp only [c_string, List.all_cons, Bool.and_eq_true, decide_eq_true_eq] at h
    have hs : c_string s = true := by simpa [c_string] using h.2
    have hc : c ≠ 0 := by omega
    simp [structs_string_slen, hc, ih hs]

theorem ntohl_htonl (x : Nat) (rest : List Nat) (h : x < 2 ^ 32) :
    ntohl (htonl x ++ rest) = x := by
  simp only [ntohl, htonl, List.cons_append, List.nil_append, List.getD_cons_zero,
    List.getD_cons_succ]
  norm_num at h ⊢
  omega

theorem htonl_length (x : Nat) : (htonl x).length = 4 := rfl

theorem hasType_int (name : String) (size : Nat) (v : Value) :
    (Descriptor.int name size).hasType v = true ↔
      ∃ bytes, v = .region bytes ∧ bytes.length = size ∧ c_bytes bytes = true := by
  cases v <;> simp [Descriptor.hasType]

theorem codec_uint32 (bo : ByteOrder) (name : String) :
    Codec (STRUCTS_INT_TYPE bo name 4) (fun v => (Descriptor.int name 4).hasType v = true)
      (Descriptor.int name 4).wire_bound := by
  constructor
  · exact ⟨_, rfl, by simp [Descriptor.hasType, c_bytes]⟩
  · intro a b ha hb
    obtain ⟨x, rfl, -, -⟩ := (hasType_int _ _ _).1 ha
    obtain ⟨y, rfl, -, -⟩ := (hasType_int _ _ _).1 hb
    simp only [STRUCTS_INT_TYPE, structs_region_equal]
    split <;> simp
  · intro a b ha hb
    obtain ⟨x, rfl, -, -⟩ := (hasType_int _ _ _).1 ha
    obtain ⟨y, rfl, -, -⟩ := (hasType_int _ _ _).1 hb
    simp only [STRUCTS_INT_TYPE, structs_region_equal]
    intro h
    split at h
    · rename_i h'
      simp [h']
    · simp at h
  · intro v hv _
    obtain ⟨x, rfl, hlen, hb⟩ := (hasType_int _ _ _).1 hv
    match x, hlen with
    | [a, b, c, d], _ =>
      cases bo
      · refine ⟨[d, c, b, a], .region [a, b, c, d], ?_, by simp [Descriptor.wire_bound], hv,
          ?_, ?_, ?_⟩
        · simp [STRUCTS_INT_TYPE, structs_region_encode_netorder, structs_region_encode,
            netorder_swap]
        · simp [STRUCTS_INT_TYPE, structs_region_equal]
        · simp [STRUCTS_INT_TYPE, structs_region_equal]
        · intro s
          cases s <;>
            simp [STRUCTS_INT_TYPE, structs_region_decode_netorder, structs_region_decode,
              netorder_swap, List.replicate]
      · refine ⟨[a, b, c, d], .region [a, b, c, d], rfl, by simp [Descriptor.wire_bound], hv,
          ?_, ?_, ?_⟩
        · simp [STRUCTS_INT_TYPE, structs_region_equal]
        · simp [STRUCTS_INT_TYPE, structs_region_equal]
        · intro s
          simp [STRUCTS_INT_TYPE, structs_region_decode_netorder, structs_region_decode]

theorem hasType_string (asnull : Bool) (v : Value) :
    (Descriptor.string asnull).hasType v = true ↔
      (v = .string none ∧ asnull = true) ∨ ∃ s, v = .string (some s) ∧ c_string s = true := by
  cases v with
  | string s => cases s <;> simp [Descriptor.hasType]
  | _ => simp [Descriptor.hasType]

theorem string_equal_symm (asnull : Bool) (a b : Value) :
    structs_string_equal asnull a b = structs_string_equal asnull b a := by
  cases a <;> cases b <;> simp only [structs_string_equal]
  rename_i s1 s2
  cases asnull <;> cases s1 <;> cases s2 <;> simp [eq_comm] <;> (try split_ifs) <;>
    (try simp_all)

theorem string_equal_bool (asnull : Bool) (a b : Value) :
    structs_string_equal asnull a b = 0 ∨ structs_string_equal asnull a b = 1 := by
  cases a <;> cases b <;> simp only [structs_string_equal, true_or]
  rename_i s1 s2
  cases asnull <;> cases s1 <;> cases s2 <;> simp <;> (try split_ifs) <;> (try simp_all) <;>
    (try tauto)

theorem string_encode_some (asnull : Bool) (s : List Nat) (h : s.length + 1 < 2 ^ 32) :
    (STRUCTS_STRING_TYPE asnull).encode (.string (some s)) = .ok (s ++ [0]) := by
  have h1 : (s.length + 1) % 2 ^ 32 = (s ++ [0]).length := by
    rw [Nat.mod_eq_of_lt h]
    simp
  simp only [STRUCTS_STRING_TYPE, structs_string_encode, structs_string_ascify, h1,
    List.take_length]

theorem string_encode_none :
    (STRUCTS_STRING_TYPE true).encode (.string none) = .ok [0] := by
  simp [STRUCTS_STRING_TYPE, structs_string_encode, structs_string_ascify]

theorem codec_string (asnull : Bool) :
    Codec (STRUCTS_STRING_TYPE asnull) (fun v => (Descriptor.string asnull).hasType v = true)
      (Descriptor.string asnull).wire_bound := by
  constructor
  · cases asnull
    · exact ⟨.string (some []), rfl, by simp [Descriptor.hasType, c_string]⟩
    · exact ⟨.string none, rfl, by simp [Descriptor.hasType]⟩
  · intro a b _ _
    exact string_equal_bool asnull a b
  · intro a b _ _ h
    simp only [STRUCTS_STRING_TYPE] at h ⊢
    rw [string_equal_symm]
    exact h
  · intro v hv hB
    have hdec : ∀ (s rest : List Nat), c_string s = true → s.length + 1 < 2 ^ 31 →
        structs_string_decode (structs_string_binify asnull) (s ++ 0 :: rest)
          = .ok (if asnull = true ∧ s = [] then .string none else .string (some s),
              s.length + 1) := by
      intro s rest hs hl
      have h1 : structs_string_slen (s ++ 0 :: rest) = s.length := slen_append s rest hs
      have h2 : ¬ (s.length = (s ++ 0 :: rest).length) := by simp
      simp only [structs_string_decode, h1, h2, if_false, List.take_left, structs_string_binify]
      by_cases hc : asnull = true ∧ s = []
      · obtain ⟨ha, hs0⟩ := hc
        subst hs0
        simp [ha, decode_count_ok _ 1 (by norm_num)]
      · simp [hc, decode_count_ok _ _ hl]
    rcases (hasType_string asnull v).1 hv with ⟨rfl, rfl⟩ | ⟨s, rfl, hs⟩
    · refine ⟨[0], .string none, string_encode_none, by simp [Descriptor.wire_bound], hv, rfl,
        rfl, ?_⟩
      intro rest
      have := hdec [] rest (by simp [c_string]) (by simp)
      simpa [STRUCTS_STRING_TYPE] using this
    · have hl : s.length + 1 < 2 ^ 31 := by simpa [Descriptor.wire_bound] using hB
      by_cases hn : asnull = true ∧ s = []
      · obtain ⟨rfl, rfl⟩ := hn
        refine ⟨[0], .string none, string_encode_some true [] (by simp),
          by simp [Descriptor.wire_bound], by simp [Descriptor.hasType], rfl, rfl, ?_⟩
        intro rest
        have := hdec [] rest (by simp [c_string]) (by simp)
        simpa [STRUCTS_STRING_TYPE] using this
      · refine ⟨s ++ [0], .string (some s), string_encode_some asnull s (by omega),
          by simp [Descriptor.wire_bound], hv, ?_, ?_, ?_⟩
        · cases asnull <;> simp [STRUCTS_STRING_TYPE, structs_string_equal]
        · cases asnull <;> simp [STRUCTS_STRING_TYPE, structs_string_equal]
        · intro rest
          have := hdec s rest hs hl
          simp only [hn, if_false] at this
          simpa [STRUCTS_STRING_TYPE] using this

theorem hasType_data (charset : Option (List Nat)) (v : Value) :
    (Descriptor.data charset).hasType v = true ↔
      ∃ bytes, v = .data bytes ∧ c_bytes bytes = true ∧ bytes.length + 4 < 2 ^ 32 := by
  cases v <;> simp [Descriptor.hasType]

theorem codec_data (charset : Option (List Nat)) :
    Codec (STRUCTS_DATA_TYPE charset) (fun v => (Descriptor.data charset).hasType v = true)
      (Descriptor.data charset).wire_bound := by
  constructor
  · exact ⟨.data [], rfl, by simp [Descriptor.hasType, c_bytes]⟩
  · intro a b ha hb
    obtain ⟨x, rfl, -, -⟩ := (hasType_data _ _).1 ha
    obtain ⟨y, rfl, -, -⟩ := (hasType_data _ _).1 hb
    simp only [STRUCTS_DATA_TYPE, structs_data_equal]
    split <;> simp
  · intro a b ha hb
    obtain ⟨x, rfl, -, -⟩ := (hasType_data _ _).1 ha
    obtain ⟨y, rfl, -, -⟩ := (hasType_data _ _).1 hb
    simp only [STRUCTS_DATA_TYPE, structs_data_equal]
    intro h
    split at h
    · rename_i h'
      obtain ⟨h1, h2⟩ := h'
      have : x = y := by
        have := h2
        rw [List.take_length, h1, List.take_length] at this
        exact this
      simp [this]
    · simp at h
  · intro v hv hB
    obtain ⟨x, rfl, hb, hlen⟩ := (hasType_data _ _).1 hv
    have hl : 4 + x.length < 2 ^ 31 := by simpa [Descriptor.wire_bound] using hB
    have hl32 : ¬ 4 + x.length ≥ 2 ^ 32 := by omega
    refine ⟨htonl x.length ++ x, .data x, ?_, ?_, hv, ?_, ?_, ?_⟩
    · simp only [STRUCTS_DATA_TYPE, structs_data_encode, hl32, if_false]
    · simp [Descriptor.wire_bound, htonl_length]
    · simp [STRUCTS_DATA_TYPE, structs_data_equal]
    · simp [STRUCTS_DATA_TYPE, structs_data_equal]
    · intro s
      have h1 : ntohl (htonl x.length ++ x ++ s) = x.length := by
        rw [List.append_assoc]
        exact ntohl_htonl _ _ (by omega)
      have h2 : (htonl x.length ++ x ++ s).length = 4 + x.length + s.length := by
        simp [htonl_length]
        omega
      simp only [STRUCTS_DATA_TYPE, structs_data_decode, h1, h2]
      have h3 : ¬ (4 + x.length + s.length < 4) := by omega
      have h4 : ¬ (4 + x.length + s.length < x.length) := by omega
      have h5 : ¬ (4 + x.length + s.length < 4 + x.length) := by omega
      simp only [h3, h4, h5, if_false]
      have h6 : List.drop 4 (htonl x.length ++ x ++ s) = x ++ s := by
        rw [List.append_assoc]
        exact List.drop_left' (htonl_length _)
      rw [decode_count_ok _ _ hl]
      simp [h6, htonl_length]

/-! ## Pointers and arrays -/

theorem hasType_pointer (r : Descriptor) (v : Value) :
    (Descriptor.pointer r).hasType v = true ↔
      ∃ p, v = .pointer (some p) ∧ r.hasType p = true := by
  cases v with
  | pointer p => cases p <;> simp [Descriptor.hasType]
  | _ => simp [Descriptor.hasType]

theorem hasType_array (e : Descriptor) (v : Value) :
    (Descriptor.array e).hasType v = true ↔
      ∃ elems, v = .array elems ∧ (∀ x ∈ elems, e.hasType x = true) ∧
        elems.length + 7 < 2 ^ 32 := by
  cases v <;> simp [Descriptor.hasType]

theorem hasType_fixedarray (e : Descriptor) (alen : Nat) (v : Value) :
    (Descriptor.fixedarray e alen).hasType v = true ↔
      ∃ elems, v = .fixedarray elems ∧ elems.length = alen ∧
        (∀ x ∈ elems, e.hasType x = true) := by
  cases v <;> simp [Descriptor.hasType]

theorem codec_pointer (t : structs_type) (r : Descriptor)
    (h : Codec t (fun v => r.hasType v = true) r.wire_bound) :
    Codec (STRUCTS_POINTER_TYPE t) (fun v => (Descriptor.pointer r).hasType v = true)
      (Descriptor.pointer r).wire_bound := by
  constructor
  · obtain ⟨d, hd, hV⟩ := h.init_ok
    exact ⟨.pointer (some d), by simp [STRUCTS_POINTER_TYPE, structs_pointer_init, hd],
      (hasType_pointer _ _).2 ⟨d, rfl, hV⟩⟩
  · intro a b ha hb
    obtain ⟨x, rfl, hx⟩ := (hasType_pointer _ _).1 ha
    obtain ⟨y, rfl, hy⟩ := (hasType_pointer _ _).1 hb
    exact h.equal_bool x y hx hy
  · intro a b ha hb
    obtain ⟨x, rfl, hx⟩ := (hasType_pointer _ _).1 ha
    obtain ⟨y, rfl, hy⟩ := (hasType_pointer _ _).1 hb
    exact h.equal_symm x y hx hy
  · intro v hv hB
    obtain ⟨x, rfl, hx⟩ := (hasType_pointer _ _).1 hv
    have hB' : r.wire_bound x < 2 ^ 31 := by simpa [Descriptor.wire_bound] using hB
    obtain ⟨code, v', hcode, hcl, hv', h1, h2, hdec⟩ := h.roundtrip x hx hB'
    refine ⟨code, .pointer (some v'), ?_, by simpa [Descriptor.wire_bound] using hcl,
      (hasType_pointer _ _).2 ⟨v', rfl, hv'⟩, h1, h2, ?_⟩
    · simpa [STRUCTS_POINTER_TYPE, structs_pointer_encode] using hcode
    · intro s
      simp [STRUCTS_POINTER_TYPE, structs_pointer_decode, hdec s]

theorem zipWith_replicate {α β : Type} (g : structs_field → α → β) (f : structs_field)
    (l : List α) : List.zipWith g (List.replicate l.length f) l = l.map (g f) := by
  induction l with
  | nil => rfl
  | cons x l ih => simp [List.replicate_succ, ih]

theorem forall₂_replicate (f : structs_field) (l : List Value)
    (h : ∀ x ∈ l, FieldCodec f x) : List.Forall₂ FieldCodec (List.replicate l.length f) l := by
  induction l with
  | nil => exact List.Forall₂.nil
  | cons x l ih =>
    simp only [List.length_cons, List.replicate_succ]
    exact List.Forall₂.cons (h x (by simp)) (ih fun y hy => h y (by simp [hy]))

theorem array_equal_loop_map (t : structs_type) (g : Value → Value) (l : List Value)
    (h : ∀ x ∈ l, t.equal (g x) x = 1 ∧ t.equal x (g x) = 1) :
    structs_array_equal_loop t (l.map g) l = true ∧
      structs_array_equal_loop t l (l.map g) = true := by
  induction l with
  | nil => simp [structs_array_equal_loop]
  | cons x l ih =>
    obtain ⟨h1, h2⟩ := h x (by simp)
    obtain ⟨i1, i2⟩ := ih fun y hy => h y (by simp [hy])
    simp [structs_array_equal_loop, h1, h2, i1, i2]

theorem array_equal_loop_symm (t : structs_type) (V : Value → Prop) (B : Value → Nat)
    (hC : Codec t V B) :
    ∀ a b : List Value, (∀ x ∈ a, V x) → (∀ y ∈ b, V y) → a.length = b.length →
      structs_array_equal_loop t a b = true → structs_array_equal_loop t b a = true := by
  intro a
  induction a with
  | nil =>
    intro b _ _ hl _
    cases b with
    | nil => simp [structs_array_equal_loop]
    | cons y b => simp at hl
  | cons x a ih =>
    intro b ha hb hl h
    cases b with
    | nil => simp at hl
    | cons y b =>
      have hx := ha x (by simp)
      have hy := hb y (by simp)
      simp only [structs_array_equal_loop] at h ⊢
      by_cases h0 : t.equal x y = 0
      · simp [h0] at h
      · simp only [h0, if_false] at h
        have h1 : t.equal x y = 1 := by
          rcases hC.equal_bool x y hx hy with h' | h'
          · exact absurd h' h0
          · exact h'
        have h2 := hC.equal_symm x y hx hy h1
        simp only [h2, one_ne_zero, if_false]
        exact ih b (fun z hz => ha z (by simp [hz])) (fun z hz => hb z (by simp [hz]))
          (by simpa using hl) h

theorem le_sum_map (B : Value → Nat) : ∀ (l : List Value) (x : Value), x ∈ l →
    B x ≤ (l.map B).sum
  | [], _, h => by simp at h
  | y :: l, x, h => by
    simp only [List.map_cons, List.sum_cons]
    rcases List.mem_cons.1 h with rfl | h'
    · omega
    · have := le_sum_map B l x h'
      omega

theorem flatten_map_length_le (g : Value → List Nat) (B : Value → Nat) :
    ∀ l : List Value, (∀ x ∈ l, (g x).length ≤ B x) →
      (l.map g).flatten.length ≤ (l.map B).sum
  | [], _ => by simp
  | y :: l, h => by
    have h1 := h y (by simp)
    have h2 := flatten_map_length_le g B l fun x hx => h x (by simp [hx])
    simp only [List.map_cons, List.flatten_cons, List.length_append, List.sum_cons]
    omega

theorem elems_codec (t : structs_type) (V : Value → Prop) (B : Value → Nat) (hC : Codec t V B)
    (elems : List Value) (hV : ∀ x ∈ elems, V x) (hB : (elems.map B).sum < 2 ^ 31)
    (hn : elems.length + 7 < 2 ^ 32) :
    ∃ d bits codes vals, t.init = .ok d ∧
      structs_array_encode_loop t d elems 0 (List.replicate (NUM_BYTES elems.length) 0)
        = .ok (bits, codes) ∧
      bits.length = NUM_BYTES elems.length ∧
      codes.length ≤ (elems.map B).sum ∧
      (∀ s clen, clen + codes.length < 2 ^ 31 →
        structs_array_decode_loop t (bits ++ (codes ++ s)) elems.length 0 (codes ++ s) clen
          = .ok (vals, clen + codes.length)) ∧
      vals.length = elems.length ∧ (∀ x ∈ vals, V x) ∧
      structs_array_equal_loop t vals elems = true ∧
      structs_array_equal_loop t elems vals = true := by
  obtain ⟨d, hinit, _⟩ := hC.init_ok
  let f : structs_field := ⟨[], t⟩
  have hBx : ∀ x ∈ elems, B x < 2 ^ 31 := fun x hx =>
    Nat.lt_of_le_of_lt (le_sum_map B elems x hx) hB
  have hF : List.Forall₂ FieldCodec (List.replicate elems.length f) elems :=
    forall₂_replicate f elems fun x hx => (codec_field t V B [] hC x (hV x hx) (hBx x hx)).1
  have hlen : (List.replicate elems.length f).length = elems.length := by simp
  obtain ⟨bits, henc, hbl, _, hdec⟩ := codec_loops _ elems hF (by rw [hlen]; exact hn)
  rw [hlen] at henc hbl
  have heq := array_equal_loop_map t (field_decoded f) elems
    fun x hx =>
      ⟨(codec_field t V B [] hC x (hV x hx) (hBx x hx)).2.2.1,
        (codec_field t V B [] hC x (hV x hx) (hBx x hx)).2.2.2.1⟩
  refine ⟨d, bits, (List.zipWith field_code (List.replicate elems.length f) elems).flatten,
    elems.map (field_decoded f), hinit, ?_, ?_, ?_, ?_, by simp, ?_, heq.1, heq.2⟩
  · rw [array_encode_loop_eq t d hinit [], henc]
  · rw [hbl, NUM_BYTES_eq _ hn]
  · rw [zipWith_replicate]
    exact flatten_map_length_le (field_code f) B elems fun x hx =>
      (codec_field t V B [] hC x (hV x hx) (hBx x hx)).2.2.2.2
  · intro s clen hclen
    have h0 := hdec s
    rw [zipWith_replicate field_decoded] at h0
    exact array_decode_loop_eq t _ [] elems.length 0 _ clen _ _ h0 hclen
  · intro x hx
    obtain ⟨y, hy, rfl⟩ := List.mem_map.1 hx
    exact (codec_field t V B [] hC y (hV y hy) (hBx y hy)).2.1

theorem wire_bound_array (e : Descriptor) (elems : List Value) :
    (Descriptor.array e).wire_bound (.array elems) =
      4 + (elems.length + 7) / 8 + (elems.map e.wire_bound).sum := by
  simp only [Descriptor.wire_bound]

theorem wire_bound_fixedarray (e : Descriptor) (alen : Nat) (elems : List Value) :
    (Descriptor.fixedarray e alen).wire_bound (.fixedarray elems) =
      (alen + 7) / 8 + (elems.map e.wire_bound).sum := by
  simp only [Descriptor.wire_bound]

theorem codec_array (t : structs_type) (e : Descriptor)
    (h : Codec t (fun v => e.hasType v = true) e.wire_bound) :
    Codec (STRUCTS_ARRAY_TYPE t) (fun v => (Descriptor.array e).hasType v = true)
      (Descriptor.array e).wire_bound := by
  constructor
  · exact ⟨.array [], rfl, by simp [Descriptor.hasType]⟩
  · intro a b ha hb
    obtain ⟨x, rfl, -, -⟩ := (hasType_array _ _).1 ha
    obtain ⟨y, rfl, -, -⟩ := (hasType_array _ _).1 hb
    simp only [STRUCTS_ARRAY_TYPE, structs_array_equal]
    split_ifs <;> simp
  · intro a b ha hb
    obtain ⟨x, rfl, hx, -⟩ := (hasType_array _ _).1 ha
    obtain ⟨y, rfl, hy, -⟩ := (hasType_array _ _).1 hb
    simp only [STRUCTS_ARRAY_TYPE, structs_array_equal, ne_eq, not_true_eq_false, if_false]
    intro heq
    by_cases hl : x.length = y.length
    · simp only [hl, not_true_eq_false, if_false] at heq
      by_cases hloop : structs_array_equal_loop t x y = true
      · have := array_equal_loop_symm t _ _ h x y hx hy hl hloop
        simp [hl, this]
      · simp [hloop] at heq
    · simp [hl] at heq
  · intro v hv hB
    obtain ⟨elems, rfl, hV, hn⟩ := (hasType_array _ _).1 hv
    rw [wire_bound_array] at hB ⊢
    obtain ⟨d, bits, codes, vals, hinit, henc, hbl, hcl, hdec, hvl, hvV, he1, he2⟩ :=
      elems_codec t _ _ h elems hV (by omega) hn
    have hnb : NUM_BYTES elems.length = (elems.length + 7) / 8 := NUM_BYTES_eq _ hn
    have h32 : ¬ 4 + NUM_BYTES elems.length + codes.length ≥ 2 ^ 32 := by omega
    refine ⟨htonl elems.length ++ (bits ++ codes), .array vals, ?_, ?_,
      (hasType_array _ _).2 ⟨vals, rfl, hvV, by omega⟩, ?_, ?_, ?_⟩
    · simp only [STRUCTS_ARRAY_TYPE, structs_array_encode, ne_eq, not_true_eq_false, if_false,
        hinit, henc, h32]
    · simp only [List.length_append, htonl_length, hbl]
      omega
    · simp [STRUCTS_ARRAY_TYPE, structs_array_equal, hvl, he1]
    · simp [STRUCTS_ARRAY_TYPE, structs_array_equal, hvl, he2]
    · intro s
      have h1 : ntohl (htonl elems.length ++ (bits ++ codes) ++ s) = elems.length := by
        rw [List.append_assoc]
        exact ntohl_htonl _ _ (by omega)
      have h2 : List.drop 4 (htonl elems.length ++ (bits ++ codes) ++ s) = bits ++ (codes ++ s) := by
        rw [List.append_assoc, List.append_assoc]
        exact List.drop_left' (htonl_length _)
      have h3 : ¬ ((htonl elems.length ++ (bits ++ codes) ++ s).length < 4) := by
        simp [htonl_length]
      have h4 : ¬ ((bits ++ (codes ++ s)).length < NUM_BYTES elems.length) := by
        simp [hbl]
      have h5 : List.drop (NUM_BYTES elems.length) (bits ++ (codes ++ s)) = codes ++ s :=
        List.drop_left' hbl
      simp only [STRUCTS_ARRAY_TYPE, structs_array_decode, ne_eq, not_true_eq_false, if_false,
        h3, h1, h2, h4, h5, hdec s (4 + NUM_BYTES elems.length) (by omega)]
      simp only [List.length_append, htonl_length, hbl, Except.ok.injEq, Prod.mk.injEq, true_and]
      omega

theorem fixedarray_init_loop_ok (t : structs_type) (d : Value) (h : t.init = .ok d) (n : Nat) :
    structs_fixedarray_init_loop t n = .ok (List.replicate n d) := by
  induction n with
  | zero => rfl
  | succ n ih => simp [structs_fixedarray_init_loop, h, ih, List.replicate_succ]

theorem codec_fixedarray (t : structs_type) (e : Descriptor) (alen : Nat)
    (h : Codec t (fun v => e.hasType v = true) e.wire_bound) (hn : alen + 7 < 2 ^ 32) :
    Codec (STRUCTS_FIXEDARRAY_TYPE t alen)
      (fun v => (Descriptor.fixedarray e alen).hasType v = true)
      (Descriptor.fixedarray e alen).wire_bound := by
  constructor
  · obtain ⟨d, hd, hV⟩ := h.init_ok
    refine ⟨.fixedarray (List.replicate alen d), ?_, ?_⟩
    · simp [STRUCTS_FIXEDARRAY_TYPE, structs_fixedarray_init, fixedarray_init_loop_ok t d hd]
    · refine (hasType_fixedarray _ _ _).2 ⟨_, rfl, by simp, ?_⟩
      intro x hx
      rw [List.eq_of_mem_replicate hx]
      exact hV
  · intro a b ha hb
    obtain ⟨x, rfl, -, -⟩ := (hasType_fixedarray _ _ _).1 ha
    obtain ⟨y, rfl, -, -⟩ := (hasType_fixedarray _ _ _).1 hb
    simp only [STRUCTS_FIXEDARRAY_TYPE, structs_fixedarray_equal]
    split_ifs <;> simp
  · intro a b ha hb
    obtain ⟨x, rfl, hxl, hx⟩ := (hasType_fixedarray _ _ _).1 ha
    obtain ⟨y, rfl, hyl, hy⟩ := (hasType_fixedarray _ _ _).1 hb
    simp only [STRUCTS_FIXEDARRAY_TYPE, structs_fixedarray_equal, ne_eq, not_true_eq_false,
      if_false, hxl, hyl, or_self]
    intro heq
    by_cases hloop : structs_array_equal_loop t x y = true
    · have := array_equal_loop_symm t _ _ h x y hx hy (by omega) hloop
      simp [this]
    · simp [hloop] at heq
  · intro v hv hB
    obtain ⟨elems, rfl, hl, hV⟩ := (hasType_fixedarray _ _ _).1 hv
    subst hl
    rw [wire_bound_fixedarray] at hB ⊢
    obtain ⟨d, bits, codes, vals, hinit, henc, hbl, hcl, hdec, hvl, hvV, he1, he2⟩ :=
      elems_codec t _ _ h elems hV (by omega) hn
    have hnb : NUM_BYTES elems.length = (elems.length + 7) / 8 := NUM_BYTES_eq _ hn
    have h32 : ¬ NUM_BYTES elems.length + codes.length ≥ 2 ^ 32 := by omega
    refine ⟨bits ++ codes, .fixedarray vals, ?_, ?_,
      (hasType_fixedarray _ _ _).2 ⟨vals, rfl, hvl, hvV⟩, ?_, ?_, ?_⟩
    · simp only [STRUCTS_FIXEDARRAY_TYPE, structs_fixedarray_encode, ne_eq, not_true_eq_false,
        if_false, hinit, henc, h32]
    · simp only [List.length_append, hbl]
      omega
    · simp [STRUCTS_FIXEDARRAY_TYPE, structs_fixedarray_equal, hvl, he1]
    · simp [STRUCTS_FIXEDARRAY_TYPE, structs_fixedarray_equal, hvl, he2]
    · intro s
      have h4 : ¬ ((bits ++ codes ++ s).length < NUM_BYTES elems.length) := by
        simp [hbl]
      have h5 : List.drop (NUM_BYTES elems.length) (bits ++ codes ++ s) = codes ++ s := by
        rw [List.append_assoc]
        exact List.drop_left' hbl
      have h6 : bits ++ codes ++ s = bits ++ (codes ++ s) := List.append_assoc _ _ _
      simp only [STRUCTS_FIXEDARRAY_TYPE, structs_fixedarray_decode, ne_eq, not_true_eq_false,
        if_false, h4, h5]
      rw [h6, hdec s (NUM_BYTES elems.length) (by omega)]
      simp [hbl]

/-! ## Structures -/

theorem FieldList.induct {P : FieldList → Prop} (hE : P .END)
    (hF : ∀ name type rest, P rest → P (.FIELD name type rest)) : ∀ fl, P fl
  | .END => hE
  | .FIELD name type rest => hF name type rest (FieldList.induct hE hF rest)

theorem hasType_structure (fl : FieldList) (v : Value) :
    (Descriptor.structure fl).hasType v = true ↔
      ∃ data, v = .structure data ∧ fl.hasTypes data = true := by
  cases v <;> simp [Descriptor.hasType]

theorem fields_length (bo : ByteOrder) (fl : FieldList) :
    (fl.fields bo).length = fl.length := by
  induction fl using FieldList.induct with
  | hE => rfl
  | hF name type rest ih => simp [FieldList.fields, FieldList.length, ih]

theorem fields_codec (bo : ByteOrder) (fl : FieldList) (hA : fl.All (Descriptor.codec bo)) :
    ∀ data, fl.hasTypes data = true → fl.wire_bounds data < 2 ^ 31 →
      List.Forall₂ FieldCodec (fl.fields bo) data ∧
      fl.hasTypes (List.zipWith field_decoded (fl.fields bo) data) = true ∧
      structs_struct_equal_loop (fl.fields bo)
        (List.zipWith field_decoded (fl.fields bo) data) data = 1 ∧
      structs_struct_equal_loop (fl.fields bo) data
        (List.zipWith field_decoded (fl.fields bo) data) = 1 ∧
      (List.zipWith field_code (fl.fields bo) data).flatten.length ≤ fl.wire_bounds data := by
  induction fl using FieldList.induct with
  | hE =>
    intro data h _
    cases data with
    | nil => simp [FieldList.fields, FieldList.hasTypes, structs_struct_equal_loop]
    | cons x data => simp [FieldList.hasTypes] at h
  | hF name type rest ih =>
    intro data h hB
    cases data with
    | nil => simp [FieldList.hasTypes] at h
    | cons x data =>
      simp only [FieldList.hasTypes, Bool.and_eq_true] at h
      simp only [FieldList.wire_bounds] at hB ⊢
      obtain ⟨hC, hA'⟩ := hA
      obtain ⟨i1, i2, i3, i4, i5⟩ := ih hA' data h.2 (by omega)
      obtain ⟨c1, c2, c3, c4, c5⟩ := codec_field (type.type bo) _ _ name hC x h.1 (by omega)
      refine ⟨List.Forall₂.cons c1 i1, ?_, ?_, ?_, ?_⟩
      · simp only [FieldList.fields, List.zipWith_cons_cons, FieldList.hasTypes,
          Bool.and_eq_true]
        exact ⟨c2, i2⟩
      · simp only [FieldList.fields, List.zipWith_cons_cons, structs_struct_equal_loop]
        simp [c3, i3]
      · simp only [FieldList.fields, List.zipWith_cons_cons, structs_struct_equal_loop]
        simp [c4, i4]
      · simp only [FieldList.fields, List.zipWith_cons_cons, List.flatten_cons,
          List.length_append]
        omega

theorem fields_init (bo : ByteOrder) (fl : FieldList) (hA : fl.All (Descriptor.codec bo)) :
    ∃ ds, structs_struct_init_loop (fl.fields bo) = .ok ds ∧ fl.hasTypes ds = true := by
  induction fl using FieldList.induct with
  | hE => exact ⟨[], rfl, rfl⟩
  | hF name type rest ih =>
    obtain ⟨hC, hA'⟩ := hA
    obtain ⟨ds, h1, h2⟩ := ih hA'
    obtain ⟨d, hd, hV⟩ := hC.init_ok
    refine ⟨d :: ds, ?_, ?_⟩
    · simp [FieldList.fields, structs_struct_init_loop, hd, h1]
    · simp [FieldList.hasTypes, hV, h2]

theorem fields_equal_bool (fields : List structs_field) :
    ∀ a b, structs_struct_equal_loop fields a b = 0 ∨ structs_struct_equal_loop fields a b = 1 := by
  induction fields with
  | nil => intro a b; simp [structs_struct_equal_loop]
  | cons f fields ih =>
    intro a b
    cases a with
    | nil => simp [structs_struct_equal_loop]
    | cons x a =>
      cases b with
      | nil => simp [structs_struct_equal_loop]
      | cons y b =>
        simp only [structs_struct_equal_loop]
        split_ifs
        · simp
        · exact ih a b

theorem fields_equal_symm (bo : ByteOrder) (fl : FieldList)
    (hA : fl.All (Descriptor.codec bo)) :
    ∀ a b, fl.hasTypes a = true → fl.hasTypes b = true →
      structs_struct_equal_loop (fl.fields bo) a b = 1 →
      structs_struct_equal_loop (fl.fields bo) b a = 1 := by
  induction fl using FieldList.induct with
  | hE => intro a b _ _ _; simp [FieldList.fields, structs_struct_equal_loop]
  | hF name type rest ih =>
    intro a b ha hb h
    cases a with
    | nil => simp [FieldList.hasTypes] at ha
    | cons x a =>
      cases b with
      | nil => simp [FieldList.hasTypes] at hb
      | cons y b =>
        simp only [FieldList.hasTypes, Bool.and_eq_true] at ha hb
        obtain ⟨hC, hA'⟩ := hA
        simp only [FieldList.fields, structs_struct_equal_loop] at h ⊢
        by_cases h0 : (type.type bo).equal x y = 0
        · simp [h0] at h
        · simp only [h0, if_false] at h
          have h1 : (type.type bo).equal x y = 1 := by
            rcases hC.equal_bool x y ha.1 hb.1 with h' | h'
            · exact absurd h' h0
            · exact h'
          have h2 := hC.equal_symm x y ha.1 hb.1 h1
          simp only [h2, one_ne_zero, if_false]
          exact ih hA' a b ha.2 hb.2 h

theorem codec_structure (bo : ByteOrder) (fl : FieldList) (hA : fl.All (Descriptor.codec bo))
    (hn : fl.length + 7 < 2 ^ 32) : (Descriptor.structure fl).codec bo := by
  have hfl := fields_length bo fl
  constructor
  · obtain ⟨ds, h1, h2⟩ := fields_init bo fl hA
    refine ⟨.structure ds, ?_, (hasType_structure _ _).2 ⟨ds, rfl, h2⟩⟩
    simp [Descriptor.type, STRUCTS_STRUCT_TYPE, structs_struct_init, h1]
  · intro a b ha hb
    obtain ⟨x, rfl, -⟩ := (hasType_structure _ _).1 ha
    obtain ⟨y, rfl, -⟩ := (hasType_structure _ _).1 hb
    simpa [Descriptor.type, STRUCTS_STRUCT_TYPE, structs_struct_equal] using
      fields_equal_bool (fl.fields bo) x y
  · intro a b ha hb
    obtain ⟨x, rfl, hx⟩ := (hasType_structure _ _).1 ha
    obtain ⟨y, rfl, hy⟩ := (hasType_structure _ _).1 hb
    simpa [Descriptor.type, STRUCTS_STRUCT_TYPE, structs_struct_equal] using
      fields_equal_symm bo fl hA x y hx hy
  · intro v hv hB
    obtain ⟨data, rfl, hd⟩ := (hasType_structure _ _).1 hv
    simp only [Descriptor.wire_bound] at hB ⊢
    obtain ⟨hF, hT, he1, he2, hcl⟩ := fields_codec bo fl hA data hd (by omega)
    obtain ⟨bits, henc, hbl, _, hdec⟩ := codec_loops _ data hF (by rw [hfl]; exact hn)
    have hnb : NUM_BYTES (fl.fields bo).length = bits.length := by
      rw [hbl, NUM_BYTES_eq _ (by rw [hfl]; exact hn)]
    have hbl' : bits.length = (fl.length + 7) / 8 := by rw [hbl, hfl]
    have h32 : ¬ NUM_BYTES (fl.fields bo).length +
        (List.zipWith field_code (fl.fields bo) data).flatten.length ≥ 2 ^ 32 := by
      rw [hnb]
      omega
    refine ⟨bits ++ (List.zipWith field_code (fl.fields bo) data).flatten,
      .structure (List.zipWith field_decoded (fl.fields bo) data), ?_, ?_,
      (hasType_structure _ _).2 ⟨_, rfl, hT⟩, ?_, ?_, ?_⟩
    · simp only [Descriptor.type, STRUCTS_STRUCT_TYPE, structs_struct_encode, henc, h32,
        if_false]
    · simp only [List.length_append]
      omega
    · simpa [Descriptor.type, STRUCTS_STRUCT_TYPE, structs_struct_equal] using he1
    · simpa [Descriptor.type, STRUCTS_STRUCT_TYPE, structs_struct_equal] using he2
    · intro s
      have h4 : ¬ ((bits ++ (List.zipWith field_code (fl.fields bo) data).flatten ++ s).length
          < NUM_BYTES (fl.fields bo).length) := by
        rw [hnb]
        simp
      have h5 : List.drop (NUM_BYTES (fl.fields bo).length)
          (bits ++ (List.zipWith field_code (fl.fields bo) data).flatten ++ s)
          = (List.zipWith field_code (fl.fields bo) data).flatten ++ s := by
        rw [List.append_assoc]
        exact List.drop_left' hnb.symm
      simp only [Descriptor.type, STRUCTS_STRUCT_TYPE, structs_struct_decode, h4, if_false, h5]
      rw [List.append_assoc, hdec s]
      simp only [hnb]
      rw [decode_count_ok _ _ (by omega)]
      simp

/-! ## Unions -/

theorem hasType_union (fl : FieldList) (v : Value) :
    (Descriptor.union fl).hasType v = true ↔
      ∃ name un, v = .union (some name) (some un) ∧ fl.hasVariant name un = true := by
  cases v with
  | union n u =>
    cases n <;> cases u <;> simp [Descriptor.hasType]
    constructor
    · intro h
      exact ⟨_, _, ⟨rfl, rfl⟩, h⟩
    · rintro ⟨_, _, ⟨rfl, rfl⟩, h⟩
      exact h
  | _ => simp [Descriptor.hasType]

theorem hasVariant_iff_lookup (fl : FieldList) (field_name : List Nat) (un : Value) :
    fl.hasVariant field_name un = true ↔
      ∃ T, fl.lookup field_name = some T ∧ T.hasType un = true := by
  induction fl using FieldList.induct with
  | hE => simp [FieldList.hasVariant, FieldList.lookup]
  | hF name type rest ih =>
    simp only [FieldList.hasVariant, FieldList.lookup]
    split_ifs
    · simp
    · exact ih

theorem lookup_field (bo : ByteOrder) (fl : FieldList) (field_name : List Nat) (T : Descriptor)
    (h : fl.lookup field_name = some T) :
    structs_union_field (fl.fields bo) field_name = some ⟨field_name, T.type bo⟩ := by
  induction fl using FieldList.induct with
  | hE => simp [FieldList.lookup] at h
  | hF name type rest ih =>
    simp only [FieldList.lookup] at h
    simp only [FieldList.fields, structs_union_field]
    split_ifs at h ⊢ with hn
    · simp only [Option.some.injEq] at h
      rw [h, hn]
    · exact ih h

theorem lookup_all (P : Descriptor → Prop) (fl : FieldList) (field_name : List Nat)
    (T : Descriptor) (hA : fl.All P) (h : fl.lookup field_name = some T) : P T := by
  induction fl using FieldList.induct with
  | hE => simp [FieldList.lookup] at h
  | hF name type rest ih =>
    simp only [FieldList.lookup] at h
    split_ifs at h
    · simp only [Option.some.injEq] at h
      rw [← h]
      exact hA.1
    · exact ih hA.2 h

theorem lookup_c_string (fl : FieldList) (field_name : List Nat) (T : Descriptor)
    (hwf : fl.wf = true) (h : fl.lookup field_name = some T) : c_string field_name = true := by
  induction fl using FieldList.induct with
  | hE => simp [FieldList.lookup] at h
  | hF name type rest ih =>
    simp only [FieldList.lookup] at h
    simp only [FieldList.wf, Bool.and_eq_true] at hwf
    split_ifs at h with hn
    · rw [hn]
      exact hwf.1.1
    · exact ih hwf.2 h

theorem wire_bound_variant_lookup (fl : FieldList) (field_name : List Nat) (T : Descriptor)
    (un : Value) (h : fl.lookup field_name = some T) :
    fl.wire_bound_variant field_name un = T.wire_bound un := by
  induction fl using FieldList.induct with
  | hE => simp [FieldList.lookup] at h
  | hF name type rest ih =>
    simp only [FieldList.lookup] at h
    simp only [FieldList.wire_bound_variant]
    split_ifs at h ⊢ with hn
    · simp only [Option.some.injEq] at h
      rw [h]
    · exact ih h

theorem string_encode_name (s : List Nat) (h : s.length + 1 < 2 ^ 32) :
    structs_string_encode (structs_string_ascify false) (.string (some s)) = .ok (s ++ [0]) :=
  string_encode_some false s h

theorem codec_union (bo : ByteOrder) (fl : FieldList) (hA : fl.All (Descriptor.codec bo))
    (hwf : fl.wf = true) (hne : 0 < fl.length) : (Descriptor.union fl).codec bo := by
  constructor
  · cases fl with
    | END => simp [FieldList.length] at hne
    | FIELD name type rest =>
      obtain ⟨d, hd, hV⟩ := hA.1.init_ok
      refine ⟨.union (some name) (some d), ?_, ?_⟩
      · simp [Descriptor.type, FieldList.fields, STRUCTS_UNION_TYPE, structs_union_init, hd]
      · simp [Descriptor.hasType, FieldList.hasVariant, hV]
  · intro a b ha hb
    obtain ⟨n1, u1, rfl, h1⟩ := (hasType_union _ _).1 ha
    obtain ⟨n2, u2, rfl, h2⟩ := (hasType_union _ _).1 hb
    simp only [Descriptor.type, STRUCTS_UNION_TYPE, structs_union_equal]
    by_cases hn : n1 = n2
    · subst hn
      obtain ⟨T, hT, hu1⟩ := (hasVariant_iff_lookup _ _ _).1 h1
      obtain ⟨T', hT', hu2⟩ := (hasVariant_iff_lookup _ _ _).1 h2
      rw [hT] at hT'
      simp only [Option.some.injEq] at hT'
      subst hT'
      simp only [ne_eq, not_true_eq_false, if_false, lookup_field bo fl n1 T hT]
      exact (lookup_all _ fl n1 T hA hT).equal_bool u1 u2 hu1 hu2
    · simp [hn]
  · intro a b ha hb
    obtain ⟨n1, u1, rfl, h1⟩ := (hasType_union _ _).1 ha
    obtain ⟨n2, u2, rfl, h2⟩ := (hasType_union _ _).1 hb
    simp only [Descriptor.type, STRUCTS_UNION_TYPE, structs_union_equal]
    by_cases hn : n1 = n2
    · subst hn
      obtain ⟨T, hT, hu1⟩ := (hasVariant_iff_lookup _ _ _).1 h1
      obtain ⟨T', hT', hu2⟩ := (hasVariant_iff_lookup _ _ _).1 h2
      rw [hT] at hT'
      simp only [Option.some.injEq] at hT'
      subst hT'
      simp only [ne_eq, not_true_eq_false, if_false, lookup_field bo fl n1 T hT]
      exact (lookup_all _ fl n1 T hA hT).equal_symm u1 u2 hu1 hu2
    · simp [hn]
  · intro v hv hB
    obtain ⟨name, un, rfl, h1⟩ := (hasType_union _ _).1 hv
    obtain ⟨T, hT, hu⟩ := (hasVariant_iff_lookup _ _ _).1 h1
    have hC : T.codec bo := lookup_all _ fl name T hA hT
    have hcs := lookup_c_string fl name T hwf hT
    have hf := lookup_field bo fl name T hT
    simp only [Descriptor.wire_bound, wire_bound_variant_lookup fl name T un hT] at hB ⊢
    obtain ⟨code, v', hcode, hcl, hv', e1, e2, hdec⟩ := hC.roundtrip un hu (by omega)
    have h32 : ¬ (name ++ [0]).length + code.length ≥ 2 ^ 32 := by
      simp only [List.length_append, List.length_singleton]
      omega
    refine ⟨(name ++ [0]) ++ code, .union (some name) (some v'), ?_, ?_,
      (hasType_union _ _).2 ⟨name, v', rfl, (hasVariant_iff_lookup _ _ _).2 ⟨T, hT, hv'⟩⟩,
      ?_, ?_, ?_⟩
    · simp only [Descriptor.type, STRUCTS_UNION_TYPE, structs_union_encode, hf,
        string_encode_name name (by omega), hcode, h32, if_false]
    · simp only [List.length_append, List.length_singleton]
      omega
    · simpa [Descriptor.type, STRUCTS_UNION_TYPE, structs_union_equal, hf] using e1
    · simpa [Descriptor.type, STRUCTS_UNION_TYPE, structs_union_equal, hf] using e2
    · intro s
      have hs : structs_string_decode (structs_string_binify false)
          (name ++ [0] ++ code ++ s) = .ok (.string (some name), name.length + 1) := by
        have h1 : structs_string_slen (name ++ 0 :: (code ++ s)) = name.length :=
          slen_append name _ hcs
        have h0 : name ++ [0] ++ code ++ s = name ++ 0 :: (code ++ s) := by simp
        rw [h0]
        simp [structs_string_decode, h1, structs_string_binify,
          decode_count_ok _ (name.length + 1) (by omega)]
      have hd : List.drop (name.length + 1) (name ++ [0] ++ code ++ s) = code ++ s := by
        rw [List.append_assoc]
        exact List.drop_left' (by simp)
      have h31 : ¬ name.length + 1 + code.length ≥ 2 ^ 31 := by omega
      simp only [Descriptor.type, STRUCTS_UNION_TYPE, structs_union_decode, hs, hf, hd, hdec s,
        h31, if_false]
      simp
      omega

/-! ## Every well-formed descriptor keeps the codec contract -/

mutual
theorem codec_of_wf (bo : ByteOrder) : ∀ T : Descriptor, T.wf = true → T.codec bo
  | .int name size, h => by
    have hs : size = 4 := by simpa [Descriptor.wf] using h
    subst hs
    exact codec_uint32 bo name
  | .string asnull, _ => codec_string asnull
  | .data charset, _ => codec_data charset
  | .fixeddata _, h => by simp [Descriptor.wf] at h
  | .null, h => by simp [Descriptor.wf] at h
  | .array_length, h => by simp [Descriptor.wf] at h
  | .union_field_name, h => by simp [Descriptor.wf] at h
  | .pointer reftype, h =>
    codec_pointer _ reftype (codec_of_wf bo reftype (by simpa [Descriptor.wf] using h))
  | .array etype, h =>
    codec_array _ etype (codec_of_wf bo etype (by simpa [Descriptor.wf] using h))
  | .fixedarray etype alen, h =>
    have h' : etype.wf = true ∧ alen + 7 < 2 ^ 32 := by simpa [Descriptor.wf] using h
    codec_fixedarray _ etype alen (codec_of_wf bo etype h'.1) h'.2
  | .structure flist, h =>
    have h' : flist.wf = true ∧ flist.length + 7 < 2 ^ 32 := by simpa [Descriptor.wf] using h
    codec_structure bo flist (codec_of_fields bo flist h'.1) h'.2
  | .union flist, h =>
    have h' : flist.wf = true ∧ 0 < flist.length := by simpa [Descriptor.wf] using h
    codec_union bo flist (codec_of_fields bo flist h'.1) h'.1 h'.2
theorem codec_of_fields (bo : ByteOrder) :
    ∀ fl : FieldList, fl.wf = true → fl.All (Descriptor.codec bo)
  | .END, _ => trivial
  | .FIELD name type rest, h =>
    have h' : (c_string name = true ∧ type.wf = true) ∧ rest.wf = true := by
      simpa [FieldList.wf] using h
    ⟨codec_of_wf bo type h'.1.2, codec_of_fields bo rest h'.2⟩
end

/-! ## The binary codec: round trip and wire format -/

/-- The bound on the size of an encoding is needed: a data value of
`2 ^ 32 - 5` bytes is encoded, into `2 ^ 32 - 1` bytes, and the count that
`structs_data_decode` returns for these bytes is the `int` -1, the failure
return, with `errno` as it was. -/
theorem data_decode_count_wraps (charset : Option (List Nat)) (bytes : List Nat)
    (h : bytes.length = 2 ^ 32 - 5) :
    (STRUCTS_DATA_TYPE charset).encode (.data bytes) = .ok (htonl bytes.length ++ bytes) ∧
      (STRUCTS_DATA_TYPE charset).decode (htonl bytes.length ++ bytes) = .error .unset := by
  have h32 : ¬ 4 + bytes.length ≥ 2 ^ 32 := by omega
  have h1 : ntohl (htonl bytes.length ++ bytes) = bytes.length :=
    ntohl_htonl _ _ (by omega)
  have h2 : (htonl bytes.length ++ bytes).length = 4 + bytes.length := by
    simp [htonl_length]
  constructor
  · simp only [STRUCTS_DATA_TYPE, structs_data_encode, h32, if_false]
  · have h3 : ¬ 4 + bytes.length < 4 := by omega
    have h4 : ¬ 4 + bytes.length < bytes.length := by omega
    have h5 : (4 + bytes.length) % 2 ^ 32 = 2 ^ 32 - 1 := by
      rw [h]
      norm_num
    simp only [STRUCTS_DATA_TYPE, structs_data_decode, h1, h2, h3, h4, lt_irrefl, if_false,
      decode_count, h5]
    norm_num

theorem array_encode_loop_length (etype : structs_type) (delem : Value) :
    ∀ (elems : List Value) (i : Nat) (bits bits1 ecodes : List Nat),
      structs_array_encode_loop etype delem elems i bits = .ok (bits1, ecodes) →
      bits1.length = bits.length
  | [], i, bits, bits1, ecodes, h => by
    simp only [structs_array_encode_loop, Except.ok.injEq, Prod.mk.injEq] at h
    rw [← h.1]
  | elem :: elems, i, bits, bits1, ecodes, h => by
    simp only [structs_array_encode_loop] at h
    split_ifs at h with heq
    · exact array_encode_loop_length etype delem elems (i + 1) bits bits1 ecodes h
    · cases he : etype.encode elem with
      | error e => simp [he] at h
      | ok ecode =>
        simp only [he] at h
        cases hl : structs_array_encode_loop etype delem elems (i + 1) (setbit bits i) with
        | error e => simp [hl] at h
        | ok r =>
          obtain ⟨b2, c2⟩ := r
          simp only [hl, Except.ok.injEq, Prod.mk.injEq] at h
          rw [← h.1, array_encode_loop_length etype delem elems (i + 1) _ b2 c2 hl,
            setbit_length]

/-- C5. Fixed-array wire format: for every element type, every `N` and every
list of `N` element values: the variable-array encoding of the elements,
whenever there is one, is the 4-byte big-endian encoding of `N` followed by
the fixed-array encoding (length `N`) of the same elements; the fixed-array
encoding after these four bytes is the variable-array encoding when the four
bytes more still fit the `unsigned int` total of the encoder; and when the
fixed-array encoder fails, the variable-array encoder fails in the same way. -/
theorem fixedarray_wire_format (etype : structs_type) (N : Nat) (elems : List Value)
    (hN : elems.length = N) (h32 : N < 2 ^ 32) :
    (∀ acode, (STRUCTS_ARRAY_TYPE etype).encode (.array elems) = .ok acode →
      ∃ code, (STRUCTS_FIXEDARRAY_TYPE etype N).encode (.fixedarray elems) = .ok code ∧
        acode = [N / 2 ^ 24, N / 2 ^ 16 % 256, N / 2 ^ 8 % 256, N % 256] ++ code) ∧
    (∀ code, (STRUCTS_FIXEDARRAY_TYPE etype N).encode (.fixedarray elems) = .ok code →
      4 + code.length < 2 ^ 32 →
      (STRUCTS_ARRAY_TYPE etype).encode (.array elems)
        = .ok ([N / 2 ^ 24, N / 2 ^ 16 % 256, N / 2 ^ 8 % 256, N % 256] ++ code)) ∧
    (∀ e, (STRUCTS_FIXEDARRAY_TYPE etype N).encode (.fixedarray elems) = .error e →
      (STRUCTS_ARRAY_TYPE etype).encode (.array elems) = .error e) := by
  subst hN
  have h24 : elems.length / 2 ^ 24 % 256 = elems.length / 2 ^ 24 := by
    norm_num at h32 ⊢
    omega
  simp only [STRUCTS_ARRAY_TYPE, STRUCTS_FIXEDARRAY_TYPE, structs_array_encode,
    structs_fixedarray_encode, ne_eq, not_true_eq_false, if_false, htonl, h24]
  cases etype.init with
  | error e => simp
  | ok delem =>
    simp only
    cases hl : structs_array_encode_loop etype delem elems 0
        (List.replicate (NUM_BYTES elems.length) 0) with
    | error e => simp
    | ok r =>
      obtain ⟨bits, ecodes⟩ := r
      have hbl : bits.length = NUM_BYTES elems.length := by
        rw [array_encode_loop_length etype delem elems 0 _ bits ecodes hl]
        simp
      simp only
      refine ⟨?_, ?_, ?_⟩
      · intro acode h
        split_ifs at h with h1
        have h2 : ¬ NUM_BYTES elems.length + ecodes.length ≥ 2 ^ 32 := by omega
        simp only [Except.ok.injEq] at h
        exact ⟨bits ++ ecodes, by rw [if_neg h2], h.symm⟩
      · intro code h hlen
        split_ifs at h with h1
        simp only [Except.ok.injEq] at h
        have h2 : ¬ 4 + NUM_BYTES elems.length + ecodes.length ≥ 2 ^ 32 := by
          rw [← h, List.length_append, hbl] at hlen
          omega
        rw [if_neg h2, h]
      · intro e h
        split_ifs at h with h1
        simp only [Except.error.injEq] at h
        have h2 : 4 + NUM_BYTES elems.length + ecodes.length ≥ 2 ^ 32 := by omega
        rw [if_pos h2, h]

theorem fixedarray_wire_format_witness :
    [Value.region [7, 0, 0, 0], Value.region [0, 0, 0, 0]].length = 2 ∧ 2 < 2 ^ 32 ∧
    (STRUCTS_ARRAY_TYPE (structs_type_uint32 .LITTLE_ENDIAN)).encode
        (.array [.region [7, 0, 0, 0], .region [0, 0, 0, 0]])
      = .ok [0, 0, 0, 2, 1, 0, 0, 0, 7] ∧
    ∃ code, (STRUCTS_FIXEDARRAY_TYPE (structs_type_uint32 .LITTLE_ENDIAN) 2).encode
        (.fixedarray [.region [7, 0, 0, 0], .region [0, 0, 0, 0]]) = .ok code ∧
      [0, 0, 0, 2, 1, 0, 0, 0, 7]
        = [2 / 2 ^ 24, 2 / 2 ^ 16 % 256, 2 / 2 ^ 8 % 256, 2 % 256] ++ code :=
  ⟨by decide, by decide, rfl,
    (fixedarray_wire_format (structs_type_uint32 .LITTLE_ENDIAN) 2
      [.region [7, 0, 0, 0], .region [0, 0, 0, 0]] (by decide) (by decide)).1
      [0, 0, 0, 2, 1, 0, 0, 0, 7] rfl⟩

/-- C6. Scenario E2: for the structure `{a: uint32, b: string, arr:
array<uint32>}` with `a = 7`, `b = "hi"` and `arr = [100, 200]`, on either
byte order of the host, `encode` yields exactly the bytes 07, 00 00 00 07,
68 69 00, 00 00 00 02, 03, 00 00 00 64, 00 00 00 C8, and `decode` of these
bytes consumes all 21 of them and gives back the value, which is `equal` to
the original. -/
theorem scenario_E2 (bo : ByteOrder) :
    (E2_type.type bo).encode (E2_value bo) = .ok E2_code ∧
      (E2_type.type bo).decode E2_code = .ok (E2_value bo, 21) ∧
      (E2_type.type bo).equal (E2_value bo) (E2_value bo) = 1 := by
  cases bo <;> exact ⟨rfl, rfl, rfl⟩

/-! ## Truncated encodings -/

theorem append_split {α : Type} (p q a b : List α) (h : p ++ q = a ++ b)
    (hl : a.length ≤ p.length) : ∃ p', p = a ++ p' ∧ p' ++ q = b := by
  rcases List.append_eq_append_iff.1 h with ⟨a', ha, hq⟩ | ⟨c', hp, hb⟩
  · have : a'.length = 0 := by
      have := congrArg List.length ha
      simp at this
      omega
    have ha' : a' = [] := List.length_eq_zero.1 this
    subst ha'
    exact ⟨[], by simpa using ha.symm, by simpa using hq⟩
  · exact ⟨c', hp, hb.symm⟩

theorem append_short {α : Type} (p q a b : List α) (h : p ++ q = a ++ b)
    (hl : p.length < a.length) : ∃ r, a = p ++ r := by
  rcases List.append_eq_append_iff.1 h with ⟨a', ha, _⟩ | ⟨c', hp, _⟩
  · exact ⟨a', ha⟩
  · have := congrArg List.length hp
    simp at this
    omega

theorem struct_decode_loop_trunc (fields : List structs_field) (data : List Value)
    (h : List.Forall₂ (fun f v => FieldCodec f v ∧ FieldTrunc f v) fields data) :
    ∀ i B p q,
      (∀ j, i ≤ j → j < i + fields.length → j / 8 < B.length ∧
        getbit B j = (List.zipWith field_present fields data).getD (j - i) false) →
      p ++ q = (List.zipWith field_code fields data).flatten → q ≠ [] →
      structs_struct_decode_loop B fields i p = .error .EINVAL := by
  induction h with
  | nil =>
    intro i B p q _ hpq hq
    simp at hpq
    exact absurd hpq.2 hq
  | @cons field fdata fields data hf _ ih =>
    intro i B p q hB hpq hq
    obtain ⟨⟨dval, hinit, henc⟩, htr⟩ := hf
    obtain ⟨hlt, hbit⟩ := hB i (Nat.le_refl i) (by simp)
    have hrest : ∀ j, i + 1 ≤ j → j < i + 1 + fields.length → j / 8 < B.length ∧
        getbit B j = (List.zipWith field_present fields data).getD (j - (i + 1)) false := by
      intro j h1 h2
      obtain ⟨ha, hb⟩ := hB j (by omega) (by simp only [List.length_cons]; omega)
      refine ⟨ha, ?_⟩
      rw [hb, List.zipWith_cons_cons]
      have : j - i = (j - (i + 1)) + 1 := by omega
      rw [this, List.getD_cons_succ]
    obtain ⟨b, hget, hb⟩ : ∃ b, B[i / 8]? = some b ∧ b.testBit (i % 8) = getbit B i := by
      refine ⟨B[i / 8], List.getElem?_eq_getElem hlt, ?_⟩
      unfold getbit
      rw [List.getD_eq_getElem?_getD, List.getElem?_eq_getElem hlt]
      rfl
    simp only [Nat.sub_self, List.zipWith_cons_cons, List.getD_cons_zero] at hbit
    rw [hbit] at hb
    simp only [List.zipWith_cons_cons, List.flatten_cons] at hpq
    by_cases heq : field.type.equal fdata dval = 1
    · have hp : field_present field fdata = false := by simp [field_present, hinit, heq]
      have hc : field_code field fdata = [] := by simp [field_code, hp]
      have hz : b &&& (1 <<< (i % 8)) = 0 := by
        rw [and_shift_eq_zero, hb, hp]
      rw [hc, List.nil_append] at hpq
      have := ih (i + 1) B p q hrest hpq hq
      simp [structs_struct_decode_loop, hget, hz, hinit, this]
    · obtain ⟨fcode, v, hcode, hdec⟩ := henc heq
      have hp : field_present field fdata = true := by simp [field_present, hinit, heq]
      have hc : field_code field fdata = fcode := by simp [field_code, hp, hcode]
      have hz : ¬ (b &&& (1 <<< (i % 8)) = 0) := by
        rw [and_shift_eq_zero, hb, hp]
        simp
      rw [hc] at hpq
      rcases Nat.lt_or_ge p.length fcode.length with hshort | hlong
      · obtain ⟨r, hr⟩ := append_short p q fcode _ hpq hshort
        have hrne : r ≠ [] := by
          intro h0
          rw [h0, List.append_nil] at hr
          rw [hr] at hshort
          omega
        have := htr fcode hcode p r hr.symm hrne
        simp [structs_struct_decode_loop, hget, hz, this]
      · obtain ⟨p', hp', hrest'⟩ := append_split p q fcode _ hpq hlong
        have := ih (i + 1) B p' q hrest hrest' hq
        rw [hp']
        simp [structs_struct_decode_loop, hget, hz, hdec p', this]

theorem trunc_uint32 (bo : ByteOrder) (name : String) :
    Truncation (STRUCTS_INT_TYPE bo name 4)
      (fun v => (Descriptor.int name 4).hasType v = true)
      (Descriptor.int name 4).wire_bound := by
  intro v hv _ code hcode p q hpq hq
  obtain ⟨x, rfl, hlen, _⟩ := (hasType_int _ _ _).1 hv
  have hcl : code.length = 4 := by
    match x, hlen with
    | [a, b, c, d], _ =>
      cases bo <;>
        simp [STRUCTS_INT_TYPE, structs_region_encode_netorder, structs_region_encode,
          netorder_swap] at hcode <;>
        simp [← hcode]
  have hpl : p.length < 4 := by
    have := congrArg List.length hpq
    have hq' : 0 < q.length := List.length_pos.2 hq
    simp at this
    omega
  match p, hpl with
  | [], _ | [_], _ | [_, _], _ | [_, _, _], _ =>
    cases bo <;>
      simp [STRUCTS_INT_TYPE, structs_region_decode_netorder, structs_region_decode,
        netorder_swap, List.replicate]

theorem c_string_append (p r : List Nat) (h : c_string (p ++ r) = true) :
    c_string p = true := by
  simp only [c_string, List.all_append, Bool.and_eq_true] at h
  exact h.1

theorem string_decode_no_nul (binify : List Nat → Except Errno Value) (p : List Nat)
    (h : c_string p = true) : structs_string_decode binify p = .error .EINVAL := by
  simp [structs_string_decode, slen_c_string p h]

theorem trunc_string (asnull : Bool) :
    Truncation (STRUCTS_STRING_TYPE asnull)
      (fun v => (Descriptor.string asnull).hasType v = true)
      (Descriptor.string asnull).wire_bound := by
  intro v hv hB code hcode p q hpq hq
  have key : ∀ s, c_string s = true → code = s ++ [0] →
      (STRUCTS_STRING_TYPE asnull).decode p = .error .EINVAL := by
    intro s hs hc
    rw [hc] at hpq
    have hpl : p.length < s.length + 1 := by
      have := congrArg List.length hpq
      have hq' : 0 < q.length := List.length_pos.2 hq
      simp at this
      omega
    rcases List.append_eq_append_iff.1 hpq with ⟨a', ha, _⟩ | ⟨c', hp, _⟩
    · exact string_decode_no_nul _ p (c_string_append p a' (by rw [← ha]; exact hs))
    · have := congrArg List.length hp
      simp at this
      have hc0 : c'.length = 0 := by omega
      have hc' : c' = [] := List.length_eq_zero.1 hc0
      rw [hc', List.append_nil] at hp
      rw [hp]
      exact string_decode_no_nul _ s hs
  rcases (hasType_string asnull v).1 hv with ⟨rfl, rfl⟩ | ⟨s, rfl, hs⟩
  · apply key [] (by simp [c_string])
    rw [string_encode_none] at hcode
    simpa using hcode.symm
  · have hl : s.length + 1 < 2 ^ 31 := by simpa [Descriptor.wire_bound] using hB
    apply key s hs
    rw [string_encode_some asnull s (by omega)] at hcode
    simpa using hcode.symm

theorem loops_trunc (fields : List structs_field) (data : List Value)
    (h : List.Forall₂ (fun f v => FieldCodec f v ∧ FieldTrunc f v) fields data)
    (hn : fields.length + 7 < 2 ^ 32) (bits codes : List Nat)
    (henc : structs_struct_encode_loop fields data 0
      (List.replicate (NUM_BYTES fields.length) 0) = .ok (bits, codes)) :
    bits.length = NUM_BYTES fields.length ∧
      ∀ p q, p ++ q = codes → q ≠ [] →
        structs_struct_decode_loop (bits ++ p) fields 0 p = .error .EINVAL := by
  have hF : List.Forall₂ FieldCodec fields data := h.imp fun _ _ hh => hh.1
  obtain ⟨bits0, henc0, hbl, hbits, _⟩ := codec_loops fields data hF hn
  rw [henc] at henc0
  simp only [Except.ok.injEq, Prod.mk.injEq] at henc0
  obtain ⟨hb, hc⟩ := henc0
  subst hb
  refine ⟨by rw [hbl, NUM_BYTES_eq _ hn], ?_⟩
  intro p q hpq hq
  apply struct_decode_loop_trunc fields data h 0 (bits ++ p) p q _ (by rw [hpq, hc]) hq
  intro j _ hj
  have hj8 : j / 8 < bits.length := by omega
  refine ⟨by simp; omega, ?_⟩
  rw [getbit_append _ _ _ hj8, hbits j (by omega)]
  simp

theorem trunc_pointer (t : structs_type) (r : Descriptor)
    (h : Truncation t (fun v => r.hasType v = true) r.wire_bound) :
    Truncation (STRUCTS_POINTER_TYPE t) (fun v => (Descriptor.pointer r).hasType v = true)
      (Descriptor.pointer r).wire_bound := by
  intro v hv hB code hcode p q hpq hq
  obtain ⟨x, rfl, hx⟩ := (hasType_pointer _ _).1 hv
  have hB' : r.wire_bound x < 2 ^ 31 := by simpa [Descriptor.wire_bound] using hB
  have := h x hx hB' code (by simpa [STRUCTS_POINTER_TYPE, structs_pointer_encode] using hcode)
    p q hpq hq
  simp [STRUCTS_POINTER_TYPE, structs_pointer_decode, this]

theorem forall₂_replicate_trunc (f : structs_field) (l : List Value)
    (h : ∀ x ∈ l, FieldCodec f x ∧ FieldTrunc f x) :
    List.Forall₂ (fun f v => FieldCodec f v ∧ FieldTrunc f v) (List.replicate l.length f) l := by
  induction l with
  | nil => exact List.Forall₂.nil
  | cons x l ih =>
    simp only [List.length_cons, List.replicate_succ]
    exact List.Forall₂.cons (h x (by simp)) (ih fun y hy => h y (by simp [hy]))

theorem array_decode_loop_trunc (t : structs_type) :
    ∀ elems : List Value, (∀ x ∈ elems, FieldCodec ⟨[], t⟩ x ∧ FieldTrunc ⟨[], t⟩ x) →
    ∀ i B p q clen,
      (∀ j, i ≤ j → j < i + elems.length → j / 8 < B.length ∧
        getbit B j = (elems.map (field_present ⟨[], t⟩)).getD (j - i) false) →
      p ++ q = (elems.map (field_code ⟨[], t⟩)).flatten → q ≠ [] → clen + p.length < 2 ^ 31 →
      structs_array_decode_loop t B elems.length i p clen = .error .EINVAL
  | [], _, i, B, p, q, clen, _, hpq, hq, _ => by
    simp at hpq
    exact absurd hpq.2 hq
  | x :: elems, h, i, B, p, q, clen, hB, hpq, hq, hlen => by
    obtain ⟨⟨dval, hinit, henc⟩, htr⟩ := h x (by simp)
    simp only [] at hinit henc
    have ih := array_decode_loop_trunc t elems fun y hy => h y (by simp [hy])
    obtain ⟨hlt, hbit⟩ := hB i (Nat.le_refl i) (by simp)
    have hrest : ∀ j, i + 1 ≤ j → j < i + 1 + elems.length → j / 8 < B.length ∧
        getbit B j = (elems.map (field_present ⟨[], t⟩)).getD (j - (i + 1)) false := by
      intro j h1 h2
      obtain ⟨ha, hb⟩ := hB j (by omega) (by simp only [List.length_cons]; omega)
      refine ⟨ha, ?_⟩
      rw [hb, List.map_cons]
      have : j - i = (j - (i + 1)) + 1 := by omega
      rw [this, List.getD_cons_succ]
    obtain ⟨b, hget, hb⟩ : ∃ b, B[i / 8]? = some b ∧ b.testBit (i % 8) = getbit B i := by
      refine ⟨B[i / 8], List.getElem?_eq_getElem hlt, ?_⟩
      unfold getbit
      rw [List.getD_eq_getElem?_getD, List.getElem?_eq_getElem hlt]
      rfl
    simp only [Nat.sub_self, List.map_cons, List.getD_cons_zero] at hbit
    rw [hbit] at hb
    simp only [List.map_cons, List.flatten_cons] at hpq
    simp only [List.length_cons, structs_array_decode_loop, hget]
    by_cases heq : t.equal x dval = 1
    · have hp : field_present ⟨[], t⟩ x = false := by simp [field_present, hinit, heq]
      have hc : field_code ⟨[], t⟩ x = [] := by simp [field_code, hp]
      have hz : b &&& (1 <<< (i % 8)) = 0 := by
        rw [and_shift_eq_zero, hb, hp]
      rw [hc, List.nil_append] at hpq
      have := ih (i + 1) B p q clen hrest hpq hq hlen
      simp [hz, hinit, this]
    · obtain ⟨fcode, v, hcode, hdec⟩ := henc heq
      have hp : field_present ⟨[], t⟩ x = true := by simp [field_present, hinit, heq]
      have hc : field_code ⟨[], t⟩ x = fcode := by simp [field_code, hp, hcode]
      have hz : ¬ (b &&& (1 <<< (i % 8)) = 0) := by
        rw [and_shift_eq_zero, hb, hp]
        simp
      rw [hc] at hpq
      rcases Nat.lt_or_ge p.length fcode.length with hshort | hlong
      · obtain ⟨r, hr⟩ := append_short p q fcode _ hpq hshort
        have hrne : r ≠ [] := by
          intro h0
          rw [h0, List.append_nil] at hr
          rw [hr] at hshort
          omega
        have := htr fcode hcode p r hr.symm hrne
        simp only [] at this
        simp [hz, this]
      · obtain ⟨p', hp', hrest'⟩ := append_split p q fcode _ hpq hlong
        have hpl : p.length = fcode.length + p'.length := by rw [hp']; simp
        have := ih (i + 1) B p' q (clen + fcode.length) hrest hrest' hq (by omega)
        have h31 : clen + fcode.length < 2147483648 := by omega
        rw [hp']
        have hdec' := hdec p'
        simp only [] at hdec'
        simp [hz, hdec', h31, this]

theorem elems_trunc (t : structs_type) (V : Value → Prop) (B : Value → Nat) (hC : Codec t V B)
    (hT : Truncation t V B) (elems : List Value) (hV : ∀ x ∈ elems, V x)
    (hB : (elems.map B).sum < 2 ^ 31)
    (hn : elems.length + 7 < 2 ^ 32) (d : Value) (hinit : t.init = .ok d)
    (bits codes : List Nat)
    (henc : structs_array_encode_loop t d elems 0
      (List.replicate (NUM_BYTES elems.length) 0) = .ok (bits, codes)) :
    bits.length = NUM_BYTES elems.length ∧ codes.length ≤ (elems.map B).sum ∧
      ∀ p q clen, p ++ q = codes → q ≠ [] → clen + p.length < 2 ^ 31 →
        structs_array_decode_loop t (bits ++ p) elems.length 0 p clen = .error .EINVAL := by
  let f : structs_field := ⟨[], t⟩
  have hBx : ∀ x ∈ elems, B x < 2 ^ 31 := fun x hx =>
    Nat.lt_of_le_of_lt (le_sum_map B elems x hx) hB
  have hFT : ∀ x ∈ elems, FieldCodec f x ∧ FieldTrunc f x := fun x hx =>
    ⟨(codec_field t V B [] hC x (hV x hx) (hBx x hx)).1,
      fun c hc p q hpq hq => hT x (hV x hx) (hBx x hx) c hc p q hpq hq⟩
  have hF : List.Forall₂ FieldCodec (List.replicate elems.length f) elems :=
    forall₂_replicate f elems fun x hx => (hFT x hx).1
  have hlen : (List.replicate elems.length f).length = elems.length := by simp
  rw [array_encode_loop_eq t d hinit []] at henc
  obtain ⟨bits0, henc0, hbl, hbits, _⟩ := codec_loops _ elems hF (by rw [hlen]; exact hn)
  rw [hlen] at henc0 hbl
  rw [henc] at henc0
  simp only [Except.ok.injEq, Prod.mk.injEq] at henc0
  obtain ⟨hb, hc⟩ := henc0
  subst hb
  rw [zipWith_replicate] at hc
  refine ⟨by rw [hbl, NUM_BYTES_eq _ hn], ?_, ?_⟩
  · rw [hc]
    exact flatten_map_length_le (field_code f) B elems fun x hx =>
      (codec_field t V B [] hC x (hV x hx) (hBx x hx)).2.2.2.2
  · intro p q clen hpq hq hclen
    apply array_decode_loop_trunc t elems hFT 0 (bits ++ p) p q clen _ (by rw [hpq, hc]) hq hclen
    intro j _ hj
    have hj8 : j / 8 < bits.length := by omega
    refine ⟨by simp; omega, ?_⟩
    rw [getbit_append _ _ _ hj8, hbits j (by rw [hlen]; omega), zipWith_replicate]
    simp

theorem trunc_array (t : structs_type) (e : Descriptor)
    (hC : Codec t (fun v => e.hasType v = true) e.wire_bound)
    (hT : Truncation t (fun v => e.hasType v = true) e.wire_bound) :
    Truncation (STRUCTS_ARRAY_TYPE t) (fun v => (Descriptor.array e).hasType v = true)
      (Descriptor.array e).wire_bound := by
  intro v hv hB code hcode p q hpq hq
  obtain ⟨elems, rfl, hV, hn⟩ := (hasType_array _ _).1 hv
  rw [wire_bound_array] at hB
  obtain ⟨d, hinit, _⟩ := hC.init_ok
  simp only [STRUCTS_ARRAY_TYPE, structs_array_encode, ne_eq, not_true_eq_false, if_false,
    hinit] at hcode
  cases hloop : structs_array_encode_loop t d elems 0
      (List.replicate (NUM_BYTES elems.length) 0) with
  | error err => simp [hloop] at hcode
  | ok r =>
    obtain ⟨bits, codes⟩ := r
    simp only [hloop] at hcode
    split_ifs at hcode with h32
    simp only [Except.ok.injEq] at hcode
    obtain ⟨hbl, hcl, htr⟩ := elems_trunc t _ _ hC hT elems hV (by omega) hn d hinit bits codes
      hloop
    have hnb : NUM_BYTES elems.length = (elems.length + 7) / 8 := NUM_BYTES_eq _ hn
    rw [← hcode] at hpq
    have hpl : p.length + q.length = 4 + bits.length + codes.length := by
      have := congrArg List.length hpq
      simp only [List.length_append, htonl_length] at this
      omega
    simp only [STRUCTS_ARRAY_TYPE, structs_array_decode, ne_eq, not_true_eq_false, if_false]
    rcases Nat.lt_or_ge p.length 4 with h4 | h4
    · simp [h4]
    · obtain ⟨p1, hp1, hr1⟩ := append_split p q (htonl elems.length) _ hpq
        (by rw [htonl_length]; exact h4)
      have hnt : ntohl p = elems.length := by
        rw [hp1]
        exact ntohl_htonl _ _ (by omega)
      have hd4 : List.drop 4 p = p1 := by
        rw [hp1]
        exact List.drop_left' (htonl_length _)
      simp only [Nat.not_lt.2 h4, if_false, hnt, hd4]
      rcases Nat.lt_or_ge p1.length (NUM_BYTES elems.length) with hb | hb
      · simp [hb]
      · obtain ⟨p2, hp2, hr2⟩ := append_split p1 q bits _ hr1 (by rw [hbl]; exact hb)
        have hdb : List.drop (NUM_BYTES elems.length) p1 = p2 := by
          rw [hp2]
          exact List.drop_left' hbl
        have hp2l : p.length = 4 + bits.length + p2.length := by
          rw [hp1, hp2]
          simp only [List.length_append, htonl_length]
          omega
        simp only [Nat.not_lt.2 hb, if_false, hdb]
        rw [hp2, htr p2 q (4 + NUM_BYTES elems.length) hr2 hq (by omega)]

theorem trunc_fixedarray (t : structs_type) (e : Descriptor) (alen : Nat)
    (hC : Codec t (fun v => e.hasType v = true) e.wire_bound)
    (hT : Truncation t (fun v => e.hasType v = true) e.wire_bound) (hn : alen + 7 < 2 ^ 32) :
    Truncation (STRUCTS_FIXEDARRAY_TYPE t alen)
      (fun v => (Descriptor.fixedarray e alen).hasType v = true)
      (Descriptor.fixedarray e alen).wire_bound := by
  intro v hv hB code hcode p q hpq hq
  obtain ⟨elems, rfl, hl, hV⟩ := (hasType_fixedarray _ _ _).1 hv
  subst hl
  rw [wire_bound_fixedarray] at hB
  obtain ⟨d, hinit, _⟩ := hC.init_ok
  simp only [STRUCTS_FIXEDARRAY_TYPE, structs_fixedarray_encode, ne_eq, not_true_eq_false,
    if_false, hinit] at hcode
  cases hloop : structs_array_encode_loop t d elems 0
      (List.replicate (NUM_BYTES elems.length) 0) with
  | error err => simp [hloop] at hcode
  | ok r =>
    obtain ⟨bits, codes⟩ := r
    simp only [hloop] at hcode
    split_ifs at hcode with h32
    simp only [Except.ok.injEq] at hcode
    obtain ⟨hbl, hcl, htr⟩ := elems_trunc t _ _ hC hT elems hV (by omega) hn d hinit bits codes
      hloop
    have hnb : NUM_BYTES elems.length = (elems.length + 7) / 8 := NUM_BYTES_eq _ hn
    rw [← hcode] at hpq
    have hpl : p.length + q.length = bits.length + codes.length := by
      have := congrArg List.length hpq
      simp only [List.length_append] at this
      omega
    simp only [STRUCTS_FIXEDARRAY_TYPE, structs_fixedarray_decode, ne_eq, not_true_eq_false,
      if_false]
    rcases Nat.lt_or_ge p.length (NUM_BYTES elems.length) with hb | hb
    · simp [hb]
    · obtain ⟨p2, hp2, hr2⟩ := append_split p q bits _ hpq (by rw [hbl]; exact hb)
      have hdb : List.drop (NUM_BYTES elems.length) p = p2 := by
        rw [hp2]
        exact List.drop_left' hbl
      have hp2l : p.length = bits.length + p2.length := by
        rw [hp2]
        simp only [List.length_append]
      simp only [Nat.not_lt.2 hb, if_false, hdb]
      rw [hp2, htr p2 q (NUM_BYTES elems.length) hr2 hq (by omega)]

theorem fields_trunc (bo : ByteOrder) (fl : FieldList) (hA : fl.All (Descriptor.codec bo))
    (hAT : fl.All (Descriptor.truncation bo)) :
    ∀ data, fl.hasTypes data = true → fl.wire_bounds data < 2 ^ 31 →
      List.Forall₂ (fun f v => FieldCodec f v ∧ FieldTrunc f v) (fl.fields bo) data := by
  induction fl using FieldList.induct with
  | hE =>
    intro data h _
    cases data with
    | nil => exact List.Forall₂.nil
    | cons x data => simp [FieldList.hasTypes] at h
  | hF name type rest ih =>
    intro data h hB
    cases data with
    | nil => simp [FieldList.hasTypes] at h
    | cons x data =>
      simp only [FieldList.hasTypes, Bool.and_eq_true] at h
      simp only [FieldList.wire_bounds] at hB
      exact List.Forall₂.cons
        ⟨(codec_field (type.type bo) _ _ name hA.1 x h.1 (by omega)).1,
          fun c hc p q hpq hq => hAT.1 x h.1 (by omega) c hc p q hpq hq⟩
        (ih hA.2 hAT.2 data h.2 (by omega))

theorem trunc_structure (bo : ByteOrder) (fl : FieldList) (hA : fl.All (Descriptor.codec bo))
    (hAT : fl.All (Descriptor.truncation bo)) (hn : fl.length + 7 < 2 ^ 32) :
    (Descriptor.structure fl).truncation bo := by
  intro v hv hB code hcode p q hpq hq
  obtain ⟨data, rfl, hd⟩ := (hasType_structure _ _).1 hv
  simp only [Descriptor.wire_bound] at hB
  have hfl := fields_length bo fl
  have hF := fields_trunc bo fl hA hAT data hd (by omega)
  simp only [Descriptor.type, STRUCTS_STRUCT_TYPE, structs_struct_encode] at hcode
  cases hloop : structs_struct_encode_loop (fl.fields bo) data 0
      (List.replicate (NUM_BYTES (fl.fields bo).length) 0) with
  | error err => simp [hloop] at hcode
  | ok r =>
    obtain ⟨bits, codes⟩ := r
    simp only [hloop] at hcode
    split_ifs at hcode with h32
    simp only [Except.ok.injEq] at hcode
    obtain ⟨hbl, htr⟩ := loops_trunc _ data hF (by rw [hfl]; exact hn) bits codes hloop
    rw [← hcode] at hpq
    simp only [Descriptor.type, STRUCTS_STRUCT_TYPE, structs_struct_decode]
    rcases Nat.lt_or_ge p.length (NUM_BYTES (fl.fields bo).length) with hb | hb
    · simp [hb]
    · obtain ⟨p2, hp2, hr2⟩ := append_split p q bits _ hpq (by rw [hbl]; exact hb)
      have hdb : List.drop (NUM_BYTES (fl.fields bo).length) p = p2 := by
        rw [hp2]
        exact List.drop_left' hbl
      simp only [Nat.not_lt.2 hb, if_false, hdb]
      rw [hp2, htr p2 q hr2 hq]

theorem trunc_union (bo : ByteOrder) (fl : FieldList) (hA : fl.All (Descriptor.codec bo))
    (hAT : fl.All (Descriptor.truncation bo)) (hwf : fl.wf = true) :
    (Descriptor.union fl).truncation bo := by
  intro v hv hB code hcode p q hpq hq
  obtain ⟨name, un, rfl, h1⟩ := (hasType_union _ _).1 hv
  obtain ⟨T, hT, hu⟩ := (hasVariant_iff_lookup _ _ _).1 h1
  have hC : T.codec bo := lookup_all _ fl name T hA hT
  have hTr : T.truncation bo := lookup_all _ fl name T hAT hT
  have hcs := lookup_c_string fl name T hwf hT
  have hf := lookup_field bo fl name T hT
  simp only [Descriptor.wire_bound, wire_bound_variant_lookup fl name T un hT] at hB
  obtain ⟨fcode, _, hfcode, hfl, _⟩ := hC.roundtrip un hu (by omega)
  have h32 : ¬ (name ++ [0]).length + fcode.length ≥ 2 ^ 32 := by
    simp only [List.length_append, List.length_singleton]
    omega
  simp only [Descriptor.type, STRUCTS_UNION_TYPE, structs_union_encode, hf,
    string_encode_name name (by omega), hfcode, h32, if_false, Except.ok.injEq] at hcode
  rw [← hcode] at hpq
  simp only [Descriptor.type, STRUCTS_UNION_TYPE, structs_union_decode]
  rcases Nat.lt_or_ge p.length (name ++ [0]).length with hs | hs
  · obtain ⟨r, hr⟩ := append_short p q (name ++ [0]) _ hpq hs
    have hrne : r ≠ [] := by
      intro h0
      rw [h0, List.append_nil] at hr
      rw [hr] at hs
      omega
    have := trunc_string false (.string (some name))
      (by simpa [Descriptor.hasType] using hcs)
      (by simp only [Descriptor.wire_bound]; omega) (name ++ [0])
      (string_encode_some false name (by omega)) p r hr.symm hrne
    simp only [STRUCTS_STRING_TYPE] at this
    simp [this]
  · obtain ⟨p', hp', hrest⟩ := append_split p q (name ++ [0]) _ hpq hs
    have hsd : structs_string_decode (structs_string_binify false) p
        = .ok (.string (some name), name.length + 1) := by
      have h1 : structs_string_slen (name ++ 0 :: p') = name.length := slen_append name _ hcs
      have h0 : p = name ++ 0 :: p' := by rw [hp']; simp
      rw [h0]
      simp [structs_string_decode, h1, structs_string_binify,
        decode_count_ok _ (name.length + 1) (by omega)]
    have hd : List.drop (name.length + 1) p = p' := by
      rw [hp']
      exact List.drop_left' (by simp)
    have := hTr un hu (by omega) fcode hfcode p' q hrest hq
    simp [hsd, hf, hd, this]

mutual
theorem truncation_of_wf (bo : ByteOrder) :
    ∀ T : Descriptor, T.wf = true → T.no_data = true → T.truncation bo
  | .int name size, h, _ => by
    have hs : size = 4 := by simpa [Descriptor.wf] using h
    subst hs
    exact trunc_uint32 bo name
  | .string asnull, _, _ => trunc_string asnull
  | .data _, _, h => by simp [Descriptor.no_data] at h
  | .fixeddata _, h, _ => by simp [Descriptor.wf] at h
  | .null, h, _ => by simp [Descriptor.wf] at h
  | .array_length, h, _ => by simp [Descriptor.wf] at h
  | .union_field_name, h, _ => by simp [Descriptor.wf] at h
  | .pointer reftype, h, hd =>
    trunc_pointer _ reftype (truncation_of_wf bo reftype (by simpa [Descriptor.wf] using h)
      (by simpa [Descriptor.no_data] using hd))
  | .array etype, h, hd =>
    have h' : etype.wf = true := by simpa [Descriptor.wf] using h
    trunc_array _ etype (codec_of_wf bo etype h')
      (truncation_of_wf bo etype h' (by simpa [Descriptor.no_data] using hd))
  | .fixedarray etype alen, h, hd =>
    have h' : etype.wf = true ∧ alen + 7 < 2 ^ 32 := by simpa [Descriptor.wf] using h
    trunc_fixedarray _ etype alen (codec_of_wf bo etype h'.1)
      (truncation_of_wf bo etype h'.1 (by simpa [Descriptor.no_data] using hd)) h'.2
  | .structure flist, h, hd =>
    have h' : flist.wf = true ∧ flist.length + 7 < 2 ^ 32 := by simpa [Descriptor.wf] using h
    trunc_structure bo flist (codec_of_fields bo flist h'.1)
      (truncation_of_fields bo flist h'.1 (by simpa [Descriptor.no_data] using hd)) h'.2
  | .union flist, h, hd =>
    have h' : flist.wf = true ∧ 0 < flist.length := by simpa [Descriptor.wf] using h
    trunc_union bo flist (codec_of_fields bo flist h'.1)
      (truncation_of_fields bo flist h'.1 (by simpa [Descriptor.no_data] using hd)) h'.1
theorem truncation_of_fields (bo : ByteOrder) :
    ∀ fl : FieldList, fl.wf = true → fl.no_data = true → fl.All (Descriptor.truncation bo)
  | .END, _, _ => trivial
  | .FIELD name type rest, h, hd =>
    have h' : (c_string name = true ∧ type.wf = true) ∧ rest.wf = true := by
      simpa [FieldList.wf] using h
    have hd' : type.no_data = true ∧ rest.no_data = true := by
      simpa [FieldList.no_data] using hd
    ⟨truncation_of_wf bo type h'.1.2 hd'.1, truncation_of_fields bo rest h'.2 hd'.2⟩
end

theorem copies_uint32 (bo : ByteOrder) (name : String) :
    Copies (STRUCTS_INT_TYPE bo name 4) (fun v => (Descriptor.int name 4).hasType v = true) := by
  intro v hv
  obtain ⟨x, rfl, hlen, _⟩ := (hasType_int _ _ _).1 hv
  have ht : List.take 4 x = x := List.take_of_length_le (by omega)
  refine ⟨.region x, ?_, hv, ?_, ?_⟩
  · simp [STRUCTS_INT_TYPE, structs_region_copy, ht]
  · simp [STRUCTS_INT_TYPE, structs_region_equal]
  · simp [STRUCTS_INT_TYPE, structs_region_equal]

theorem copies_string (asnull : Bool) :
    Copies (STRUCTS_STRING_TYPE asnull) (fun v => (Descriptor.string asnull).hasType v = true) := by
  intro v hv
  rcases (hasType_string asnull v).1 hv with ⟨rfl, rfl⟩ | ⟨s, rfl, hs⟩
  · exact ⟨.string none, rfl, hv, rfl, rfl⟩
  · by_cases hn : asnull = true ∧ s = []
    · obtain ⟨rfl, rfl⟩ := hn
      exact ⟨.string none, rfl, by simp [Descriptor.hasType], rfl, rfl⟩
    · refine ⟨.string (some s), ?_, hv, ?_, ?_⟩
      · simp [STRUCTS_STRING_TYPE, structs_ascii_copy, structs_string_ascify,
          structs_string_binify, hn]
      · cases asnull <;> simp [STRUCTS_STRING_TYPE, structs_string_equal]
      · cases asnull <;> simp [STRUCTS_STRING_TYPE, structs_string_equal]

theorem copies_data (charset : Option (List Nat)) :
    Copies (STRUCTS_DATA_TYPE charset) (fun v => (Descriptor.data charset).hasType v = true) := by
  intro v hv
  obtain ⟨x, rfl, _, _⟩ := (hasType_data _ _).1 hv
  refine ⟨.data x, rfl, hv, ?_, ?_⟩
  · simp [STRUCTS_DATA_TYPE, structs_data_equal]
  · simp [STRUCTS_DATA_TYPE, structs_data_equal]

theorem copies_pointer (t : structs_type) (r : Descriptor)
    (h : Copies t (fun v => r.hasType v = true)) :
    Copies (STRUCTS_POINTER_TYPE t) (fun v => (Descriptor.pointer r).hasType v = true) := by
  intro v hv
  obtain ⟨x, rfl, hx⟩ := (hasType_pointer _ _).1 hv
  obtain ⟨c, hc, hV, e1, e2⟩ := h x hx
  refine ⟨.pointer (some c), ?_, (hasType_pointer _ _).2 ⟨c, rfl, hV⟩, e1, e2⟩
  simp [STRUCTS_POINTER_TYPE, structs_pointer_copy, hc]

theorem array_copy_loop_ok (t : structs_type) (V : Value → Prop) (h : Copies t V) :
    ∀ elems : List Value, (∀ x ∈ elems, V x) →
      ∃ cs, structs_array_copy_loop t elems = .ok cs ∧ cs.length = elems.length ∧
        (∀ c ∈ cs, V c) ∧ structs_array_equal_loop t elems cs = true ∧
        structs_array_equal_loop t cs elems = true := by
  intro elems
  induction elems with
  | nil => intro _; exact ⟨[], rfl, rfl, by simp, rfl, rfl⟩
  | cons x elems ih =>
    intro hV
    obtain ⟨c, hc, hVc, e1, e2⟩ := h x (hV x (by simp))
    obtain ⟨cs, hcs, hl, hVs, l1, l2⟩ := ih fun y hy => hV y (by simp [hy])
    refine ⟨c :: cs, ?_, by simp [hl], ?_, ?_, ?_⟩
    · simp [structs_array_copy_loop, hc, hcs]
    · intro y hy
      rcases List.mem_cons.1 hy with rfl | hy
      · exact hVc
      · exact hVs y hy
    · simp [structs_array_equal_loop, e1, l1]
    · simp [structs_array_equal_loop, e2, l2]

theorem copies_array (t : structs_type) (e : Descriptor)
    (h : Copies t (fun v => e.hasType v = true)) :
    Copies (STRUCTS_ARRAY_TYPE t) (fun v => (Descriptor.array e).hasType v = true) := by
  intro v hv
  obtain ⟨elems, rfl, hV, hn⟩ := (hasType_array _ _).1 hv
  obtain ⟨cs, hcs, hl, hVs, l1, l2⟩ := array_copy_loop_ok t _ h elems hV
  refine ⟨.array cs, ?_, (hasType_array _ _).2 ⟨cs, rfl, hVs, by omega⟩, ?_, ?_⟩
  · simp [STRUCTS_ARRAY_TYPE, structs_array_copy, hcs]
  · simp [STRUCTS_ARRAY_TYPE, structs_array_equal, hl, l1]
  · simp [STRUCTS_ARRAY_TYPE, structs_array_equal, hl, l2]

theorem copies_fixedarray (t : structs_type) (e : Descriptor) (alen : Nat)
    (h : Copies t (fun v => e.hasType v = true)) :
    Copies (STRUCTS_FIXEDARRAY_TYPE t alen)
      (fun v => (Descriptor.fixedarray e alen).hasType v = true) := by
  intro v hv
  obtain ⟨elems, rfl, hlen, hV⟩ := (hasType_fixedarray _ _ _).1 hv
  obtain ⟨cs, hcs, hl, hVs, l1, l2⟩ := array_copy_loop_ok t _ h elems hV
  refine ⟨.fixedarray cs, ?_, (hasType_fixedarray _ _ _).2 ⟨cs, rfl, by omega, hVs⟩, ?_, ?_⟩
  · simp [STRUCTS_FIXEDARRAY_TYPE, structs_fixedarray_copy, hcs, hlen]
  · simp [STRUCTS_FIXEDARRAY_TYPE, structs_fixedarray_equal, hl, hlen, l1]
  · simp [STRUCTS_FIXEDARRAY_TYPE, structs_fixedarray_equal, hl, hlen, l2]

theorem fields_copy (bo : ByteOrder) (fl : FieldList) (hA : fl.All (Descriptor.copies bo)) :
    ∀ data, fl.hasTypes data = true →
      ∃ cs, structs_struct_copy_loop (fl.fields bo) data = .ok cs ∧ fl.hasTypes cs = true ∧
        structs_struct_equal_loop (fl.fields bo) data cs = 1 ∧
        structs_struct_equal_loop (fl.fields bo) cs data = 1 := by
  induction fl using FieldList.induct with
  | hE =>
    intro data h
    cases data with
    | nil => exact ⟨[], rfl, rfl, rfl, rfl⟩
    | cons x data => simp [FieldList.hasTypes] at h
  | hF name type rest ih =>
    intro data h
    cases data with
    | nil => simp [FieldList.hasTypes] at h
    | cons x data =>
      simp only [FieldList.hasTypes, Bool.and_eq_true] at h
      obtain ⟨c, hc, hVc, e1, e2⟩ := hA.1 x h.1
      obtain ⟨cs, hcs, hVs, l1, l2⟩ := ih hA.2 data h.2
      refine ⟨c :: cs, ?_, ?_, ?_, ?_⟩
      · simp [FieldList.fields, structs_struct_copy_loop, hc, hcs]
      · simp [FieldList.hasTypes, hVc, hVs]
      · simp [FieldList.fields, structs_struct_equal_loop, e1, l1]
      · simp [FieldList.fields, structs_struct_equal_loop, e2, l2]

theorem copies_structure (bo : ByteOrder) (fl : FieldList)
    (hA : fl.All (Descriptor.copies bo)) : (Descriptor.structure fl).copies bo := by
  intro v hv
  obtain ⟨data, rfl, hd⟩ := (hasType_structure _ _).1 hv
  obtain ⟨cs, hcs, hVs, l1, l2⟩ := fields_copy bo fl hA data hd
  refine ⟨.structure cs, ?_, (hasType_structure _ _).2 ⟨cs, rfl, hVs⟩, ?_, ?_⟩
  · simp [Descriptor.type, STRUCTS_STRUCT_TYPE, structs_struct_copy, hcs]
  · simpa [Descriptor.type, STRUCTS_STRUCT_TYPE, structs_struct_equal] using l1
  · simpa [Descriptor.type, STRUCTS_STRUCT_TYPE, structs_struct_equal] using l2

theorem copies_union (bo : ByteOrder) (fl : FieldList)
    (hA : fl.All (Descriptor.copies bo)) : (Descriptor.union fl).copies bo := by
  intro v hv
  obtain ⟨name, un, rfl, h1⟩ := (hasType_union _ _).1 hv
  obtain ⟨T, hT, hu⟩ := (hasVariant_iff_lookup _ _ _).1 h1
  have hf := lookup_field bo fl name T hT
  obtain ⟨c, hc, hV, e1, e2⟩ := lookup_all _ fl name T hA hT un hu
  refine ⟨.union (some name) (some c), ?_,
    (hasType_union _ _).2 ⟨name, c, rfl, (hasVariant_iff_lookup _ _ _).2 ⟨T, hT, hV⟩⟩, ?_, ?_⟩
  · simp [Descriptor.type, STRUCTS_UNION_TYPE, structs_union_copy, hf, hc]
  · simpa [Descriptor.type, STRUCTS_UNION_TYPE, structs_union_equal, hf] using e1
  · simpa [Descriptor.type, STRUCTS_UNION_TYPE, structs_union_equal, hf] using e2

mutual
theorem copies_of_wf (bo : ByteOrder) : ∀ T : Descriptor, T.wf = true → T.copies bo
  | .int name size, h => by
    have hs : size = 4 := by simpa [Descriptor.wf] using h
    subst hs
    exact copies_uint32 bo name
  | .string asnull, _ => copies_string asnull
  | .data charset, _ => copies_data charset
  | .fixeddata _, h => by simp [Descriptor.wf] at h
  | .null, h => by simp [Descriptor.wf] at h
  | .array_length, h => by simp [Descriptor.wf] at h
  | .union_field_name, h => by simp [Descriptor.wf] at h
  | .pointer reftype, h =>
    copies_pointer _ reftype (copies_of_wf bo reftype (by simpa [Descriptor.wf] using h))
  | .array etype, h =>
    copies_array _ etype (copies_of_wf bo etype (by simpa [Descriptor.wf] using h))
  | .fixedarray etype alen, h =>
    have h' : etype.wf = true ∧ alen + 7 < 2 ^ 32 := by simpa [Descriptor.wf] using h
    copies_fixedarray _ etype alen (copies_of_wf bo etype h'.1)
  | .structure flist, h =>
    have h' : flist.wf = true ∧ flist.length + 7 < 2 ^ 32 := by simpa [Descriptor.wf] using h
    copies_structure bo flist (copies_of_fields bo flist h'.1)
  | .union flist, h =>
    have h' : flist.wf = true ∧ 0 < flist.length := by simpa [Descriptor.wf] using h
    copies_union bo flist (copies_of_fields bo flist h'.1)
theorem copies_of_fields (bo : ByteOrder) :
    ∀ fl : FieldList, fl.wf = true → fl.All (Descriptor.copies bo)
  | .END, _ => trivial
  | .FIELD name type rest, h =>
    have h' : (c_string name = true ∧ type.wf = true) ∧ rest.wf = true := by
      simpa [FieldList.wf] using h
    ⟨copies_of_wf bo type h'.1.2, copies_of_fields bo rest h'.2⟩
end

/-- C9. Copy round-trip: for every descriptor built from structures, variable
arrays, fixed arrays, unions and pointers over uint32, string and data
leaves, and every value `v` of it, `copy` succeeds and the copy is equal to
`v` under the descriptor's `equal` (in both argument orders). -/
theorem copy_roundtrip (bo : ByteOrder) (T : Descriptor) (v : Value)
    (hT : T.wf = true) (hv : T.hasType v = true) :
    ∃ c, (T.type bo).copy v = .ok c ∧
      (T.type bo).equal v c = 1 ∧ (T.type bo).equal c v = 1 := by
  obtain ⟨c, hc, _, e1, e2⟩ := copies_of_wf bo T hT v hv
  exact ⟨c, hc, e1, e2⟩

theorem copy_roundtrip_witness :
    E2_type.wf = true ∧ E2_type.hasType (E2_value .BIG_ENDIAN) = true ∧
    ∃ c, (E2_type.type .BIG_ENDIAN).copy (E2_value .BIG_ENDIAN) = .ok c ∧
      (E2_type.type .BIG_ENDIAN).equal (E2_value .BIG_ENDIAN) c = 1 ∧
      (E2_type.type .BIG_ENDIAN).equal c (E2_value .BIG_ENDIAN) = 1 :=
  ⟨by decide, by decide,
    copy_roundtrip .BIG_ENDIAN E2_type (E2_value .BIG_ENDIAN) (by decide) (by decide)⟩

/-- C10 (defect of the code). `structs_struct_copy` does not report a
mid-sequence failure: on the structure `{ a: string, n: null }` the copy of
field `a` succeeds, the copy of field `n` fails with `ENOSYS`, and
`structs_struct_copy` returns 0 (success) with the destination zeroed (the
string pointer of `a` is null again), where `structs_struct_init` returns -1
after the same clean-up. -/
theorem struct_copy_hides_failure (bo : ByteOrder) :
    structs_type_string.copy (.string (some [120])) = .ok (.string (some [120])) ∧
      structs_type_null.copy (.region []) = .error .ENOSYS ∧
      (null_field_type.type bo).copy null_field_value
        = .ok (.structure [.string none, .region []]) ∧
      (null_field_type.type bo).init = .error .ENOSYS := by
  cases bo <;> exact ⟨rfl, rfl, rfl, rfl⟩

/-! ## structs_find: names -/

theorem name_match_iff (fname name : List Nat) (next : Option (List Nat)) :
    structs_name_match fname name = some next ↔
      (next = none ∧ name = fname) ∨
        ∃ r, next = some r ∧ name = fname ++ STRUCTS_SEPARATOR :: r := by
  induction fname generalizing name with
  | nil =>
    cases name with
    | nil => simp [structs_name_match, eq_comm]
    | cons c name =>
      simp only [structs_name_match]
      split_ifs with h
      · subst h
        constructor
        · intro h; injection h with h; subst h; right; exact ⟨name, rfl, rfl⟩
        · rintro (⟨_, h⟩ | ⟨r, h1, h2⟩)
          · cases h
          · simp at h2; subst h1; simp [h2]
      · constructor
        · intro h; cases h
        · rintro (⟨_, h⟩ | ⟨r, h1, h2⟩)
          · cases h
          · simp at h2; exact absurd h2.1 h
  | cons f fname ih =>
    cases name with
    | nil =>
      simp [structs_name_match]
    | cons c name =>
      simp only [structs_name_match]
      split_ifs with h
      · subst h
        rw [ih]
        simp
      · constructor
        · intro h; cases h
        · rintro (⟨_, h'⟩ | ⟨r, h1, h2⟩)
          · simp at h'; exact absurd h'.1 h
          · simp at h2; exact absurd h2.1 h

theorem set_get_self {α : Type} : ∀ (l : List α) (i : Nat) (x : α),
    l[i]? = some x → l.set i x = l
  | [], _, _, h => by simp at h
  | a :: l, 0, x, h => by simp at h; simp [h]
  | a :: l, i + 1, x, h => by
    simp at h
    simp [set_get_self l i x h]

theorem find_head_fst (type : Descriptor) (sub : List Nat → Value → Bool → Found)
    (su : Bool) (h : ∀ name data, (sub name data su).1 = data)
    (name : Option (List Nat)) (data : Value) :
    (structs_find_head type sub name data su).1 = data := by
  unfold structs_find_head
  split
  · rfl
  · rfl
  · split_ifs
    · rfl
    · exact h _ _

mutual
theorem find_sub_pure (bo : ByteOrder) : ∀ (T : Descriptor) (name : List Nat) (data : Value),
    (structs_find_sub bo T name data false).1 = data
  | .pointer reftype, name, data => by
    simp only [structs_find_sub]
    split
    · simp [Found.lift, find_sub_pure bo reftype]
    · rfl
  | .array etype, name, data => by
    simp only [structs_find_sub]
    split
    · split_ifs
      · rfl
      · split
        · rfl
        · split
          · rfl
          · rename_i elems _ _ index _ elem hget
            simp only [Found.lift]
            rw [find_head_fst etype _ false (find_sub_pure bo etype)]
            simp [set_get_self _ _ _ hget]
    · rfl
  | .fixedarray etype alen, name, data => by
    simp only [structs_find_sub]
    split
    · split_ifs
      · rfl
      · split
        · rfl
        · split_ifs
          · rfl
          · split
            · rfl
            · rename_i elems _ _ index _ _ elem hget
              simp only [Found.lift]
              rw [find_head_fst etype _ false (find_sub_pure bo etype)]
              simp [set_get_self _ _ _ hget]
    · rfl
  | .structure flist, name, data => by
    simp only [structs_find_sub]
    split
    · rename_i fields
      have h := find_field_pure bo flist name fields 0
      simp [h]
    · rfl
  | .union flist, name, data => by
    simp only [structs_find_sub]
    split
    · split_ifs
      · rfl
      · split
        · rfl
        · split
          · split
            · rename_i r hr
              have h := find_active_pure bo flist _ _ _ _ hr
              simp [Found.lift, h]
            · rfl
          · simp
    · rfl
  | .int _ _, _, _ => by simp only [structs_find_sub]
  | .string _, _, _ => by simp only [structs_find_sub]
  | .data _, _, _ => by simp only [structs_find_sub]
  | .fixeddata _, _, _ => by simp only [structs_find_sub]
  | .null, _, _ => by simp only [structs_find_sub]
  | .array_length, _, _ => by simp only [structs_find_sub]
  | .union_field_name, _, _ => by simp only [structs_find_sub]
theorem find_field_pure (bo : ByteOrder) : ∀ (fl : FieldList) (name : List Nat)
    (fields : List Value) (i : Nat), (structs_find_field bo fl name fields i false).1 = fields
  | .END, _, _, _ => by simp only [structs_find_field]
  | .FIELD fname type rest, name, fields, i => by
    simp only [structs_find_field]
    split
    · rfl
    · rename_i fdata fields1
      split
      · rename_i next _
        have h := find_head_fst type _ false (find_sub_pure bo type) next fdata
        simp [h]
      · have h := find_field_pure bo rest name fields1 (i + 1)
        simp [h]
theorem find_active_pure (bo : ByteOrder) : ∀ (fl : FieldList) (field_name : List Nat)
    (next : Option (List Nat)) (un : Value) (r : Found),
    structs_find_active bo fl field_name next un false = some r → r.1 = un
  | .END, _, _, _, _ => by simp [structs_find_active]
  | .FIELD fname type rest, field_name, next, un, r => by
    simp only [structs_find_active]
    split_ifs
    · intro h
      injection h with h
      rw [← h]
      exact find_head_fst type _ false (find_sub_pure bo type) next un
    · exact find_active_pure bo rest field_name next un r
end

/-! ## structs_find: a failed call changes nothing -/

theorem stable_step {α β : Type} (g : β → β × Except Errno (Descriptor × Loc))
    (hg : FindStable g) (f : α → α × Except Errno (Descriptor × Loc)) (rebuild : β → α)
    (tr : Except Errno (Descriptor × Loc) → Except Errno (Descriptor × Loc))
    (htr : ∀ x, (∀ e, tr x = .error e → ∃ e', x = .error e') ∧
      (∀ r, tr x = .ok r → ∃ r', x = .ok r'))
    (hf : ∀ p', f (rebuild p') = (rebuild (g p').1, tr (g p').2)) (p : β) :
    (∀ e, (f (rebuild p)).2 = .error e → (f (rebuild p)).1 = rebuild p) ∧
      (∀ r, (f (rebuild p)).2 = .ok r → f (f (rebuild p)).1 = f (rebuild p)) := by
  constructor
  · intro e he
    rw [hf] at he ⊢
    obtain ⟨e', he'⟩ := (htr _).1 e he
    simp only
    rw [(hg p).1 e' he']
  · intro r hr
    rw [hf] at hr ⊢
    obtain ⟨r', hr'⟩ := (htr _).2 r hr
    simp only
    rw [hf, (hg p).2 r' hr']

theorem lift_tr (step : Step) (x : Except Errno (Descriptor × Loc)) :
    (∀ e, result_under step x = .error e → ∃ e', x = .error e') ∧
      (∀ r, result_under step x = .ok r → ∃ r', x = .ok r') := by
  rcases x with e | ⟨t, loc⟩
  · simp [result_under]
  · simp [result_under]

theorem id_tr (x : Except Errno (Descriptor × Loc)) :
    (∀ e, x = .error e → ∃ e', x = .error e') ∧ (∀ r, x = .ok r → ∃ r', x = .ok r') :=
  ⟨fun e h => ⟨e, h⟩, fun r h => ⟨r, h⟩⟩

theorem stable_fail {α : Type} (f : α → α × Except Errno (Descriptor × Loc)) (data : α)
    (e : Errno) (h : f data = (data, .error e)) :
    (∀ e, (f data).2 = .error e → (f data).1 = data) ∧
      (∀ r, (f data).2 = .ok r → f (f data).1 = f data) := by
  rw [h]
  simp

theorem stable_here {α : Type} (f : α → α × Except Errno (Descriptor × Loc)) (data : α)
    (r : Descriptor × Loc) (h : f data = (data, .ok r)) :
    (∀ e, (f data).2 = .error e → (f data).1 = data) ∧
      (∀ r, (f data).2 = .ok r → f (f data).1 = f data) := by
  rw [h]
  simp [h]

theorem find_head_stable (type : Descriptor) (sub : List Nat → Value → Bool → Found)
    (su : Bool) (h : ∀ name, FindStable (fun data => sub name data su))
    (name : Option (List Nat)) :
    FindStable (fun data => structs_find_head type sub name data su) := by
  intro data
  rcases name with _ | _ | ⟨c, name⟩
  · exact stable_here (fun data => structs_find_head type sub none data su) data (type, []) rfl
  · exact stable_here (fun data => structs_find_head type sub (some []) data su) data
      (type, []) rfl
  · by_cases hp : type.tclass = .STRUCTS_TYPE_PRIMITIVE
    · exact stable_fail (fun data => structs_find_head type sub (some (c :: name)) data su)
        data .ENOENT (by simp [structs_find_head, hp])
    · have := h (c :: name) data
      simpa [structs_find_head, hp] using this

mutual
theorem find_sub_stable (bo : ByteOrder) : ∀ (T : Descriptor) (name : List Nat),
    FindStable (fun data => structs_find_sub bo T name data true)
  | .pointer reftype, name => by
    intro data
    have ih := find_sub_stable bo reftype name
    rcases data with _ | _ | _ | (_ | p) | _ | _ | _ | _
    case pointer.some =>
      exact stable_step (fun p => structs_find_sub bo reftype name p true) ih
        (fun data => structs_find_sub bo (.pointer reftype) name data true)
        (fun p => .pointer (some p)) (result_under .deref) (lift_tr .deref)
        (fun p' => by simp [structs_find_sub, Found.lift]) p
    all_goals
      exact stable_fail
        (fun data => structs_find_sub bo (.pointer reftype) name data true) _ .undefined
        (by simp [structs_find_sub])
  | .array etype, name => by
    intro data
    have ih := find_head_stable etype (structs_find_sub bo etype) true
      (find_sub_stable bo etype) (structs_next name)
    rcases data with _ | _ | _ | _ | elems | _ | _ | _
    case array =>
      by_cases hname : name = name_length
      · exact stable_here (fun data => structs_find_sub bo (.array etype) name data true) _
          (.array_length, [.length]) (by simp [structs_find_sub, hname])
      · cases hidx : structs_index name with
        | none =>
          exact stable_fail (fun data => structs_find_sub bo (.array etype) name data true) _
            .ENOENT (by simp [structs_find_sub, hname, hidx])
        | some index =>
          cases hget : elems[index]? with
          | none =>
            exact stable_fail (fun data => structs_find_sub bo (.array etype) name data true) _
              .EDOM (by simp [structs_find_sub, hname, hidx, hget])
          | some elem =>
            have hlt : index < elems.length := (List.getElem?_eq_some_iff.1 hget).1
            have h := stable_step
              (fun e => structs_find_head etype (structs_find_sub bo etype) (structs_next name) e
                true) ih
              (fun data => structs_find_sub bo (.array etype) name data true)
              (fun e => .array (elems.set index e)) (result_under (.elem index))
              (lift_tr (.elem index))
              (fun p' => by
                simp [structs_find_sub, hname, hidx, Found.lift, List.getElem?_set_self hlt]) elem
            simpa [set_get_self _ _ _ hget] using h
    all_goals
      exact stable_fail
        (fun data => structs_find_sub bo (.array etype) name data true) _ .undefined
        (by simp [structs_find_sub])
  | .fixedarray etype alen, name => by
    intro data
    have ih := find_head_stable etype (structs_find_sub bo etype) true
      (find_sub_stable bo etype) (structs_next name)
    rcases data with _ | _ | _ | _ | _ | elems | _ | _
    case fixedarray =>
      by_cases hname : name = name_length
      · exact stable_here (fun data => structs_find_sub bo (.fixedarray etype alen) name data true)
          _ (.array_length, [.args2]) (by simp [structs_find_sub, hname])
      · cases hidx : structs_index name with
        | none =>
          exact stable_fail
            (fun data => structs_find_sub bo (.fixedarray etype alen) name data true) _
            .ENOENT (by simp [structs_find_sub, hname, hidx])
        | some index =>
          by_cases hlen : index ≥ alen
          · exact stable_fail
              (fun data => structs_find_sub bo (.fixedarray etype alen) name data true) _
              .EDOM (by simp [structs_find_sub, hname, hidx, hlen])
          · cases hget : elems[index]? with
            | none =>
              exact stable_fail
                (fun data => structs_find_sub bo (.fixedarray etype alen) name data true) _
                .undefined (by simp [structs_find_sub, hname, hidx, hlen, hget])
            | some elem =>
              have hlt : index < elems.length := (List.getElem?_eq_some_iff.1 hget).1
              have h := stable_step
                (fun e => structs_find_head etype (structs_find_sub bo etype) (structs_next name) e
                  true) ih
                (fun data => structs_find_sub bo (.fixedarray etype alen) name data true)
                (fun e => .fixedarray (elems.set index e)) (result_under (.felem index))
                (lift_tr (.felem index))
                (fun p' => by
                  simp [structs_find_sub, hname, hidx, hlen, Found.lift,
                    List.getElem?_set_self hlt]) elem
              simpa [set_get_self _ _ _ hget] using h
    all_goals
      exact stable_fail
        (fun data => structs_find_sub bo (.fixedarray etype alen) name data true) _ .undefined
        (by simp [structs_find_sub])
  | .structure flist, name => by
    intro data
    have ih := find_field_stable bo flist name 0
    rcases data with _ | _ | _ | _ | _ | _ | fields | _
    iterate 6
      exact stable_fail
        (fun data => structs_find_sub bo (.structure flist) name data true) _ .undefined
        (by simp [structs_find_sub])
    · exact stable_step (fun fields => structs_find_field bo flist name fields 0 true) ih
        (fun data => structs_find_sub bo (.structure flist) name data true)
        (fun fields => .structure fields) id id_tr
        (fun p' => by simp [structs_find_sub]) fields
    · exact stable_fail
        (fun data => structs_find_sub bo (.structure flist) name data true) _ .undefined
        (by simp [structs_find_sub])
  | .union flist, name => by
    intro data
    rcases data with _ | _ | _ | _ | _ | _ | _ | ⟨_ | fn, _ | un⟩
    case union.some.some =>
      by_cases hname : name = name_field_name
      · exact stable_here (fun data => structs_find_sub bo (.union flist) name data true) _
          (.union_field_name, [.field_name]) (by simp [structs_find_sub, hname])
      · cases hl : flist.lookup fn with
        | none =>
          exact stable_fail (fun data => structs_find_sub bo (.union flist) name data true) _
            .EINVAL (by simp [structs_find_sub, hname, hl])
        | some ty =>
          cases hm : structs_name_match fn name with
          | some next =>
            cases ha : structs_find_active bo flist fn next un true with
            | none =>
              exact stable_fail (fun data => structs_find_sub bo (.union flist) name data true) _
                .EINVAL (by simp [structs_find_sub, hname, hl, hm, ha])
            | some r =>
              obtain ⟨h1, h2⟩ := find_active_stable bo flist fn next un r ha
              have hf : structs_find_sub bo (.union flist) name (.union (some fn) (some un)) true
                  = (.union (some fn) (some r.1), result_under .un r.2) := by
                simp [structs_find_sub, hname, hl, hm, ha, Found.lift]
              simp only [hf]
              constructor
              · intro e he
                obtain ⟨e', he'⟩ := (lift_tr .un r.2).1 e he
                rw [h1 e' he']
              · intro x hx
                obtain ⟨x', hx'⟩ := (lift_tr .un r.2).2 x hx
                simp [structs_find_sub, hname, hl, hm, h2 x' hx', Found.lift]
          | none =>
            rcases hs : structs_find_switch bo flist name with ⟨_ | ⟨fname, nu⟩, r⟩
            · obtain ⟨e, he⟩ := (find_switch_stable bo flist name).1 r hs
              exact stable_fail (fun data => structs_find_sub bo (.union flist) name data true) _
                e (by simp [structs_find_sub, hname, hl, hm, hs, he])
            · obtain ⟨⟨x, hx⟩, next, hn, hlk, hact⟩ :=
                (find_switch_stable bo flist name).2 fname nu r hs
              have hf : structs_find_sub bo (.union flist) name (.union (some fn) (some un)) true
                  = (.union (some fname) (some nu), result_under .un r) := by
                simp [structs_find_sub, hname, hl, hm, hs]
              simp only [hf]
              constructor
              · intro e he
                rw [hx] at he
                simp [result_under] at he
              · intro _ _
                cases hlk' : flist.lookup fname with
                | none => exact absurd hlk' hlk
                | some ty' =>
                  simp [structs_find_sub, hname, hlk', hn, hact, Found.lift]
    all_goals
      exact stable_fail
        (fun data => structs_find_sub bo (.union flist) name data true) _ .undefined
        (by simp [structs_find_sub])
  | .int _ _, _ => fun data =>
    stable_fail (fun data => structs_find_sub bo _ _ data true) data .unset
      (by simp [structs_find_sub])
  | .string _, _ => fun data =>
    stable_fail (fun data => structs_find_sub bo _ _ data true) data .unset
      (by simp [structs_find_sub])
  | .data _, _ => fun data =>
    stable_fail (fun data => structs_find_sub bo _ _ data true) data .unset
      (by simp [structs_find_sub])
  | .fixeddata _, _ => fun data =>
    stable_fail (fun data => structs_find_sub bo _ _ data true) data .unset
      (by simp [structs_find_sub])
  | .null, _ => fun data =>
    stable_fail (fun data => structs_find_sub bo _ _ data true) data .unset
      (by simp [structs_find_sub])
  | .array_length, _ => fun data =>
    stable_fail (fun data => structs_find_sub bo _ _ data true) data .unset
      (by simp [structs_find_sub])
  | .union_field_name, _ => fun data =>
    stable_fail (fun data => structs_find_sub bo _ _ data true) data .unset
      (by simp [structs_find_sub])
theorem find_field_stable (bo : ByteOrder) : ∀ (fl : FieldList) (name : List Nat) (i : Nat),
    FindStable (fun fields => structs_find_field bo fl name fields i true)
  | .END, name, i => fun fields =>
    stable_fail (fun fields => structs_find_field bo .END name fields i true) fields .ENOENT
      (by simp [structs_find_field])
  | .FIELD fname type rest, name, i => by
    intro fields
    rcases fields with _ | ⟨fdata, fields1⟩
    · exact stable_fail
        (fun fields => structs_find_field bo (.FIELD fname type rest) name fields i true) _
        .undefined (by simp [structs_find_field])
    · cases hm : structs_name_match fname name with
      | some next =>
        exact stable_step
          (fun e => structs_find_head type (structs_find_sub bo type) next e true)
          (find_head_stable type (structs_find_sub bo type) true (find_sub_stable bo type) next)
          (fun fields => structs_find_field bo (.FIELD fname type rest) name fields i true)
          (fun e => e :: fields1) (result_under (.member i)) (lift_tr (.member i))
          (fun p' => by simp [structs_find_field, hm]) fdata
      | none =>
        exact stable_step
          (fun fs => structs_find_field bo rest name fs (i + 1) true)
          (find_field_stable bo rest name (i + 1))
          (fun fields => structs_find_field bo (.FIELD fname type rest) name fields i true)
          (fun fs => fdata :: fs) id id_tr
          (fun p' => by simp [structs_find_field, hm]) fields1
theorem find_active_stable (bo : ByteOrder) : ∀ (fl : FieldList) (field_name : List Nat)
    (next : Option (List Nat)) (un : Value) (r : Found),
    structs_find_active bo fl field_name next un true = some r →
      (∀ e, r.2 = .error e → r.1 = un) ∧
        (∀ x, r.2 = .ok x → structs_find_active bo fl field_name next r.1 true = some r)
  | .END, _, _, _, _ => by simp [structs_find_active]
  | .FIELD fname type rest, field_name, next, un, r => by
    simp only [structs_find_active]
    split_ifs with h
    · intro hr
      injection hr with hr
      have hs := find_head_stable type (structs_find_sub bo type) true
        (find_sub_stable bo type) next un
      simp only at hs
      rw [hr] at hs
      exact ⟨hs.1, fun x hx => by rw [hs.2 x hx]⟩
    · exact find_active_stable bo rest field_name next un r
theorem find_switch_stable (bo : ByteOrder) : ∀ (fl : FieldList) (name : List Nat),
    (∀ r, structs_find_switch bo fl name = (none, r) → ∃ e, r = .error e) ∧
      (∀ fname nu r, structs_find_switch bo fl name = (some (fname, nu), r) →
        (∃ x, r = .ok x) ∧ ∃ next, structs_name_match fname name = some next ∧
          fl.lookup fname ≠ none ∧
          structs_find_active bo fl fname next nu true = some (nu, r))
  | .END, name => by simp [structs_find_switch]
  | .FIELD fname0 type rest, name => by
    cases hm : structs_name_match fname0 name with
    | none =>
      have ih := find_switch_stable bo rest name
      simp only [structs_find_switch, hm]
      refine ⟨ih.1, ?_⟩
      intro fname nu r hs
      obtain ⟨hx, next, hn, hlk, hact⟩ := ih.2 fname nu r hs
      have hne : fname ≠ fname0 := by
        intro h
        rw [h, hm] at hn
        cases hn
      refine ⟨hx, next, hn, ?_, ?_⟩
      · simp [FieldList.lookup, hne, hlk]
      · simp [structs_find_active, hne, hact]
    | some next =>
      have hs := find_head_stable type (structs_find_sub bo type) true
        (find_sub_stable bo type)
      cases hi : (type.type bo).init with
      | error e => simp [structs_find_switch, hm, hi]
      | ok new_un =>
        cases next with
        | none =>
          simp only [structs_find_switch, hm, hi]
          constructor
          · intro r h
            simp [structs_find_head] at h
          · intro fname nu r h
            simp [structs_find_head] at h
            obtain ⟨⟨h1, h2⟩, h3⟩ := h
            subst h1 h2 h3
            refine ⟨⟨_, rfl⟩, none, hm, ?_, ?_⟩
            · simp [FieldList.lookup]
            · simp [structs_find_active, structs_find_head]
        | some n =>
          have hsn := hs (some n) new_un
          simp only at hsn
          rcases hp : structs_find_head type (structs_find_sub bo type) (some n) new_un true
            with ⟨d, e | x⟩
          · simp [structs_find_switch, hm, hi, hp]
          · rw [hp] at hsn
            have h2 := hsn.2 x rfl
            simp only at h2
            simp only [structs_find_switch, hm, hi, hp, h2]
            constructor
            · intro r h
              simp at h
            · intro fname nu r h
              simp at h
              obtain ⟨⟨h1, h2'⟩, h3⟩ := h
              subst h1 h2' h3
              refine ⟨⟨_, rfl⟩, some n, hm, ?_, ?_⟩
              · simp [FieldList.lookup]
              · simp [structs_find_active, h2]
end

/-! ## The operations that replace an item -/

theorem find_fst (bo : ByteOrder) (type : Descriptor) (name : Option (List Nat))
    (data : Value) : (structs_find bo type name data false).1 = data :=
  find_head_fst type _ false (find_sub_pure bo type) name data

/-- C14: `structs_find` with `set_union = 0` is a pure view: for every
descriptor, value and path the value after the call is the value before it,
whether the call succeeds or fails. -/
theorem find_pure_view (bo : ByteOrder) (type : Descriptor) (name : Option (List Nat))
    (data : Value) : (structs_find bo type name data false).1 = data :=
  find_fst bo type name data

/-- C13: variant-switch atomicity: for every descriptor, value and path, when
`structs_find` with `set_union = 1` returns `NULL` (whatever the `errno`), the
value after the call is identical to the value before it: no union has
changed its `field_name` or its payload. -/
theorem variant_switch_atomic (bo : ByteOrder) (type : Descriptor) (name : Option (List Nat))
    (data : Value) (e : Errno) (h : (structs_find bo type name data true).2 = .error e) :
    (structs_find bo type name data true).1 = data :=
  (find_head_stable type _ true (find_sub_stable bo type) name data).1 e h

theorem variant_switch_atomic_witness :
    (structs_find .BIG_ENDIAN nested_union_type (some [121, 46, 98]) union_x_value true).2
        = .error .ENOENT ∧
      (structs_find .BIG_ENDIAN nested_union_type (some [121, 46, 98]) union_x_value true).1
        = union_x_value :=
  ⟨rfl, variant_switch_atomic .BIG_ENDIAN nested_union_type (some [121, 46, 98]) union_x_value
    .ENOENT rfl⟩

/-- C12: `structs_set` and `structs_set_binary` are all-or-nothing: for every
descriptor, value and path, when the call fails (the path is not found, the
copy fails, or the bytes do not decode) the target value is exactly as it was
before the call. -/
theorem set_all_or_nothing (bo : ByteOrder) (type : Descriptor) (name : Option (List Nat))
    (from_data to_data : Value) (code : List Nat) :
    (∀ e, (structs_set bo type from_data name to_data).2 = .error e →
        (structs_set bo type from_data name to_data).1 = to_data) ∧
      (∀ e, (structs_set_binary bo type name code to_data).2 = .error e →
        (structs_set_binary bo type name code to_data).1 = to_data) := by
  have hp := find_fst bo type name to_data
  rcases hf : structs_find bo type name to_data false with ⟨to1, e1 | ⟨t, loc⟩⟩
  · rw [hf] at hp
    simp only at hp
    subst hp
    simp [structs_set, structs_set_binary, hf]
  · rw [hf] at hp
    simp only at hp
    subst hp
    constructor
    · intro e
      simp only [structs_set, hf]
      rcases (t.type bo).copy from_data with e2 | copy
      · simp
      · cases hw : to1.memcpy bo loc copy with
        | none => simp [hw]
        | some to2 => simp [hw]
    · intro e
      simp only [structs_set_binary, hf]
      rcases (t.type bo).decode code with e2 | ⟨temp, clen⟩
      · simp
      · cases hw : to1.write loc temp with
        | none => simp [hw]
        | some to2 => simp [hw]

/-- C11: `structs_set_string` is not all-or-nothing.  On the union
`{ x: uint32 | y: fixeddata(1) }` after `init` (active field `x`), the call with
the path "y" and the text "zz" fails with `EINVAL`, since the text is not
hexadecimal, and leaves the union switched to `y`: the variant switch of
`structs_find` is done before `binify` is tried and is not undone. -/
theorem set_string_failure_switches (bo : ByteOrder)
    (leaf_binify : Descriptor → List Nat → Except Errno Value) :
    (hex_union_type.type bo).init = .ok union_x_value ∧
      structs_set_string bo leaf_binify hex_union_type (some [121]) (some [122, 122])
          union_x_value
        = (.union (some [121]) (some (.region [0])), .error .EINVAL) ∧
      Value.union (some [121]) (some (.region [0])) ≠ union_x_value := by
  refine ⟨?_, ?_, by simp [union_x_value]⟩
  · cases bo <;> rfl
  · cases bo <;> rfl

/-! ## Locations -/

theorem write_read (bo : ByteOrder) : ∀ (loc : Loc) (v x v' : Value),
    v.write loc x = some v' → v'.read bo loc = some x
  | [], v, x, v', h => by
    simp [Value.write] at h
    simp [Value.read, h]
  | step :: loc, v, x, v', h => by
    cases v with
    | pointer pdata =>
      cases pdata with
      | none => cases step <;> simp [Value.write] at h
      | some p =>
        cases step <;> simp [Value.write] at h
        cases hw : p.write loc x with
        | none => simp [hw] at h
        | some p' =>
          simp [hw] at h
          subst h
          simpa [Value.read] using write_read bo loc p x p' hw
    | array elems =>
      cases step <;> simp [Value.write] at h
      rename_i index
      cases hget : elems[index]? with
      | none => simp [hget] at h
      | some elem =>
        cases hw : elem.write loc x with
        | none => simp [hget, hw] at h
        | some e =>
          simp [hget, hw] at h
          subst h
          have hlt : index < elems.length := (List.getElem?_eq_some_iff.1 hget).1
          simpa [Value.read, List.getElem?_set_self hlt] using write_read bo loc elem x e hw
    | fixedarray elems =>
      cases step <;> simp [Value.write] at h
      rename_i index
      cases hget : elems[index]? with
      | none => simp [hget] at h
      | some elem =>
        cases hw : elem.write loc x with
        | none => simp [hget, hw] at h
        | some e =>
          simp [hget, hw] at h
          subst h
          have hlt : index < elems.length := (List.getElem?_eq_some_iff.1 hget).1
          simpa [Value.read, List.getElem?_set_self hlt] using write_read bo loc elem x e hw
    | «structure» elems =>
      cases step <;> simp [Value.write] at h
      rename_i index
      cases hget : elems[index]? with
      | none => simp [hget] at h
      | some elem =>
        cases hw : elem.write loc x with
        | none => simp [hget, hw] at h
        | some e =>
          simp [hget, hw] at h
          subst h
          have hlt : index < elems.length := (List.getElem?_eq_some_iff.1 hget).1
          simpa [Value.read, List.getElem?_set_self hlt] using write_read bo loc elem x e hw
    | union fn un =>
      cases un with
      | none => cases step <;> simp [Value.write] at h
      | some u =>
        cases step <;> simp [Value.write] at h
        cases hw : u.write loc x with
        | none => simp [hw] at h
        | some u' =>
          simp [hw] at h
          subst h
          simpa [Value.read] using write_read bo loc u x u' hw
    | region _ => simp [Value.write] at h
    | string _ => simp [Value.write] at h
    | data _ => simp [Value.write] at h

/-! ## Unions in a path -/

theorem name_match_none (fname name : List Nat) (h1 : name ≠ fname)
    (h2 : ∀ r, name ≠ fname ++ STRUCTS_SEPARATOR :: r) :
    structs_name_match fname name = none := by
  cases h : structs_name_match fname name with
  | none => rfl
  | some next =>
    rcases (name_match_iff fname name next).1 h with ⟨_, h'⟩ | ⟨r, _, h'⟩
    · exact absurd h' h1
    · exact absurd h' (h2 r)

theorem name_match_path (fname name : List Nat) (next : Option (List Nat))
    (h : structs_name_match fname name = some next) : name = path_of fname next := by
  rcases (name_match_iff fname name next).1 h with ⟨h1, h2⟩ | ⟨r, h1, h2⟩
  · subst h1; simpa [path_of] using h2
  · subst h1; simpa [path_of] using h2

theorem name_match_path_of (fname : List Nat) (next : Option (List Nat)) :
    structs_name_match fname (path_of fname next) = some next := by
  rw [name_match_iff]
  cases next with
  | none => left; exact ⟨rfl, rfl⟩
  | some r => right; exact ⟨r, rfl, rfl⟩

theorem find_active_none (bo : ByteOrder) (su : Bool) : ∀ (fl : FieldList)
    (field_name : List Nat) (un : Value) (r : Found),
    structs_find_active bo fl field_name none un su = some r →
      ∃ type, fl.lookup field_name = some type ∧ r = (un, .ok (type, []))
  | .END, _, _, _ => by simp [structs_find_active]
  | .FIELD fname type rest, field_name, un, r => by
    simp only [structs_find_active, FieldList.lookup]
    split_ifs with h
    · intro hr
      injection hr with hr
      exact ⟨type, rfl, by rw [← hr]; rfl⟩
    · exact find_active_none bo su rest field_name un r

theorem find_union_switch (bo : ByteOrder) (flist : FieldList) (fn name : List Nat) (un : Value)
    (hne : name ≠ []) (hname : name ≠ name_field_name) (hfn : flist.lookup fn ≠ none)
    (hact : structs_name_match fn name = none) :
    structs_find bo (.union flist) (some name) (.union (some fn) (some un)) true =
      match structs_find_switch bo flist name with
      | (none, r) => (.union (some fn) (some un), r)
      | (some (fname, new_un), r) =>
        (.union (some fname) (some new_un), result_under .un r) := by
  cases name with
  | nil => exact absurd rfl hne
  | cons c name =>
    cases hl : flist.lookup fn with
    | none => exact absurd hl hfn
    | some ty =>
      simp [structs_find, structs_find_head, Descriptor.tclass, structs_find_sub, hname, hl,
        hact]

/-- C15: scenario E3 and its general rule.  The union `{ x: uint32 | y: string }`
after `init` has the active field `x` (with payload 0), and `structs_set_string`
with the path "y" and the text "hello" succeeds and leaves the union active on
`y` with the payload "hello".  In general, for a union value whose active field
is in the table and a path, not empty and other than "field_name", that does
not start with the name of the active field: when `structs_set_string` succeeds, the path
starts with the name of another entry of the table, the union is active on
that entry, and the item the rest of the path leads to in its payload is the
value `binify` made of the text (the payload itself when the path ends with
the name). -/
theorem set_string_switches (bo : ByteOrder)
    (leaf_binify : Descriptor → List Nat → Except Errno Value) (flist : FieldList)
    (fn name : List Nat) (un : Value) (ascii : Option (List Nat)) (data' : Value)
    (hne : name ≠ []) (hname : name ≠ name_field_name) (hfn : flist.lookup fn ≠ none)
    (hact1 : name ≠ fn) (hact2 : ∀ r, name ≠ fn ++ STRUCTS_SEPARATOR :: r)
    (hok : structs_set_string bo leaf_binify (.union flist) (some name) ascii
      (.union (some fn) (some un)) = (data', .ok ())) :
    ((E3_type.type bo).init = .ok union_x_value ∧
      structs_set_string bo leaf_binify E3_type (some [121]) (some text_hello) union_x_value
        = (E3_value, .ok ())) ∧
    ∃ fname next u t loc x, name = path_of fname next ∧ flist.lookup fname ≠ none ∧
      fname ≠ fn ∧ data' = .union (some fname) (some u) ∧
      t.binify leaf_binify (ascii.getD []) = .ok x ∧
      data'.read bo (.un :: loc) = some x ∧
      (next = none → flist.lookup fname = some t ∧ u = x) := by
  refine ⟨⟨by cases bo <;> rfl, by cases bo <;> rfl⟩, ?_⟩
  have hact := name_match_none fn name hact1 hact2
  have hfind := find_union_switch bo flist fn name un hne hname hfn hact
  rcases hs : structs_find_switch bo flist name with ⟨_ | ⟨fname, nu⟩, r⟩
  · obtain ⟨e, he⟩ := (find_switch_stable bo flist name).1 r hs
    rw [hs] at hfind
    simp [structs_set_string, hfind, he] at hok
  · obtain ⟨⟨⟨t, loc⟩, hx⟩, next, hn, hlk, hactive⟩ :=
      (find_switch_stable bo flist name).2 fname nu r hs
    rw [hs] at hfind
    subst hx
    simp only [structs_set_string, hfind, result_under] at hok
    cases hb : t.binify leaf_binify (ascii.getD []) with
    | error e => simp [hb] at hok
    | ok x =>
      cases hw : nu.write loc x with
      | none => simp [hb, Value.write, hw] at hok
      | some u =>
        simp [hb, Value.write, hw] at hok
        refine ⟨fname, next, u, t, loc, x, name_match_path fname name next hn, hlk, ?_,
          hok.symm, hb, ?_, ?_⟩
        · rintro rfl
          rw [hact] at hn
          cases hn
        · rw [← hok]
          simpa [Value.read] using write_read bo loc nu x u hw
        · rintro rfl
          obtain ⟨type, hty, hr⟩ := find_active_none bo true flist fname nu _ hactive
          simp at hr
          obtain ⟨h1, h2⟩ := hr
          subst h1 h2
          simp [Value.write] at hw
          exact ⟨hty, hw.symm⟩

theorem set_string_switches_witness :
    ((E3_type.type .BIG_ENDIAN).init = .ok union_x_value ∧
      structs_set_string .BIG_ENDIAN (fun _ _ => .error .ENOSYS) E3_type (some [121])
        (some text_hello) union_x_value = (E3_value, .ok ())) ∧
    ∃ fname next u t loc x, [121] = path_of fname next ∧
      (FieldList.FIELD [120] .uint32 (.FIELD [121] (.string false) .END)).lookup fname ≠ none ∧
      fname ≠ [120] ∧ E3_value = .union (some fname) (some u) ∧
      t.binify (fun _ _ => .error .ENOSYS) ((some text_hello).getD []) = .ok x ∧
      E3_value.read .BIG_ENDIAN (.un :: loc) = some x ∧
      (next = none →
        (FieldList.FIELD [120] .uint32 (.FIELD [121] (.string false) .END)).lookup fname
          = some t ∧ u = x) :=
  set_string_switches .BIG_ENDIAN (fun _ _ => .error .ENOSYS)
    (.FIELD [120] .uint32 (.FIELD [121] (.string false) .END)) [120] [121]
    (.region [0, 0, 0, 0]) (some text_hello) E3_value (by decide) (by decide)
    (by simp [FieldList.lookup]) (by decide) (by intro r; simp [STRUCTS_SEPARATOR]) rfl

/-- C16, as stated, fails when a field name holds the separator: in the union
`{ a: uint32 | a.b: string }` with the active field `a.b`, the first component
"a" of the path "a.b" names an entry of the table other than the active one,
and `structs_find` with `set_union = 0` succeeds: it resolves to the payload of
the active field. -/
theorem union_read_dotted_name :
    first_component [97, 46, 98] = [97] ∧
      (FieldList.FIELD [97] .uint32 (.FIELD [97, 46, 98] (.string false) .END)).lookup [97]
        = some .uint32 ∧
      ([97] : List Nat) ≠ [97, 46, 98] ∧
      ([97, 46, 98] : List Nat) ≠ name_field_name ∧
      structs_find .BIG_ENDIAN dotted_union_type (some [97, 46, 98]) dotted_union_value false
        = (dotted_union_value, .ok (.string false, [.un])) :=
  ⟨rfl, rfl, by decide, by decide, rfl⟩

/-- C16, amended: no variant switch on reads.  For every union value whose
active field is in the table and every path that is not empty, is not
"field_name", and does not consist of the name of the active field followed by
the end of the path or by a separator (so for every path whose first component
names another field, when the name of the active field has no separator),
`structs_find` with `set_union = 0` fails with `ENOENT` and leaves the union as
it is. -/
theorem union_read_no_switch (bo : ByteOrder) (flist : FieldList) (fn name : List Nat)
    (un : Value) (hne : name ≠ []) (hname : name ≠ name_field_name)
    (hfn : flist.lookup fn ≠ none) (hact1 : name ≠ fn)
    (hact2 : ∀ r, name ≠ fn ++ STRUCTS_SEPARATOR :: r) :
    structs_find bo (.union flist) (some name) (.union (some fn) (some un)) false
      = (.union (some fn) (some un), .error .ENOENT) := by
  have hact := name_match_none fn name hact1 hact2
  cases name with
  | nil => exact absurd rfl hne
  | cons c name =>
    cases hl : flist.lookup fn with
    | none => exact absurd hl hfn
    | some ty =>
      simp [structs_find, structs_find_head, Descriptor.tclass, structs_find_sub, hname, hl,
        hact]

theorem union_read_no_switch_witness :
    structs_find .BIG_ENDIAN (.union (.FIELD [120] .uint32 (.FIELD [121] (.string false) .END)))
        (some [121]) (.union (some [120]) (some (.region [0, 0, 0, 0]))) false
      = (.union (some [120]) (some (.region [0, 0, 0, 0])), .error .ENOENT) :=
  union_read_no_switch .BIG_ENDIAN (.FIELD [120] .uint32 (.FIELD [121] (.string false) .END))
    [120] [121] (.region [0, 0, 0, 0]) (by decide) (by decide) (by simp [FieldList.lookup])
    (by decide) (by intro r; simp [STRUCTS_SEPARATOR])

/-! ## Arrays in a path -/

theorem strtoul_digits_append : ∀ (digits rest : List Nat) (value : Nat),
    digits.all isdigit = true → (∀ c r, rest = c :: r → isdigit c = false) →
    strtoul_digits (digits ++ rest) value
      = (digits.foldl (fun value c => value * 10 + (c - 48)) value, rest)
  | [], rest, value, _, hr => by
    cases rest with
    | nil => rfl
    | cons c r => simp [strtoul_digits, hr c r rfl]
  | d :: digits, rest, value, hd, hr => by
    simp at hd
    simp [strtoul_digits, hd.1, strtoul_digits_append digits rest _ (by simpa using hd.2) hr]

theorem structs_index_path (digits : List Nat) (rest : Option (List Nat)) (hd : digits ≠ [])
    (hdig : digits.all isdigit = true) :
    structs_index (path_of digits rest)
      = some (if decimal_value digits > ULONG_MAX then ULONG_MAX else decimal_value digits) := by
  obtain ⟨d, ds, rfl⟩ := List.exists_cons_of_ne_nil hd
  have hd0 : isdigit d = true := by simp at hdig; exact hdig.1
  cases rest with
  | none =>
    have h := strtoul_digits_append (d :: ds) [] 0 hdig (by simp)
    simp only [List.append_nil] at h
    simp [path_of, structs_index, hd0, h, decimal_value]
  | some r =>
    have h := strtoul_digits_append (d :: ds) (STRUCTS_SEPARATOR :: r) 0 hdig
      (by intro c r' h; injection h with h1 h2; rw [← h1]; decide)
    have h' : strtoul_digits (d :: (ds ++ STRUCTS_SEPARATOR :: r)) 0
        = (List.foldl (fun value c => value * 10 + (c - 48)) 0 (d :: ds),
          STRUCTS_SEPARATOR :: r) := h
    simp [path_of, structs_index, hd0, h', decimal_value]

theorem structs_next_path : ∀ (digits : List Nat) (rest : Option (List Nat)),
    digits.all isdigit = true → structs_next (path_of digits rest) = rest
  | [], none, _ => rfl
  | [], some r, _ => by simp [path_of, structs_next]
  | d :: ds, rest, h => by
    simp at h
    have hd : d ≠ STRUCTS_SEPARATOR := by
      rintro rfl
      exact absurd h.1 (by decide)
    have ih := structs_next_path ds rest (by simpa using h.2)
    cases rest with
    | none => simpa [path_of, structs_next, hd] using ih
    | some r => simpa [path_of, structs_next, hd] using ih

theorem path_of_digits_ne (digits : List Nat) (rest : Option (List Nat)) (hd : digits ≠ [])
    (hdig : digits.all isdigit = true) :
    path_of digits rest ≠ name_length ∧ path_of digits rest ≠ [] := by
  obtain ⟨d, ds, rfl⟩ := List.exists_cons_of_ne_nil hd
  have hd0 : isdigit d = true := by simp at hdig; exact hdig.1
  have h108 : d ≠ 108 := by
    rintro rfl
    exact absurd hd0 (by decide)
  cases rest <;> simp [path_of, name_length, h108]

theorem find_array_index (bo : ByteOrder) (etype : Descriptor) (elems : List Value) (su : Bool)
    (digits : List Nat) (rest : Option (List Nat)) (hd : digits ≠ [])
    (hdig : digits.all isdigit = true) :
    structs_find bo (.array etype) (some (path_of digits rest)) (.array elems) su =
      match elems[if decimal_value digits > ULONG_MAX then ULONG_MAX
        else decimal_value digits]? with
      | none => (.array elems, .error .EDOM)
      | some elem =>
        (structs_find bo etype rest elem su).lift
          (fun e => .array (elems.set (if decimal_value digits > ULONG_MAX then ULONG_MAX
            else decimal_value digits) e))
          (.elem (if decimal_value digits > ULONG_MAX then ULONG_MAX
            else decimal_value digits)) := by
  obtain ⟨h1, h2⟩ := path_of_digits_ne digits rest hd hdig
  obtain ⟨c, name, hc⟩ := List.exists_cons_of_ne_nil h2
  have hi := structs_index_path digits rest hd hdig
  have hn := structs_next_path digits rest hdig
  rw [hc] at h1 hi hn ⊢
  simp only [structs_find, structs_find_head, Descriptor.tclass, structs_find_sub, h1, hi, hn]
  simp

/-- Array addressing.  For every variable array of length `L` (an
`unsigned int`): the path "length" resolves to the descriptor "uint" of the
array length, which refuses `binify` and `decode`, and to the item
`&ary->length`, whose value is `L` (its encoding is the four bytes of `L` in
network order); a path whose first component is a decimal index `i < L`
resolves into element `i`, with the rest of the path; a decimal index
`i >= L` fails with `EDOM`. -/
theorem array_addressing (bo : ByteOrder) (etype : Descriptor) (elems : List Value) (su : Bool)
    (leaf_binify : Descriptor → List Nat → Except Errno Value) (ascii code : List Nat)
    (digits : List Nat) (rest : Option (List Nat)) (hL : elems.length < 2 ^ 32)
    (hd : digits ≠ []) (hdig : digits.all isdigit = true) :
    (structs_find bo (.array etype) (some name_length) (.array elems) su
        = (.array elems, .ok (.array_length, [.length])) ∧
      (Value.array elems).read bo [.length] = some (.region (uint_bytes bo elems.length)) ∧
      (Descriptor.array_length.type bo).encode (.region (uint_bytes bo elems.length))
        = .ok (uint32_bytes .BIG_ENDIAN elems.length) ∧
      (Descriptor.array_length.type bo).name = "uint" ∧
      Descriptor.array_length.binify leaf_binify ascii = .error .ENOSYS ∧
      (Descriptor.array_length.type bo).decode code = .error .ENOSYS) ∧
    (∀ elem, elems[decimal_value digits]? = some elem →
      structs_find bo (.array etype) (some (path_of digits rest)) (.array elems) su
        = (structs_find bo etype rest elem su).lift
          (fun e => .array (elems.set (decimal_value digits) e))
          (.elem (decimal_value digits))) ∧
    (elems.length ≤ decimal_value digits →
      structs_find bo (.array etype) (some (path_of digits rest)) (.array elems) su
        = (.array elems, .error .EDOM)) := by
  have hfind := find_array_index bo etype elems su digits rest hd hdig
  refine ⟨⟨rfl, rfl, ?_, rfl, rfl, rfl⟩, ?_, ?_⟩
  · cases bo <;>
      simp [Descriptor.type, structs_type_array_length, structs_region_encode_netorder,
        structs_region_encode, netorder_swap, uint_bytes, uint32_bytes]
  · intro elem hget
    have hlt : decimal_value digits < elems.length := (List.getElem?_eq_some_iff.1 hget).1
    have hmax : ¬ decimal_value digits > ULONG_MAX := by
      simp only [ULONG_MAX]
      omega
    rw [hfind]
    simp only [hmax, if_false, hget]
  · intro hge
    rw [hfind]
    have : elems[if decimal_value digits > ULONG_MAX then ULONG_MAX
        else decimal_value digits]? = none := by
      rw [List.getElem?_eq_none_iff]
      split_ifs
      · simp only [ULONG_MAX]; omega
      · exact hge
    rw [this]

theorem array_addressing_witness :
    (structs_find .BIG_ENDIAN (.array .uint32) (some name_length)
        (.array [.region [0, 0, 0, 100], .region [0, 0, 0, 200]]) false
        = (.array [.region [0, 0, 0, 100], .region [0, 0, 0, 200]],
          .ok (.array_length, [.length])) ∧
      (Value.array [.region [0, 0, 0, 100], .region [0, 0, 0, 200]]).read .BIG_ENDIAN [.length]
        = some (.region (uint_bytes .BIG_ENDIAN
          [Value.region [0, 0, 0, 100], .region [0, 0, 0, 200]].length)) ∧
      (Descriptor.array_length.type .BIG_ENDIAN).encode (.region (uint_bytes .BIG_ENDIAN
          [Value.region [0, 0, 0, 100], .region [0, 0, 0, 200]].length))
        = .ok (uint32_bytes .BIG_ENDIAN
          [Value.region [0, 0, 0, 100], .region [0, 0, 0, 200]].length) ∧
      (Descriptor.array_length.type .BIG_ENDIAN).name = "uint" ∧
      Descriptor.array_length.binify (fun _ _ => .error .ENOSYS) [50] = .error .ENOSYS ∧
      (Descriptor.array_length.type .BIG_ENDIAN).decode [0, 0, 0, 2] = .error .ENOSYS) ∧
    (∀ elem, [Value.region [0, 0, 0, 100], .region [0, 0, 0, 200]][decimal_value [49]]?
        = some elem →
      structs_find .BIG_ENDIAN (.array .uint32) (some (path_of [49] none))
          (.array [.region [0, 0, 0, 100], .region [0, 0, 0, 200]]) false
        = (structs_find .BIG_ENDIAN .uint32 none elem false).lift
          (fun e => .array ([Value.region [0, 0, 0, 100], .region [0, 0, 0, 200]].set
            (decimal_value [49]) e))
          (.elem (decimal_value [49]))) ∧
    ([Value.region [0, 0, 0, 100], .region [0, 0, 0, 200]].length ≤ decimal_value [49] →
      structs_find .BIG_ENDIAN (.array .uint32) (some (path_of [49] none))
          (.array [.region [0, 0, 0, 100], .region [0, 0, 0, 200]]) false
        = (.array [.region [0, 0, 0, 100], .region [0, 0, 0, 200]], .error .EDOM)) :=
  array_addressing .BIG_ENDIAN .uint32 [.region [0, 0, 0, 100], .region [0, 0, 0, 200]] false
    (fun _ _ => .error .ENOSYS) [50] [0, 0, 0, 2] [49] none (by simp) (by decide) (by decide)

/-- C17: the length of an array is not read-only.  On every variable array
of two elements the path "length" resolves to the descriptor of the array
length and the item `&ary->length`, and `structs_get` reads 2 there;
`structs_set_string` and `structs_set_binary` on "length" are refused with
`ENOSYS` and leave the array as it is, as the comment "Special handling for
array length as a read-only field" above the descriptor says.  `structs_set`
on "length" with the number 1 returns 0 and stores it: the descriptor has
`structs_region_copy` for its `copy`, and the `memcpy` of `structs_set` goes
to `&ary->length`.  The array then has one element: "length" reads 1, and the
index "1", which resolved into the second element before, fails with
`EDOM`.  The other read-only item, the "field_name" of a union, has
`structs_notsupp_copy`: `structs_set` on it is refused with `ENOSYS`. -/
theorem set_overwrites_array_length (bo : ByteOrder) (etype : Descriptor) (e0 e1 : Value)
    (leaf_binify : Descriptor → List Nat → Except Errno Value) (ascii code : List Nat)
    (flist : FieldList) (field_name : List Nat) (un from_data : Value) :
    structs_find bo (.array etype) (some name_length) (.array [e0, e1]) false
        = (.array [e0, e1], .ok (.array_length, [.length])) ∧
      structs_get bo (.array etype) (some name_length) (.array [e0, e1])
        = .ok (.region (uint_bytes bo 2)) ∧
      structs_set_string bo leaf_binify (.array etype) (some name_length) (some ascii)
          (.array [e0, e1])
        = (.array [e0, e1], .error .ENOSYS) ∧
      structs_set_binary bo (.array etype) (some name_length) code (.array [e0, e1])
        = (.array [e0, e1], .error .ENOSYS) ∧
      structs_set bo (.array etype) (.region (uint_bytes bo 1)) (some name_length)
          (.array [e0, e1])
        = (.array [e0], .ok ()) ∧
      structs_get bo (.array etype) (some name_length) (.array [e0])
        = .ok (.region (uint_bytes bo 1)) ∧
      uint_bytes bo 1 ≠ uint_bytes bo 2 ∧
      (structs_find bo (.array etype) (some [49]) (.array [e0, e1]) false).2
        = (structs_find bo etype none e1 false).2.map (fun r => (r.1, .elem 1 :: r.2)) ∧
      structs_find bo (.array etype) (some [49]) (.array [e0]) false
        = (.array [e0], .error .EDOM) ∧
      structs_set bo (.union flist) from_data (some name_field_name)
          (.union (some field_name) (some un))
        = (.union (some field_name) (some un), .error .ENOSYS) := by
  refine ⟨rfl, ?_, rfl, rfl, ?_, ?_, ?_, rfl, rfl, rfl⟩
  · cases bo <;> rfl
  · cases bo <;> rfl
  · cases bo <;> rfl
  · cases bo <;> decide

/-- C18: the length of a fixed array is not what the path "length" gives.  For
every fixed array descriptor of length `alen`, `structs_find` on "length"
returns the descriptor of the array length with the pointer
`&type->args[2].i` taken after `type` has been set to
`structs_type_array_length`: the item is the third argument of that
descriptor, which its initialiser leaves zero, and not the length of the
array.  For a fixed array of length 2 the value found is 0. -/
theorem fixedarray_length_is_zero (bo : ByteOrder) (etype : Descriptor) (alen : Nat)
    (elems : List Value) (su : Bool) :
    structs_find bo (.fixedarray etype alen) (some name_length) (.fixedarray elems) su
        = (.fixedarray elems, .ok (.array_length, [.args2])) ∧
      (Value.fixedarray elems).read bo [.args2] = some (.region (uint_bytes bo 0)) ∧
      (Descriptor.array_length.type bo).encode (.region (uint_bytes bo 0))
        = .ok [0, 0, 0, 0] ∧
      uint_bytes bo 0 ≠ uint_bytes bo 2 := by
  refine ⟨rfl, ?_, ?_, ?_⟩
  · cases elems <;> rfl
  · cases bo <;> rfl
  · cases bo <;> decide

/-! ## Structures in a path -/

theorem find_field_first (bo : ByteOrder) (su : Bool) : ∀ (fl : FieldList) (name : List Nat)
    (fields : List Value) (k i : Nat) (fname : List Nat) (type : Descriptor)
    (next : Option (List Nat)) (fdata : Value),
    fl.toList[i]? = some (fname, type) → structs_name_match fname name = some next →
    (∀ j g t, j < i → fl.toList[j]? = some (g, t) → structs_name_match g name = none) →
    fields[i]? = some fdata →
    structs_find_field bo fl name fields k su
      = (fields.set i (structs_find bo type next fdata su).1,
        result_under (.member (k + i)) (structs_find bo type next fdata su).2)
  | .END, _, _, _, _, _, _, _, _, h, _, _, _ => by simp [FieldList.toList] at h
  | .FIELD f0 t0 rest, name, fields, k, 0, fname, type, next, fdata, h, hm, _, hd => by
    simp [FieldList.toList] at h
    obtain ⟨h1, h2⟩ := h
    subst h1 h2
    cases fields with
    | nil => simp at hd
    | cons fd fs =>
      simp at hd
      subst hd
      simp [structs_find_field, hm, structs_find]
  | .FIELD f0 t0 rest, name, fields, k, i + 1, fname, type, next, fdata, h, hm, hp, hd => by
    have h0 : structs_name_match f0 name = none :=
      hp 0 f0 t0 (Nat.succ_pos i) (by simp [FieldList.toList])
    cases fields with
    | nil => simp at hd
    | cons fd fs =>
      simp at hd
      simp [FieldList.toList] at h
      have ih := find_field_first bo su rest name fs (k + 1) i fname type next fdata h hm
        (fun j g t hj hg => hp (j + 1) g t (Nat.succ_lt_succ hj) (by simpa [FieldList.toList] using hg))
        hd
      simp [structs_find_field, h0, ih, Nat.add_assoc, Nat.add_comm 1 i]

/-- C19, as stated, fails: the field chosen depends on the order of the field
table.  In the structure `{ a: uint32, a.b: uint32 }` the path "a.b" is taken
to the field "a", listed first, with the rest "b", and fails with `ENOENT`
since that field is primitive; with the two fields in the other order the same
path resolves to the field "a.b". -/
theorem struct_match_depends_on_order :
    structs_find .BIG_ENDIAN dotted_struct_type (some [97, 46, 98])
        (.structure [.region [0, 0, 0, 1], .region [0, 0, 0, 2]]) false
        = (.structure [.region [0, 0, 0, 1], .region [0, 0, 0, 2]], .error .ENOENT) ∧
      structs_find .BIG_ENDIAN dotted_struct_swapped (some [97, 46, 98])
        (.structure [.region [0, 0, 0, 2], .region [0, 0, 0, 1]]) false
        = (.structure [.region [0, 0, 0, 2], .region [0, 0, 0, 1]],
          .ok (.uint32, [.member 0])) :=
  ⟨rfl, rfl⟩

/-- C19, amended: first-match field selection.  For every structure, whose
field names may hold the separator, and every path that is not empty,
`structs_find` selects the first field, in the order of the field table, whose
name is followed in the path by the end of the path or by a separator, and
resolves the rest of the path in the value of that field. -/
theorem struct_first_match (bo : ByteOrder) (su : Bool) (flist : FieldList) (name : List Nat)
    (fields : List Value) (i : Nat) (fname : List Nat) (type : Descriptor)
    (next : Option (List Nat)) (fdata : Value) (hne : name ≠ [])
    (hi : flist.toList[i]? = some (fname, type)) (hname : name = path_of fname next)
    (hfirst : ∀ j g t, j < i → flist.toList[j]? = some (g, t) →
      name ≠ g ∧ ∀ r, name ≠ g ++ STRUCTS_SEPARATOR :: r)
    (hdata : fields[i]? = some fdata) :
    structs_find bo (.structure flist) (some name) (.structure fields) su
      = (structs_find bo type next fdata su).lift (fun f => .structure (fields.set i f))
        (.member i) := by
  have hm : structs_name_match fname name = some next := by
    rw [hname]
    exact name_match_path_of fname next
  have h := find_field_first bo su flist name fields 0 i fname type next fdata hi hm
    (fun j g t hj hg => name_match_none g name (hfirst j g t hj hg).1 (hfirst j g t hj hg).2)
    hdata
  obtain ⟨c, name', hc⟩ := List.exists_cons_of_ne_nil hne
  rw [hc] at h ⊢
  simp [structs_find, structs_find_head, Descriptor.tclass, structs_find_sub, h, Found.lift]

theorem struct_first_match_witness :
    structs_find .BIG_ENDIAN
        (.structure (.FIELD [97] .uint32 (.FIELD [97, 46, 98] .uint32 .END)))
        (some [97, 46, 98]) (.structure [.region [0, 0, 0, 1], .region [0, 0, 0, 2]]) false
      = (structs_find .BIG_ENDIAN .uint32 (some [98]) (.region [0, 0, 0, 1]) false).lift
        (fun f => .structure ([Value.region [0, 0, 0, 1], .region [0, 0, 0, 2]].set 0 f))
        (.member 0) :=
  struct_first_match .BIG_ENDIAN false (.FIELD [97] .uint32 (.FIELD [97, 46, 98] .uint32 .END))
    [97, 46, 98] [.region [0, 0, 0, 1], .region [0, 0, 0, 2]] 0 [97] .uint32 (some [98])
    (.region [0, 0, 0, 1]) (by decide) rfl rfl (by intro j g t hj; omega) rfl

/-! ## structs_traverse -/

theorem printf_d_ne_nil (i : Nat) : printf_d i ≠ [] := by
  have h : ∀ (f n : Nat) (ds : List Char), Nat.toDigitsCore 10 (f + 1) n ds ≠ [] := by
    intro f
    induction f with
    | zero =>
      intro n ds
      simp [Nat.toDigitsCore]
    | succ f ih =>
      intro n ds
      rw [Nat.toDigitsCore]
      split_ifs
      · simp
      · exact ih _ _
  simpa [printf_d, Nat.toDigits] using h i i []

theorem trav_elems_leaves
    (trav : List Nat → Value → List (List Nat) → Except Errno (List (List Nat)))
    (leaves : Value → List (List (List Nat))) (name : List Nat) :
    ∀ (elems : List Value) (i : Nat) (t : List (List Nat)),
    (∀ e ∈ elems, ∀ n t, trav n e t = .ok (t ++ (leaves e).map (trav_join n))) →
    i + elems.length ≤ 2 ^ 31 →
    structs_trav_elems trav name elems i t
      = .ok (t ++ (leaves_elems leaves elems i).map (trav_join name))
  | [], i, t, _, _ => by simp [structs_trav_elems, leaves_elems]
  | e :: elems, i, t, h, hi => by
    have hlt : ¬ i ≥ 2 ^ 31 := by
      simp only [List.length_cons] at hi
      omega
    have he := h e (List.mem_cons_self _ _)
    have ih := trav_elems_leaves trav leaves name elems (i + 1)
      (t ++ (leaves e).map (trav_join (name ++ trav_dot name ++ printf_d i)))
      (fun e' he' => h e' (List.mem_cons_of_mem _ he'))
      (by simp only [List.length_cons] at hi; omega)
    simp only [structs_trav_elems, hlt, if_false, he, ih, leaves_elems]
    simp [trav_join, Function.comp_def]

set_option maxHeartbeats 1000000 in
mutual
theorem trav_leaves : ∀ (T : Descriptor) (name : List Nat) (v : Value) (t : List (List Nat)),
    T.hasType v = true → T.short v = true →
    structs_trav T name v t = .ok (t ++ (T.leaves v).map (trav_join name))
  | .pointer reftype, name, v, t, h, hs => by
    rcases v with _ | _ | _ | (_ | p) | _ | _ | _ | _
    case pointer.some =>
      simp only [Descriptor.hasType, Descriptor.short] at h hs
      simpa [structs_trav, Descriptor.leaves] using trav_leaves reftype name p t h hs
    all_goals simp [Descriptor.hasType] at h
  | .array etype, name, v, t, h, hs => by
    rcases v with _ | _ | _ | _ | elems | _ | _ | _
    case array =>
      simp [Descriptor.hasType, Descriptor.short] at h hs
      simp only [structs_trav, Descriptor.leaves]
      exact trav_elems_leaves (structs_trav etype) etype.leaves name elems 0 t
        (fun e he n t => trav_leaves etype n e t (h.1 e he) (hs.2 e he)) (by omega)
    all_goals simp [Descriptor.hasType] at h
  | .fixedarray etype alen, name, v, t, h, hs => by
    rcases v with _ | _ | _ | _ | _ | elems | _ | _
    case fixedarray =>
      simp [Descriptor.hasType, Descriptor.short] at h hs
      simp only [structs_trav, Descriptor.leaves, h.1, if_true]
      exact trav_elems_leaves (structs_trav etype) etype.leaves name elems 0 t
        (fun e he n t => trav_leaves etype n e t (h.2 e he) (hs.2 e he)) (by omega)
    all_goals simp [Descriptor.hasType] at h
  | .structure flist, name, v, t, h, hs => by
    rcases v with _ | _ | _ | _ | _ | _ | fields | _
    iterate 6 simp [Descriptor.hasType] at h
    · simp only [Descriptor.hasType, Descriptor.short] at h hs
      simpa [structs_trav, Descriptor.leaves] using trav_fields_leaves flist name fields t h hs
    · simp [Descriptor.hasType] at h
  | .union flist, name, v, t, h, hs => by
    rcases v with _ | _ | _ | _ | _ | _ | _ | ⟨_ | fn, _ | un⟩
    case union.some.some =>
      simp only [Descriptor.hasType, Descriptor.short] at h hs
      simpa [structs_trav, Descriptor.leaves] using trav_active_leaves flist name fn un t h hs
    all_goals simp [Descriptor.hasType] at h
  | .int _ _, name, v, t, h, _ => by
    cases v <;> simp [structs_trav, Descriptor.leaves, trav_join]
  | .string _, name, v, t, h, _ => by
    cases v <;> simp [structs_trav, Descriptor.leaves, trav_join]
  | .data _, name, v, t, h, _ => by
    cases v <;> simp [structs_trav, Descriptor.leaves, trav_join]
  | .fixeddata _, name, v, t, h, _ => by
    cases v <;> simp [structs_trav, Descriptor.leaves, trav_join]
  | .null, name, v, t, h, _ => by
    cases v <;> simp [structs_trav, Descriptor.leaves, trav_join]
  | .array_length, name, v, t, h, _ => by
    cases v <;> simp [structs_trav, Descriptor.leaves, trav_join]
  | .union_field_name, name, v, t, h, _ => by
    cases v <;> simp [structs_trav, Descriptor.leaves, trav_join]
theorem trav_fields_leaves : ∀ (fl : FieldList) (name : List Nat) (fields : List Value)
    (t : List (List Nat)), fl.hasTypes fields = true → fl.shorts fields = true →
    structs_trav_fields fl name fields t = .ok (t ++ (fl.leaves fields).map (trav_join name))
  | .END, name, fields, t, h, _ => by
    cases fields with
    | nil => simp [structs_trav_fields, FieldList.leaves]
    | cons _ _ => simp [FieldList.hasTypes] at h
  | .FIELD fname type rest, name, fields, t, h, hs => by
    cases fields with
    | nil => simp [FieldList.hasTypes] at h
    | cons fd fs =>
      simp [FieldList.hasTypes, FieldList.shorts] at h hs
      have h1 := trav_leaves type (name ++ trav_dot name ++ fname) fd t h.1 hs.1
      have h2 := trav_fields_leaves rest name fs
        (t ++ (type.leaves fd).map (trav_join (name ++ trav_dot name ++ fname))) h.2 hs.2
      simp only [structs_trav_fields, h1, h2, FieldList.leaves]
      simp [trav_join, Function.comp_def]
theorem trav_active_leaves : ∀ (fl : FieldList) (name field_name : List Nat) (un : Value)
    (t : List (List Nat)), fl.hasVariant field_name un = true →
    fl.short_active field_name un = true →
    structs_trav_active fl name field_name un t
      = .ok (t ++ (fl.leaves_active field_name un).map (trav_join name))
  | .END, _, _, _, _, h, _ => by simp [FieldList.hasVariant] at h
  | .FIELD fname type rest, name, field_name, un, t, h, hs => by
    simp only [FieldList.hasVariant, FieldList.short_active] at h hs
    simp only [structs_trav_active, FieldList.leaves_active]
    split_ifs with hf
    · simp only [hf, if_true] at h hs
      rw [trav_leaves type _ un t h hs]
      simp [trav_join, Function.comp_def]
    · simp only [hf, if_false] at h hs
      exact trav_active_leaves rest name field_name un t h hs
end

theorem join_path_cons (c : List Nat) (p : List (List Nat)) :
    join_path (c :: p) = c ++ (p.map (fun d => STRUCTS_SEPARATOR :: d)).flatten := by
  induction p generalizing c with
  | nil => simp [join_path, List.intercalate]
  | cons d p ih =>
    have h := ih d
    simp only [join_path, List.intercalate, List.intersperse, List.flatten_cons] at h ⊢
    simp [h]

theorem trav_join_eq : ∀ (p : List (List Nat)) (name : List Nat), name ≠ [] →
    (∀ c ∈ p, c ≠ []) →
    trav_join name p = name ++ (p.map (fun d => STRUCTS_SEPARATOR :: d)).flatten
  | [], name, _, _ => by simp [trav_join]
  | c :: p, name, hn, hp => by
    have ih := trav_join_eq p (name ++ trav_dot name ++ c) (by simp [hn])
      (fun d hd => hp d (List.mem_cons_of_mem _ hd))
    simp only [trav_join, List.foldl_cons] at ih ⊢
    rw [ih]
    simp [trav_dot, hn, STRUCTS_SEPARATOR]

theorem trav_join_nil (p : List (List Nat)) (hp : ∀ c ∈ p, c ≠ []) :
    trav_join [] p = join_path p := by
  cases p with
  | nil => rfl
  | cons c p =>
    have hc : c ≠ [] := hp c (List.mem_cons_self _ _)
    have h := trav_join_eq p c hc (fun d hd => hp d (List.mem_cons_of_mem _ hd))
    rw [join_path_cons, ← h]
    simp [trav_join, trav_dot]

theorem leaves_elems_named (leaves : Value → List (List (List Nat))) :
    ∀ (elems : List Value) (i : Nat),
    (∀ e ∈ elems, ∀ p ∈ leaves e, ∀ c ∈ p, c ≠ []) →
    ∀ p ∈ leaves_elems leaves elems i, ∀ c ∈ p, c ≠ []
  | [], _, _ => by simp [leaves_elems]
  | e :: elems, i, h => by
    intro p hp c hc
    simp only [leaves_elems, List.mem_append, List.mem_map] at hp
    rcases hp with ⟨q, hq, rfl⟩ | hp
    · rcases List.mem_cons.1 hc with rfl | hc
      · exact printf_d_ne_nil i
      · exact h e (List.mem_cons_self _ _) q hq c hc
    · exact leaves_elems_named leaves elems (i + 1)
        (fun e' he' => h e' (List.mem_cons_of_mem _ he')) p hp c hc

mutual
theorem leaves_named : ∀ (T : Descriptor) (v : Value), T.named = true →
    ∀ p ∈ T.leaves v, ∀ c ∈ p, c ≠ []
  | .pointer reftype, v, h => by
    rcases v with _ | _ | _ | (_ | pd) | _ | _ | _ | _
    case pointer.some =>
      simp only [Descriptor.named] at h
      simpa [Descriptor.leaves] using leaves_named reftype pd h
    all_goals simp [Descriptor.leaves]
  | .array etype, v, h => by
    rcases v with _ | _ | _ | _ | elems | _ | _ | _
    case array =>
      simp only [Descriptor.named] at h
      simp only [Descriptor.leaves]
      exact leaves_elems_named etype.leaves elems 0 (fun e _ => leaves_named etype e h)
    all_goals simp [Descriptor.leaves]
  | .fixedarray etype alen, v, h => by
    rcases v with _ | _ | _ | _ | _ | elems | _ | _
    case fixedarray =>
      simp only [Descriptor.named] at h
      simp only [Descriptor.leaves]
      exact leaves_elems_named etype.leaves elems 0 (fun e _ => leaves_named etype e h)
    all_goals simp [Descriptor.leaves]
  | .structure flist, v, h => by
    rcases v with _ | _ | _ | _ | _ | _ | fields | _
    iterate 6 simp [Descriptor.leaves]
    · simp only [Descriptor.named] at h
      simpa [Descriptor.leaves] using leaves_fields_named flist fields h
    · simp [Descriptor.leaves]
  | .union flist, v, h => by
    rcases v with _ | _ | _ | _ | _ | _ | _ | ⟨_ | fn, _ | un⟩
    case union.some.some =>
      simp only [Descriptor.named] at h
      simpa [Descriptor.leaves] using leaves_active_named flist fn un h
    all_goals simp [Descriptor.leaves]
  | .int _ _, v, _ => by cases v <;> simp [Descriptor.leaves]
  | .string _, v, _ => by cases v <;> simp [Descriptor.leaves]
  | .data _, v, _ => by cases v <;> simp [Descriptor.leaves]
  | .fixeddata _, v, _ => by cases v <;> simp [Descriptor.leaves]
  | .null, v, _ => by cases v <;> simp [Descriptor.leaves]
  | .array_length, v, _ => by cases v <;> simp [Descriptor.leaves]
  | .union_field_name, v, _ => by cases v <;> simp [Descriptor.leaves]
theorem leaves_fields_named : ∀ (fl : FieldList) (fields : List Value), fl.named = true →
    ∀ p ∈ fl.leaves fields, ∀ c ∈ p, c ≠ []
  | .END, fields, _ => by simp [FieldList.leaves]
  | .FIELD fname type rest, fields, h => by
    cases fields with
    | nil => simp [FieldList.leaves]
    | cons fd fs =>
      simp [FieldList.named] at h
      intro p hp c hc
      simp only [FieldList.leaves, List.mem_append, List.mem_map] at hp
      rcases hp with ⟨q, hq, rfl⟩ | hp
      · rcases List.mem_cons.1 hc with rfl | hc
        · exact h.1.1
        · exact leaves_named type fd h.1.2 q hq c hc
      · exact leaves_fields_named rest fs h.2 p hp c hc
theorem leaves_active_named : ∀ (fl : FieldList) (field_name : List Nat) (un : Value),
    fl.named = true → ∀ p ∈ fl.leaves_active field_name un, ∀ c ∈ p, c ≠ []
  | .END, _, _, _ => by simp [FieldList.leaves_active]
  | .FIELD fname type rest, field_name, un, h => by
    simp [FieldList.named] at h
    simp only [FieldList.leaves_active]
    split_ifs with hf
    · intro p hp c hc
      simp only [List.mem_map] at hp
      obtain ⟨q, hq, rfl⟩ := hp
      rcases List.mem_cons.1 hc with rfl | hc
      · exact h.1.1
      · exact leaves_named type un h.1.2 q hq c hc
    · exact leaves_active_named rest field_name un h.2
end

/-- C20, as stated, fails for a field whose name is empty: on the structure
`{ "": { a: uint32 } }` the path of the only leaf, joined with the separator,
is ".a", and `structs_traverse` returns "a" (the local `dot` of `structs_trav`
is empty whenever the name built so far is empty). -/
theorem traverse_unnamed_field :
    unnamed_struct_type.hasType (.structure [.structure [.region [0, 0, 0, 0]]]) = true ∧
      structs_traverse unnamed_struct_type (.structure [.structure [.region [0, 0, 0, 0]]])
        = .ok [[97]] ∧
      (unnamed_struct_type.leaves (.structure [.structure [.region [0, 0, 0, 0]]])).map join_path
        = [[46, 97]] :=
  ⟨by decide, rfl, rfl⟩

/-- C20, amended: traverse output.  For every live value of a descriptor none
of whose field names is empty, with every array shorter than `2 ^ 31`,
`structs_traverse` succeeds and returns exactly the paths of the leaves of the
value (the sub-values whose class is PRIMITIVE after the pointers are
dereferenced), each once, depth first in field-table order and ascending
element index, each path being the structure field names, decimal array
indices and active variant names on the way, joined with the separator.  For
the E1 value `{ a = 7, b = "hi", arr = [100, 200] }` it returns "a", "b",
"arr.0", "arr.1". -/
theorem traverse_leaf_paths (bo : ByteOrder) (T : Descriptor) (v : Value)
    (h : T.hasType v = true) (hn : T.named = true) (hs : T.short v = true) :
    structs_traverse T v = .ok ((T.leaves v).map join_path) ∧
      structs_traverse E2_type (E2_value bo)
        = .ok [[97], [98], [97, 114, 114, 46, 48], [97, 114, 114, 46, 49]] := by
  constructor
  · rw [structs_traverse, trav_leaves T [] v [] h hs]
    simp only [List.nil_append]
    congr 1
    apply List.map_congr_left
    intro p hp
    exact trav_join_nil p (leaves_named T v hn p hp)
  · cases bo <;> rfl

theorem traverse_leaf_paths_witness :
    structs_traverse E2_type (E2_value .BIG_ENDIAN)
        = .ok ((E2_type.leaves (E2_value .BIG_ENDIAN)).map join_path) ∧
      structs_traverse E2_type (E2_value .BIG_ENDIAN)
        = .ok [[97], [98], [97, 114, 114, 46, 48], [97, 114, 114, 46, 49]] :=
  traverse_leaf_paths .BIG_ENDIAN E2_type (E2_value .BIG_ENDIAN) (by decide) (by decide)
    (by decide)

/-! ## The operations on the length of an array -/

/-- C23: array insert.  For every variable array of a well-formed element
type with elements `e` of length `L` (an `unsigned int`, with `L + 2` in
range) and every index `i <= L`, `structs_array_insert` succeeds and the array
becomes `e[0..i) ++ [d] ++ e[i..L)`, of length `L + 1`, where `d` is what `init`
of the element type gives; for `i > L` it fails with `EDOM` and the array is
unchanged. -/
theorem array_insert (bo : ByteOrder) (etype : Descriptor) (elems : List Value) (index : Nat)
    (hw : etype.wf = true) (hL : elems.length + 2 < 2 ^ 32) :
    ∃ d, (etype.type bo).init = .ok d ∧
      (index ≤ elems.length →
        structs_array_insert bo (.array etype) none index (.array elems)
            = (.array (elems.take index ++ [d] ++ elems.drop index), .ok ()) ∧
          (elems.take index ++ [d] ++ elems.drop index).length = elems.length + 1) ∧
      (elems.length < index →
        structs_array_insert bo (.array etype) none index (.array elems)
          = (.array elems, .error .EDOM)) := by
  obtain ⟨d, hd, -⟩ := (codec_of_wf bo etype hw).init_ok
  refine ⟨d, hd, ?_, ?_⟩
  · intro hi
    have h1 : ¬ index > elems.length := by omega
    have h2 : ¬ elems.length + 2 ≥ 2 ^ 32 := by omega
    refine ⟨?_, ?_⟩
    · simp only [structs_array_insert, structs_find, structs_find_head, Value.read, h1, h2,
        if_false, hd, Value.write]
      simp
    · simp
      omega
  · intro hi
    simp [structs_array_insert, structs_find, structs_find_head, Value.read, hi]

theorem array_insert_witness :
    ∃ d, (Descriptor.uint32.type .BIG_ENDIAN).init = .ok d ∧
      (1 ≤ [Value.region [0, 0, 0, 100], .region [0, 0, 0, 200]].length →
        structs_array_insert .BIG_ENDIAN (.array .uint32) none 1
            (.array [.region [0, 0, 0, 100], .region [0, 0, 0, 200]])
            = (.array ([Value.region [0, 0, 0, 100], .region [0, 0, 0, 200]].take 1 ++ [d] ++
              [Value.region [0, 0, 0, 100], .region [0, 0, 0, 200]].drop 1), .ok ()) ∧
          ([Value.region [0, 0, 0, 100], .region [0, 0, 0, 200]].take 1 ++ [d] ++
            [Value.region [0, 0, 0, 100], .region [0, 0, 0, 200]].drop 1).length
            = [Value.region [0, 0, 0, 100], .region [0, 0, 0, 200]].length + 1) ∧
      ([Value.region [0, 0, 0, 100], .region [0, 0, 0, 200]].length < 1 →
        structs_array_insert .BIG_ENDIAN (.array .uint32) none 1
            (.array [.region [0, 0, 0, 100], .region [0, 0, 0, 200]])
          = (.array [.region [0, 0, 0, 100], .region [0, 0, 0, 200]], .error .EDOM)) :=
  array_insert .BIG_ENDIAN .uint32 [.region [0, 0, 0, 100], .region [0, 0, 0, 200]] 1
    (by decide) (by simp)

/-- C24: array delete.  For every variable array with elements `e` of length
`L` and every index `i < L`, `structs_array_delete` succeeds and the array
becomes `e[0..i) ++ e[i+1..L)`, of length `L - 1`; for `i >= L` it fails with
`EDOM` and the array is unchanged. -/
theorem array_delete (bo : ByteOrder) (etype : Descriptor) (elems : List Value) (index : Nat) :
    (index < elems.length →
      structs_array_delete bo (.array etype) none index (.array elems)
          = (.array (elems.take index ++ elems.drop (index + 1)), .ok ()) ∧
        (elems.take index ++ elems.drop (index + 1)).length = elems.length - 1) ∧
      (elems.length ≤ index →
        structs_array_delete bo (.array etype) none index (.array elems)
          = (.array elems, .error .EDOM)) := by
  refine ⟨?_, ?_⟩
  · intro hi
    have h1 : ¬ index ≥ elems.length := by omega
    refine ⟨?_, ?_⟩
    · simp [structs_array_delete, structs_find, structs_find_head, Value.read, Value.write, h1]
    · simp
      omega
  · intro hi
    simp [structs_array_delete, structs_find, structs_find_head, Value.read, hi]

theorem array_delete_witness :
    (0 < [Value.region [0, 0, 0, 100], .region [0, 0, 0, 200]].length →
      structs_array_delete .BIG_ENDIAN (.array .uint32) none 0
          (.array [.region [0, 0, 0, 100], .region [0, 0, 0, 200]])
          = (.array ([Value.region [0, 0, 0, 100], .region [0, 0, 0, 200]].take 0 ++
            [Value.region [0, 0, 0, 100], .region [0, 0, 0, 200]].drop (0 + 1)), .ok ()) ∧
        ([Value.region [0, 0, 0, 100], .region [0, 0, 0, 200]].take 0 ++
          [Value.region [0, 0, 0, 100], .region [0, 0, 0, 200]].drop (0 + 1)).length
          = [Value.region [0, 0, 0, 100], .region [0, 0, 0, 200]].length - 1) ∧
      ([Value.region [0, 0, 0, 100], .region [0, 0, 0, 200]].length ≤ 0 →
        structs_array_delete .BIG_ENDIAN (.array .uint32) none 0
            (.array [.region [0, 0, 0, 100], .region [0, 0, 0, 200]])
          = (.array [.region [0, 0, 0, 100], .region [0, 0, 0, 200]], .error .EDOM)) :=
  array_delete .BIG_ENDIAN .uint32 [.region [0, 0, 0, 100], .region [0, 0, 0, 200]] 0

theorem setsize_loop_ok (t : structs_type) (d : Value) (h : t.init = .ok d) :
    ∀ n, structs_array_setsize_loop t n = .ok (List.replicate n d)
  | 0 => rfl
  | n + 1 => by simp [structs_array_setsize_loop, h, setsize_loop_ok t d h n, List.replicate]

/-- C27: array setsize.  For every variable array of a well-formed element
type, of length `L`, and every `n` (an `unsigned int`; when `do_init` is set,
one the `int` loop index reaches: `n < 2 ^ 31`), `structs_array_setsize`
succeeds and the array becomes its first `min(L, n)` elements, unchanged,
followed by `n - L` new elements: each is what `init` of the element type
gives when `do_init` is set, and the zero footprint of the element type
otherwise.  Its length is `n`. -/
theorem array_setsize (bo : ByteOrder) (etype : Descriptor) (elems : List Value) (n : Nat)
    (do_init : Bool) (hw : etype.wf = true) (hn : do_init = true → n < 2 ^ 31) :
    ∃ d, (etype.type bo).init = .ok d ∧
      structs_array_setsize bo (.array etype) none n (.array elems) do_init
        = (.array (elems.take n ++
            List.replicate (n - elems.length) (if do_init = true then d else (etype.type bo).zero)),
          .ok ()) ∧
      (elems.take n ++ List.replicate (n - elems.length)
        (if do_init = true then d else (etype.type bo).zero)).length = n := by
  obtain ⟨d, hd, -⟩ := (codec_of_wf bo etype hw).init_ok
  refine ⟨d, hd, ?_, ?_⟩
  · by_cases h1 : n = elems.length
    · subst h1
      simp [structs_array_setsize, structs_find, structs_find_head, Value.read]
    · by_cases h2 : n = 0
      · subst h2
        simp [structs_array_setsize, structs_find, structs_find_head, Value.read, Value.write, h1]
      · cases do_init with
        | false =>
          simp [structs_array_setsize, structs_find, structs_find_head, Value.read, Value.write,
            h1, h2]
        | true =>
          have h3 : ¬ (n > elems.length ∧ n ≥ 2 ^ 31) := by
            have := hn rfl
            omega
          simp only [structs_array_setsize, structs_find, structs_find_head, Value.read, h1, h2,
            if_false, if_true, h3, setsize_loop_ok _ d hd, Value.write]
  · simp
    omega

theorem array_setsize_witness :
    ∃ d, (Descriptor.uint32.type .BIG_ENDIAN).init = .ok d ∧
      structs_array_setsize .BIG_ENDIAN (.array .uint32) none 3
          (.array [.region [0, 0, 0, 100]]) true
        = (.array ([Value.region [0, 0, 0, 100]].take 3 ++
            List.replicate (3 - [Value.region [0, 0, 0, 100]].length)
              (if true = true then d else (Descriptor.uint32.type .BIG_ENDIAN).zero)),
          .ok ()) ∧
      ([Value.region [0, 0, 0, 100]].take 3 ++
        List.replicate (3 - [Value.region [0, 0, 0, 100]].length)
          (if true = true then d else (Descriptor.uint32.type .BIG_ENDIAN).zero)).length = 3 :=
  array_setsize .BIG_ENDIAN .uint32 [.region [0, 0, 0, 100]] 3 true (by decide)
    (by intro _; decide)

/-! ## structs_array_prep -/

theorem split_path_ne_nil : ∀ name : List Nat, split_path name ≠ []
  | [] => by simp [split_path]
  | c :: name => by
    simp only [split_path]
    split_ifs
    · simp
    · cases h : split_path name <;> simp

theorem split_path_component : ∀ c : List Nat, STRUCTS_SEPARATOR ∉ c → split_path c = [c]
  | [], _ => rfl
  | x :: c, h => by
    have hx : x ≠ STRUCTS_SEPARATOR := fun e => h (by simp [e])
    have ih := split_path_component c (fun e => h (List.mem_cons_of_mem _ e))
    simp [split_path, hx, ih]

theorem split_path_snoc (c : List Nat) (hc : STRUCTS_SEPARATOR ∉ c) : ∀ p : List Nat,
    split_path (p ++ STRUCTS_SEPARATOR :: c) = split_path p ++ [c]
  | [] => by simp [split_path, split_path_component c hc]
  | x :: p => by
    have ih := split_path_snoc c hc p
    by_cases hx : x = STRUCTS_SEPARATOR
    · simp [split_path, hx, ih]
    · obtain ⟨comp, comps, hs⟩ := List.exists_cons_of_ne_nil (split_path_ne_nil p)
      simp [split_path, hx, ih, hs]

theorem join_split_path : ∀ name : List Nat, join_path (split_path name) = name
  | [] => rfl
  | c :: name => by
    have ih := join_split_path name
    by_cases hc : c = STRUCTS_SEPARATOR
    · obtain ⟨comp, comps, hs⟩ := List.exists_cons_of_ne_nil (split_path_ne_nil name)
      rw [hs, join_path_cons] at ih
      simp [split_path, hc, hs, join_path_cons, ih]
    · obtain ⟨comp, comps, hs⟩ := List.exists_cons_of_ne_nil (split_path_ne_nil name)
      rw [hs, join_path_cons] at ih
      simp [split_path, hc, hs, join_path_cons, ih]

theorem prep_done_fold : ∀ (comps : List (List Nat)) (done : Option (List Nat))
    (comp : List Nat),
    (comp :: comps).foldl (fun d c => some (prep_done d c)) done
      = some (prep_done done (join_path (comp :: comps)))
  | [], done, comp => by simp [join_path, List.intercalate]
  | c :: comps, done, comp => by
    have ih := prep_done_fold comps (some (prep_done done comp)) c
    simp only [List.foldl_cons] at ih ⊢
    rw [ih, join_path_cons comp, join_path_cons c]
    cases done <;> simp [prep_done]

theorem prep_index_digits (digits : List Nat) (hd : digits ≠ [])
    (hdig : digits.all isdigit = true) :
    prep_index digits
      = some (if decimal_value digits > ULONG_MAX then ULONG_MAX else decimal_value digits) := by
  obtain ⟨d, ds, rfl⟩ := List.exists_cons_of_ne_nil hd
  have hd0 : isdigit d = true := by simp at hdig; exact hdig.1
  have hsp : isspace d = false := by
    simp only [isdigit, Bool.and_eq_true, decide_eq_true_eq] at hd0
    simp only [isspace, Bool.or_eq_false_iff, Bool.and_eq_false_iff, decide_eq_false_iff_not]
    omega
  have h45 : d ≠ 45 := by rintro rfl; exact absurd hd0 (by decide)
  have h43 : d ≠ 43 := by rintro rfl; exact absurd hd0 (by decide)
  have h := strtoul_digits_append (d :: ds) [] 0 hdig (by simp)
  simp only [List.append_nil] at h
  simp [prep_index, strtoul, skip_space, hsp, h45, h43, hd0, h, decimal_value]

theorem read_array_write (bo : ByteOrder) (y : Value) : ∀ (loc : Loc) (v : Value)
    (elems : List Value), v.read bo loc = some (.array elems) → ∃ v', v.write loc y = some v'
  | [], v, _, _ => ⟨y, by simp [Value.write]⟩
  | step :: loc, v, elems, h => by
    cases v with
    | pointer pdata =>
      cases pdata with
      | none => cases step <;> cases loc <;> simp [Value.read, uint_bytes] at h
      | some p =>
        cases step <;> try (cases loc <;> simp [Value.read, uint_bytes] at h; done)
        simp only [Value.read] at h
        obtain ⟨p', hp⟩ := read_array_write bo y loc p elems h
        exact ⟨.pointer (some p'), by simp [Value.write, hp]⟩
    | array es =>
      cases step <;> try (cases loc <;> simp [Value.read, uint_bytes] at h; done)
      rename_i index
      simp only [Value.read] at h
      cases hget : es[index]? with
      | none => simp [hget] at h
      | some elem =>
        simp only [hget] at h
        obtain ⟨e', he⟩ := read_array_write bo y loc elem elems h
        exact ⟨.array (es.set index e'), by simp [Value.write, hget, he]⟩
    | fixedarray es =>
      cases step <;> try (cases loc <;> simp [Value.read, uint_bytes] at h; done)
      rename_i index
      simp only [Value.read] at h
      cases hget : es[index]? with
      | none => simp [hget] at h
      | some elem =>
        simp only [hget] at h
        obtain ⟨e', he⟩ := read_array_write bo y loc elem elems h
        exact ⟨.fixedarray (es.set index e'), by simp [Value.write, hget, he]⟩
    | «structure» es =>
      cases step <;> try (cases loc <;> simp [Value.read, uint_bytes] at h; done)
      rename_i index
      simp only [Value.read] at h
      cases hget : es[index]? with
      | none => simp [hget] at h
      | some elem =>
        simp only [hget] at h
        obtain ⟨e', he⟩ := read_array_write bo y loc elem elems h
        exact ⟨.structure (es.set index e'), by simp [Value.write, hget, he]⟩
    | union fn un =>
      cases un with
      | none => cases step <;> cases loc <;> cases fn <;> simp [Value.read, uint_bytes] at h
      | some u =>
        cases step <;> try (cases loc <;> cases fn <;> simp [Value.read, uint_bytes] at h; done)
        simp only [Value.read] at h
        obtain ⟨u', hu⟩ := read_array_write bo y loc u elems h
        exact ⟨.union fn (some u'), by simp [Value.write, hu]⟩
    | region _ => cases step <;> cases loc <;> simp [Value.read, uint_bytes] at h
    | string _ => cases step <;> cases loc <;> simp [Value.read, uint_bytes] at h
    | data _ => cases step <;> cases loc <;> simp [Value.read, uint_bytes] at h

theorem array_insert_end (bo : ByteOrder) (etype : Descriptor) (elems : List Value) (d : Value)
    (hinit : (etype.type bo).init = .ok d) (hL : elems.length + 2 < 2 ^ 32) :
    structs_array_insert bo (.array etype) none elems.length (.array elems)
      = (.array (elems ++ [d]), .ok ()) := by
  have h1 : ¬ elems.length > elems.length := by omega
  have h2 : ¬ elems.length + 2 ≥ 2 ^ 32 := by omega
  simp only [structs_array_insert, structs_find, structs_find_head, Value.read, h1, h2,
    if_false, hinit, Value.write]
  simp

theorem split_path_prepend (q : List Nat) : ∀ c : List Nat, STRUCTS_SEPARATOR ∉ c →
    split_path (c ++ STRUCTS_SEPARATOR :: q) = c :: split_path q
  | [], _ => by simp [split_path]
  | x :: c, h => by
    have hx : x ≠ STRUCTS_SEPARATOR := fun e => h (by simp [e])
    have ih := split_path_prepend q c (fun e => h (List.mem_cons_of_mem _ e))
    simp [split_path, hx, ih]

theorem join_path_cons_cons (c d : List Nat) (p : List (List Nat)) :
    join_path (c :: d :: p) = c ++ STRUCTS_SEPARATOR :: join_path (d :: p) := by
  rw [join_path_cons, join_path_cons]
  simp

theorem split_join_path : ∀ comps : List (List Nat), comps ≠ [] →
    (∀ x ∈ comps, STRUCTS_SEPARATOR ∉ x) → split_path (join_path comps) = comps
  | [], h, _ => absurd rfl h
  | [c], _, hs => by
    rw [join_path_cons]
    simpa using split_path_component c (hs c (by simp))
  | c :: d :: p, _, hs => by
    rw [join_path_cons_cons, split_path_prepend _ c (hs c (by simp)),
      split_join_path (d :: p) (by simp) (fun x hx => hs x (List.mem_cons_of_mem _ hx))]

theorem prep_before_fold (comps : List (List Nat)) :
    comps.foldl (fun d x => some (prep_done d x)) none = prep_before comps := by
  cases comps with
  | nil => rfl
  | cons comp comps =>
    rw [prep_done_fold comps none comp]
    rfl

theorem prep_loop_split (bo : ByteOrder) (type : Descriptor) (c : List Nat)
    (after : List (List Nat)) :
    ∀ (before : List (List Nat)) (done : Option (List Nat)) (data : Value),
    structs_array_prep_loop bo type done (before ++ c :: after) data =
      match structs_array_prep_loop bo type done before data with
      | (d1, .error e) => (d1, .error e)
      | (d1, .ok _) =>
        match structs_array_prep_round bo type
            (before.foldl (fun d x => some (prep_done d x)) done) c d1 with
        | (d2, .error e) => (d2, .error e)
        | (d2, .ok _) =>
          structs_array_prep_loop bo type
            (some (prep_done (before.foldl (fun d x => some (prep_done d x)) done) c))
            after d2
  | [], done, data => by
    rcases h : structs_array_prep_round bo type done c data with ⟨d1, e | u⟩ <;>
      simp only [List.nil_append, structs_array_prep_loop, List.foldl_nil, h]
  | x :: before, done, data => by
    simp only [List.cons_append, structs_array_prep_loop, List.foldl_cons]
    rcases structs_array_prep_round bo type done x data with ⟨d1, e | u⟩
    · rfl
    · exact prep_loop_split bo type c after before (some (prep_done done x)) d1

/-- C25: array prep.  `structs_array_prep` on a name goes through the
components of the name in turn; `before`, `c` and `after` are the components
before any one component `c` of the name, that component, and those after
it.  The call does the rounds of `before`, then the round of `c`, then the
rounds of `after`, and stops at the first round that fails; the rounds of
`before` are the call on the name before `c`.  The round of `c` runs
`structs_find` (with `set_union = 1`) on the name before `c`.  When that
fails the round fails with its error; when it finds an item that is not a
variable array the round changes nothing more.  When it finds a variable
array of `L` elements, `c` must be a number (else `ENOENT`), the index `i`:
for `i < L` the array is left as it is; for `i > L` the round fails with
`ENOENT`; for `i = L` (with `L + 2` in the range of `unsigned int`, and an
element type whose `init` gives `d`) the element `d` is appended, so that
the element exists afterwards.  A component of decimal digits is the number
it spells (`ULONG_MAX` beyond the range).  Scenario E4: on the E1 structure
with an empty `arr`, the call on "arr.0" succeeds and makes the length 1, the
call on "arr.2" then fails with `ENOENT`, and the call on "arr.1" then
succeeds and makes the length 2.  An array indexed in the middle of a name
and two arrays in one name are treated alike: on `{ arr: array of { a: int } }`
the calls on "arr.0.a", "arr.1.a" and "arr.2.a", and on
`{ m: array of array of uint32 }` the call on "m.0.0". -/
theorem array_prep (bo : ByteOrder) (type : Descriptor) (before : List (List Nat))
    (c : List Nat) (after : List (List Nat)) (data : Value)
    (hsep : ∀ x ∈ before ++ c :: after, STRUCTS_SEPARATOR ∉ x)
    (hne : join_path (before ++ c :: after) ≠ []) :
    structs_array_prep bo type (some (join_path (before ++ c :: after))) data =
        (match structs_array_prep_loop bo type none before data with
        | (d1, .error e) => (d1, .error e)
        | (d1, .ok _) =>
          match structs_array_prep_round bo type (prep_before before) c d1 with
          | (d2, .error e) => (d2, .error e)
          | (d2, .ok _) =>
            structs_array_prep_loop bo type (some (prep_done (prep_before before) c))
              after d2) ∧
      (join_path before ≠ [] →
        structs_array_prep_loop bo type none before data =
          structs_array_prep bo type (some (join_path before)) data) ∧
      (∀ d1 v2 e, structs_find bo type (prep_before before) d1 true = (v2, .error e) →
        structs_array_prep_round bo type (prep_before before) c d1 = (v2, .error e)) ∧
      (∀ d1 v2 T' loc, structs_find bo type (prep_before before) d1 true = (v2, .ok (T', loc)) →
        (∀ etype, T' ≠ .array etype) →
        structs_array_prep_round bo type (prep_before before) c d1 = (v2, .ok ())) ∧
      (∀ d1 v2 etype loc elems,
        structs_find bo type (prep_before before) d1 true = (v2, .ok (.array etype, loc)) →
        v2.read bo loc = some (.array elems) →
        (prep_index c = none →
          structs_array_prep_round bo type (prep_before before) c d1 = (v2, .error .ENOENT)) ∧
        ∀ i, prep_index c = some i →
          (i < elems.length →
            structs_array_prep_round bo type (prep_before before) c d1 = (v2, .ok ())) ∧
          (elems.length < i →
            structs_array_prep_round bo type (prep_before before) c d1
              = (v2, .error .ENOENT)) ∧
          (i = elems.length → elems.length + 2 < 2 ^ 32 →
            ∀ d, (etype.type bo).init = .ok d →
              ∃ v3, v2.write loc (.array (elems ++ [d])) = some v3 ∧
                structs_array_prep_round bo type (prep_before before) c d1 = (v3, .ok ()) ∧
                v3.read bo loc = some (.array (elems ++ [d])))) ∧
      (∀ digits : List Nat, digits ≠ [] → digits.all isdigit = true →
        prep_index digits = some (if decimal_value digits > ULONG_MAX then ULONG_MAX
          else decimal_value digits)) ∧
      (structs_array_prep bo E2_type (some [97, 114, 114, 46, 48]) (E4_value [])
          = (E4_value [.region [0, 0, 0, 0]], .ok ()) ∧
        structs_array_prep bo E2_type (some [97, 114, 114, 46, 50])
            (E4_value [.region [0, 0, 0, 0]])
          = (E4_value [.region [0, 0, 0, 0]], .error .ENOENT) ∧
        structs_array_prep bo E2_type (some [97, 114, 114, 46, 49])
            (E4_value [.region [0, 0, 0, 0]])
          = (E4_value [.region [0, 0, 0, 0], .region [0, 0, 0, 0]], .ok ())) ∧
      (∀ (name : String) (size : Nat) (x : Value),
        structs_array_prep bo (E5_type name size) (some [97, 114, 114, 46, 48, 46, 97])
            (.structure [.array []])
          = (.structure [.array [.structure [.region (List.replicate size 0)]]], .ok ()) ∧
        structs_array_prep bo (E5_type name size) (some [97, 114, 114, 46, 48, 46, 97])
            (.structure [.array [.structure [x]]])
          = (.structure [.array [.structure [x]]], .ok ()) ∧
        structs_array_prep bo (E5_type name size) (some [97, 114, 114, 46, 49, 46, 97])
            (.structure [.array [.structure [x]]])
          = (.structure [.array [.structure [x],
              .structure [.region (List.replicate size 0)]]], .ok ()) ∧
        structs_array_prep bo (E5_type name size) (some [97, 114, 114, 46, 50, 46, 97])
            (.structure [.array [.structure [x]]])
          = (.structure [.array [.structure [x]]], .error .ENOENT)) ∧
      structs_array_prep bo (.structure (.FIELD [109] (.array (.array .uint32)) .END))
          (some [109, 46, 48, 46, 48]) (.structure [.array []])
        = (.structure [.array [.array [.region [0, 0, 0, 0]]]], .ok ()) := by
  refine ⟨?_, ?_, ?_, ?_, ?_, ?_, ?_, ?_, ?_⟩
  · obtain ⟨x, name, hx⟩ := List.exists_cons_of_ne_nil hne
    have hsplit := split_join_path (before ++ c :: after) (by simp) hsep
    rw [hx] at hsplit ⊢
    simp only [structs_array_prep]
    rw [hsplit, prep_loop_split bo type c after before none data, prep_before_fold]
  · intro hb
    obtain ⟨x, name, hx⟩ := List.exists_cons_of_ne_nil hb
    have hbne : before ≠ [] := by
      rintro rfl
      exact hb rfl
    have hsplit := split_join_path before hbne
      (fun y hy => hsep y (List.mem_append_left _ hy))
    rw [hx] at hsplit ⊢
    simp only [structs_array_prep]
    rw [hsplit]
  · intro d1 v2 e hf
    simp only [structs_array_prep_round, hf]
  · intro d1 v2 T' loc hf hT
    cases T' with
    | array etype => exact absurd rfl (hT etype)
    | _ => simp only [structs_array_prep_round, hf]
  · intro d1 v2 etype loc elems hf hread
    refine ⟨?_, ?_⟩
    · intro hi
      simp only [structs_array_prep_round, hf, hi]
    · intro i hi
      refine ⟨?_, ?_, ?_⟩
      · intro hlt
        simp [structs_array_prep_round, hf, hi, hread, hlt]
      · intro hgt
        have h3 : ¬ i < elems.length := by omega
        have h4 : i ≠ elems.length := by omega
        simp only [structs_array_prep_round, hf, hi, hread, if_neg h3, h4, ne_eq,
          not_false_eq_true, if_true]
      · intro heq hL d hinit
        subst heq
        obtain ⟨v3, hw⟩ := read_array_write bo (.array (elems ++ [d])) loc v2 elems hread
        refine ⟨v3, hw, ?_, write_read bo loc v2 _ v3 hw⟩
        simp only [structs_array_prep_round, hf, hi, hread, lt_irrefl, if_false, ne_eq,
          not_true_eq_false, array_insert_end bo etype elems d hinit hL, hw]
  · intro digits hd hdig
    exact prep_index_digits digits hd hdig
  · cases bo <;> exact ⟨rfl, rfl, rfl⟩
  · intro name size x
    cases bo <;> exact ⟨rfl, rfl, rfl, rfl⟩
  · cases bo <;> rfl

theorem array_prep_witness :
    structs_array_prep .BIG_ENDIAN (E5_type "int" 4)
        (some (join_path ([[97, 114, 114]] ++ [48] :: [[97]]))) (.structure [.array []])
      = (.structure [.array [.structure [.region [0, 0, 0, 0]]]], .ok ()) ∧
    (∃ v3, (Value.structure [.array []]).write [.member 0]
          (.array ([] ++ [.structure [.region [0, 0, 0, 0]]])) = some v3 ∧
        structs_array_prep_round .BIG_ENDIAN (E5_type "int" 4) (prep_before [[97, 114, 114]])
          [48] (.structure [.array []]) = (v3, .ok ()) ∧
        v3.read .BIG_ENDIAN [.member 0]
          = some (.array ([] ++ [.structure [.region [0, 0, 0, 0]]]))) :=
  ⟨(array_prep .BIG_ENDIAN (E5_type "int" 4) [[97, 114, 114]] [48] [[97]]
      (.structure [.array []]) (by decide) (by decide)).1.trans rfl,
    ((array_prep .BIG_ENDIAN (E5_type "int" 4) [[97, 114, 114]] [48] [[97]]
      (.structure [.array []]) (by decide) (by decide)).2.2.2.2.1
      (.structure [.array []]) (.structure [.array []]) (E5_elem "int" 4) [.member 0] []
      rfl rfl).2 0 rfl |>.2.2 rfl (by decide) (.structure [.region [0, 0, 0, 0]]) rfl⟩

/-- C26: `structs_array_prep` does not reset an array at index zero.  On the
E1 structure whose `arr` holds two elements, the call on "arr.0" returns 0 and
leaves both elements in place: index 0 passes the test `index < ary->length`
and the round ends, where the comment above the function says that an index
equal to zero resets the entire array to be empty. -/
theorem array_prep_keeps_elements (bo : ByteOrder) (e0 e1 : Value) :
    structs_array_prep bo E2_type (some [97, 114, 114, 46, 48]) (E4_value [e0, e1])
      = (E4_value [e0, e1], .ok ()) := by
  cases bo <;> rfl

/-! ## uninit -/

theorem uninit_elems_defined (uninit : Value → Except Errno (Option Value)) :
    ∀ elems : List Value, (∀ e ∈ elems, ∃ r, uninit e = .ok r) →
      ∃ rs, uninit_elems uninit elems = .ok rs
  | [], _ => ⟨[], rfl⟩
  | e :: elems, h => by
    obtain ⟨r, hr⟩ := h e (List.mem_cons_self _ _)
    obtain ⟨rs, hrs⟩ := uninit_elems_defined uninit elems
      (fun e' he' => h e' (List.mem_cons_of_mem _ he'))
    exact ⟨r :: rs, by simp [uninit_elems, hr, hrs]⟩

theorem uninit_elems_zero (uninit : Value → Except Errno (Option Value)) (z : Value) :
    ∀ elems : List Value, (∀ e ∈ elems, uninit e = .ok (some z)) →
      uninit_elems uninit elems = .ok (List.replicate elems.length (some z))
  | [], _ => rfl
  | e :: elems, h => by
    have hr := h e (List.mem_cons_self _ _)
    have hrs := uninit_elems_zero uninit z elems (fun e' he' => h e' (List.mem_cons_of_mem _ he'))
    simp [uninit_elems, hr, hrs, List.replicate]

theorem fixedarray_footprint_replicate (z : Value) : ∀ n : Nat,
    fixedarray_footprint (List.replicate n (some z)) = some (List.replicate n z)
  | 0 => rfl
  | n + 1 => by simp [List.replicate, fixedarray_footprint, fixedarray_footprint_replicate z n]

mutual
theorem uninit_defined (bo : ByteOrder) : ∀ (T : Descriptor) (v : Value),
    T.hasType v = true → ∃ r, T.uninit bo v = .ok r
  | .string _, v, h => by
    rcases v with _ | s | _ | _ | _ | _ | _ | _
    case string => exact ⟨_, rfl⟩
    all_goals simp [Descriptor.hasType] at h
  | .data _, v, h => by
    cases v <;> simp [Descriptor.hasType] at h
    exact ⟨_, rfl⟩
  | .pointer reftype, v, h => by
    rcases v with _ | _ | _ | (_ | p) | _ | _ | _ | _
    case pointer.some =>
      simp only [Descriptor.hasType] at h
      obtain ⟨r, hr⟩ := uninit_defined bo reftype p h
      exact ⟨some (.pointer none), by simp [Descriptor.uninit, hr]⟩
    all_goals simp [Descriptor.hasType] at h
  | .array etype, v, h => by
    rcases v with _ | _ | _ | _ | elems | _ | _ | _
    case array =>
      simp [Descriptor.hasType] at h
      obtain ⟨rs, hrs⟩ := uninit_elems_defined (etype.uninit bo) elems
        (fun e he => uninit_defined bo etype e (h.1 e he))
      exact ⟨some (.array []), by simp [Descriptor.uninit, hrs]⟩
    all_goals simp [Descriptor.hasType] at h
  | .fixedarray etype alen, v, h => by
    rcases v with _ | _ | _ | _ | _ | elems | _ | _
    case fixedarray =>
      simp [Descriptor.hasType] at h
      obtain ⟨rs, hrs⟩ := uninit_elems_defined (etype.uninit bo) elems
        (fun e he => uninit_defined bo etype e (h.2 e he))
      cases hf : fixedarray_footprint rs with
      | none => exact ⟨none, by simp [Descriptor.uninit, h.1, hrs, hf]⟩
      | some es => exact ⟨some (.fixedarray es), by simp [Descriptor.uninit, h.1, hrs, hf]⟩
    all_goals simp [Descriptor.hasType] at h
  | .structure flist, v, h => by
    rcases v with _ | _ | _ | _ | _ | _ | fields | _
    iterate 6 simp [Descriptor.hasType] at h
    · simp only [Descriptor.hasType] at h
      have hf := uninit_fields_defined bo flist fields h
      exact ⟨some ((Descriptor.structure flist).type bo).zero, by
        simp [Descriptor.uninit, hf]⟩
    · simp [Descriptor.hasType] at h
  | .union flist, v, h => by
    rcases v with _ | _ | _ | _ | _ | _ | _ | ⟨_ | fn, _ | un⟩
    case union.some.some =>
      simp only [Descriptor.hasType] at h
      have hf := uninit_active_defined bo flist fn un (.union (some fn) (some un)) h
      exact ⟨none, by simp [Descriptor.uninit, hf]⟩
    all_goals simp [Descriptor.hasType] at h
  | .int _ _, v, _ => ⟨some v, by simp [Descriptor.uninit]⟩
  | .fixeddata _, v, _ => ⟨some v, by simp [Descriptor.uninit]⟩
  | .null, v, _ => ⟨some v, by simp [Descriptor.uninit]⟩
  | .array_length, v, _ => ⟨some v, by simp [Descriptor.uninit]⟩
  | .union_field_name, v, _ => ⟨some v, by simp [Descriptor.uninit]⟩
theorem uninit_fields_defined (bo : ByteOrder) : ∀ (fl : FieldList) (fields : List Value),
    fl.hasTypes fields = true → fl.uninit bo fields = .ok ()
  | .END, _, _ => by simp [FieldList.uninit]
  | .FIELD fname type rest, fields, h => by
    cases fields with
    | nil => simp [FieldList.hasTypes] at h
    | cons fd fs =>
      simp [FieldList.hasTypes] at h
      obtain ⟨r, hr⟩ := uninit_defined bo type fd h.1
      simp [FieldList.uninit, hr, uninit_fields_defined bo rest fs h.2]
theorem uninit_active_defined (bo : ByteOrder) : ∀ (fl : FieldList) (fn : List Nat) (un : Value)
    (data : Value), fl.hasVariant fn un = true →
    fl.uninit_active bo fn (some un) data = .ok none
  | .END, _, _, _, h => by simp [FieldList.hasVariant] at h
  | .FIELD fname type rest, fn, un, data, h => by
    simp only [FieldList.hasVariant] at h
    simp only [FieldList.uninit_active]
    split_ifs with hf
    · simp only [hf, if_true] at h
      obtain ⟨r, hr⟩ := uninit_defined bo type un h
      simp [hr]
    · simp only [hf, if_false] at h
      exact uninit_active_defined bo rest fn un data h
end

theorem uninit_zeroing (bo : ByteOrder) : ∀ (T : Descriptor) (v : Value),
    T.hasType v = true → T.zeroing = true → T.uninit bo v = .ok (some (T.type bo).zero)
  | .string _, v, h, _ => by
    rcases v with _ | s | _ | _ | _ | _ | _ | _
    case string => rfl
    all_goals simp [Descriptor.hasType] at h
  | .data _, v, h, _ => by
    cases v <;> simp [Descriptor.hasType] at h
    rfl
  | .pointer reftype, v, h, _ => by
    rcases v with _ | _ | _ | (_ | p) | _ | _ | _ | _
    case pointer.some =>
      simp only [Descriptor.hasType] at h
      obtain ⟨r, hr⟩ := uninit_defined bo reftype p h
      simp [Descriptor.uninit, hr, Descriptor.type, STRUCTS_POINTER_TYPE]
    all_goals simp [Descriptor.hasType] at h
  | .array etype, v, h, _ => by
    rcases v with _ | _ | _ | _ | elems | _ | _ | _
    case array =>
      simp [Descriptor.hasType] at h
      obtain ⟨rs, hrs⟩ := uninit_elems_defined (etype.uninit bo) elems
        (fun e he => uninit_defined bo etype e (h.1 e he))
      simp [Descriptor.uninit, hrs, Descriptor.type, STRUCTS_ARRAY_TYPE]
    all_goals simp [Descriptor.hasType] at h
  | .fixedarray etype alen, v, h, hz => by
    rcases v with _ | _ | _ | _ | _ | elems | _ | _
    case fixedarray =>
      simp [Descriptor.hasType] at h
      simp only [Descriptor.zeroing] at hz
      have hrs := uninit_elems_zero (etype.uninit bo) (etype.type bo).zero elems
        (fun e he => uninit_zeroing bo etype e (h.2 e he) hz)
      simp [Descriptor.uninit, h.1, hrs, fixedarray_footprint_replicate, Descriptor.type,
        STRUCTS_FIXEDARRAY_TYPE]
    all_goals simp [Descriptor.hasType] at h
  | .structure flist, v, h, _ => by
    rcases v with _ | _ | _ | _ | _ | _ | fields | _
    iterate 6 simp [Descriptor.hasType] at h
    · simp only [Descriptor.hasType] at h
      simp [Descriptor.uninit, uninit_fields_defined bo flist fields h]
    · simp [Descriptor.hasType] at h
  | .union _, _, _, hz => by simp [Descriptor.zeroing] at hz
  | .int _ _, _, _, hz => by simp [Descriptor.zeroing] at hz
  | .fixeddata _, _, _, hz => by simp [Descriptor.zeroing] at hz
  | .null, _, _, hz => by simp [Descriptor.zeroing] at hz
  | .array_length, _, _, hz => by simp [Descriptor.zeroing] at hz
  | .union_field_name, _, _, hz => by simp [Descriptor.zeroing] at hz

mutual
theorem uninit_zero_safe (bo : ByteOrder) : ∀ T : Descriptor, T.zero_safe = true →
    T.uninit bo (T.type bo).zero = .ok (some (T.type bo).zero)
  | .string _, _ => rfl
  | .data _, _ => rfl
  | .pointer reftype, h => by
    simp only [Descriptor.zero_safe] at h
    simp [Descriptor.uninit, Descriptor.type, STRUCTS_POINTER_TYPE, h]
  | .array etype, _ => by
    simp [Descriptor.uninit, Descriptor.type, STRUCTS_ARRAY_TYPE, uninit_elems]
  | .fixedarray etype alen, h => by
    simp only [Descriptor.zero_safe] at h
    have hz := uninit_zero_safe bo etype h
    have hrs := uninit_elems_zero (etype.uninit bo) (etype.type bo).zero
      (List.replicate alen (etype.type bo).zero)
      (fun e he => by rw [(List.mem_replicate.1 he).2]; exact hz)
    simp only [List.length_replicate] at hrs
    simp [Descriptor.uninit, Descriptor.type, STRUCTS_FIXEDARRAY_TYPE, hrs,
      fixedarray_footprint_replicate]
  | .structure flist, h => by
    simp only [Descriptor.zero_safe] at h
    have hf := uninit_fields_zero_safe bo flist h
    simp only [Descriptor.uninit]
    simp only [Descriptor.type, STRUCTS_STRUCT_TYPE] at hf ⊢
    rw [hf]
  | .union _, h => by simp [Descriptor.zero_safe] at h
  | .int _ _, _ => by simp [Descriptor.uninit]
  | .fixeddata _, _ => by simp [Descriptor.uninit]
  | .null, _ => by simp [Descriptor.uninit]
  | .array_length, _ => by simp [Descriptor.uninit]
  | .union_field_name, _ => by simp [Descriptor.uninit]
theorem uninit_fields_zero_safe (bo : ByteOrder) : ∀ fl : FieldList, fl.zero_safe = true →
    fl.uninit bo ((fl.fields bo).map fun field => field.type.zero) = .ok ()
  | .END, _ => by simp [FieldList.uninit]
  | .FIELD fname type rest, h => by
    simp [FieldList.zero_safe] at h
    have h1 := uninit_zero_safe bo type h.1
    have h2 := uninit_fields_zero_safe bo rest h.2
    simp [FieldList.fields, FieldList.uninit, h1, h2]
end

/-- C28, as stated, fails on a leaf whose `uninit` is `structs_nothing_free`:
the fixed data of one byte holding 7 keeps its byte, and its footprint is not
zero after `uninit`. -/
theorem uninit_keeps_fixeddata :
    (Descriptor.fixeddata 1).hasType (.region [7]) = true ∧
      (Descriptor.fixeddata 1).uninit .BIG_ENDIAN (.region [7]) = .ok (some (.region [7])) ∧
      ((Descriptor.fixeddata 1).type .BIG_ENDIAN).zero = .region [0] :=
  ⟨by decide, rfl, rfl⟩

/-- C28, amended: for every descriptor and every live value `v` the call of
`uninit` is defined.  After it the footprint is all zero when the descriptor
is a string, data, pointer, variable array or structure, or a fixed array of
such elements; a leaf whose `uninit` is `structs_nothing_free` (fixed data, the
integers) keeps its bytes.  On the zero footprint a second `uninit` is a no-op
that leaves it all zero, for every descriptor with no union and no pointer to
anything but such a leaf (outside the element types of variable arrays). -/
theorem uninit_idempotent (bo : ByteOrder) (T : Descriptor) (v : Value)
    (hv : T.hasType v = true) :
    (∃ r, T.uninit bo v = .ok r) ∧
      (T.zeroing = true → T.uninit bo v = .ok (some (T.type bo).zero)) ∧
      (T.nothing_free = true → T.uninit bo v = .ok (some v)) ∧
      (T.zero_safe = true → T.uninit bo (T.type bo).zero = .ok (some (T.type bo).zero)) := by
  refine ⟨uninit_defined bo T v hv, uninit_zeroing bo T v hv, ?_, uninit_zero_safe bo T⟩
  intro hn
  cases T <;> simp [Descriptor.nothing_free] at hn <;> simp [Descriptor.uninit]

theorem uninit_idempotent_witness :
    (∃ r, E2_type.uninit .BIG_ENDIAN (E2_value .BIG_ENDIAN) = .ok r) ∧
      (E2_type.zeroing = true →
        E2_type.uninit .BIG_ENDIAN (E2_value .BIG_ENDIAN)
          = .ok (some (E2_type.type .BIG_ENDIAN).zero)) ∧
      (E2_type.nothing_free = true →
        E2_type.uninit .BIG_ENDIAN (E2_value .BIG_ENDIAN) = .ok (some (E2_value .BIG_ENDIAN))) ∧
      (E2_type.zero_safe = true →
        E2_type.uninit .BIG_ENDIAN (E2_type.type .BIG_ENDIAN).zero
          = .ok (some (E2_type.type .BIG_ENDIAN).zero)) :=
  uninit_idempotent .BIG_ENDIAN E2_type (E2_value .BIG_ENDIAN) (by decide)

/-! ## Equal values have the same encoding -/

theorem eqc_uint32 (bo : ByteOrder) (name : String) :
    EqCongr (STRUCTS_INT_TYPE bo name 4) (fun v => (Descriptor.int name 4).hasType v = true) := by
  intro a b ha hb h
  obtain ⟨x, rfl, hx, -⟩ := (hasType_int _ _ _).1 ha
  obtain ⟨y, rfl, hy, -⟩ := (hasType_int _ _ _).1 hb
  have hxy : x = y := by
    have h' : x.take 4 = y.take 4 := by
      by_contra hne
      simp [STRUCTS_INT_TYPE, structs_region_equal, hne] at h
    rwa [List.take_of_length_le (by omega), List.take_of_length_le (by omega)] at h'
  subst hxy
  exact ⟨rfl, fun _ _ => rfl⟩

theorem eqc_data (charset : Option (List Nat)) :
    EqCongr (STRUCTS_DATA_TYPE charset)
      (fun v => (Descriptor.data charset).hasType v = true) := by
  intro a b ha hb h
  obtain ⟨x, rfl, -, -⟩ := (hasType_data _ _).1 ha
  obtain ⟨y, rfl, -, -⟩ := (hasType_data _ _).1 hb
  have hxy : x = y := by
    by_contra hne
    have : ¬ (x.length = y.length ∧ x.take x.length = y.take x.length) := by
      rintro ⟨h1, h2⟩
      rw [List.take_length] at h2
      rw [h1, List.take_length] at h2
      exact hne h2
    simp only [STRUCTS_DATA_TYPE, structs_data_equal, if_neg this] at h
    exact absurd h (by decide)
  subst hxy
  exact ⟨rfl, fun _ _ => rfl⟩

theorem eqc_string (asnull : Bool) :
    EqCongr (STRUCTS_STRING_TYPE asnull)
      (fun v => (Descriptor.string asnull).hasType v = true) := by
  intro a b ha hb h
  rcases (hasType_string _ _).1 ha with ⟨rfl, rfl⟩ | ⟨x, rfl, -⟩ <;>
  rcases (hasType_string _ _).1 hb with ⟨rfl, hb'⟩ | ⟨y, rfl, -⟩
  · exact ⟨rfl, fun _ _ => rfl⟩
  · have hy : y = [] := by
      by_contra hne
      simp [STRUCTS_STRING_TYPE, structs_string_equal, hne] at h
    subst hy
    refine ⟨by simp [STRUCTS_STRING_TYPE, structs_string_encode, structs_string_ascify], ?_⟩
    intro d hd
    rcases (hasType_string _ _).1 hd with ⟨rfl, -⟩ | ⟨z, rfl, -⟩ <;>
      simp [STRUCTS_STRING_TYPE, structs_string_equal]
  · subst hb'
    have hx : x = [] := by
      by_contra hne
      simp [STRUCTS_STRING_TYPE, structs_string_equal, hne] at h
    subst hx
    refine ⟨by simp [STRUCTS_STRING_TYPE, structs_string_encode, structs_string_ascify], ?_⟩
    intro d hd
    rcases (hasType_string _ _).1 hd with ⟨rfl, -⟩ | ⟨z, rfl, -⟩ <;>
      simp [STRUCTS_STRING_TYPE, structs_string_equal]
  · have hxy : x = y := by
      by_contra hne
      cases asnull <;> simp [STRUCTS_STRING_TYPE, structs_string_equal, hne] at h
      · by_cases hx : x = []
        · subst hx
          have hy : y ≠ [] := fun e => hne e.symm
          simp [hy] at h
        · by_cases hy : y = []
          · subst hy; simp [hx] at h
          · simp [hx, hy] at h
    subst hxy
    exact ⟨rfl, fun _ _ => rfl⟩

theorem eqc_pointer (t : structs_type) (r : Descriptor)
    (h : EqCongr t (fun v => r.hasType v = true)) :
    EqCongr (STRUCTS_POINTER_TYPE t) (fun v => (Descriptor.pointer r).hasType v = true) := by
  intro a b ha hb he
  obtain ⟨p, rfl, hp⟩ := (hasType_pointer _ _).1 ha
  obtain ⟨q, rfl, hq⟩ := (hasType_pointer _ _).1 hb
  have hpq : t.equal p q = 1 := by
    simpa [STRUCTS_POINTER_TYPE, structs_pointer_equal] using he
  obtain ⟨h1, h2⟩ := h p q hp hq hpq
  refine ⟨by simpa [STRUCTS_POINTER_TYPE, structs_pointer_encode] using h1, ?_⟩
  intro d hd
  obtain ⟨z, rfl, hz⟩ := (hasType_pointer _ _).1 hd
  simpa [STRUCTS_POINTER_TYPE, structs_pointer_equal] using h2 z hz

theorem equal_loop_congr (t : structs_type) (V : Value → Prop) {B : Value → Nat}
    (hC : Codec t V B)
    (hE : EqCongr t V) : ∀ a b d : List Value, (∀ x ∈ a, V x) → (∀ y ∈ b, V y) →
    (∀ z ∈ d, V z) → a.length = b.length → structs_array_equal_loop t a b = true →
    structs_array_equal_loop t a d = structs_array_equal_loop t b d
  | [], b, d, _, _, _, hl, _ => by
    cases b with
    | nil => rfl
    | cons y b => simp at hl
  | x :: a, b, d, ha, hb, hd, hl, h => by
    cases b with
    | nil => simp at hl
    | cons y b =>
      have hx := ha x (List.mem_cons_self _ _)
      have hy := hb y (List.mem_cons_self _ _)
      simp only [structs_array_equal_loop] at h
      have hxy : t.equal x y = 1 := by
        rcases hC.equal_bool x y hx hy with h0 | h1
        · simp [h0] at h
        · exact h1
      have hrest : structs_array_equal_loop t a b = true := by
        have : t.equal x y ≠ 0 := by rw [hxy]; decide
        simpa [this] using h
      cases d with
      | nil => simp [structs_array_equal_loop]
      | cons z d =>
        have hz := hd z (List.mem_cons_self _ _)
        have ih := equal_loop_congr t V hC hE a b d
          (fun x' hx' => ha x' (List.mem_cons_of_mem _ hx'))
          (fun y' hy' => hb y' (List.mem_cons_of_mem _ hy'))
          (fun z' hz' => hd z' (List.mem_cons_of_mem _ hz'))
          (by simpa using hl) hrest
        simp only [structs_array_equal_loop, (hE x y hx hy hxy).2 z hz, ih]

theorem encode_loop_congr (t : structs_type) (V : Value → Prop) {B : Value → Nat}
    (hC : Codec t V B)
    (hE : EqCongr t V) (delem : Value) (hd : V delem) : ∀ (a b : List Value) (i : Nat)
    (bits : List Nat), (∀ x ∈ a, V x) → (∀ y ∈ b, V y) → a.length = b.length →
    structs_array_equal_loop t a b = true →
    structs_array_encode_loop t delem a i bits = structs_array_encode_loop t delem b i bits
  | [], b, i, bits, _, _, hl, _ => by
    cases b with
    | nil => rfl
    | cons y b => simp at hl
  | x :: a, b, i, bits, ha, hb, hl, h => by
    cases b with
    | nil => simp at hl
    | cons y b =>
      have hx := ha x (List.mem_cons_self _ _)
      have hy := hb y (List.mem_cons_self _ _)
      simp only [structs_array_equal_loop] at h
      have hxy : t.equal x y = 1 := by
        rcases hC.equal_bool x y hx hy with h0 | h1
        · simp [h0] at h
        · exact h1
      have hrest : structs_array_equal_loop t a b = true := by
        have : t.equal x y ≠ 0 := by rw [hxy]; decide
        simpa [this] using h
      obtain ⟨henc, hcong⟩ := hE x y hx hy hxy
      have ih := fun i bits => encode_loop_congr t V hC hE delem hd a b i bits
        (fun x' hx' => ha x' (List.mem_cons_of_mem _ hx'))
        (fun y' hy' => hb y' (List.mem_cons_of_mem _ hy'))
        (by simpa using hl) hrest
      simp only [structs_array_encode_loop, hcong delem hd, henc, ih]

theorem eqc_array (t : structs_type) (e : Descriptor)
    (hC : Codec t (fun v => e.hasType v = true) e.wire_bound)
    (hE : EqCongr t (fun v => e.hasType v = true)) :
    EqCongr (STRUCTS_ARRAY_TYPE t) (fun v => (Descriptor.array e).hasType v = true) := by
  intro a b ha hb h
  obtain ⟨x, rfl, hx, -⟩ := (hasType_array _ _).1 ha
  obtain ⟨y, rfl, hy, -⟩ := (hasType_array _ _).1 hb
  obtain ⟨delem, hinit, hdV⟩ := hC.init_ok
  simp only [STRUCTS_ARRAY_TYPE, structs_array_equal, ne_eq, not_true_eq_false, if_false] at h
  have hl : x.length = y.length := by
    by_contra hne
    simp [hne] at h
  have hloop : structs_array_equal_loop t x y = true := by
    by_contra hne
    simp [hl, hne] at h
  refine ⟨?_, ?_⟩
  · simp only [STRUCTS_ARRAY_TYPE, structs_array_encode, ne_eq, not_true_eq_false, if_false,
      hinit, hl, encode_loop_congr t _ hC hE delem hdV x y 0 _ hx hy hl hloop]
  · intro d hd
    obtain ⟨z, rfl, hz, -⟩ := (hasType_array _ _).1 hd
    simp only [STRUCTS_ARRAY_TYPE, structs_array_equal, ne_eq, not_true_eq_false, if_false, hl,
      equal_loop_congr t _ hC hE x y z hx hy hz hl hloop]

theorem eqc_fixedarray (t : structs_type) (e : Descriptor) (alen : Nat)
    (hC : Codec t (fun v => e.hasType v = true) e.wire_bound)
    (hE : EqCongr t (fun v => e.hasType v = true)) :
    EqCongr (STRUCTS_FIXEDARRAY_TYPE t alen)
      (fun v => (Descriptor.fixedarray e alen).hasType v = true) := by
  intro a b ha hb h
  obtain ⟨x, rfl, hxl, hx⟩ := (hasType_fixedarray _ _ _).1 ha
  obtain ⟨y, rfl, hyl, hy⟩ := (hasType_fixedarray _ _ _).1 hb
  obtain ⟨delem, hinit, hdV⟩ := hC.init_ok
  have hl : x.length = y.length := by rw [hxl, hyl]
  simp only [STRUCTS_FIXEDARRAY_TYPE, structs_fixedarray_equal, ne_eq, not_true_eq_false,
    if_false, hxl, hyl, or_self] at h
  have hloop : structs_array_equal_loop t x y = true := by
    by_contra hne
    simp [hne] at h
  refine ⟨?_, ?_⟩
  · simp only [STRUCTS_FIXEDARRAY_TYPE, structs_fixedarray_encode, ne_eq, not_true_eq_false,
      if_false, hinit, hxl, hyl, encode_loop_congr t _ hC hE delem hdV x y 0 _ hx hy hl hloop]
  · intro d hd
    obtain ⟨z, rfl, hzl, hz⟩ := (hasType_fixedarray _ _ _).1 hd
    simp only [STRUCTS_FIXEDARRAY_TYPE, structs_fixedarray_equal, ne_eq, not_true_eq_false,
      if_false, hxl, hyl, hzl, or_self,
      equal_loop_congr t _ hC hE x y z hx hy hz hl hloop]

theorem fields_congr (bo : ByteOrder) (fl : FieldList) (hA : fl.All (Descriptor.codec bo))
    (hE : fl.All (Descriptor.eqcongr bo)) :
    ∀ a b, fl.hasTypes a = true → fl.hasTypes b = true →
      structs_struct_equal_loop (fl.fields bo) a b = 1 →
      (∀ i bits, structs_struct_encode_loop (fl.fields bo) a i bits
        = structs_struct_encode_loop (fl.fields bo) b i bits) ∧
      ∀ d, fl.hasTypes d = true →
        structs_struct_equal_loop (fl.fields bo) a d
          = structs_struct_equal_loop (fl.fields bo) b d := by
  induction fl using FieldList.induct with
  | hE =>
    intro a b _ _ _
    exact ⟨fun i bits => by simp [FieldList.fields, structs_struct_encode_loop],
      fun d _ => by simp [FieldList.fields, structs_struct_equal_loop]⟩
  | hF name type rest ih =>
    intro a b ha hb h
    cases a with
    | nil => simp [FieldList.hasTypes] at ha
    | cons x a =>
      cases b with
      | nil => simp [FieldList.hasTypes] at hb
      | cons y b =>
        simp [FieldList.hasTypes] at ha hb
        obtain ⟨hC, hA'⟩ := hA
        obtain ⟨hE1, hE'⟩ := hE
        simp only [FieldList.fields, structs_struct_equal_loop] at h
        have hxy : (type.type bo).equal x y = 1 := by
          rcases hC.equal_bool x y ha.1 hb.1 with h0 | h1
          · simp [h0] at h
          · exact h1
        have hrest : structs_struct_equal_loop (rest.fields bo) a b = 1 := by
          have : (type.type bo).equal x y ≠ 0 := by rw [hxy]; decide
          simpa [this] using h
        obtain ⟨henc, hcong⟩ := hE1 x y ha.1 hb.1 hxy
        obtain ⟨ih1, ih2⟩ := ih hA' hE' a b ha.2 hb.2 hrest
        obtain ⟨dval, hinit, hdV⟩ := hC.init_ok
        refine ⟨?_, ?_⟩
        · intro i bits
          simp only [FieldList.fields, structs_struct_encode_loop, hinit, hcong dval hdV, henc,
            ih1]
        · intro d hd
          cases d with
          | nil => simp [FieldList.hasTypes] at hd
          | cons z d =>
            simp [FieldList.hasTypes] at hd
            simp only [FieldList.fields, structs_struct_equal_loop, hcong z hd.1, ih2 d hd.2]

theorem eqc_structure (bo : ByteOrder) (fl : FieldList) (hA : fl.All (Descriptor.codec bo))
    (hE : fl.All (Descriptor.eqcongr bo)) : (Descriptor.structure fl).eqcongr bo := by
  intro a b ha hb h
  obtain ⟨x, rfl, hx⟩ := (hasType_structure _ _).1 ha
  obtain ⟨y, rfl, hy⟩ := (hasType_structure _ _).1 hb
  have hloop : structs_struct_equal_loop (fl.fields bo) x y = 1 := by
    simpa [Descriptor.type, STRUCTS_STRUCT_TYPE, structs_struct_equal] using h
  obtain ⟨h1, h2⟩ := fields_congr bo fl hA hE x y hx hy hloop
  refine ⟨?_, ?_⟩
  · simp only [Descriptor.type, STRUCTS_STRUCT_TYPE, structs_struct_encode, h1]
  · intro d hd
    obtain ⟨z, rfl, hz⟩ := (hasType_structure _ _).1 hd
    simp only [Descriptor.type, STRUCTS_STRUCT_TYPE, structs_struct_equal, h2 z hz]

theorem eqc_union (bo : ByteOrder) (fl : FieldList) (hE : fl.All (Descriptor.eqcongr bo)) :
    (Descriptor.union fl).eqcongr bo := by
  intro a b ha hb h
  obtain ⟨n1, u1, rfl, h1⟩ := (hasType_union _ _).1 ha
  obtain ⟨n2, u2, rfl, h2⟩ := (hasType_union _ _).1 hb
  obtain ⟨T1, hl1, ht1⟩ := (hasVariant_iff_lookup _ _ _).1 h1
  obtain ⟨T2, hl2, ht2⟩ := (hasVariant_iff_lookup _ _ _).1 h2
  have hf1 := lookup_field bo fl n1 T1 hl1
  have hn : n1 = n2 := by
    by_contra hne
    simp [Descriptor.type, STRUCTS_UNION_TYPE, structs_union_equal, hne] at h
  subst hn
  rw [hl1] at hl2
  injection hl2 with hl2
  subst hl2
  have heq : (T1.type bo).equal u1 u2 = 1 := by
    simpa [Descriptor.type, STRUCTS_UNION_TYPE, structs_union_equal, hf1] using h
  obtain ⟨henc, hcong⟩ := lookup_all _ fl n1 T1 hE hl1 u1 u2 ht1 ht2 heq
  refine ⟨?_, ?_⟩
  · simp only [Descriptor.type, STRUCTS_UNION_TYPE, structs_union_encode, hf1, henc]
  · intro d hd
    obtain ⟨n3, u3, rfl, h3⟩ := (hasType_union _ _).1 hd
    by_cases hn : n1 = n3
    · subst hn
      obtain ⟨T3, hl3, ht3⟩ := (hasVariant_iff_lookup _ _ _).1 h3
      rw [hl1] at hl3
      injection hl3 with hl3
      subst hl3
      simp only [Descriptor.type, STRUCTS_UNION_TYPE, structs_union_equal, ne_eq,
        not_true_eq_false, if_false, hf1, hcong u3 ht3]
    · simp [Descriptor.type, STRUCTS_UNION_TYPE, structs_union_equal, hn]

mutual
theorem eqc_of_wf (bo : ByteOrder) : ∀ T : Descriptor, T.wf = true → T.eqcongr bo
  | .int name size, h => by
    have hs : size = 4 := by simpa [Descriptor.wf] using h
    subst hs
    exact eqc_uint32 bo name
  | .string asnull, _ => eqc_string asnull
  | .data charset, _ => eqc_data charset
  | .fixeddata _, h => by simp [Descriptor.wf] at h
  | .null, h => by simp [Descriptor.wf] at h
  | .array_length, h => by simp [Descriptor.wf] at h
  | .union_field_name, h => by simp [Descriptor.wf] at h
  | .pointer reftype, h =>
    eqc_pointer _ reftype (eqc_of_wf bo reftype (by simpa [Descriptor.wf] using h))
  | .array etype, h =>
    have h' : etype.wf = true := by simpa [Descriptor.wf] using h
    eqc_array _ etype (codec_of_wf bo etype h') (eqc_of_wf bo etype h')
  | .fixedarray etype alen, h =>
    have h' : etype.wf = true ∧ alen + 7 < 2 ^ 32 := by simpa [Descriptor.wf] using h
    eqc_fixedarray _ etype alen (codec_of_wf bo etype h'.1) (eqc_of_wf bo etype h'.1)
  | .structure flist, h =>
    have h' : flist.wf = true ∧ flist.length + 7 < 2 ^ 32 := by simpa [Descriptor.wf] using h
    eqc_structure bo flist (codec_of_fields bo flist h'.1) (eqc_of_fields bo flist h'.1)
  | .union flist, h =>
    have h' : flist.wf = true ∧ 0 < flist.length := by simpa [Descriptor.wf] using h
    eqc_union bo flist (eqc_of_fields bo flist h'.1)
theorem eqc_of_fields (bo : ByteOrder) :
    ∀ fl : FieldList, fl.wf = true → fl.All (Descriptor.eqcongr bo)
  | .END, _ => trivial
  | .FIELD name type rest, h =>
    have h' : (c_string name = true ∧ type.wf = true) ∧ rest.wf = true := by
      simpa [FieldList.wf] using h
    ⟨eqc_of_wf bo type h'.1.2, eqc_of_fields bo rest h'.2⟩
end

/-- C30: default omission respects equality.  For every descriptor built from
structures, variable arrays, fixed arrays, unions and pointers over the leaves
uint32, string and data, and all live values `a`, `b` with `equal(a, b) = 1`:
`encode(a)` and `encode(b)` have the same outcome, and when the encoding of
`a` stays below `2 ^ 31` bytes (its `wire_bound`; the encoders total their
buffer in an `unsigned int`) `encode(a)` succeeds and `encode(b)` is the same
byte string.  In particular a value equal to the `init` default of its type
is, as a field, encoded like the default itself: its bit is clear and it adds
no payload. -/
theorem equal_same_encoding (bo : ByteOrder) (T : Descriptor) (a b : Value)
    (hT : T.wf = true) (ha : T.hasType a = true) (hb : T.hasType b = true)
    (h : (T.type bo).equal a b = 1) :
    (T.type bo).encode a = (T.type bo).encode b ∧
      (T.wire_bound a < 2 ^ 31 →
        ∃ code, (T.type bo).encode a = .ok code ∧ (T.type bo).encode b = .ok code) ∧
      ∀ name d, (T.type bo).init = .ok d → (T.type bo).equal a d = 1 →
        field_present ⟨name, T.type bo⟩ a = false ∧ field_code ⟨name, T.type bo⟩ a = [] ∧
        field_present ⟨name, T.type bo⟩ d = false ∧ field_code ⟨name, T.type bo⟩ d = [] := by
  obtain ⟨henc, hcong⟩ := eqc_of_wf bo T hT a b ha hb h
  refine ⟨henc, ?_, ?_⟩
  · intro hB
    obtain ⟨code, _, hcode, -⟩ := (codec_of_wf bo T hT).roundtrip a ha hB
    exact ⟨code, hcode, by rw [← henc, hcode]⟩
  intro name d hd had
  obtain ⟨d', hd', hdV⟩ := (codec_of_wf bo T hT).init_ok
  rw [hd] at hd'
  injection hd' with hd'
  subst hd'
  have hdd : (T.type bo).equal d d = 1 := by
    have h1 := (eqc_of_wf bo T hT a d ha hdV had).2 d hdV
    rw [← h1]
    exact had
  simp [field_present, field_code, hd, had, hdd]

theorem equal_same_encoding_witness :
    ((Descriptor.string true).type .BIG_ENDIAN).encode (.string none)
        = ((Descriptor.string true).type .BIG_ENDIAN).encode (.string (some [])) ∧
      ((Descriptor.string true).wire_bound (.string none) < 2 ^ 31 →
        ∃ code, ((Descriptor.string true).type .BIG_ENDIAN).encode (.string none) = .ok code ∧
          ((Descriptor.string true).type .BIG_ENDIAN).encode (.string (some [])) = .ok code) ∧
      ∀ name d, ((Descriptor.string true).type .BIG_ENDIAN).init = .ok d →
        ((Descriptor.string true).type .BIG_ENDIAN).equal (.string none) d = 1 →
        field_present ⟨name, (Descriptor.string true).type .BIG_ENDIAN⟩ (.string none) = false ∧
        field_code ⟨name, (Descriptor.string true).type .BIG_ENDIAN⟩ (.string none) = [] ∧
        field_present ⟨name, (Descriptor.string true).type .BIG_ENDIAN⟩ d = false ∧
        field_code ⟨name, (Descriptor.string true).type .BIG_ENDIAN⟩ d = [] :=
  equal_same_encoding .BIG_ENDIAN (.string true) (.string none) (.string (some [])) (by decide)
    (by decide) (by decide) (by decide)

/-! ## Set then get -/

theorem find_head_write (type : Descriptor) (sub : List Nat → Value → Bool → Found)
    (c : Value)
    (h : ∀ name v T' loc v', sub name v false = (v, .ok (T', loc)) → v.write loc c = some v' →
      sub name v' false = (v', .ok (T', loc)))
    (name : Option (List Nat)) (v : Value) (T' : Descriptor) (loc : Loc) (v' : Value)
    (hf : structs_find_head type sub name v false = (v, .ok (T', loc)))
    (hw : v.write loc c = some v') :
    structs_find_head type sub name v' false = (v', .ok (T', loc)) := by
  rcases name with _ | _ | ⟨x, name⟩
  · simp only [structs_find_head] at hf ⊢
    injection hf with _ hf
    injection hf with hf
    injection hf with h1 h2
    subst h1 h2
    rfl
  · simp only [structs_find_head] at hf ⊢
    injection hf with _ hf
    injection hf with hf
    injection hf with h1 h2
    subst h1 h2
    rfl
  · by_cases hp : type.tclass = .STRUCTS_TYPE_PRIMITIVE
    · simp [structs_find_head, hp] at hf
    · simp only [structs_find_head, hp, if_false] at hf ⊢
      exact h _ _ _ _ _ hf hw

mutual
theorem find_sub_write (bo : ByteOrder) (c : Value) : ∀ (T : Descriptor) (name : List Nat)
    (v : Value) (T' : Descriptor) (loc : Loc) (v' : Value),
    structs_find_sub bo T name v false = (v, .ok (T', loc)) → v.write loc c = some v' →
    structs_find_sub bo T name v' false = (v', .ok (T', loc))
  | .pointer reftype, name, v, T', loc, v', hf, hw => by
    rcases v with _ | _ | _ | (_ | p) | _ | _ | _ | _
    case pointer.some =>
      simp only [structs_find_sub, Found.lift] at hf
      rcases hr : structs_find_sub bo reftype name p false with ⟨p1, e | ⟨t, l⟩⟩
      · simp [hr, result_under] at hf
      · have hp1 : p1 = p := by
          have := find_sub_pure bo reftype name p
          rw [hr] at this
          exact this
        subst hp1
        simp [hr, result_under] at hf
        obtain ⟨h1, h2⟩ := hf
        subst h1 h2
        simp only [Value.write] at hw
        cases hw' : p1.write l c with
        | none => simp [hw'] at hw
        | some p' =>
          simp [hw'] at hw
          subst hw
          have ih := find_sub_write bo c reftype name p1 t l p' hr hw'
          simp [structs_find_sub, Found.lift, ih, result_under]
    all_goals simp [structs_find_sub] at hf
  | .array etype, name, v, T', loc, v', hf, hw => by
    rcases v with _ | _ | _ | _ | elems | _ | _ | _
    case array =>
      simp only [structs_find_sub] at hf
      by_cases hname : name = name_length
      · simp [hname] at hf
        obtain ⟨h1, h2⟩ := hf
        subst h1 h2
        simp [Value.write] at hw
      · simp only [hname, if_false] at hf
        cases hidx : structs_index name with
        | none => simp [hidx] at hf
        | some index =>
          simp only [hidx] at hf
          cases hget : elems[index]? with
          | none => simp [hget] at hf
          | some elem =>
            simp only [hget, Found.lift] at hf
            rcases hr : structs_find_head etype (structs_find_sub bo etype) (structs_next name)
              elem false with ⟨e1, e | ⟨t, l⟩⟩
            · simp [hr, result_under] at hf
            · have he1 : e1 = elem := by
                have := find_head_fst etype _ false (find_sub_pure bo etype) (structs_next name)
                  elem
                rw [hr] at this
                exact this
              subst he1
              simp [hr, result_under] at hf
              obtain ⟨-, h1, h2⟩ := hf
              subst h1 h2
              simp only [Value.write, hget] at hw
              cases hw' : e1.write l c with
              | none => simp [hw'] at hw
              | some e' =>
                simp [hw'] at hw
                subst hw
                have hlt : index < elems.length := (List.getElem?_eq_some_iff.1 hget).1
                have ih := find_head_write etype (structs_find_sub bo etype) c
                  (find_sub_write bo c etype) (structs_next name) e1 t l e' hr hw'
                simp [structs_find_sub, hname, hidx, List.getElem?_set_self hlt, Found.lift, ih,
                  result_under]
    all_goals simp [structs_find_sub] at hf
  | .fixedarray etype alen, name, v, T', loc, v', hf, hw => by
    rcases v with _ | _ | _ | _ | _ | elems | _ | _
    case fixedarray =>
      simp only [structs_find_sub] at hf
      by_cases hname : name = name_length
      · simp [hname] at hf
        obtain ⟨h1, h2⟩ := hf
        subst h1 h2
        simp [Value.write] at hw
      · simp only [hname, if_false] at hf
        cases hidx : structs_index name with
        | none => simp [hidx] at hf
        | some index =>
          simp only [hidx] at hf
          by_cases hlen : index ≥ alen
          · simp [hlen] at hf
          · simp only [hlen, if_false] at hf
            cases hget : elems[index]? with
            | none => simp [hget] at hf
            | some elem =>
              simp only [hget, Found.lift] at hf
              rcases hr : structs_find_head etype (structs_find_sub bo etype)
                (structs_next name) elem false with ⟨e1, e | ⟨t, l⟩⟩
              · simp [hr, result_under] at hf
              · have he1 : e1 = elem := by
                  have := find_head_fst etype _ false (find_sub_pure bo etype)
                    (structs_next name) elem
                  rw [hr] at this
                  exact this
                subst he1
                simp [hr, result_under] at hf
                obtain ⟨-, h1, h2⟩ := hf
                subst h1 h2
                simp only [Value.write, hget] at hw
                cases hw' : e1.write l c with
                | none => simp [hw'] at hw
                | some e' =>
                  simp [hw'] at hw
                  subst hw
                  have hlt : index < elems.length := (List.getElem?_eq_some_iff.1 hget).1
                  have ih := find_head_write etype (structs_find_sub bo etype) c
                    (find_sub_write bo c etype) (structs_next name) e1 t l e' hr hw'
                  simp [structs_find_sub, hname, hidx, hlen, List.getElem?_set_self hlt,
                    Found.lift, ih, result_under]
    all_goals simp [structs_find_sub] at hf
  | .structure flist, name, v, T', loc, v', hf, hw => by
    rcases v with _ | _ | _ | _ | _ | _ | fields | _
    iterate 6 simp [structs_find_sub] at hf
    · simp only [structs_find_sub] at hf
      rcases hr : structs_find_field bo flist name fields 0 false with ⟨f1, r⟩
      simp [hr] at hf
      obtain ⟨h1, h2⟩ := hf
      subst h1 h2
      obtain ⟨k, l, hloc, hk⟩ := find_field_write bo c flist name f1 0 T' loc hr
      subst hloc
      simp only [Value.write, Nat.zero_add] at hw
      cases hget : f1[k]? with
      | none => simp [hget] at hw
      | some x =>
        cases hw' : x.write l c with
        | none => simp [hget, hw'] at hw
        | some e' =>
          simp [hget, hw'] at hw
          subst hw
          simp [structs_find_sub, hk x e' hget hw']
    · simp [structs_find_sub] at hf
  | .union flist, name, v, T', loc, v', hf, hw => by
    rcases v with _ | _ | _ | _ | _ | _ | _ | ⟨_ | fn, _ | un⟩
    case union.some.some =>
      simp only [structs_find_sub] at hf
      by_cases hname : name = name_field_name
      · simp [hname] at hf
        obtain ⟨h1, h2⟩ := hf
        subst h1 h2
        simp [Value.write] at hw
      · simp only [hname, if_false] at hf
        cases hl : flist.lookup fn with
        | none => simp [hl] at hf
        | some ty =>
          simp only [hl] at hf
          cases hm : structs_name_match fn name with
          | none => simp [hm] at hf
          | some next =>
            simp only [hm] at hf
            cases ha : structs_find_active bo flist fn next un false with
            | none => simp [ha] at hf
            | some r =>
              obtain ⟨u1, r2⟩ := r
              have hu1 : u1 = un := find_active_pure bo flist fn next un _ ha
              subst hu1
              rcases r2 with e | ⟨t, l⟩
              · simp [ha, Found.lift, result_under] at hf
              · simp [ha, Found.lift, result_under] at hf
                obtain ⟨h1, h2⟩ := hf
                subst h1 h2
                simp only [Value.write] at hw
                cases hw' : u1.write l c with
                | none => simp [hw'] at hw
                | some u' =>
                  simp [hw'] at hw
                  subst hw
                  have ih := find_active_write bo c flist fn next u1 t l u' ha hw'
                  simp [structs_find_sub, hname, hl, hm, ih, Found.lift, result_under]
    all_goals simp [structs_find_sub] at hf
  | .int _ _, _, _, _, _, _, hf, _ => by simp [structs_find_sub] at hf
  | .string _, _, _, _, _, _, hf, _ => by simp [structs_find_sub] at hf
  | .data _, _, _, _, _, _, hf, _ => by simp [structs_find_sub] at hf
  | .fixeddata _, _, _, _, _, _, hf, _ => by simp [structs_find_sub] at hf
  | .null, _, _, _, _, _, hf, _ => by simp [structs_find_sub] at hf
  | .array_length, _, _, _, _, _, hf, _ => by simp [structs_find_sub] at hf
  | .union_field_name, _, _, _, _, _, hf, _ => by simp [structs_find_sub] at hf
theorem find_field_write (bo : ByteOrder) (c : Value) : ∀ (fl : FieldList) (name : List Nat)
    (fields : List Value) (i : Nat) (T' : Descriptor) (loc : Loc),
    structs_find_field bo fl name fields i false = (fields, .ok (T', loc)) →
    ∃ k l, loc = .member (i + k) :: l ∧ ∀ x e', fields[k]? = some x → x.write l c = some e' →
      structs_find_field bo fl name (fields.set k e') i false
        = (fields.set k e', .ok (T', .member (i + k) :: l))
  | .END, _, _, _, _, _, hf => by simp [structs_find_field] at hf
  | .FIELD fname type rest, name, fields, i, T', loc, hf => by
    cases fields with
    | nil => simp [structs_find_field] at hf
    | cons fd fs =>
      simp only [structs_find_field] at hf
      cases hm : structs_name_match fname name with
      | some next =>
        simp only [hm] at hf
        rcases hr : structs_find_head type (structs_find_sub bo type) next fd false
          with ⟨f1, e | ⟨t, l⟩⟩
        · simp [hr, result_under] at hf
        · simp [hr, result_under] at hf
          obtain ⟨h0, h1, h2⟩ := hf
          subst h0 h1 h2
          refine ⟨0, l, rfl, ?_⟩
          intro x e' hx hw
          simp at hx
          subst hx
          have ih := find_head_write type (structs_find_sub bo type) c
            (find_sub_write bo c type) next f1 t l e' hr hw
          simp [structs_find_field, hm, ih, result_under]
      | none =>
        simp only [hm] at hf
        rcases hr : structs_find_field bo rest name fs (i + 1) false with ⟨fs1, r⟩
        simp [hr] at hf
        obtain ⟨h1, h2⟩ := hf
        subst h1 h2
        obtain ⟨k, l, hloc, hk⟩ := find_field_write bo c rest name fs1 (i + 1) T' loc hr
        refine ⟨k + 1, l, by rw [hloc]; congr 2; omega, ?_⟩
        intro x e' hx hw
        simp at hx
        have := hk x e' hx hw
        simp [structs_find_field, hm, this]
        omega
theorem find_active_write (bo : ByteOrder) (c : Value) : ∀ (fl : FieldList)
    (field_name : List Nat) (next : Option (List Nat)) (un : Value) (T' : Descriptor)
    (loc : Loc) (u' : Value),
    structs_find_active bo fl field_name next un false = some (un, .ok (T', loc)) →
    un.write loc c = some u' →
    structs_find_active bo fl field_name next u' false = some (u', .ok (T', loc))
  | .END, _, _, _, _, _, _, hf, _ => by simp [structs_find_active] at hf
  | .FIELD fname type rest, field_name, next, un, T', loc, u', hf, hw => by
    simp only [structs_find_active] at hf ⊢
    split_ifs at hf ⊢ with h
    · injection hf with hf
      rw [find_head_write type (structs_find_sub bo type) c (find_sub_write bo c type) next un
        T' loc u' hf hw]
    · exact find_active_write bo c rest field_name next un T' loc u' hf hw
end

theorem under_length (step : Step) (hs : step ≠ .length)
    (r : Except Errno (Descriptor × Loc))
    (h : ∀ T' l, r = .ok (T', l) → l.getLast? = some .length → T' = .array_length) :
    ∀ T' loc, result_under step r = .ok (T', loc) → loc.getLast? = some .length →
      T' = .array_length := by
  intro T' loc hr hl
  rcases r with e | ⟨t, l⟩
  · simp [result_under] at hr
  · simp only [result_under, Except.ok.injEq, Prod.mk.injEq] at hr
    obtain ⟨h1, h2⟩ := hr
    subst h1 h2
    cases l with
    | nil =>
      simp at hl
      exact absurd hl hs
    | cons a l =>
      rw [List.getLast?_cons_cons] at hl
      exact h _ _ rfl hl

theorem find_head_length (type : Descriptor) (sub : List Nat → Value → Bool → Found)
    (h : ∀ name data T' l, (sub name data false).2 = .ok (T', l) →
      l.getLast? = some .length → T' = .array_length)
    (name : Option (List Nat)) (data : Value) (T' : Descriptor) (l : Loc)
    (hf : (structs_find_head type sub name data false).2 = .ok (T', l))
    (hl : l.getLast? = some .length) : T' = .array_length := by
  unfold structs_find_head at hf
  split at hf
  · simp at hf
    rw [hf.2] at hl
    simp at hl
  · simp at hf
    rw [hf.2] at hl
    simp at hl
  · split_ifs at hf
    exact h _ _ _ _ hf hl

mutual
theorem find_sub_length (bo : ByteOrder) : ∀ (T : Descriptor) (name : List Nat) (data : Value)
    (T' : Descriptor) (l : Loc), (structs_find_sub bo T name data false).2 = .ok (T', l) →
    l.getLast? = some .length → T' = .array_length
  | .pointer reftype, name, data, T', l, hf, hl => by
    simp only [structs_find_sub] at hf
    split at hf
    · rename_i pdata
      exact under_length .deref (by decide) _
        (fun T1 l1 h1 => find_sub_length bo reftype name pdata T1 l1 h1) T' l hf hl
    · simp at hf
  | .array etype, name, data, T', l, hf, hl => by
    simp only [structs_find_sub] at hf
    split at hf
    · split_ifs at hf
      · simp at hf
        exact hf.1.symm
      · split at hf
        · simp at hf
        · split at hf
          · simp at hf
          · rename_i elem _
            exact under_length (.elem _) (by simp) _
              (fun T1 l1 h1 => find_head_length etype _ (find_sub_length bo etype) _ elem
                T1 l1 h1) T' l hf hl
    · simp at hf
  | .fixedarray etype alen, name, data, T', l, hf, hl => by
    simp only [structs_find_sub] at hf
    split at hf
    · split_ifs at hf
      · simp at hf
        exact hf.1.symm
      · split at hf
        · simp at hf
        · split_ifs at hf
          split at hf
          · simp at hf
          · rename_i elem _
            exact under_length (.felem _) (by simp) _
              (fun T1 l1 h1 => find_head_length etype _ (find_sub_length bo etype) _ elem
                T1 l1 h1) T' l hf hl
    · simp at hf
  | .structure flist, name, data, T', l, hf, hl => by
    simp only [structs_find_sub] at hf
    split at hf
    · rename_i fields
      exact find_field_length bo flist name fields 0 T' l hf hl
    · simp at hf
  | .union flist, name, data, T', l, hf, hl => by
    simp only [structs_find_sub] at hf
    split at hf
    · split_ifs at hf
      · simp at hf
        rw [← hf.2] at hl
        simp at hl
      · split at hf
        · simp at hf
        · split at hf
          · split at hf
            · rename_i r hr
              exact under_length .un (by decide) _
                (fun T1 l1 h1 => find_active_length bo flist _ _ _ r hr T1 l1 h1) T' l hf hl
            · simp at hf
          · simp at hf
    · simp at hf
  | .int _ _, _, _, _, _, hf, _ => by simp [structs_find_sub] at hf
  | .string _, _, _, _, _, hf, _ => by simp [structs_find_sub] at hf
  | .data _, _, _, _, _, hf, _ => by simp [structs_find_sub] at hf
  | .fixeddata _, _, _, _, _, hf, _ => by simp [structs_find_sub] at hf
  | .null, _, _, _, _, hf, _ => by simp [structs_find_sub] at hf
  | .array_length, _, _, _, _, hf, _ => by simp [structs_find_sub] at hf
  | .union_field_name, _, _, _, _, hf, _ => by simp [structs_find_sub] at hf
theorem find_field_length (bo : ByteOrder) : ∀ (fl : FieldList) (name : List Nat)
    (fields : List Value) (i : Nat) (T' : Descriptor) (l : Loc),
    (structs_find_field bo fl name fields i false).2 = .ok (T', l) →
    l.getLast? = some .length → T' = .array_length
  | .END, _, _, _, _, _, hf, _ => by simp [structs_find_field] at hf
  | .FIELD fname type rest, name, fields, i, T', l, hf, hl => by
    simp only [structs_find_field] at hf
    split at hf
    · simp at hf
    · rename_i fdata fields1
      split at hf
      · rename_i next _
        exact under_length (.member i) (by simp) _
          (fun T1 l1 h1 => find_head_length type _ (find_sub_length bo type) next fdata
            T1 l1 h1) T' l hf hl
      · exact find_field_length bo rest name fields1 (i + 1) T' l hf hl
theorem find_active_length (bo : ByteOrder) : ∀ (fl : FieldList) (field_name : List Nat)
    (next : Option (List Nat)) (un : Value) (r : Found),
    structs_find_active bo fl field_name next un false = some r →
    ∀ (T' : Descriptor) (l : Loc), r.2 = .ok (T', l) →
    l.getLast? = some .length → T' = .array_length
  | .END, _, _, _, _, hr => by simp [structs_find_active] at hr
  | .FIELD fname type rest, field_name, next, un, r, hr => by
    simp only [structs_find_active] at hr
    split_ifs at hr
    · injection hr with hr
      subst hr
      exact fun T' l hf hl =>
        find_head_length type _ (find_sub_length bo type) next un T' l hf hl
    · exact find_active_length bo rest field_name next un r hr
end

theorem memcpy_eq_write (bo : ByteOrder) (v : Value) (loc : Loc) (c : Value)
    (h : loc.getLast? ≠ some .length) : v.memcpy bo loc c = v.write loc c := by
  unfold Value.memcpy
  split
  · rename_i hl _
    exact absurd hl h
  · rfl

/-- C22: set then get.  For every descriptor, value `v` and path that
`structs_find` resolves with `set_union = 0` to an item of a descriptor `T'`
(built from structures, arrays, unions and pointers over the leaves uint32,
string and data), and every live value `x` of `T'`: when `structs_set` of `x` at
the path succeeds, `structs_get` at the path on the value it leaves succeeds
and yields a value equal to `x` under the `equal` of `T'`, in both argument
orders. -/
theorem set_then_get (bo : ByteOrder) (T : Descriptor) (name : Option (List Nat))
    (v x v' : Value) (T' : Descriptor) (loc : Loc) (hT' : T'.wf = true)
    (hx : T'.hasType x = true)
    (hfind : structs_find bo T name v false = (v, .ok (T', loc)))
    (hset : structs_set bo T x name v = (v', .ok ())) :
    ∃ y, structs_get bo T name v' = .ok y ∧ (T'.type bo).equal x y = 1 ∧
      (T'.type bo).equal y x = 1 := by
  obtain ⟨c, hc, hcV, hxc, hcx⟩ := copies_of_wf bo T' hT' x hx
  obtain ⟨y, hy, hyV, hcy, hyc⟩ := copies_of_wf bo T' hT' c hcV
  have hloc : loc.getLast? ≠ some .length := by
    intro hl
    have h0 := find_head_length T _ (find_sub_length bo T) name v T' loc
      (by rw [show structs_find_head T (structs_find_sub bo T) name v false
        = (v, .ok (T', loc)) from hfind]) hl
    rw [h0] at hT'
    simp [Descriptor.wf] at hT'
  simp only [structs_set, hfind, hc, memcpy_eq_write bo v loc c hloc] at hset
  cases hw : v.write loc c with
  | none => simp [hw] at hset
  | some v2 =>
    simp [hw] at hset
    subst hset
    have hfind' : structs_find bo T name v2 false = (v2, .ok (T', loc)) :=
      find_head_write T (structs_find_sub bo T) c (find_sub_write bo c T) name v T' loc v2
        hfind hw
    have hread := write_read bo loc v c v2 hw
    have hyx : (T'.type bo).equal y x = 1 := by
      have h1 := (eqc_of_wf bo T' hT' c y hcV hyV hcy).2 x hx
      rw [← h1]
      exact hcx
    refine ⟨y, ?_, (codec_of_wf bo T' hT').equal_symm y x hyV hx hyx, hyx⟩
    simp [structs_get, hfind', hread, hy]

theorem set_then_get_witness :
    ∃ y, structs_get .BIG_ENDIAN E2_type (some [97, 114, 114, 46, 49])
        (.structure [.region [0, 0, 0, 7], .string (some [0x68, 0x69]),
          .array [.region [0, 0, 0, 100], .region [0, 0, 0, 9]]]) = .ok y ∧
      (Descriptor.uint32.type .BIG_ENDIAN).equal (.region [0, 0, 0, 9]) y = 1 ∧
      (Descriptor.uint32.type .BIG_ENDIAN).equal y (.region [0, 0, 0, 9]) = 1 :=
  set_then_get .BIG_ENDIAN E2_type (some [97, 114, 114, 46, 49]) (E2_value .BIG_ENDIAN)
    (.region [0, 0, 0, 9])
    (.structure [.region [0, 0, 0, 7], .string (some [0x68, 0x69]),
      .array [.region [0, 0, 0, 100], .region [0, 0, 0, 9]]])
    .uint32 [.member 2, .elem 1] (by decide) (by decide) rfl rfl

/-! ## Decimal indices -/

theorem digitChar_toNat (k : Nat) (hk : k < 10) :
    (Nat.digitChar k).toNat = k + 48 ∧ isdigit (Nat.digitChar k).toNat = true := by
  interval_cases k <;> exact ⟨rfl, rfl⟩

theorem decimal_fold_cons (c : Nat) : ∀ (l : List Nat) (v : Nat),
    (c :: l).foldl (fun value c => value * 10 + (c - 48)) v
      = (v * 10 + (c - 48)) * 10 ^ l.length
        + l.foldl (fun value c => value * 10 + (c - 48)) 0
  | [], v => by simp
  | d :: l, v => by
    have h1 := decimal_fold_cons d l (v * 10 + (c - 48))
    have h2 := decimal_fold_cons d l 0
    simp only [List.foldl_cons, List.length_cons] at h1 h2 ⊢
    rw [h1, h2]
    ring

theorem toDigitsCore_value : ∀ (fuel n : Nat) (ds : List Char), n < fuel →
    (∀ c ∈ ds, isdigit c.toNat = true) →
    (∀ c ∈ Nat.toDigitsCore 10 fuel n ds, isdigit c.toNat = true) ∧
      ((Nat.toDigitsCore 10 fuel n ds).map Char.toNat).foldl
          (fun value c => value * 10 + (c - 48)) 0
        = n * 10 ^ ds.length
          + (ds.map Char.toNat).foldl (fun value c => value * 10 + (c - 48)) 0
  | 0, n, ds, h, _ => by omega
  | fuel + 1, n, ds, h, hds => by
    have hd := digitChar_toNat (n % 10) (Nat.mod_lt _ (by decide))
    have hcons : ∀ c ∈ Nat.digitChar (n % 10) :: ds, isdigit c.toNat = true := by
      intro c hc
      rcases List.mem_cons.1 hc with rfl | hc
      · exact hd.2
      · exact hds c hc
    have hval := decimal_fold_cons (Nat.digitChar (n % 10)).toNat (ds.map Char.toNat) 0
    rw [hd.1] at hval
    simp only [Nat.zero_mul, Nat.zero_add, Nat.add_sub_cancel, List.length_map] at hval
    rw [Nat.toDigitsCore]
    by_cases h0 : n / 10 = 0
    · simp only [h0, if_true]
      refine ⟨hcons, ?_⟩
      have hn : n % 10 = n := Nat.mod_eq_of_lt (by omega)
      simp only [List.map_cons]
      rw [hd.1, hval, hn]
    · simp only [h0, if_false]
      have hlt : n / 10 < fuel := by omega
      obtain ⟨ih1, ih2⟩ := toDigitsCore_value fuel (n / 10) (Nat.digitChar (n % 10) :: ds) hlt
        hcons
      refine ⟨ih1, ?_⟩
      rw [ih2]
      simp only [List.map_cons, List.length_cons]
      rw [hd.1, hval]
      have hp : 10 ^ (ds.length + 1) = 10 * 10 ^ ds.length := by ring
      have hn : n * 10 ^ ds.length = (10 * (n / 10) + n % 10) * 10 ^ ds.length := by
        rw [Nat.div_add_mod n 10]
      rw [hp, hn]
      ring

theorem printf_d_value (i : Nat) : decimal_value (printf_d i) = i := by
  have h := (toDigitsCore_value (i + 1) i [] (by omega) (by simp)).2
  simpa [decimal_value, printf_d, Nat.toDigits] using h

theorem printf_d_digits (i : Nat) : (printf_d i).all isdigit = true := by
  have h := (toDigitsCore_value (i + 1) i [] (by omega) (by simp)).1
  simp only [printf_d, Nat.toDigits, List.all_eq_true, List.mem_map]
  rintro c ⟨ch, hch, rfl⟩
  exact h ch hch

/-! ## Traverse and find agree -/

theorem join_path_rest (c : List Nat) (q : List (List Nat)) :
    join_path (c :: q) = path_of c (path_rest q) := by
  cases q with
  | nil => simp [join_path, List.intercalate, path_of, path_rest]
  | cons d q =>
    rw [join_path_cons c, path_rest, path_of, join_path_cons d]
    simp

theorem find_path_rest (bo : ByteOrder) (T : Descriptor) (q : List (List Nat)) (v : Value)
    (su : Bool) :
    structs_find bo T (path_rest q) v su = structs_find bo T (some (join_path q)) v su := by
  cases q with
  | nil => rfl
  | cons d q => rfl

theorem leaves_elems_mem (leaves : Value → List (List (List Nat))) :
    ∀ (elems : List Value) (k : Nat) (p : List (List Nat)), p ∈ leaves_elems leaves elems k →
    ∃ j e q, elems[j]? = some e ∧ q ∈ leaves e ∧ p = printf_d (k + j) :: q
  | [], _, p, h => by simp [leaves_elems] at h
  | e :: elems, k, p, h => by
    simp only [leaves_elems, List.mem_append, List.mem_map] at h
    rcases h with ⟨q, hq, rfl⟩ | h
    · exact ⟨0, e, q, by simp, hq, rfl⟩
    · obtain ⟨j, e', q, h1, h2, h3⟩ := leaves_elems_mem leaves elems (k + 1) p h
      exact ⟨j + 1, e', q, by simpa using h1, h2, by rw [h3]; congr 2; omega⟩

theorem find_fixedarray_index (bo : ByteOrder) (etype : Descriptor) (alen : Nat)
    (elems : List Value) (su : Bool) (digits : List Nat) (rest : Option (List Nat))
    (hd : digits ≠ []) (hdig : digits.all isdigit = true) (elem : Value)
    (hmax : decimal_value digits ≤ ULONG_MAX) (hlen : decimal_value digits < alen)
    (hget : elems[decimal_value digits]? = some elem) :
    structs_find bo (.fixedarray etype alen) (some (path_of digits rest)) (.fixedarray elems) su
      = (structs_find bo etype rest elem su).lift
          (fun e => .fixedarray (elems.set (decimal_value digits) e))
          (.felem (decimal_value digits)) := by
  obtain ⟨h1, h2⟩ := path_of_digits_ne digits rest hd hdig
  obtain ⟨c, name, hc⟩ := List.exists_cons_of_ne_nil h2
  have hi := structs_index_path digits rest hd hdig
  have hn := structs_next_path digits rest hdig
  have hm : ¬ decimal_value digits > ULONG_MAX := by omega
  simp only [hm, if_false] at hi
  rw [hc] at h1 hi hn ⊢
  simp only [structs_find, structs_find_head, Descriptor.tclass, structs_find_sub, h1, hi, hn]
  simp [hlen, hget]

theorem sep_prefix_unique : ∀ (g f a b : List Nat), STRUCTS_SEPARATOR ∉ g →
    STRUCTS_SEPARATOR ∉ f → g ++ STRUCTS_SEPARATOR :: a = f ++ STRUCTS_SEPARATOR :: b → g = f
  | [], [], _, _, _, _, _ => rfl
  | [], y :: f, a, b, _, hf, h => by
    simp at h
    exact absurd (List.mem_cons.2 (Or.inl h.1)) hf
  | x :: g, [], a, b, hg, _, h => by
    simp at h
    exact absurd (List.mem_cons.2 (Or.inl h.1.symm)) hg
  | x :: g, y :: f, a, b, hg, hf, h => by
    simp at h
    rw [h.1, sep_prefix_unique g f a b (fun hm => hg (List.mem_cons_of_mem _ hm))
      (fun hm => hf (List.mem_cons_of_mem _ hm)) h.2]

theorem name_match_other (fname g : List Nat) (rest : Option (List Nat))
    (hf : STRUCTS_SEPARATOR ∉ fname) (hg : STRUCTS_SEPARATOR ∉ g) (hne : g ≠ fname) :
    structs_name_match fname (path_of g rest) = none := by
  apply name_match_none
  · cases rest with
    | none => exact hne
    | some r =>
      intro h
      apply hf
      rw [← h]
      simp [path_of]
  · intro r
    cases rest with
    | none =>
      intro h
      apply hg
      simp only [path_of] at h
      rw [h]
      simp
    | some r' =>
      intro h
      exact hne (sep_prefix_unique g fname r' r hg hf h)

theorem plain_fields_names : ∀ (fl : FieldList), fl.plain_fields = true →
    ∀ g ∈ fl.names, STRUCTS_SEPARATOR ∉ g
  | .END, _ => by simp [FieldList.names]
  | .FIELD fname type rest, h => by
    simp [FieldList.plain_fields] at h
    intro g hg
    simp only [FieldList.names, List.mem_cons] at hg
    rcases hg with rfl | hg
    · exact h.1.1.1.2
    · exact plain_fields_names rest h.2 g hg

theorem fields_leaves_head : ∀ (fl : FieldList) (fields : List Value) (p : List (List Nat)),
    p ∈ fl.leaves fields → ∃ g q, p = g :: q ∧ g ∈ fl.names
  | .END, _, p, h => by simp [FieldList.leaves] at h
  | .FIELD fname type rest, [], p, h => by simp [FieldList.leaves] at h
  | .FIELD fname type rest, fd :: fs, p, h => by
    simp only [FieldList.leaves, List.mem_append, List.mem_map] at h
    rcases h with ⟨q, _, rfl⟩ | h
    · exact ⟨fname, q, rfl, by simp [FieldList.names]⟩
    · obtain ⟨g, q, h1, h2⟩ := fields_leaves_head rest fs p h
      exact ⟨g, q, h1, by simp [FieldList.names, h2]⟩

mutual
theorem plain_named : ∀ T : Descriptor, T.plain = true → T.named = true
  | .pointer reftype, h => by
    simp only [Descriptor.plain] at h
    simpa [Descriptor.named] using plain_named reftype h
  | .array etype, h => by
    simp only [Descriptor.plain] at h
    simpa [Descriptor.named] using plain_named etype h
  | .fixedarray etype _, h => by
    simp only [Descriptor.plain] at h
    simpa [Descriptor.named] using plain_named etype h
  | .structure flist, h => by
    simp only [Descriptor.plain] at h
    simpa [Descriptor.named] using plain_fields_named flist h
  | .union flist, h => by
    simp only [Descriptor.plain] at h
    simpa [Descriptor.named] using plain_variants_named flist h
  | .int _ _, _ => rfl
  | .string _, _ => rfl
  | .data _, _ => rfl
  | .fixeddata _, _ => rfl
  | .null, _ => rfl
  | .array_length, _ => rfl
  | .union_field_name, _ => rfl
theorem plain_fields_named : ∀ fl : FieldList, fl.plain_fields = true → fl.named = true
  | .END, _ => rfl
  | .FIELD fname type rest, h => by
    simp [FieldList.plain_fields] at h
    simp [FieldList.named, h.1.1.1.1, plain_named type h.1.2, plain_fields_named rest h.2]
theorem plain_variants_named : ∀ fl : FieldList, fl.plain_variants = true → fl.named = true
  | .END, _ => rfl
  | .FIELD fname type rest, h => by
    simp [FieldList.plain_variants] at h
    simp [FieldList.named, h.1.1, plain_named type h.1.2, plain_variants_named rest h.2]
end

theorem traverse_leaves (T : Descriptor) (v : Value) (h : T.hasType v = true)
    (hn : T.named = true) (hs : T.short v = true) :
    structs_traverse T v = .ok ((T.leaves v).map join_path) := by
  rw [structs_traverse, trav_leaves T [] v [] h hs]
  simp only [List.nil_append]
  congr 1
  apply List.map_congr_left
  intro p hp
  exact trav_join_nil p (leaves_named T v hn p hp)

theorem resolves_pointer (bo : ByteOrder) (reftype : Descriptor) (pdata : Value)
    (name : List Nat) (h : Resolves bo reftype (some name) pdata) :
    Resolves bo (.pointer reftype) (some name) (.pointer (some pdata)) := by
  obtain ⟨t, loc, h1, h2⟩ := h
  cases name with
  | nil =>
    simp only [structs_find, structs_find_head, Except.ok.injEq, Prod.mk.injEq] at h1
    obtain ⟨rfl, rfl⟩ := h1
    exact ⟨.pointer reftype, [], rfl, by simpa [Descriptor.deref] using h2⟩
  | cons c n =>
    simp only [structs_find, structs_find_head] at h1
    by_cases hp : reftype.tclass = .STRUCTS_TYPE_PRIMITIVE
    · simp [hp] at h1
    · simp only [hp, if_false] at h1
      refine ⟨t, .deref :: loc, ?_, h2⟩
      simp [structs_find, structs_find_head, Descriptor.tclass, structs_find_sub, Found.lift,
        h1, result_under]

theorem resolves_array (bo : ByteOrder) (etype : Descriptor) (elems : List Value) (i : Nat)
    (elem : Value) (q : List (List Nat)) (hget : elems[i]? = some elem) (hi : i < 2 ^ 31)
    (h : Resolves bo etype (some (join_path q)) elem) :
    Resolves bo (.array etype) (some (join_path (printf_d i :: q))) (.array elems) := by
  obtain ⟨t, loc, h1, h2⟩ := h
  have hm : ¬ i > ULONG_MAX := by
    simp only [ULONG_MAX]
    omega
  refine ⟨t, .elem i :: loc, ?_, h2⟩
  rw [join_path_rest, find_array_index bo etype elems false (printf_d i) (path_rest q)
    (printf_d_ne_nil i) (printf_d_digits i), printf_d_value]
  simp only [hm, if_false, hget, Found.lift, find_path_rest, h1, result_under]

theorem resolves_fixedarray (bo : ByteOrder) (etype : Descriptor) (elems : List Value) (i : Nat)
    (elem : Value) (q : List (List Nat)) (hget : elems[i]? = some elem) (hi : i < 2 ^ 31)
    (h : Resolves bo etype (some (join_path q)) elem) :
    Resolves bo (.fixedarray etype elems.length) (some (join_path (printf_d i :: q)))
      (.fixedarray elems) := by
  obtain ⟨t, loc, h1, h2⟩ := h
  have hlt : i < elems.length := (List.getElem?_eq_some_iff.1 hget).1
  have hv := printf_d_value i
  refine ⟨t, .felem i :: loc, ?_, h2⟩
  rw [join_path_rest, find_fixedarray_index bo etype elems.length elems false (printf_d i)
    (path_rest q) (printf_d_ne_nil i) (printf_d_digits i) elem
    (by rw [hv]; simp only [ULONG_MAX]; omega) (by rw [hv]; exact hlt) (by rw [hv]; exact hget)]
  simp only [hv, Found.lift, find_path_rest, h1, result_under]

set_option maxHeartbeats 1000000 in
mutual
theorem leaf_resolves (bo : ByteOrder) : ∀ (T : Descriptor) (v : Value),
    T.hasType v = true → T.plain = true → T.short v = true →
    ∀ p ∈ T.leaves v, Resolves bo T (some (join_path p)) v
  | .pointer reftype, v, h, hp, hs => by
    rcases v with _ | _ | _ | (_ | pd) | _ | _ | _ | _
    case pointer.some =>
      simp only [Descriptor.hasType, Descriptor.short, Descriptor.plain] at h hp hs
      intro p hmem
      simp only [Descriptor.leaves] at hmem
      exact resolves_pointer bo reftype pd _ (leaf_resolves bo reftype pd h hp hs p hmem)
    all_goals simp [Descriptor.hasType] at h
  | .array etype, v, h, hp, hs => by
    rcases v with _ | _ | _ | _ | elems | _ | _ | _
    case array =>
      simp [Descriptor.hasType, Descriptor.short] at h hs
      simp only [Descriptor.plain] at hp
      intro p hmem
      simp only [Descriptor.leaves] at hmem
      obtain ⟨j, e, q, hget, hq, rfl⟩ := leaves_elems_mem etype.leaves elems 0 p hmem
      have hlt : j < elems.length := (List.getElem?_eq_some_iff.1 hget).1
      have he : e ∈ elems := by
        rw [List.getElem?_eq_some_iff] at hget
        obtain ⟨hl, rfl⟩ := hget
        exact List.getElem_mem hl
      rw [Nat.zero_add]
      exact resolves_array bo etype elems j e q hget (by omega)
        (leaf_resolves bo etype e (h.1 e he) hp (hs.2 e he) q hq)
    all_goals simp [Descriptor.hasType] at h
  | .fixedarray etype alen, v, h, hp, hs => by
    rcases v with _ | _ | _ | _ | _ | elems | _ | _
    case fixedarray =>
      simp [Descriptor.hasType, Descriptor.short] at h hs
      simp only [Descriptor.plain] at hp
      intro p hmem
      simp only [Descriptor.leaves] at hmem
      obtain ⟨j, e, q, hget, hq, rfl⟩ := leaves_elems_mem etype.leaves elems 0 p hmem
      have hlt : j < elems.length := (List.getElem?_eq_some_iff.1 hget).1
      have he : e ∈ elems := by
        rw [List.getElem?_eq_some_iff] at hget
        obtain ⟨hl, rfl⟩ := hget
        exact List.getElem_mem hl
      rw [Nat.zero_add, ← h.1]
      exact resolves_fixedarray bo etype elems j e q hget (by omega)
        (leaf_resolves bo etype e (h.2 e he) hp (hs.2 e he) q hq)
    all_goals simp [Descriptor.hasType] at h
  | .structure flist, v, h, hp, hs => by
    rcases v with _ | _ | _ | _ | _ | _ | fields | _
    iterate 6 simp [Descriptor.hasType] at h
    · simp only [Descriptor.hasType, Descriptor.short, Descriptor.plain] at h hp hs
      intro p hmem
      simp only [Descriptor.leaves] at hmem
      obtain ⟨hne, t, loc, h1, h2⟩ := leaf_resolves_fields bo flist fields 0 h hp hs p hmem
      obtain ⟨c, n, hc⟩ := List.exists_cons_of_ne_nil hne
      refine ⟨t, loc, ?_, h2⟩
      rw [hc] at h1 ⊢
      simp only [structs_find, structs_find_head, Descriptor.tclass, structs_find_sub]
      simpa using h1
    · simp [Descriptor.hasType] at h
  | .union flist, v, h, hp, hs => by
    rcases v with _ | _ | _ | _ | _ | _ | _ | ⟨_ | fn, _ | un⟩
    case union.some.some =>
      simp only [Descriptor.hasType, Descriptor.short, Descriptor.plain] at h hp hs
      intro p hmem
      simp only [Descriptor.leaves] at hmem
      obtain ⟨q, rfl, hfn, r, hr, t, loc, h1, h2⟩ :=
        leaf_resolves_active bo flist fn un h hp hs p hmem
      obtain ⟨ty, hl, _⟩ := (hasVariant_iff_lookup flist fn un).1 h
      have hm := name_match_path_of fn (path_rest q)
      rw [← join_path_rest] at hm
      have hne : join_path (fn :: q) ≠ [] := by
        rw [join_path_cons]
        simp [hfn]
      obtain ⟨c, n, hc⟩ := List.exists_cons_of_ne_nil hne
      rw [hc] at hm ⊢
      by_cases hname : c :: n = name_field_name
      · exact ⟨.union_field_name, [.field_name],
          by simp [structs_find, structs_find_head, Descriptor.tclass, structs_find_sub, hname],
          rfl⟩
      · refine ⟨t, .un :: loc, ?_, h2⟩
        simp [structs_find, structs_find_head, Descriptor.tclass, structs_find_sub, hname, hl,
          hm, hr, Found.lift, h1, result_under]
    all_goals simp [Descriptor.hasType] at h
  | .int _ _, v, _, _, _ => by
    intro p hmem
    have : p = [] := by cases v <;> simpa [Descriptor.leaves] using hmem
    subst this
    exact ⟨_, [], rfl, rfl⟩
  | .string _, v, _, _, _ => by
    intro p hmem
    have : p = [] := by cases v <;> simpa [Descriptor.leaves] using hmem
    subst this
    exact ⟨_, [], rfl, rfl⟩
  | .data _, v, _, _, _ => by
    intro p hmem
    have : p = [] := by cases v <;> simpa [Descriptor.leaves] using hmem
    subst this
    exact ⟨_, [], rfl, rfl⟩
  | .fixeddata _, v, _, _, _ => by
    intro p hmem
    have : p = [] := by cases v <;> simpa [Descriptor.leaves] using hmem
    subst this
    exact ⟨_, [], rfl, rfl⟩
  | .null, v, _, _, _ => by
    intro p hmem
    have : p = [] := by cases v <;> simpa [Descriptor.leaves] using hmem
    subst this
    exact ⟨_, [], rfl, rfl⟩
  | .array_length, v, _, _, _ => by
    intro p hmem
    have : p = [] := by cases v <;> simpa [Descriptor.leaves] using hmem
    subst this
    exact ⟨_, [], rfl, rfl⟩
  | .union_field_name, v, _, _, _ => by
    intro p hmem
    have : p = [] := by cases v <;> simpa [Descriptor.leaves] using hmem
    subst this
    exact ⟨_, [], rfl, rfl⟩
theorem leaf_resolves_fields (bo : ByteOrder) : ∀ (fl : FieldList) (fields : List Value)
    (k : Nat), fl.hasTypes fields = true → fl.plain_fields = true → fl.shorts fields = true →
    ∀ p ∈ fl.leaves fields, join_path p ≠ [] ∧ ∃ t loc,
      (structs_find_field bo fl (join_path p) fields k false).2 = .ok (t, loc) ∧
        t.deref.tclass = .STRUCTS_TYPE_PRIMITIVE
  | .END, _, _, _, _, _ => by simp [FieldList.leaves]
  | .FIELD fname type rest, fields, k, h, hp, hs => by
    cases fields with
    | nil => simp [FieldList.hasTypes] at h
    | cons fd fs =>
      simp [FieldList.hasTypes, FieldList.shorts, FieldList.plain_fields] at h hs hp
      obtain ⟨⟨⟨⟨hne, hsep⟩, hdist⟩, hpt⟩, hpr⟩ := hp
      intro p hmem
      simp only [FieldList.leaves, List.mem_append, List.mem_map] at hmem
      rcases hmem with ⟨q, hq, rfl⟩ | hmem
      · obtain ⟨t, loc, h1, h2⟩ := leaf_resolves bo type fd h.1 hpt hs.1 q hq
        refine ⟨by rw [join_path_cons]; simp [hne], t, .member k :: loc, ?_, h2⟩
        have hm := name_match_path_of fname (path_rest q)
        rw [← join_path_rest] at hm
        have hf := find_path_rest bo type q fd false
        simp only [structs_find] at hf h1
        simp only [structs_find_field, hm, hf, h1, result_under]
      · obtain ⟨g, q, rfl, hg⟩ := fields_leaves_head rest fs p hmem
        obtain ⟨hne', t, loc, h1, h2⟩ :=
          leaf_resolves_fields bo rest fs (k + 1) h.2 hpr hs.2 (g :: q) hmem
        refine ⟨hne', t, loc, ?_, h2⟩
        have hm : structs_name_match fname (join_path (g :: q)) = none := by
          rw [join_path_rest]
          exact name_match_other fname g (path_rest q) hsep
            (plain_fields_names rest hpr g hg) (fun e => hdist (e ▸ hg))
        simp only [structs_find_field, hm, h1]
theorem leaf_resolves_active (bo : ByteOrder) : ∀ (fl : FieldList) (fn : List Nat) (un : Value),
    fl.hasVariant fn un = true → fl.plain_variants = true → fl.short_active fn un = true →
    ∀ p ∈ fl.leaves_active fn un, ∃ q, p = fn :: q ∧ fn ≠ [] ∧ ∃ r,
      structs_find_active bo fl fn (path_rest q) un false = some r ∧ ∃ t loc,
        r.2 = .ok (t, loc) ∧ t.deref.tclass = .STRUCTS_TYPE_PRIMITIVE
  | .END, _, _, h, _, _ => by simp [FieldList.hasVariant] at h
  | .FIELD fname type rest, fn, un, h, hp, hs => by
    simp only [FieldList.hasVariant, FieldList.short_active] at h hs
    simp [FieldList.plain_variants] at hp
    simp only [FieldList.leaves_active, structs_find_active]
    by_cases hf : fn = fname
    · simp only [hf, if_true] at h hs ⊢
      intro p hmem
      simp only [List.mem_map] at hmem
      obtain ⟨q, hq, rfl⟩ := hmem
      obtain ⟨t, loc, h1, h2⟩ := leaf_resolves bo type un h hp.1.2 hs q hq
      have hfr := find_path_rest bo type q un false
      simp only [structs_find] at hfr h1
      exact ⟨q, rfl, hp.1.1, _, rfl, t, loc, by rw [hfr]; exact h1, h2⟩
    · simp only [hf, if_false] at h hs ⊢
      exact leaf_resolves_active bo rest fn un h hp.2 hs
end

/-- C21, as stated, fails when a field name holds the separator: on the
structure `{ a: uint32, a.b: uint32 }` `structs_traverse` returns the paths
"a" and "a.b", and `structs_find` with `set_union = 0` takes "a.b" to the
field "a", listed first, with the rest "b", and fails with `ENOENT`. -/
theorem traverse_path_not_found :
    dotted_struct_type.hasType (.structure [.region [0, 0, 0, 1], .region [0, 0, 0, 2]]) = true ∧
      structs_traverse dotted_struct_type
          (.structure [.region [0, 0, 0, 1], .region [0, 0, 0, 2]])
        = .ok [[97], [97, 46, 98]] ∧
      structs_find .BIG_ENDIAN dotted_struct_type (some [97, 46, 98])
          (.structure [.region [0, 0, 0, 1], .region [0, 0, 0, 2]]) false
        = (.structure [.region [0, 0, 0, 1], .region [0, 0, 0, 2]], .error .ENOENT) :=
  ⟨by decide, rfl, rfl⟩

/-- C21, amended: traverse and find agree.  For every descriptor none of whose
field names is empty and in which the field names of a structure hold no
separator and differ from one another, and every live value `v` with every
array shorter than `2 ^ 31`, `structs_traverse` returns a list of paths, and
each of them resolves with `structs_find` (`set_union = 0`) on `v`, which is
left as it was, to a descriptor whose class is PRIMITIVE after the pointers
are dereferenced. -/
theorem traverse_find_agree (bo : ByteOrder) (T : Descriptor) (v : Value)
    (h : T.hasType v = true) (hp : T.plain = true) (hs : T.short v = true) :
    ∃ paths, structs_traverse T v = .ok paths ∧
      ∀ path ∈ paths, ∃ t loc, structs_find bo T (some path) v false = (v, .ok (t, loc)) ∧
        t.deref.tclass = .STRUCTS_TYPE_PRIMITIVE := by
  refine ⟨_, traverse_leaves T v h (plain_named T hp) hs, ?_⟩
  intro path hmem
  simp only [List.mem_map] at hmem
  obtain ⟨p, hmem, rfl⟩ := hmem
  obtain ⟨t, loc, h1, h2⟩ := leaf_resolves bo T v h hp hs p hmem
  refine ⟨t, loc, ?_, h2⟩
  exact Prod.ext (find_fst bo T (some (join_path p)) v) h1

theorem traverse_find_agree_witness :
    ∃ paths, structs_traverse E2_type (E2_value .BIG_ENDIAN) = .ok paths ∧
      ∀ path ∈ paths, ∃ t loc,
        structs_find .BIG_ENDIAN E2_type (some path) (E2_value .BIG_ENDIAN) false
          = (E2_value .BIG_ENDIAN, .ok (t, loc)) ∧
        t.deref.tclass = .STRUCTS_TYPE_PRIMITIVE :=
  traverse_find_agree .BIG_ENDIAN E2_type (E2_value .BIG_ENDIAN) (by decide) (by decide)
    (by decide)

/-! ## What decode gives is a live value -/

theorem c_bytes_take (code : List Nat) (n : Nat) (h : c_bytes code = true) :
    c_bytes (code.take n) = true := by
  simp only [c_bytes, List.all_eq_true] at h ⊢
  exact fun c hc => h c (List.mem_of_mem_take hc)

theorem c_bytes_drop (code : List Nat) (n : Nat) (h : c_bytes code = true) :
    c_bytes (code.drop n) = true := by
  simp only [c_bytes, List.all_eq_true] at h ⊢
  exact fun c hc => h c (List.mem_of_mem_drop hc)

theorem c_bytes_set (code : List Nat) (i x : Nat) (h : c_bytes code = true) (hx : x < 256) :
    c_bytes (code.set i x) = true := by
  simp only [c_bytes, List.all_eq_true, decide_eq_true_eq] at h ⊢
  intro c hc
  rcases List.mem_or_eq_of_mem_set hc with hc | rfl
  · exact h c hc
  · exact hx

theorem c_bytes_getD (code : List Nat) (i : Nat) (h : c_bytes code = true) :
    code.getD i 0 < 256 := by
  simp only [c_bytes, List.all_eq_true, decide_eq_true_eq] at h
  rw [List.getD_eq_getElem?_getD]
  cases hg : code[i]? with
  | none => simp
  | some c =>
    rw [List.getElem?_eq_some_iff] at hg
    obtain ⟨hl, rfl⟩ := hg
    exact h _ (List.getElem_mem hl)

theorem netorder_swap_bytes (length : Nat) : ∀ (n i : Nat) (data : List Nat),
    c_bytes data = true →
    c_bytes (netorder_swap length n i data) = true ∧
      (netorder_swap length n i data).length = data.length
  | 0, _, data, h => ⟨h, rfl⟩
  | n + 1, i, data, h => by
    have h1 := c_bytes_set data i _ h (c_bytes_getD data (length - 1 - i) h)
    have h2 := c_bytes_set _ (length - 1 - i) _ h1 (c_bytes_getD data i h)
    obtain ⟨h3, h4⟩ := netorder_swap_bytes length n (i + 1) _ h2
    simp only [netorder_swap]
    exact ⟨h3, by rw [h4]; simp⟩

theorem region_decode_bytes (name : String) (size : Nat) (code : List Nat) (v : Value) (n : Nat)
    (hb : c_bytes code = true) (h : structs_region_decode size code = .ok (v, n)) :
    (Descriptor.int name size).hasType v = true := by
  simp only [structs_region_decode] at h
  split_ifs at h with hl
  simp only [Except.ok.injEq, Prod.mk.injEq] at h
  rw [← h.1]
  simp only [Descriptor.hasType, Bool.and_eq_true, decide_eq_true_eq]
  exact ⟨by simp; omega, c_bytes_take code size hb⟩

theorem sound_uint32 (bo : ByteOrder) (name : String) :
    DecodeSound (STRUCTS_INT_TYPE bo name 4) (fun v => (Descriptor.int name 4).hasType v = true) := by
  intro code v n hb _ hdec
  cases bo with
  | BIG_ENDIAN => exact region_decode_bytes name 4 code v n hb hdec
  | LITTLE_ENDIAN =>
    simp only [STRUCTS_INT_TYPE, structs_region_decode_netorder] at hdec
    have h16 : ¬ 4 > 16 := by decide
    simp only [h16, if_false] at hdec
    refine region_decode_bytes name 4 _ v n (c_bytes_take _ _ ?_) hdec
    refine (netorder_swap_bytes 4 _ 0 _ ?_).1
    simp only [c_bytes, List.all_append, Bool.and_eq_true]
    exact ⟨c_bytes_take code _ hb, by simp⟩

theorem slen_prefix : ∀ code : List Nat, c_bytes code = true →
    c_string (code.take (structs_string_slen code)) = true
  | [], _ => rfl
  | c :: code, h => by
    simp only [c_bytes, List.all_cons, Bool.and_eq_true, decide_eq_true_eq] at h
    simp only [structs_string_slen]
    split_ifs with h0
    · rfl
    · have ih := slen_prefix code (by simpa [c_bytes] using h.2)
      simp only [c_string, List.all_eq_true] at ih ⊢
      intro x hx
      simp only [List.take_succ_cons, List.mem_cons] at hx
      rcases hx with rfl | hx
      · simp; omega
      · exact ih x hx

theorem sound_string (asnull : Bool) :
    DecodeSound (STRUCTS_STRING_TYPE asnull)
      (fun v => (Descriptor.string asnull).hasType v = true) := by
  intro code v n hb _ hdec
  simp only [STRUCTS_STRING_TYPE, structs_string_decode, structs_string_binify] at hdec
  have hs := slen_prefix code hb
  split_ifs at hdec with h1 h2
  · rw [(decode_count_le _ _ _ _ hdec).1]
    simpa [Descriptor.hasType] using h2.1
  · rw [(decode_count_le _ _ _ _ hdec).1]
    simpa [Descriptor.hasType] using hs

theorem sound_data (charset : Option (List Nat)) :
    DecodeSound (STRUCTS_DATA_TYPE charset)
      (fun v => (Descriptor.data charset).hasType v = true) := by
  intro code v n hb hlen hdec
  simp only [STRUCTS_DATA_TYPE, structs_data_decode] at hdec
  split_ifs at hdec with h1 h2 h3
  rw [(decode_count_le _ _ _ _ hdec).1]
  simp only [Descriptor.hasType, Bool.and_eq_true, decide_eq_true_eq]
  refine ⟨c_bytes_take _ _ (c_bytes_drop _ _ hb), ?_⟩
  simp only [List.length_take, List.length_drop]
  omega

theorem sound_pointer (t : structs_type) (r : Descriptor)
    (h : DecodeSound t (fun v => r.hasType v = true)) :
    DecodeSound (STRUCTS_POINTER_TYPE t) (fun v => (Descriptor.pointer r).hasType v = true) := by
  intro code v n hb hlen hdec
  simp only [STRUCTS_POINTER_TYPE, structs_pointer_decode] at hdec
  cases hd : t.decode code with
  | error e => simp [hd] at hdec
  | ok r' =>
    obtain ⟨pd, m⟩ := r'
    simp only [hd, Except.ok.injEq, Prod.mk.injEq] at hdec
    rw [← hdec.1]
    exact (hasType_pointer _ _).2 ⟨pd, rfl, h code pd m hb hlen hd⟩

theorem array_decode_loop_sound (t : structs_type) (V : Value → Prop)
    (hinit : ∀ d, t.init = .ok d → V d) (hdec : DecodeSound t V) (bits : List Nat) :
    ∀ (n i : Nat) (code : List Nat) (clen0 : Nat) (elems : List Value) (clen : Nat),
    c_bytes code = true → code.length < 2 ^ 29 →
    structs_array_decode_loop t bits n i code clen0 = .ok (elems, clen) →
    elems.length = n ∧ (∀ e ∈ elems, V e) ∧ (0 < n → (i + n - 1) / 8 < bits.length)
  | 0, i, code, clen0, elems, clen, _, _, h => by
    simp only [structs_array_decode_loop, Except.ok.injEq, Prod.mk.injEq] at h
    rw [← h.1]
    simp
  | n + 1, i, code, clen0, elems, clen, hb, hl, h => by
    simp only [structs_array_decode_loop] at h
    cases hbit : bits[i / 8]? with
    | none => simp [hbit] at h
    | some b =>
      have hlt : i / 8 < bits.length := (List.getElem?_eq_some_iff.1 hbit).1
      simp only [hbit] at h
      have hbound : ∀ m, (0 < m → (i + 1 + m - 1) / 8 < bits.length) →
          (i + (m + 1) - 1) / 8 < bits.length := by
        intro m hm
        rcases Nat.eq_zero_or_pos m with rfl | hpos
        · simpa using hlt
        · have := hm hpos
          have e : i + (m + 1) - 1 = i + 1 + m - 1 := by omega
          rw [e]
          exact this
      split_ifs at h with h0
      · cases hi : t.init with
        | error e => simp [hi] at h
        | ok edata =>
          simp only [hi] at h
          cases hr : structs_array_decode_loop t bits n (i + 1) code clen0 with
          | error e => simp [hr] at h
          | ok r =>
            obtain ⟨es, cl⟩ := r
            simp only [hr, Except.ok.injEq, Prod.mk.injEq] at h
            obtain ⟨ih1, ih2, ih3⟩ :=
              array_decode_loop_sound t V hinit hdec bits n (i + 1) code clen0 es cl hb hl hr
            rw [← h.1]
            refine ⟨by simp [ih1], ?_, fun _ => hbound n ih3⟩
            intro e he
            rcases List.mem_cons.1 he with rfl | he
            · exact hinit _ hi
            · exact ih2 e he
      · cases hd : t.decode code with
        | error e => simp [hd] at h
        | ok r0 =>
          obtain ⟨edata, eclen⟩ := r0
          simp only [hd] at h
          split_ifs at h with h31
          cases hr : structs_array_decode_loop t bits n (i + 1) (code.drop eclen)
              (clen0 + eclen) with
          | error e => simp [hr] at h
          | ok r =>
            obtain ⟨es, cl⟩ := r
            simp only [hr, Except.ok.injEq, Prod.mk.injEq] at h
            obtain ⟨ih1, ih2, ih3⟩ :=
              array_decode_loop_sound t V hinit hdec bits n (i + 1) (code.drop eclen)
                (clen0 + eclen) es cl
                (c_bytes_drop _ _ hb) (by simp only [List.length_drop]; omega) hr
            rw [← h.1]
            refine ⟨by simp [ih1], ?_, fun _ => hbound n ih3⟩
            intro e he
            rcases List.mem_cons.1 he with rfl | he
            · exact hdec code _ eclen hb hl hd
            · exact ih2 e he

theorem init_of_codec (t : structs_type) (V : Value → Prop) {B : Value → Nat}
    (h : Codec t V B) :
    ∀ d, t.init = .ok d → V d := by
  intro d hd
  obtain ⟨d', hd', hV⟩ := h.init_ok
  rw [hd] at hd'
  simp only [Except.ok.injEq] at hd'
  rw [hd']
  exact hV

theorem sound_array (t : structs_type) (e : Descriptor)
    (hinit : ∀ d, t.init = .ok d → e.hasType d = true)
    (h : DecodeSound t (fun v => e.hasType v = true)) :
    DecodeSound (STRUCTS_ARRAY_TYPE t) (fun v => (Descriptor.array e).hasType v = true) := by
  intro code v n hb hlen hdec
  simp only [STRUCTS_ARRAY_TYPE, structs_array_decode, ne_eq, not_true_eq_false, if_false]
    at hdec
  split_ifs at hdec with h1 h2
  cases hr : structs_array_decode_loop t (code.drop 4) (ntohl code) 0
      (code.drop (4 + NUM_BYTES (ntohl code))) (4 + NUM_BYTES (ntohl code)) with
  | error err => simp [hr] at hdec
  | ok r =>
    obtain ⟨elems, clen⟩ := r
    simp [hr] at hdec
    obtain ⟨l1, l2, l3⟩ := array_decode_loop_sound t _ hinit h (code.drop 4) (ntohl code) 0
      _ _ elems clen (c_bytes_drop _ _ hb)
      (by simp only [List.length_drop]; omega) hr
    rw [← hdec.1]
    refine (hasType_array _ _).2 ⟨elems, rfl, l2, ?_⟩
    rw [l1]
    rcases Nat.eq_zero_or_pos (ntohl code) with h0 | hpos
    · rw [h0]
      decide
    · have := l3 hpos
      simp only [List.length_drop, Nat.zero_add] at this
      omega

theorem sound_fixedarray (t : structs_type) (e : Descriptor) (alen : Nat)
    (hinit : ∀ d, t.init = .ok d → e.hasType d = true)
    (h : DecodeSound t (fun v => e.hasType v = true)) :
    DecodeSound (STRUCTS_FIXEDARRAY_TYPE t alen)
      (fun v => (Descriptor.fixedarray e alen).hasType v = true) := by
  intro code v n hb hlen hdec
  simp only [STRUCTS_FIXEDARRAY_TYPE, structs_fixedarray_decode, ne_eq, not_true_eq_false,
    if_false] at hdec
  split_ifs at hdec with h1
  cases hr : structs_array_decode_loop t code alen 0 (code.drop (NUM_BYTES alen))
      (NUM_BYTES alen) with
  | error err => simp [hr] at hdec
  | ok r =>
    obtain ⟨elems, clen⟩ := r
    simp only [hr, Except.ok.injEq, Prod.mk.injEq] at hdec
    obtain ⟨l1, l2, _⟩ := array_decode_loop_sound t _ hinit h code alen 0
      _ _ elems clen (c_bytes_drop _ _ hb) (by simp only [List.length_drop]; omega) hr
    rw [← hdec.1]
    exact (hasType_fixedarray _ _ _).2 ⟨elems, rfl, l1, l2⟩

theorem union_field_name (fields : List structs_field) (field_name : List Nat)
    (field : structs_field) (h : structs_union_field fields field_name = some field) :
    field.name = field_name := by
  induction fields with
  | nil => simp [structs_union_field] at h
  | cons f fields ih =>
    simp only [structs_union_field] at h
    split_ifs at h with hn
    · simp only [Option.some.injEq] at h
      rw [← h, hn]
    · exact ih h

set_option maxHeartbeats 1000000 in
mutual
theorem decode_sound (bo : ByteOrder) : ∀ T : Descriptor, T.wf = true →
    DecodeSound (T.type bo) (fun v => T.hasType v = true)
  | .int name size, h => by
    have hs : size = 4 := by simpa [Descriptor.wf] using h
    subst hs
    exact sound_uint32 bo name
  | .string asnull, _ => sound_string asnull
  | .data charset, _ => sound_data charset
  | .fixeddata _, h => by simp [Descriptor.wf] at h
  | .null, h => by simp [Descriptor.wf] at h
  | .array_length, h => by simp [Descriptor.wf] at h
  | .union_field_name, h => by simp [Descriptor.wf] at h
  | .pointer reftype, h =>
    sound_pointer _ reftype (decode_sound bo reftype (by simpa [Descriptor.wf] using h))
  | .array etype, h =>
    have h' : etype.wf = true := by simpa [Descriptor.wf] using h
    sound_array _ etype (init_of_codec _ _ (codec_of_wf bo etype h')) (decode_sound bo etype h')
  | .fixedarray etype alen, h =>
    have h' : etype.wf = true ∧ alen + 7 < 2 ^ 32 := by simpa [Descriptor.wf] using h
    sound_fixedarray _ etype alen (init_of_codec _ _ (codec_of_wf bo etype h'.1))
      (decode_sound bo etype h'.1)
  | .structure flist, h => by
    have h' : flist.wf = true ∧ flist.length + 7 < 2 ^ 32 := by simpa [Descriptor.wf] using h
    intro code v n hb hlen hdec
    simp only [Descriptor.type, STRUCTS_STRUCT_TYPE, structs_struct_decode] at hdec
    split_ifs at hdec with h1
    cases hr : structs_struct_decode_loop code (flist.fields bo) 0
        (code.drop (NUM_BYTES (flist.fields bo).length)) with
    | error err => simp [hr] at hdec
    | ok r =>
      obtain ⟨data, clen⟩ := r
      simp only [hr] at hdec
      rw [(decode_count_le _ _ _ _ hdec).1]
      exact (hasType_structure _ _).2 ⟨data, rfl,
        decode_fields_sound bo flist code 0 _ data clen h'.1 (c_bytes_drop _ _ hb)
          (by simp only [List.length_drop]; omega) hr⟩
  | .union flist, h => by
    have h' : flist.wf = true ∧ 0 < flist.length := by simpa [Descriptor.wf] using h
    intro code v n hb hlen hdec
    simp only [Descriptor.type, STRUCTS_UNION_TYPE, structs_union_decode] at hdec
    cases hs : structs_string_decode (structs_string_binify false) code with
    | error err => simp [hs] at hdec
    | ok r =>
      obtain ⟨nv, nlen⟩ := r
      simp only [hs] at hdec
      rcases nv with _ | (_ | field_name) | _ | _ | _ | _ | _ | _
      case string.some =>
        simp only at hdec
        cases hf : structs_union_field (flist.fields bo) field_name with
        | none => simp [hf] at hdec
        | some field =>
          simp only [hf] at hdec
          cases hd : field.type.decode (code.drop nlen) with
          | error err => simp [hd] at hdec
          | ok r' =>
            obtain ⟨un, flen⟩ := r'
            simp only [hd] at hdec
            split_ifs at hdec with h31
            simp only [Except.ok.injEq, Prod.mk.injEq] at hdec
            rw [← hdec.1]
            exact (hasType_union _ _).2 ⟨field.name, un, rfl,
              decode_variant_sound bo flist field_name field (code.drop nlen) un flen h'.1
                (c_bytes_drop _ _ hb) (by simp only [List.length_drop]; omega) hf hd⟩
      all_goals simp at hdec
theorem decode_fields_sound (bo : ByteOrder) : ∀ (fl : FieldList) (bits : List Nat) (i : Nat)
    (code : List Nat) (data : List Value) (clen : Nat), fl.wf = true → c_bytes code = true →
    code.length < 2 ^ 29 →
    structs_struct_decode_loop bits (fl.fields bo) i code = .ok (data, clen) →
    fl.hasTypes data = true
  | .END, bits, i, code, data, clen, _, _, _, h => by
    simp only [FieldList.fields, structs_struct_decode_loop, Except.ok.injEq, Prod.mk.injEq] at h
    rw [← h.1]
    rfl
  | .FIELD name type rest, bits, i, code, data, clen, hw, hb, hl, h => by
    simp only [FieldList.wf, Bool.and_eq_true] at hw
    simp only [FieldList.fields, structs_struct_decode_loop] at h
    cases hbit : bits[i / 8]? with
    | none => simp [hbit] at h
    | some b =>
      simp only [hbit] at h
      split_ifs at h with h0
      · cases hi : (type.type bo).init with
        | error e => simp [hi] at h
        | ok fdata =>
          simp only [hi] at h
          cases hr : structs_struct_decode_loop bits (rest.fields bo) (i + 1) code with
          | error e => simp [hr] at h
          | ok r =>
            obtain ⟨ds, cl⟩ := r
            simp only [hr, Except.ok.injEq, Prod.mk.injEq] at h
            rw [← h.1]
            simp only [FieldList.hasTypes, Bool.and_eq_true]
            exact ⟨init_of_codec _ _ (codec_of_wf bo type hw.1.2) _ hi,
              decode_fields_sound bo rest bits (i + 1) code ds cl hw.2 hb hl hr⟩
      · cases hd : (type.type bo).decode code with
        | error e => simp [hd] at h
        | ok r0 =>
          obtain ⟨fdata, fclen⟩ := r0
          simp only [hd] at h
          cases hr : structs_struct_decode_loop bits (rest.fields bo) (i + 1)
              (code.drop fclen) with
          | error e => simp [hr] at h
          | ok r =>
            obtain ⟨ds, cl⟩ := r
            simp only [hr, Except.ok.injEq, Prod.mk.injEq] at h
            rw [← h.1]
            simp only [FieldList.hasTypes, Bool.and_eq_true]
            exact ⟨decode_sound bo type hw.1.2 code fdata fclen hb hl hd,
              decode_fields_sound bo rest bits (i + 1) (code.drop fclen) ds cl hw.2
                (c_bytes_drop _ _ hb) (by simp only [List.length_drop]; omega) hr⟩
theorem decode_variant_sound (bo : ByteOrder) : ∀ (fl : FieldList) (field_name : List Nat)
    (field : structs_field) (code : List Nat) (un : Value) (flen : Nat), fl.wf = true →
    c_bytes code = true → code.length < 2 ^ 29 →
    structs_union_field (fl.fields bo) field_name = some field →
    field.type.decode code = .ok (un, flen) → fl.hasVariant field.name un = true
  | .END, _, _, _, _, _, _, _, _, h, _ => by
    simp [FieldList.fields, structs_union_field] at h
  | .FIELD name type rest, field_name, field, code, un, flen, hw, hb, hl, h, hd => by
    simp only [FieldList.wf, Bool.and_eq_true] at hw
    simp only [FieldList.fields, structs_union_field] at h
    split_ifs at h with hn
    · simp only [Option.some.injEq] at h
      subst h
      simp only [FieldList.hasVariant, if_true]
      exact decode_sound bo type hw.1.2 code un flen hb hl hd
    · have hfn := union_field_name _ _ _ h
      simp only [FieldList.hasVariant]
      rw [if_neg (by rw [hfn]; exact hn)]
      exact decode_variant_sound bo rest field_name field code un flen hw.2 hb hl h hd
end

/-! ## structs_find leaves a live value -/

theorem mem_set_typed {P : Value → Prop} (elems : List Value) (index : Nat) (e : Value)
    (h : ∀ x ∈ elems, P x) (he : P e) : ∀ x ∈ elems.set index e, P x := by
  intro x hx
  rcases List.mem_or_eq_of_mem_set hx with hx | rfl
  · exact h x hx
  · exact he

theorem find_head_typed (type : Descriptor) (sub : List Nat → Value → Bool → Found) (su : Bool)
    (h : ∀ name data, type.hasType data = true → type.hasType (sub name data su).1 = true)
    (name : Option (List Nat)) (data : Value) (hd : type.hasType data = true) :
    type.hasType (structs_find_head type sub name data su).1 = true := by
  rcases name with _ | _ | ⟨c, name⟩
  · exact hd
  · exact hd
  · simp only [structs_find_head]
    split_ifs
    · exact hd
    · exact h _ _ hd

set_option maxHeartbeats 1000000 in
mutual
theorem find_sub_typed (bo : ByteOrder) (su : Bool) : ∀ (T : Descriptor) (name : List Nat)
    (v : Value), T.wf = true → T.hasType v = true →
    T.hasType (structs_find_sub bo T name v su).1 = true
  | .pointer reftype, name, v, hw, h => by
    rcases v with _ | _ | _ | (_ | pd) | _ | _ | _ | _
    case pointer.some =>
      simp only [Descriptor.wf, Descriptor.hasType] at hw h
      simp only [structs_find_sub, Found.lift, Descriptor.hasType]
      exact find_sub_typed bo su reftype name pd hw h
    all_goals simp [Descriptor.hasType] at h
  | .array etype, name, v, hw, h => by
    obtain ⟨elems, rfl, hall, hlen⟩ := (hasType_array _ _).1 h
    simp only [Descriptor.wf] at hw
    by_cases hname : name = name_length
    · simp only [structs_find_sub, hname, if_true]
      exact h
    · cases hidx : structs_index name with
      | none =>
        simp only [structs_find_sub, hname, if_false, hidx]
        exact h
      | some index =>
        cases hget : elems[index]? with
        | none =>
          simp only [structs_find_sub, hname, if_false, hidx, hget]
          exact h
        | some elem =>
          have he : elem ∈ elems := by
            rw [List.getElem?_eq_some_iff] at hget
            obtain ⟨hl, rfl⟩ := hget
            exact List.getElem_mem hl
          simp only [structs_find_sub, hname, if_false, hidx, hget, Found.lift]
          exact (hasType_array _ _).2 ⟨_, rfl,
            mem_set_typed elems index _ hall
              (find_head_typed etype (structs_find_sub bo etype) su
                (fun n d hd => find_sub_typed bo su etype n d hw hd) _ elem (hall elem he)),
            by simpa using hlen⟩
  | .fixedarray etype alen, name, v, hw, h => by
    obtain ⟨elems, rfl, hlen, hall⟩ := (hasType_fixedarray _ _ _).1 h
    have hw' : etype.wf = true ∧ alen + 7 < 2 ^ 32 := by simpa [Descriptor.wf] using hw
    by_cases hname : name = name_length
    · simp only [structs_find_sub, hname, if_true]
      exact h
    · cases hidx : structs_index name with
      | none =>
        simp only [structs_find_sub, hname, if_false, hidx]
        exact h
      | some index =>
        by_cases hge : index ≥ alen
        · simp only [structs_find_sub, hname, if_false, hidx, hge, if_true]
          exact h
        · cases hget : elems[index]? with
          | none =>
            simp only [structs_find_sub, hname, if_false, hidx, hge, hget]
            exact h
          | some elem =>
            have he : elem ∈ elems := by
              rw [List.getElem?_eq_some_iff] at hget
              obtain ⟨hl, rfl⟩ := hget
              exact List.getElem_mem hl
            simp only [structs_find_sub, hname, if_false, hidx, hge, hget, Found.lift]
            exact (hasType_fixedarray _ _ _).2 ⟨_, rfl, by simpa using hlen,
              mem_set_typed elems index _ hall
                (find_head_typed etype (structs_find_sub bo etype) su
                  (fun n d hd => find_sub_typed bo su etype n d hw'.1 hd) _ elem
                  (hall elem he))⟩
  | .structure flist, name, v, hw, h => by
    obtain ⟨fields, rfl, hf⟩ := (hasType_structure _ _).1 h
    have hw' : flist.wf = true ∧ flist.length + 7 < 2 ^ 32 := by simpa [Descriptor.wf] using hw
    simp only [structs_find_sub]
    exact (hasType_structure _ _).2 ⟨_, rfl, find_field_typed bo su flist name fields 0 hw'.1 hf⟩
  | .union flist, name, v, hw, h => by
    obtain ⟨fn, un, rfl, hv⟩ := (hasType_union _ _).1 h
    have hw' : flist.wf = true ∧ 0 < flist.length := by simpa [Descriptor.wf] using hw
    by_cases hname : name = name_field_name
    · simp only [structs_find_sub, hname, if_true]
      exact h
    · cases hl : flist.lookup fn with
      | none =>
        simp only [structs_find_sub, hname, if_false, hl]
        exact h
      | some ty =>
        cases hm : structs_name_match fn name with
        | some next =>
          cases ha : structs_find_active bo flist fn next un su with
          | none =>
            simp only [structs_find_sub, hname, if_false, hl, hm, ha]
            exact h
          | some r =>
            simp only [structs_find_sub, hname, if_false, hl, hm, ha, Found.lift]
            exact (hasType_union _ _).2 ⟨fn, r.1, rfl,
              find_active_typed bo su flist fn next un r hw'.1 hv ha⟩
        | none =>
          cases su with
          | false =>
            simp only [structs_find_sub, hname, if_false, hl, hm, if_true]
            exact h
          | true =>
            rcases hs : structs_find_switch bo flist name with ⟨_ | ⟨fname, new_un⟩, r⟩
            · simp [structs_find_sub, hname, hl, hm, hs]
              exact h
            · simp only [structs_find_sub, hname, if_false, hl, hm, hs, Bool.true_eq_false]
              exact (hasType_union _ _).2 ⟨fname, new_un, rfl,
                (find_switch_typed bo flist name fname new_un r hw'.1 hs).2⟩
  | .int _ _, name, v, _, h => by simpa [structs_find_sub] using h
  | .string _, name, v, _, h => by simpa [structs_find_sub] using h
  | .data _, name, v, _, h => by simpa [structs_find_sub] using h
  | .fixeddata _, name, v, _, h => by simpa [structs_find_sub] using h
  | .null, name, v, _, h => by simpa [structs_find_sub] using h
  | .array_length, name, v, _, h => by simpa [structs_find_sub] using h
  | .union_field_name, name, v, _, h => by simpa [structs_find_sub] using h
theorem find_field_typed (bo : ByteOrder) (su : Bool) : ∀ (fl : FieldList) (name : List Nat)
    (fields : List Value) (i : Nat), fl.wf = true → fl.hasTypes fields = true →
    fl.hasTypes (structs_find_field bo fl name fields i su).1 = true
  | .END, _, fields, _, _, h => by simpa [structs_find_field] using h
  | .FIELD fname type rest, name, fields, i, hw, h => by
    cases fields with
    | nil => simp [FieldList.hasTypes] at h
    | cons fd fs =>
      simp only [FieldList.wf, FieldList.hasTypes, Bool.and_eq_true] at hw h
      simp only [structs_find_field]
      cases hm : structs_name_match fname name with
      | some next =>
        simp only [FieldList.hasTypes, Bool.and_eq_true]
        exact ⟨find_head_typed type (structs_find_sub bo type) su
          (fun n d hd => find_sub_typed bo su type n d hw.1.2 hd) next fd h.1, h.2⟩
      | none =>
        simp only [FieldList.hasTypes, Bool.and_eq_true]
        exact ⟨h.1, find_field_typed bo su rest name fs (i + 1) hw.2 h.2⟩
theorem find_active_typed (bo : ByteOrder) (su : Bool) : ∀ (fl : FieldList) (fn : List Nat)
    (next : Option (List Nat)) (un : Value) (r : Found), fl.wf = true →
    fl.hasVariant fn un = true → structs_find_active bo fl fn next un su = some r →
    fl.hasVariant fn r.1 = true
  | .END, _, _, _, _, _, h, _ => by simp [FieldList.hasVariant] at h
  | .FIELD fname type rest, fn, next, un, r, hw, h, ha => by
    simp only [FieldList.wf, Bool.and_eq_true] at hw
    simp only [FieldList.hasVariant] at h ⊢
    simp only [structs_find_active] at ha
    split_ifs at h ha ⊢ with hf
    · simp only [Option.some.injEq] at ha
      rw [← ha]
      exact find_head_typed type (structs_find_sub bo type) su
        (fun n d hd => find_sub_typed bo su type n d hw.1.2 hd) next un h
    · exact find_active_typed bo su rest fn next un r hw.2 h ha
theorem find_switch_typed (bo : ByteOrder) : ∀ (fl : FieldList) (name : List Nat)
    (fname : List Nat) (new_un : Value) (r : Except Errno (Descriptor × Loc)), fl.wf = true →
    structs_find_switch bo fl name = (some (fname, new_un), r) →
    structs_name_match fname name ≠ none ∧ fl.hasVariant fname new_un = true
  | .END, _, _, _, _, _, h => by simp [structs_find_switch] at h
  | .FIELD fname0 type rest, name, fname, nu, r, hw, h => by
    simp only [FieldList.wf, Bool.and_eq_true] at hw
    have htyped := find_head_typed type (structs_find_sub bo type) true
      (fun n d hd => find_sub_typed bo true type n d hw.1.2 hd)
    cases hm : structs_name_match fname0 name with
    | none =>
      simp only [structs_find_switch, hm] at h
      obtain ⟨h1, h2⟩ := find_switch_typed bo rest name fname nu r hw.2 h
      have hne : fname ≠ fname0 := by
        intro e
        rw [e] at h1
        exact h1 hm
      exact ⟨h1, by simp [FieldList.hasVariant, hne, h2]⟩
    | some next =>
      cases hi : (type.type bo).init with
      | error e => simp [structs_find_switch, hm, hi] at h
      | ok new_un =>
        have hnew := init_of_codec _ _ (codec_of_wf bo type hw.1.2) new_un hi
        cases next with
        | none =>
          simp [structs_find_switch, hm, hi, structs_find_head] at h
          obtain ⟨⟨h1, h2⟩, _⟩ := h
          subst h1 h2
          exact ⟨by rw [hm]; simp, by simpa [FieldList.hasVariant] using hnew⟩
        | some n =>
          have hp1 := htyped (some n) new_un hnew
          rcases hp : structs_find_head type (structs_find_sub bo type) (some n) new_un true
            with ⟨d, e | x⟩
          · simp [structs_find_switch, hm, hi, hp] at h
          · rw [hp] at hp1
            have hp2 := htyped (some n) d hp1
            simp [structs_find_switch, hm, hi, hp] at h
            obtain ⟨⟨h1, h2⟩, _⟩ := h
            subst h1
            rw [← h2]
            exact ⟨by rw [hm]; simp, by simpa [FieldList.hasVariant] using hp2⟩
end

theorem find_typed (bo : ByteOrder) (T : Descriptor) (name : Option (List Nat)) (v : Value)
    (su : Bool) (hw : T.wf = true) (h : T.hasType v = true) :
    T.hasType (structs_find bo T name v su).1 = true :=
  find_head_typed T (structs_find_sub bo T) su (fun n d hd => find_sub_typed bo su T n d hw hd)
    name v h

/-! ## The tag of a union -/

theorem union_field_lookup (bo : ByteOrder) : ∀ (fl : FieldList) (field_name : List Nat)
    (field : structs_field), structs_union_field (fl.fields bo) field_name = some field →
    ∃ T, fl.lookup field_name = some T ∧ field = ⟨field_name, T.type bo⟩
  | .END, _, _, h => by simp [FieldList.fields, structs_union_field] at h
  | .FIELD name type rest, field_name, field, h => by
    simp only [FieldList.fields, structs_union_field] at h
    simp only [FieldList.lookup]
    split_ifs at h ⊢ with hn
    · simp only [Option.some.injEq] at h
      exact ⟨type, rfl, by rw [← h, hn]⟩
    · exact union_field_lookup bo rest field_name field h

theorem find_active_lookup (bo : ByteOrder) : ∀ (fl : FieldList) (fn : List Nat)
    (T : Descriptor) (next : Option (List Nat)) (un : Value) (su : Bool),
    fl.lookup fn = some T →
    structs_find_active bo fl fn next un su = some (structs_find bo T next un su)
  | .END, _, _, _, _, _, h => by simp [FieldList.lookup] at h
  | .FIELD fname type rest, fn, T, next, un, su, h => by
    simp only [FieldList.lookup] at h
    simp only [structs_find_active]
    split_ifs at h ⊢ with hf
    · simp only [Option.some.injEq] at h
      rw [← h]
      rfl
    · exact find_active_lookup bo rest fn T next un su h

theorem trav_active_lookup : ∀ (fl : FieldList) (fn : List Nat) (T : Descriptor)
    (name : List Nat) (un : Value) (t : List (List Nat)), fl.lookup fn = some T →
    structs_trav_active fl name fn un t = structs_trav T (name ++ trav_dot name ++ fn) un t
  | .END, _, _, _, _, _, h => by simp [FieldList.lookup] at h
  | .FIELD fname type rest, fn, T, name, un, t, h => by
    simp only [FieldList.lookup] at h
    simp only [structs_trav_active]
    split_ifs at h ⊢ with hf
    · simp only [Option.some.injEq] at h
      rw [← h, hf]
    · exact trav_active_lookup rest fn T name un t h

theorem uninit_active_lookup (bo : ByteOrder) : ∀ (fl : FieldList) (fn : List Nat)
    (T : Descriptor) (un data : Value), fl.lookup fn = some T →
    fl.uninit_active bo fn (some un) data
      = match T.uninit bo un with
        | .error e => .error e
        | .ok _ => .ok none
  | .END, _, _, _, _, h => by simp [FieldList.lookup] at h
  | .FIELD fname type rest, fn, T, un, data, h => by
    simp only [FieldList.lookup] at h
    simp only [FieldList.uninit_active]
    split_ifs at h ⊢ with hf
    · simp only [Option.some.injEq] at h
      subst h
      rfl
    · exact uninit_active_lookup bo rest fn T un data h

theorem union_decode_tag (bo : ByteOrder) (flist : FieldList) (code : List Nat) (v : Value)
    (n : Nat) (h : ((Descriptor.union flist).type bo).decode code = .ok (v, n)) :
    ∃ fn un T nlen flen, v = .union (some fn) (some un) ∧ flist.lookup fn = some T ∧
      (T.type bo).decode (code.drop nlen) = .ok (un, flen) ∧ n = nlen + flen := by
  simp only [Descriptor.type, STRUCTS_UNION_TYPE, structs_union_decode] at h
  cases hs : structs_string_decode (structs_string_binify false) code with
  | error err => simp [hs] at h
  | ok r =>
    obtain ⟨nv, nlen⟩ := r
    simp only [hs] at h
    rcases nv with _ | (_ | field_name) | _ | _ | _ | _ | _ | _
    case string.some =>
      simp only at h
      cases hf : structs_union_field (flist.fields bo) field_name with
      | none => simp [hf] at h
      | some field =>
        obtain ⟨T, hT, rfl⟩ := union_field_lookup bo flist field_name field hf
        simp only [hf] at h
        cases hd : (T.type bo).decode (code.drop nlen) with
        | error err => simp [hd] at h
        | ok r' =>
          obtain ⟨un, flen⟩ := r'
          simp only [hd] at h
          split_ifs at h with h31
          simp only [Except.ok.injEq, Prod.mk.injEq] at h
          exact ⟨field_name, un, T, nlen, flen, h.1.symm, hT, hd, h.2.symm⟩
    all_goals simp at h

theorem union_set_new_result (bo : ByteOrder) (flist : FieldList) (hw : flist.wf = true)
    (f : List Nat) (old : Option (Descriptor × Option Value)) (v : Value) (loc : Loc)
    (v' : Value) (h : structs_union_set_new bo flist f old v loc = (v', .ok ())) :
    ∃ T d, flist.lookup f = some T ∧ (T.type bo).init = .ok d ∧ T.hasType d = true ∧
      v.write loc (.union (some f) (some d)) = some v' := by
  simp only [structs_union_set_new] at h
  cases hl : flist.lookup f with
  | none => simp [hl] at h
  | some T =>
    simp only [hl] at h
    cases hi : (T.type bo).init with
    | error e => simp [hi] at h
    | ok d =>
      simp only [hi] at h
      have hd : T.hasType d = true :=
        init_of_codec _ _ (lookup_all _ flist f T (codec_of_fields bo flist hw) hl) d hi
      split at h
      · simp at h
      · cases hwr : v.write loc (.union (some f) (some d)) with
        | none => simp [hwr] at h
        | some w =>
          simp only [hwr, Prod.mk.injEq, and_true] at h
          exact ⟨T, d, rfl, hi, hd, by rw [hwr, h]⟩

theorem union_set_result (bo : ByteOrder) (flist : FieldList) (hw : flist.wf = true)
    (T : Descriptor) (name : Option (List Nat)) (v : Value) (f : List Nat) (v' : Value) (loc : Loc)
    (hfind : structs_find bo T name v false = (v, .ok (.union flist, loc)))
    (h : structs_union_set bo T name v f = (v', .ok ())) :
    v' = v ∨ ∃ Tf d, flist.lookup f = some Tf ∧ (Tf.type bo).init = .ok d ∧
      Tf.hasType d = true ∧ v.write loc (.union (some f) (some d)) = some v' := by
  simp only [structs_union_set, hfind] at h
  split at h
  · exact Or.inr (union_set_new_result bo flist hw f none v loc v' h)
  · simp at h
  · split at h
    · simp at h
    · split_ifs at h
      · simp only [Prod.mk.injEq, and_true] at h
        exact Or.inl h.symm
      · exact Or.inr (union_set_new_result bo flist hw f _ v loc v' h)
  · simp at h

/-- C29: union tag invariant.  For every union descriptor whose field table is
well formed (the names are C strings, the entry types are built over uint32,
string and data, and there is a first entry): `init` gives the name of the
first entry with a live payload of its type; `copy` of a live union gives a
live union; what `decode` gives has the name of an entry with the payload that
the `decode` of that entry gave, and is live when the buffer holds bytes and
is shorter than `2 ^ 29`; `structs_union_set`, when it succeeds on a path that
resolves to the union, leaves the value as it was or leaves there the name
asked for with the `init` payload of its entry; and `structs_find` with
`set_union = 1` leaves a live value live.  In a live union `field_name` is
the name of an entry and the payload a live value of the first entry of that
name, so that the searches of `copy`, `equal` and `encode`, of `structs_find`,
of `structs_trav` and of `structs_union_free` all end at that entry and not in
their `assert(0)` branch. -/
theorem union_tag_invariant (bo : ByteOrder) (flist : FieldList)
    (hw : (Descriptor.union flist).wf = true) :
    (∃ fname type rest un, flist = .FIELD fname type rest ∧
        ((Descriptor.union flist).type bo).init = .ok (.union (some fname) (some un)) ∧
        type.hasType un = true) ∧
    (∀ v, (Descriptor.union flist).hasType v = true →
        ∃ c, ((Descriptor.union flist).type bo).copy v = .ok c ∧
          (Descriptor.union flist).hasType c = true) ∧
    (∀ code v n, ((Descriptor.union flist).type bo).decode code = .ok (v, n) →
        (∃ fn un T nlen flen, v = .union (some fn) (some un) ∧ flist.lookup fn = some T ∧
          (T.type bo).decode (code.drop nlen) = .ok (un, flen) ∧ n = nlen + flen) ∧
        (c_bytes code = true → code.length < 2 ^ 29 →
          (Descriptor.union flist).hasType v = true)) ∧
    (∀ T name v f v' loc, structs_find bo T name v false = (v, .ok (.union flist, loc)) →
        structs_union_set bo T name v f = (v', .ok ()) →
        v' = v ∨ ∃ Tf d, flist.lookup f = some Tf ∧ Tf.hasType d = true ∧
          v'.read bo loc = some (.union (some f) (some d))) ∧
    (∀ (T : Descriptor) name v, T.wf = true → T.hasType v = true →
        T.hasType (structs_find bo T name v true).1 = true) ∧
    (∀ v, (Descriptor.union flist).hasType v = true →
      ∃ fn un T, v = .union (some fn) (some un) ∧ flist.lookup fn = some T ∧
        T.hasType un = true ∧
        structs_union_field (flist.fields bo) fn = some ⟨fn, T.type bo⟩ ∧
        (∀ next su,
          structs_find_active bo flist fn next un su = some (structs_find bo T next un su)) ∧
        (∀ name t, structs_trav_active flist name fn un t
          = structs_trav T (name ++ trav_dot name ++ fn) un t) ∧
        (∀ data, flist.uninit_active bo fn (some un) data
          = match T.uninit bo un with
            | .error e => .error e
            | .ok _ => .ok none)) := by
  have hw' : flist.wf = true ∧ 0 < flist.length := by simpa [Descriptor.wf] using hw
  refine ⟨?_, ?_, ?_, ?_, ?_, ?_⟩
  · cases flist with
    | END => simp [FieldList.length] at hw'
    | FIELD fname type rest =>
      have hwt : type.wf = true := by
        have := hw'.1
        simp only [FieldList.wf, Bool.and_eq_true] at this
        exact this.1.2
      obtain ⟨d, hd, hV⟩ := (codec_of_wf bo type hwt).init_ok
      exact ⟨fname, type, rest, d, rfl,
        by simp [Descriptor.type, STRUCTS_UNION_TYPE, FieldList.fields, structs_union_init, hd],
        hV⟩
  · intro v hv
    obtain ⟨c, hc, hV, _⟩ := copies_of_wf bo (.union flist) hw v hv
    exact ⟨c, hc, hV⟩
  · intro code v n hdec
    exact ⟨union_decode_tag bo flist code v n hdec,
      fun hb hl => decode_sound bo (.union flist) hw code v n hb hl hdec⟩
  · intro T name v f v' loc hfind hset
    rcases union_set_result bo flist hw'.1 T name v f v' loc hfind hset with h | h
    · exact Or.inl h
    · obtain ⟨Tf, d, h1, _, h3, h4⟩ := h
      exact Or.inr ⟨Tf, d, h1, h3, write_read bo loc v _ v' h4⟩
  · intro T name v hT hv
    exact find_typed bo T name v true hT hv
  · intro v hv
    obtain ⟨fn, un, rfl, h1⟩ := (hasType_union _ _).1 hv
    obtain ⟨T, hT, hu⟩ := (hasVariant_iff_lookup _ _ _).1 h1
    exact ⟨fn, un, T, rfl, hT, hu, lookup_field bo flist fn T hT,
      fun next su => find_active_lookup bo flist fn T next un su hT,
      fun name t => trav_active_lookup flist fn T name un t hT,
      fun data => uninit_active_lookup bo flist fn T un data hT⟩

theorem union_tag_invariant_witness :
    (∃ fname type rest un, nested_union_fields = .FIELD fname type rest ∧
        ((Descriptor.union nested_union_fields).type .BIG_ENDIAN).init
          = .ok (.union (some fname) (some un)) ∧
        type.hasType un = true) ∧
    (∀ v, (Descriptor.union nested_union_fields).hasType v = true →
        ∃ c, ((Descriptor.union nested_union_fields).type .BIG_ENDIAN).copy v = .ok c ∧
          (Descriptor.union nested_union_fields).hasType c = true) ∧
    (∀ code v n,
        ((Descriptor.union nested_union_fields).type .BIG_ENDIAN).decode code = .ok (v, n) →
        (∃ fn un T nlen flen, v = .union (some fn) (some un) ∧
          nested_union_fields.lookup fn = some T ∧
          (T.type .BIG_ENDIAN).decode (code.drop nlen) = .ok (un, flen) ∧ n = nlen + flen) ∧
        (c_bytes code = true → code.length < 2 ^ 29 →
          (Descriptor.union nested_union_fields).hasType v = true)) ∧
    (∀ T name v f v' loc,
        structs_find .BIG_ENDIAN T name v false = (v, .ok (.union nested_union_fields, loc)) →
        structs_union_set .BIG_ENDIAN T name v f = (v', .ok ()) →
        v' = v ∨ ∃ Tf d, nested_union_fields.lookup f = some Tf ∧ Tf.hasType d = true ∧
          v'.read .BIG_ENDIAN loc = some (.union (some f) (some d))) ∧
    (∀ (T : Descriptor) name v, T.wf = true → T.hasType v = true →
        T.hasType (structs_find .BIG_ENDIAN T name v true).1 = true) ∧
    (∀ v, (Descriptor.union nested_union_fields).hasType v = true →
      ∃ fn un T, v = .union (some fn) (some un) ∧ nested_union_fields.lookup fn = some T ∧
        T.hasType un = true ∧
        structs_union_field (nested_union_fields.fields .BIG_ENDIAN) fn
          = some ⟨fn, T.type .BIG_ENDIAN⟩ ∧
        (∀ next su, structs_find_active .BIG_ENDIAN nested_union_fields fn next un su
          = some (structs_find .BIG_ENDIAN T next un su)) ∧
        (∀ name t, structs_trav_active nested_union_fields name fn un t
          = structs_trav T (name ++ trav_dot name ++ fn) un t) ∧
        (∀ data, nested_union_fields.uninit_active .BIG_ENDIAN fn (some un) data
          = match T.uninit .BIG_ENDIAN un with
            | .error e => .error e
            | .ok _ => .ok none)) :=
  union_tag_invariant .BIG_ENDIAN nested_union_fields (by decide)

/-! ## structs_union_set -/

/-- C40: union_set.  For every union descriptor with a well-formed field
table, every live value of it (active field `fn`, payload `un`) and every
field name `f`, `structs_union_set` on the union itself: when `f` is the
active field it succeeds and leaves the value, payload included, as it was;
when `f` is another entry of the field table it succeeds and the union
becomes active on `f` with what `init` of the type of `f` gives as payload;
when `f` is not in the table it fails with `ENOENT` and the value is as it
was. -/
theorem union_set_cases (bo : ByteOrder) (flist : FieldList) (fn : List Nat) (un : Value)
    (f : List Nat) (hw : (Descriptor.union flist).wf = true)
    (hv : (Descriptor.union flist).hasType (.union (some fn) (some un)) = true) :
    (f = fn →
      structs_union_set bo (.union flist) none (.union (some fn) (some un)) f
        = (.union (some fn) (some un), .ok ())) ∧
    (f ≠ fn → ∀ Tf, flist.lookup f = some Tf →
      ∃ d, (Tf.type bo).init = .ok d ∧
        structs_union_set bo (.union flist) none (.union (some fn) (some un)) f
          = (.union (some f) (some d), .ok ())) ∧
    (flist.lookup f = none →
      structs_union_set bo (.union flist) none (.union (some fn) (some un)) f
        = (.union (some fn) (some un), .error .ENOENT)) := by
  have hw' : flist.wf = true ∧ 0 < flist.length := by simpa [Descriptor.wf] using hw
  obtain ⟨fn', un', hvu, h1⟩ := (hasType_union _ _).1 hv
  simp only [Value.union.injEq, Option.some.injEq] at hvu
  obtain ⟨rfl, rfl⟩ := hvu
  obtain ⟨T, hT, hu⟩ := (hasVariant_iff_lookup _ _ _).1 h1
  obtain ⟨r, hr⟩ := uninit_defined bo T un hu
  refine ⟨?_, ?_, ?_⟩
  · intro hf
    simp [structs_union_set, structs_find, structs_find_head, Value.read, hT, hf]
  · intro hf Tf hTf
    obtain ⟨d, hd, -⟩ := (lookup_all _ flist f Tf (codec_of_fields bo flist hw'.1) hTf).init_ok
    refine ⟨d, hd, ?_⟩
    have hf' : ¬ fn = f := fun e => hf e.symm
    simp [structs_union_set, structs_find, structs_find_head, Value.read, hT, hf',
      structs_union_set_new, hTf, hd, hr, Value.write]
  · intro hnone
    have hf' : ¬ fn = f := by
      intro e
      rw [e, hnone] at hT
      cases hT
    simp [structs_union_set, structs_find, structs_find_head, Value.read, hT, hf',
      structs_union_set_new, hnone]

theorem union_set_cases_witness :
    ([121] = [120] →
      structs_union_set .BIG_ENDIAN (.union nested_union_fields) none union_x_value [121]
        = (union_x_value, .ok ())) ∧
    ([121] ≠ [120] → ∀ Tf, nested_union_fields.lookup [121] = some Tf →
      ∃ d, (Tf.type .BIG_ENDIAN).init = .ok d ∧
        structs_union_set .BIG_ENDIAN (.union nested_union_fields) none union_x_value [121]
          = (.union (some [121]) (some d), .ok ())) ∧
    (nested_union_fields.lookup [121] = none →
      structs_union_set .BIG_ENDIAN (.union nested_union_fields) none union_x_value [121]
        = (union_x_value, .error .ENOENT)) :=
  union_set_cases .BIG_ENDIAN nested_union_fields [120] (.region [0, 0, 0, 0]) [121]
    (by decide) (by decide)

/-! ## Decode stays inside its buffer -/

theorem bound_region (size : Nat) (code : List Nat) (v : Value) (n : Nat)
    (h : structs_region_decode size code = .ok (v, n)) : n = size ∧ size ≤ code.length := by
  simp only [structs_region_decode] at h
  split_ifs at h with hl
  simp only [Except.ok.injEq, Prod.mk.injEq] at h
  exact ⟨h.2.symm, by omega⟩

theorem bound_int (bo : ByteOrder) (name : String) (size : Nat) :
    DecodeBound (STRUCTS_INT_TYPE bo name size) := by
  intro code v n h
  cases bo with
  | BIG_ENDIAN =>
    obtain ⟨h1, h2⟩ := bound_region size code v n h
    omega
  | LITTLE_ENDIAN =>
    simp only [STRUCTS_INT_TYPE, structs_region_decode_netorder] at h
    split_ifs at h with h16 hc
    · obtain ⟨h1, h2⟩ := bound_region size _ v n h
      simp only [List.length_take] at h2
      omega
    · obtain ⟨h1, h2⟩ := bound_region size _ v n h
      simp only [List.length_take] at h2
      omega

theorem bound_string (asnull : Bool) : DecodeBound (STRUCTS_STRING_TYPE asnull) := by
  intro code v n h
  simp only [STRUCTS_STRING_TYPE, structs_string_decode] at h
  have hle : ∀ c : List Nat, structs_string_slen c ≤ c.length := by
    intro c
    induction c with
    | nil => simp [structs_string_slen]
    | cons x c ih =>
      simp only [structs_string_slen]
      split_ifs
      · simp
      · simp
        exact ih
  have := hle code
  split_ifs at h with h1
  cases hb : structs_string_binify asnull (code.take (structs_string_slen code)) with
  | error e => simp [hb] at h
  | ok x =>
    simp only [hb] at h
    have := decode_count_le _ _ _ _ h
    omega

theorem bound_data (charset : Option (List Nat)) : DecodeBound (STRUCTS_DATA_TYPE charset) := by
  intro code v n h
  simp only [STRUCTS_DATA_TYPE, structs_data_decode] at h
  split_ifs at h with h1 h2 h3
  have := decode_count_le _ _ _ _ h
  omega

theorem bound_fixeddata (length : Nat) : DecodeBound (STRUCTS_FIXEDDATA_TYPE length) := by
  intro code v n h
  simp only [STRUCTS_FIXEDDATA_TYPE, structs_fixeddata_decode] at h
  split_ifs at h with h1
  simp only [Except.ok.injEq, Prod.mk.injEq] at h
  omega

theorem bound_pointer (t : structs_type) (h : DecodeBound t) :
    DecodeBound (STRUCTS_POINTER_TYPE t) := by
  intro code v n hdec
  simp only [STRUCTS_POINTER_TYPE, structs_pointer_decode] at hdec
  cases hd : t.decode code with
  | error e => simp [hd] at hdec
  | ok r =>
    obtain ⟨pd, m⟩ := r
    simp only [hd, Except.ok.injEq, Prod.mk.injEq] at hdec
    have := h code pd m hd
    omega

theorem array_decode_loop_bound (t : structs_type) (hdec : DecodeBound t) (bits : List Nat) :
    ∀ (n i : Nat) (code : List Nat) (clen0 : Nat) (elems : List Value) (clen : Nat),
    structs_array_decode_loop t bits n i code clen0 = .ok (elems, clen) →
    clen ≤ clen0 + code.length
  | 0, i, code, clen0, elems, clen, h => by
    simp only [structs_array_decode_loop, Except.ok.injEq, Prod.mk.injEq] at h
    omega
  | n + 1, i, code, clen0, elems, clen, h => by
    simp only [structs_array_decode_loop] at h
    cases hbit : bits[i / 8]? with
    | none => simp [hbit] at h
    | some b =>
      simp only [hbit] at h
      split_ifs at h with h0
      · cases hi : t.init with
        | error e => simp [hi] at h
        | ok edata =>
          simp only [hi] at h
          cases hr : structs_array_decode_loop t bits n (i + 1) code clen0 with
          | error e => simp [hr] at h
          | ok r =>
            obtain ⟨es, cl⟩ := r
            simp only [hr, Except.ok.injEq, Prod.mk.injEq] at h
            have := array_decode_loop_bound t hdec bits n (i + 1) code clen0 es cl hr
            omega
      · cases hd : t.decode code with
        | error e => simp [hd] at h
        | ok r0 =>
          obtain ⟨edata, eclen⟩ := r0
          simp only [hd] at h
          split_ifs at h with h31
          cases hr : structs_array_decode_loop t bits n (i + 1) (code.drop eclen)
              (clen0 + eclen) with
          | error e => simp [hr] at h
          | ok r =>
            obtain ⟨es, cl⟩ := r
            simp only [hr, Except.ok.injEq, Prod.mk.injEq] at h
            have h1 := array_decode_loop_bound t hdec bits n (i + 1) (code.drop eclen)
              (clen0 + eclen) es cl hr
            have h2 := hdec code edata eclen hd
            simp only [List.length_drop] at h1
            omega

theorem bound_array (t : structs_type) (h : DecodeBound t) :
    DecodeBound (STRUCTS_ARRAY_TYPE t) := by
  intro code v n hdec
  simp only [STRUCTS_ARRAY_TYPE, structs_array_decode, ne_eq, not_true_eq_false, if_false]
    at hdec
  split_ifs at hdec with h1 h2
  cases hr : structs_array_decode_loop t (code.drop 4) (ntohl code) 0
      (code.drop (4 + NUM_BYTES (ntohl code))) (4 + NUM_BYTES (ntohl code)) with
  | error err => simp [hr] at hdec
  | ok r =>
    obtain ⟨elems, clen⟩ := r
    simp [hr] at hdec
    have := array_decode_loop_bound t h _ _ _ _ _ elems clen hr
    simp only [List.length_drop] at this h2
    omega

theorem bound_fixedarray (t : structs_type) (alen : Nat) (h : DecodeBound t) :
    DecodeBound (STRUCTS_FIXEDARRAY_TYPE t alen) := by
  intro code v n hdec
  simp only [STRUCTS_FIXEDARRAY_TYPE, structs_fixedarray_decode, ne_eq, not_true_eq_false,
    if_false] at hdec
  split_ifs at hdec with h1
  cases hr : structs_array_decode_loop t code alen 0 (code.drop (NUM_BYTES alen))
      (NUM_BYTES alen) with
  | error err => simp [hr] at hdec
  | ok r =>
    obtain ⟨elems, clen⟩ := r
    simp only [hr, Except.ok.injEq, Prod.mk.injEq] at hdec
    have := array_decode_loop_bound t h _ _ _ _ _ elems clen hr
    simp only [List.length_drop] at this
    omega

set_option maxHeartbeats 1000000 in
mutual
theorem decode_bound (bo : ByteOrder) : ∀ T : Descriptor, DecodeBound (T.type bo)
  | .int name size => bound_int bo name size
  | .string asnull => bound_string asnull
  | .data charset => bound_data charset
  | .fixeddata length => bound_fixeddata length
  | .null => by
    intro code v n h
    simp [Descriptor.type, structs_type_null, structs_notsupp_decode] at h
  | .array_length => by
    intro code v n h
    simp [Descriptor.type, structs_type_array_length, structs_notsupp_decode] at h
  | .union_field_name => by
    intro code v n h
    simp [Descriptor.type, structs_type_union_field_name, structs_notsupp_decode] at h
  | .pointer reftype => bound_pointer _ (decode_bound bo reftype)
  | .array etype => bound_array _ (decode_bound bo etype)
  | .fixedarray etype alen => bound_fixedarray _ alen (decode_bound bo etype)
  | .structure flist => by
    intro code v n hdec
    simp only [Descriptor.type, STRUCTS_STRUCT_TYPE, structs_struct_decode] at hdec
    split_ifs at hdec with h1
    cases hr : structs_struct_decode_loop code (flist.fields bo) 0
        (code.drop (NUM_BYTES (flist.fields bo).length)) with
    | error err => simp [hr] at hdec
    | ok r =>
      obtain ⟨data, clen⟩ := r
      simp only [hr] at hdec
      have := decode_fields_bound bo flist code 0 _ data clen hr
      have := decode_count_le _ _ _ _ hdec
      simp only [List.length_drop] at *
      omega
  | .union flist => by
    intro code v n hdec
    simp only [Descriptor.type, STRUCTS_UNION_TYPE, structs_union_decode] at hdec
    cases hs : structs_string_decode (structs_string_binify false) code with
    | error err => simp [hs] at hdec
    | ok r =>
      obtain ⟨nv, nlen⟩ := r
      have h2 := bound_string false code nv nlen hs
      simp only [hs] at hdec
      rcases nv with _ | (_ | field_name) | _ | _ | _ | _ | _ | _
      case string.some =>
        simp only at hdec
        cases hf : structs_union_field (flist.fields bo) field_name with
        | none => simp [hf] at hdec
        | some field =>
          obtain ⟨T, hT, rfl⟩ := union_field_lookup bo flist field_name field hf
          simp only [hf] at hdec
          cases hd : (T.type bo).decode (code.drop nlen) with
          | error err => simp [hd] at hdec
          | ok r' =>
            obtain ⟨un, flen⟩ := r'
            simp only [hd] at hdec
            split_ifs at hdec with h31
            simp only [Except.ok.injEq, Prod.mk.injEq] at hdec
            have h1 := decode_variant_bound bo flist field_name T (code.drop nlen) un flen hT hd
            simp only [List.length_drop] at h1
            omega
      all_goals simp at hdec
theorem decode_fields_bound (bo : ByteOrder) : ∀ (fl : FieldList) (bits : List Nat) (i : Nat)
    (code : List Nat) (data : List Value) (clen : Nat),
    structs_struct_decode_loop bits (fl.fields bo) i code = .ok (data, clen) →
    clen ≤ code.length
  | .END, bits, i, code, data, clen, h => by
    simp only [FieldList.fields, structs_struct_decode_loop, Except.ok.injEq, Prod.mk.injEq] at h
    omega
  | .FIELD name type rest, bits, i, code, data, clen, h => by
    simp only [FieldList.fields, structs_struct_decode_loop] at h
    cases hbit : bits[i / 8]? with
    | none => simp [hbit] at h
    | some b =>
      simp only [hbit] at h
      split_ifs at h with h0
      · cases hi : (type.type bo).init with
        | error e => simp [hi] at h
        | ok fdata =>
          simp only [hi] at h
          cases hr : structs_struct_decode_loop bits (rest.fields bo) (i + 1) code with
          | error e => simp [hr] at h
          | ok r =>
            obtain ⟨ds, cl⟩ := r
            simp only [hr, Except.ok.injEq, Prod.mk.injEq] at h
            have := decode_fields_bound bo rest bits (i + 1) code ds cl hr
            omega
      · cases hd : (type.type bo).decode code with
        | error e => simp [hd] at h
        | ok r0 =>
          obtain ⟨fdata, fclen⟩ := r0
          simp only [hd] at h
          cases hr : structs_struct_decode_loop bits (rest.fields bo) (i + 1)
              (code.drop fclen) with
          | error e => simp [hr] at h
          | ok r =>
            obtain ⟨ds, cl⟩ := r
            simp only [hr, Except.ok.injEq, Prod.mk.injEq] at h
            have h1 := decode_fields_bound bo rest bits (i + 1) (code.drop fclen) ds cl hr
            have h2 := decode_bound bo type code fdata fclen hd
            simp only [List.length_drop] at h1
            omega
theorem decode_variant_bound (bo : ByteOrder) : ∀ (fl : FieldList) (fn : List Nat)
    (T : Descriptor) (code : List Nat) (un : Value) (flen : Nat), fl.lookup fn = some T →
    (T.type bo).decode code = .ok (un, flen) → flen ≤ code.length
  | .END, _, _, _, _, _, h, _ => by simp [FieldList.lookup] at h
  | .FIELD name type rest, fn, T, code, un, flen, h, hd => by
    simp only [FieldList.lookup] at h
    split_ifs at h with hn
    · simp only [Option.some.injEq] at h
      subst h
      exact decode_bound bo type code un flen hd
    · exact decode_variant_bound bo rest fn T code un flen h hd
end

/-- C37: `structs_data_decode` reads past its buffer.  On the four bytes
`00 00 00 04` (so `cmax = 4`) both tests of `structs_data_decode` pass, `cmax
< 4` and `cmax < d->length` with `d->length = 4`, and the `memcpy` that
follows reads the four bytes after the buffer (the model answers `undefined`);
the count the C function then returns is `4 + d->length = 8`, which is more
than `cmax`. -/
theorem data_decode_reads_past (bo : ByteOrder) :
    ((Descriptor.data none).type bo).decode [0, 0, 0, 4] = .error .undefined ∧
      ¬ ([0, 0, 0, 4].length < 4) ∧ ¬ ([0, 0, 0, 4].length < ntohl [0, 0, 0, 4]) ∧
      [0, 0, 0, 4].length < 4 + ntohl [0, 0, 0, 4] :=
  ⟨rfl, by decide, by decide, by decide⟩

/-! ## A switch makes the path readable -/

theorem set_eq_self {α : Type} (l : List α) (i : Nat) (x y : α) (h : l[i]? = some x)
    (hs : l.set i y = l) : y = x := by
  have hlt : i < l.length := (List.getElem?_eq_some_iff.1 h).1
  have h1 : (l.set i y)[i]? = some y := List.getElem?_set_self hlt
  rw [hs, h] at h1
  exact (Option.some.inj h1).symm

theorem result_under_ok (step : Step) (x : Except Errno (Descriptor × Loc))
    (r : Descriptor × Loc) (h : result_under step x = .ok r) :
    ∃ r0, x = .ok r0 ∧ r = (r0.1, step :: r0.2) := by
  cases x with
  | error e => simp [result_under] at h
  | ok r0 =>
    obtain ⟨t, loc⟩ := r0
    simp only [result_under, Except.ok.injEq] at h
    exact ⟨(t, loc), rfl, h.symm⟩

theorem find_head_read (type : Descriptor) (sub : List Nat → Value → Bool → Found)
    (h : ∀ name v r, sub name v true = (v, .ok r) → sub name v false = (v, .ok r))
    (name : Option (List Nat)) (v : Value) (r : Descriptor × Loc)
    (hf : structs_find_head type sub name v true = (v, .ok r)) :
    structs_find_head type sub name v false = (v, .ok r) := by
  rcases name with _ | _ | ⟨c, name⟩
  · exact hf
  · exact hf
  · simp only [structs_find_head] at hf ⊢
    split_ifs at hf ⊢ with hp
    · exact hf
    · exact h _ _ _ hf

set_option maxHeartbeats 1000000 in
mutual
theorem find_sub_read (bo : ByteOrder) : ∀ (T : Descriptor) (name : List Nat) (v : Value)
    (r : Descriptor × Loc), structs_find_sub bo T name v true = (v, .ok r) →
    structs_find_sub bo T name v false = (v, .ok r)
  | .pointer reftype, name, v, r, h => by
    rcases v with _ | _ | _ | (_ | pd) | _ | _ | _ | _
    case pointer.some =>
      simp only [structs_find_sub, Found.lift, Prod.mk.injEq, Value.pointer.injEq,
        Option.some.injEq] at h
      obtain ⟨r0, h2, rfl⟩ := result_under_ok _ _ _ h.2
      have ih := find_sub_read bo reftype name pd r0 (Prod.ext h.1 h2)
      simp [structs_find_sub, Found.lift, ih, result_under]
    all_goals simp [structs_find_sub] at h
  | .array etype, name, v, r, h => by
    rcases v with _ | _ | _ | _ | elems | _ | _ | _
    case array =>
      by_cases hname : name = name_length
      · simpa [structs_find_sub, hname] using h
      · cases hidx : structs_index name with
        | none => simp [structs_find_sub, hname, hidx] at h
        | some index =>
          cases hget : elems[index]? with
          | none => simp [structs_find_sub, hname, hidx, hget] at h
          | some elem =>
            simp only [structs_find_sub, hname, if_false, hidx, hget, Found.lift, Prod.mk.injEq,
              Value.array.injEq] at h
            obtain ⟨r0, h2, rfl⟩ := result_under_ok _ _ _ h.2
            have h1 := set_eq_self elems index elem _ hget h.1
            have ih := find_head_read etype (structs_find_sub bo etype)
              (find_sub_read bo etype) (structs_next name) elem r0 (Prod.ext h1 h2)
            simp [structs_find_sub, hname, hidx, hget, Found.lift, ih, result_under,
              set_get_self elems index elem hget]
    all_goals simp [structs_find_sub] at h
  | .fixedarray etype alen, name, v, r, h => by
    rcases v with _ | _ | _ | _ | _ | elems | _ | _
    case fixedarray =>
      by_cases hname : name = name_length
      · simpa [structs_find_sub, hname] using h
      · cases hidx : structs_index name with
        | none => simp [structs_find_sub, hname, hidx] at h
        | some index =>
          by_cases hge : index ≥ alen
          · simp [structs_find_sub, hname, hidx, hge] at h
          · cases hget : elems[index]? with
            | none => simp [structs_find_sub, hname, hidx, hge, hget] at h
            | some elem =>
              simp only [structs_find_sub, hname, if_false, hidx, hge, hget, Found.lift,
                Prod.mk.injEq, Value.fixedarray.injEq] at h
              obtain ⟨r0, h2, rfl⟩ := result_under_ok _ _ _ h.2
              have h1 := set_eq_self elems index elem _ hget h.1
              have ih := find_head_read etype (structs_find_sub bo etype)
                (find_sub_read bo etype) (structs_next name) elem r0 (Prod.ext h1 h2)
              simp [structs_find_sub, hname, hidx, hge, hget, Found.lift, ih, result_under,
                set_get_self elems index elem hget]
    all_goals simp [structs_find_sub] at h
  | .structure flist, name, v, r, h => by
    rcases v with _ | _ | _ | _ | _ | _ | fields | _
    iterate 6 simp [structs_find_sub] at h
    · simp only [structs_find_sub, Prod.mk.injEq, Value.structure.injEq] at h
      have ih := find_field_read bo flist name fields 0 r (Prod.ext h.1 h.2)
      simp [structs_find_sub, ih]
    · simp [structs_find_sub] at h
  | .union flist, name, v, r, h => by
    rcases v with _ | _ | _ | _ | _ | _ | _ | ⟨_ | fn, _ | un⟩
    case union.some.some =>
      by_cases hname : name = name_field_name
      · simpa [structs_find_sub, hname] using h
      · cases hl : flist.lookup fn with
        | none => simp [structs_find_sub, hname, hl] at h
        | some ty =>
          cases hm : structs_name_match fn name with
          | some next =>
            cases ha : structs_find_active bo flist fn next un true with
            | none => simp [structs_find_sub, hname, hl, hm, ha] at h
            | some x =>
              simp only [structs_find_sub, hname, if_false, hl, hm, ha, Found.lift,
                Prod.mk.injEq, Value.union.injEq, Option.some.injEq, true_and] at h
              obtain ⟨r0, h2, rfl⟩ := result_under_ok _ _ _ h.2
              have hx : x = (un, .ok r0) := Prod.ext h.1 h2
              rw [hx] at ha
              have ih := find_active_read bo flist fn next un r0 ha
              simp [structs_find_sub, hname, hl, hm, ih, Found.lift, result_under]
          | none =>
            rcases hs : structs_find_switch bo flist name with ⟨_ | ⟨fname, new_un⟩, x⟩
            · obtain ⟨e, he⟩ := (find_switch_stable bo flist name).1 x hs
              simp [structs_find_sub, hname, hl, hm, hs, he] at h
            · obtain ⟨-, next, hn, -, -⟩ := (find_switch_stable bo flist name).2 fname new_un x hs
              simp only [structs_find_sub, hname, if_false, hl, hm, hs, Bool.true_eq_false,
                Prod.mk.injEq, Value.union.injEq, Option.some.injEq] at h
              rw [h.1.1, hm] at hn
              cases hn
    all_goals simp [structs_find_sub] at h
  | .int _ _, name, v, r, h => by simp [structs_find_sub] at h
  | .string _, name, v, r, h => by simp [structs_find_sub] at h
  | .data _, name, v, r, h => by simp [structs_find_sub] at h
  | .fixeddata _, name, v, r, h => by simp [structs_find_sub] at h
  | .null, name, v, r, h => by simp [structs_find_sub] at h
  | .array_length, name, v, r, h => by simp [structs_find_sub] at h
  | .union_field_name, name, v, r, h => by simp [structs_find_sub] at h
theorem find_field_read (bo : ByteOrder) : ∀ (fl : FieldList) (name : List Nat)
    (fields : List Value) (i : Nat) (r : Descriptor × Loc),
    structs_find_field bo fl name fields i true = (fields, .ok r) →
    structs_find_field bo fl name fields i false = (fields, .ok r)
  | .END, _, _, _, _, h => by simp [structs_find_field] at h
  | .FIELD fname type rest, name, fields, i, r, h => by
    cases fields with
    | nil => simp [structs_find_field] at h
    | cons fd fs =>
      cases hm : structs_name_match fname name with
      | some next =>
        simp only [structs_find_field, hm, Prod.mk.injEq, List.cons.injEq, and_true] at h
        obtain ⟨r0, h2, rfl⟩ := result_under_ok _ _ _ h.2
        have ih := find_head_read type (structs_find_sub bo type) (find_sub_read bo type)
          next fd r0 (Prod.ext h.1 h2)
        simp [structs_find_field, hm, ih, result_under]
      | none =>
        simp only [structs_find_field, hm, Prod.mk.injEq, List.cons.injEq, true_and] at h
        have ih := find_field_read bo rest name fs (i + 1) r (Prod.ext h.1 h.2)
        simp [structs_find_field, hm, ih]
theorem find_active_read (bo : ByteOrder) : ∀ (fl : FieldList) (fn : List Nat)
    (next : Option (List Nat)) (un : Value) (r : Descriptor × Loc),
    structs_find_active bo fl fn next un true = some (un, .ok r) →
    structs_find_active bo fl fn next un false = some (un, .ok r)
  | .END, _, _, _, _, h => by simp [structs_find_active] at h
  | .FIELD fname type rest, fn, next, un, r, h => by
    simp only [structs_find_active] at h ⊢
    split_ifs at h ⊢ with hf
    · simp only [Option.some.injEq] at h
      rw [find_head_read type (structs_find_sub bo type) (find_sub_read bo type) next un r h]
    · exact find_active_read bo rest fn next un r h
end

/-- C39: a switch makes the path readable.  For every descriptor, value `v`
and path: when `structs_find` with `set_union = 1` succeeds on `v` and leaves
the value `v'`, `structs_find` on `v'` with `set_union = 0` succeeds, leaves
`v'` as it is and gives the same descriptor and the same pointer (so the same
sub-value), and a second call with `set_union = 1` on `v'` gives the same
again and leaves `v'` unchanged. -/
theorem switch_then_read (bo : ByteOrder) (T : Descriptor) (name : Option (List Nat))
    (v v' : Value) (T' : Descriptor) (loc : Loc)
    (h : structs_find bo T name v true = (v', .ok (T', loc))) :
    structs_find bo T name v' false = (v', .ok (T', loc)) ∧
      structs_find bo T name v' true = (v', .ok (T', loc)) := by
  simp only [structs_find] at h ⊢
  have hs := (find_head_stable T (structs_find_sub bo T) true (find_sub_stable bo T) name v).2
    (T', loc) (by show (structs_find_head T (structs_find_sub bo T) name v true).2 = _; rw [h])
  simp only [h] at hs
  exact ⟨find_head_read T (structs_find_sub bo T) (find_sub_read bo T) name v' (T', loc) hs, hs⟩

theorem switch_then_read_witness :
    structs_find .BIG_ENDIAN nested_union_type (some [121, 46, 97])
        (.union (some [121]) (some (.structure [.region [0, 0, 0, 0]]))) false
      = (.union (some [121]) (some (.structure [.region [0, 0, 0, 0]])),
        .ok (.uint32, [.un, .member 0])) ∧
      structs_find .BIG_ENDIAN nested_union_type (some [121, 46, 97])
          (.union (some [121]) (some (.structure [.region [0, 0, 0, 0]]))) true
        = (.union (some [121]) (some (.structure [.region [0, 0, 0, 0]])),
          .ok (.uint32, [.un, .member 0])) :=
  switch_then_read .BIG_ENDIAN nested_union_type (some [121, 46, 97]) union_x_value
    (.union (some [121]) (some (.structure [.region [0, 0, 0, 0]]))) .uint32 [.un, .member 0] rfl

/-! ## The hex text of binary data -/

theorem hexchars_nibble (k : Nat) (hk : k < 16) :
    isxdigit (hexchars.getD k 0) = true ∧ isspace (hexchars.getD k 0) = false ∧
      HEXVAL (hexchars.getD k 0) = k := by
  interval_cases k <;> exact ⟨rfl, rfl, rfl⟩

theorem hex_pair_byte (b : Nat) (hb : b < 256) :
    ∃ c1 c2 hi lo, hex_pair b = [c1, c2] ∧ isxdigit c1 = true ∧ isspace c1 = false ∧
      isxdigit c2 = true ∧ HEXVAL c1 = hi ∧ HEXVAL c2 = lo ∧ ((hi <<< 4) ||| lo) % 256 = b := by
  have h1 : (b >>> 4) &&& 15 < 16 := Nat.lt_of_le_of_lt Nat.and_le_right (by decide)
  have h2 : b &&& 15 < 16 := Nat.lt_of_le_of_lt Nat.and_le_right (by decide)
  obtain ⟨a1, a2, a3⟩ := hexchars_nibble _ h1
  obtain ⟨b1, b2, b3⟩ := hexchars_nibble _ h2
  refine ⟨_, _, _, _, rfl, a1, a2, b1, a3, b3, ?_⟩
  interval_cases b <;> rfl

theorem data_binify_loop_hex : ∀ (bytes : List Nat) (n : Nat) (bdata : List Nat),
    c_bytes bytes = true → bytes.length ≤ n →
    structs_data_binify_loop n (bytes.flatMap hex_pair) bdata = .ok (bdata ++ bytes)
  | [], n, bdata, _, _ => by
    cases n <;> simp [structs_data_binify_loop]
  | b :: bytes, 0, bdata, _, hn => by simp at hn
  | b :: bytes, n + 1, bdata, hb, hn => by
    simp only [c_bytes, List.all_cons, Bool.and_eq_true, decide_eq_true_eq] at hb
    obtain ⟨c1, c2, hi, lo, hp, x1, s1, x2, v1, v2, hv⟩ := hex_pair_byte b hb.1
    have ih := data_binify_loop_hex bytes n (bdata ++ [b]) (by simpa [c_bytes] using hb.2)
      (by simp only [List.length_cons] at hn; omega)
    have hf : (b :: bytes).flatMap hex_pair = c1 :: c2 :: bytes.flatMap hex_pair := by
      rw [List.flatMap_cons, hp]
      rfl
    rw [hf]
    simp [structs_data_binify_loop, skip_space, s1, x1, x2, v1, v2, hv, ih]

theorem fixeddata_binify_loop_hex : ∀ (bytes : List Nat) (acc : List Nat),
    c_bytes bytes = true →
    structs_fixeddata_binify_loop bytes.length (bytes.flatMap hex_pair) acc
      = .ok (.region (acc ++ bytes))
  | [], acc, _ => by simp [structs_fixeddata_binify_loop, skip_space]
  | b :: bytes, acc, hb => by
    simp only [c_bytes, List.all_cons, Bool.and_eq_true, decide_eq_true_eq] at hb
    obtain ⟨c1, c2, hi, lo, hp, x1, s1, x2, v1, v2, hv⟩ := hex_pair_byte b hb.1
    have s2 : isspace c2 = false := by
      cases h : isspace c2
      · rfl
      · exfalso
        revert x2 h
        simp only [isxdigit, isspace, isdigit]
        simp
        omega
    have ih := fixeddata_binify_loop_hex bytes (acc ++ [b]) (by simpa [c_bytes] using hb.2)
    have hf : (b :: bytes).flatMap hex_pair = c1 :: c2 :: bytes.flatMap hex_pair := by
      rw [List.flatMap_cons, hp]
      rfl
    rw [hf]
    simp [structs_fixeddata_binify_loop, hex_digit, skip_space, s1, s2, x1, x2, v1, v2, hv,
      ih]

theorem data_binify_loop_defined : ∀ (n : Nat) (ascii bdata : List Nat), ascii.length ≤ n →
    structs_data_binify_loop n ascii bdata ≠ .error .undefined
  | 0, ascii, bdata, h => by
    cases ascii with
    | nil => simp [structs_data_binify_loop]
    | cons c a => simp at h
  | n + 1, ascii, bdata, h => by
    have hs : ∀ a : List Nat, (skip_space a).length ≤ a.length := by
      intro a
      induction a with
      | nil => simp [skip_space]
      | cons c a ih =>
        simp only [skip_space]
        split_ifs
        · simp only [List.length_cons]
          omega
        · simp
    cases ascii with
    | nil => simp [structs_data_binify_loop]
    | cons c a =>
      simp only [structs_data_binify_loop]
      have hlen := hs (c :: a)
      cases hk : skip_space (c :: a) with
      | nil => simp
      | cons c1 a1 =>
        rw [hk] at hlen
        simp only
        split_ifs
        · simp
        · cases a1 with
          | nil => simp
          | cons c2 a2 =>
            simp only
            split_ifs
            · simp
            · exact data_binify_loop_defined n a2 _ (by
                simp only [List.length_cons] at hlen h
                omega)

/-- C31: ascify round trip for hex data.  For the data type with the hex
character set and for the fixed data of every size, and every value `v` of
bytes (shorter than `2 ^ 30`, the range of the `int` expression `i * 2`):
`ascify(v)` succeeds, and `binify` of the text succeeds and gives `v` back,
which is equal to `v` under the `equal` of the type. -/
theorem hex_ascify_roundtrip (bo : ByteOrder)
    (b64_encode b64_decode : List Nat → Except Errno (List Nat)) (size : Nat) (bytes : List Nat)
    (hb : c_bytes bytes = true) (hl : bytes.length < 2 ^ 30) :
    (∃ ascii, structs_data_ascify (some []) b64_encode (.data bytes) = .ok ascii ∧
        structs_data_binify (some []) b64_decode ascii = .ok (.data bytes) ∧
        ((Descriptor.data (some [])).type bo).equal (.data bytes) (.data bytes) = 1) ∧
      (bytes.length = size →
        ∃ ascii, structs_fixeddata_ascify size (.region bytes) = .ok ascii ∧
          structs_fixeddata_binify size ascii = .ok (.region bytes) ∧
          ((Descriptor.fixeddata size).type bo).equal (.region bytes) (.region bytes) = 1) := by
  constructor
  · refine ⟨bytes.flatMap hex_pair, ?_, ?_, ?_⟩
    · have : ¬ bytes.length ≥ 2 ^ 30 := by omega
      simp only [structs_data_ascify, this, if_true, if_false]
    · have hlen : bytes.length ≤ (bytes.flatMap hex_pair).length := by
        clear hb hl
        induction bytes with
        | nil => simp
        | cons b bytes ih =>
          simp only [List.flatMap_cons, List.length_append, List.length_cons]
          have : (hex_pair b).length = 2 := rfl
          omega
      have h := data_binify_loop_hex bytes (bytes.flatMap hex_pair).length [] hb hlen
      simp only [structs_data_binify, if_true, h, List.nil_append]
    · simp [Descriptor.type, STRUCTS_DATA_TYPE, structs_data_equal]
  · intro hs
    subst hs
    refine ⟨bytes.flatMap hex_pair, ?_, ?_, ?_⟩
    · have : ¬ bytes.length ≥ 2 ^ 30 := by omega
      simp only [structs_fixeddata_ascify, this, if_false, lt_irrefl, List.take_length]
    · have h := fixeddata_binify_loop_hex bytes [] hb
      simpa [structs_fixeddata_binify] using h
    · simp [Descriptor.type, STRUCTS_FIXEDDATA_TYPE, structs_region_equal]

theorem hex_ascify_roundtrip_witness :
    (∃ ascii, structs_data_ascify (some []) (fun _ => .error .ENOSYS) (.data [171, 5]) = .ok ascii ∧
        structs_data_binify (some []) (fun _ => .error .ENOSYS) ascii = .ok (.data [171, 5]) ∧
        ((Descriptor.data (some [])).type .BIG_ENDIAN).equal (.data [171, 5]) (.data [171, 5])
          = 1) ∧
      ([171, 5].length = 2 →
        ∃ ascii, structs_fixeddata_ascify 2 (.region [171, 5]) = .ok ascii ∧
          structs_fixeddata_binify 2 ascii = .ok (.region [171, 5]) ∧
          ((Descriptor.fixeddata 2).type .BIG_ENDIAN).equal (.region [171, 5]) (.region [171, 5])
            = 1) :=
  hex_ascify_roundtrip .BIG_ENDIAN (fun _ => .error .ENOSYS) (fun _ => .error .ENOSYS) 2
    [171, 5] (by decide) (by decide)

/-! ## Derived equality is an equivalence -/

theorem array_loop_iff (t : structs_type) : ∀ (a b : List Value), a.length = b.length →
    (structs_array_equal_loop t a b = true ↔
      ∀ (i : Nat) (x y : Value), a[i]? = some x → b[i]? = some y → t.equal x y ≠ 0)
  | [], [], _ => by simp [structs_array_equal_loop]
  | [], _ :: _, h => by simp at h
  | _ :: _, [], h => by simp at h
  | x :: a, y :: b, h => by
    have ih := array_loop_iff t a b (by simpa using h)
    simp only [structs_array_equal_loop]
    constructor
    · intro hl i x' y' hx hy
      split_ifs at hl with h0
      cases i with
      | zero =>
        simp at hx hy
        rw [← hx, ← hy]
        exact h0
      | succ i =>
        simp at hx hy
        exact ih.1 hl i x' y' hx hy
    · intro hall
      have h0 : ¬ t.equal x y = 0 := hall 0 x y (by simp) (by simp)
      rw [if_neg h0]
      exact ih.2 (fun i x' y' hx hy => hall (i + 1) x' y' (by simpa using hx) (by simpa using hy))

theorem struct_loop_iff : ∀ (fields : List structs_field) (v1 v2 : List Value),
    v1.length = fields.length → v2.length = fields.length →
    (structs_struct_equal_loop fields v1 v2 = 0 ∨ structs_struct_equal_loop fields v1 v2 = 1) ∧
    (structs_struct_equal_loop fields v1 v2 = 1 ↔
      ∀ (i : Nat) (f : structs_field) (x y : Value), fields[i]? = some f → v1[i]? = some x →
        v2[i]? = some y → f.type.equal x y ≠ 0)
  | [], v1, v2, _, _ => by simp [structs_struct_equal_loop]
  | f :: fields, [], _, h, _ => by simp at h
  | f :: fields, _ :: _, [], _, h => by simp at h
  | f :: fields, x :: v1, y :: v2, h1, h2 => by
    have ih := struct_loop_iff fields v1 v2 (by simpa using h1) (by simpa using h2)
    simp only [structs_struct_equal_loop]
    constructor
    · split_ifs
      · left; rfl
      · exact ih.1
    · constructor
      · intro hl i f' x' y' hf hx hy
        split_ifs at hl with h0
        · exact absurd hl (by decide)
        · cases i with
          | zero =>
            simp at hf hx hy
            rw [← hf, ← hx, ← hy]
            exact h0
          | succ i =>
            simp at hf hx hy
            exact ih.2.1 hl i f' x' y' hf hx hy
      · intro hall
        have h0 : ¬ f.type.equal x y = 0 := hall 0 f x y (by simp) (by simp) (by simp)
        rw [if_neg h0]
        exact ih.2.2 (fun i f' x' y' hf hx hy =>
          hall (i + 1) f' x' y' (by simpa using hf) (by simpa using hx) (by simpa using hy))

theorem equiv_one (t : structs_type) (V : Value → Prop) (h : EquivOn t V) (a b : Value)
    (ha : V a) (hb : V b) : t.equal a b ≠ 0 ↔ t.equal a b = 1 := by
  rcases h.2.1 a b ha hb with h0 | h1
  · simp [h0]
  · simp [h1]

theorem mem_of_index {α : Type} (l : List α) (i : Nat) (x : α) (h : l[i]? = some x) : x ∈ l := by
  rw [List.getElem?_eq_some_iff] at h
  obtain ⟨hl, rfl⟩ := h
  exact List.getElem_mem hl

theorem index_of_length {α : Type} (l : List α) (i : Nat) (n : Nat) (h : l.length = n)
    (hi : i < n) : ∃ x, l[i]? = some x := by
  exact ⟨l[i], List.getElem?_eq_getElem (by omega)⟩

theorem elems_equiv (t : structs_type) (V : Value → Prop) (h : EquivOn t V) :
    (∀ a : List Value, (∀ x ∈ a, V x) → structs_array_equal_loop t a a = true) ∧
    (∀ a b : List Value, (∀ x ∈ a, V x) → (∀ x ∈ b, V x) → a.length = b.length →
      structs_array_equal_loop t a b = true → structs_array_equal_loop t b a = true) ∧
    (∀ a b c : List Value, (∀ x ∈ a, V x) → (∀ x ∈ b, V x) → (∀ x ∈ c, V x) →
      a.length = b.length → b.length = c.length →
      structs_array_equal_loop t a b = true → structs_array_equal_loop t b c = true →
      structs_array_equal_loop t a c = true) := by
  refine ⟨?_, ?_, ?_⟩
  · intro a ha
    rw [array_loop_iff t a a rfl]
    intro i x y hx hy
    rw [hx] at hy
    cases hy
    have := h.1 x (ha x (mem_of_index a i x hx))
    rw [this]
    decide
  · intro a b ha hb hl hab
    rw [array_loop_iff t a b hl] at hab
    rw [array_loop_iff t b a hl.symm]
    intro i y x hy hx
    have hV1 := ha x (mem_of_index a i x hx)
    have hV2 := hb y (mem_of_index b i y hy)
    have := (equiv_one t V h x y hV1 hV2).1 (hab i x y hx hy)
    rw [h.2.2.1 x y hV1 hV2 this]
    decide
  · intro a b c ha hb hc hl1 hl2 hab hbc
    rw [array_loop_iff t a b hl1] at hab
    rw [array_loop_iff t b c hl2] at hbc
    rw [array_loop_iff t a c (hl1.trans hl2)]
    intro i x z hx hz
    have hi : i < b.length := by
      rw [← hl1]
      exact (List.getElem?_eq_some_iff.1 hx).1
    obtain ⟨y, hy⟩ := index_of_length b i b.length rfl hi
    have hV1 := ha x (mem_of_index a i x hx)
    have hV2 := hb y (mem_of_index b i y hy)
    have hV3 := hc z (mem_of_index c i z hz)
    have e1 := (equiv_one t V h x y hV1 hV2).1 (hab i x y hx hy)
    have e2 := (equiv_one t V h y z hV2 hV3).1 (hbc i y z hy hz)
    rw [h.2.2.2 x y z hV1 hV2 hV3 e1 e2]
    decide

theorem equiv_pointer (t : structs_type) (r : Descriptor)
    (h : EquivOn t (fun v => r.hasType v = true)) :
    EquivOn (STRUCTS_POINTER_TYPE t) (fun v => (Descriptor.pointer r).hasType v = true) := by
  refine ⟨?_, ?_, ?_, ?_⟩
  · intro a ha
    obtain ⟨x, rfl, hx⟩ := (hasType_pointer _ _).1 ha
    exact h.1 x hx
  · intro a b ha hb
    obtain ⟨x, rfl, hx⟩ := (hasType_pointer _ _).1 ha
    obtain ⟨y, rfl, hy⟩ := (hasType_pointer _ _).1 hb
    exact h.2.1 x y hx hy
  · intro a b ha hb
    obtain ⟨x, rfl, hx⟩ := (hasType_pointer _ _).1 ha
    obtain ⟨y, rfl, hy⟩ := (hasType_pointer _ _).1 hb
    exact h.2.2.1 x y hx hy
  · intro a b c ha hb hc
    obtain ⟨x, rfl, hx⟩ := (hasType_pointer _ _).1 ha
    obtain ⟨y, rfl, hy⟩ := (hasType_pointer _ _).1 hb
    obtain ⟨z, rfl, hz⟩ := (hasType_pointer _ _).1 hc
    exact h.2.2.2 x y z hx hy hz

theorem array_equal_one (t : structs_type) (a b : List Value) :
    (STRUCTS_ARRAY_TYPE t).equal (.array a) (.array b) = 1 ↔
      a.length = b.length ∧ structs_array_equal_loop t a b = true := by
  simp only [STRUCTS_ARRAY_TYPE, structs_array_equal, ne_eq, not_true_eq_false, if_false]
  split_ifs <;> simp_all

theorem fixedarray_equal_one (t : structs_type) (alen : Nat) (a b : List Value)
    (ha : a.length = alen) (hb : b.length = alen) :
    (STRUCTS_FIXEDARRAY_TYPE t alen).equal (.fixedarray a) (.fixedarray b) = 1 ↔
      structs_array_equal_loop t a b = true := by
  simp only [STRUCTS_FIXEDARRAY_TYPE, structs_fixedarray_equal, ne_eq, not_true_eq_false,
    if_false, ha, hb, or_self]
  split_ifs <;> simp_all

theorem equiv_array (t : structs_type) (e : Descriptor)
    (h : EquivOn t (fun v => e.hasType v = true)) :
    EquivOn (STRUCTS_ARRAY_TYPE t) (fun v => (Descriptor.array e).hasType v = true) := by
  obtain ⟨l1, l2, l3⟩ := elems_equiv t _ h
  refine ⟨?_, ?_, ?_, ?_⟩
  · intro a ha
    obtain ⟨x, rfl, hx, -⟩ := (hasType_array _ _).1 ha
    exact (array_equal_one t x x).2 ⟨rfl, l1 x hx⟩
  · intro a b ha hb
    obtain ⟨x, rfl, hx, -⟩ := (hasType_array _ _).1 ha
    obtain ⟨y, rfl, hy, -⟩ := (hasType_array _ _).1 hb
    simp only [STRUCTS_ARRAY_TYPE, structs_array_equal]
    split_ifs <;> simp
  · intro a b ha hb hab
    obtain ⟨x, rfl, hx, -⟩ := (hasType_array _ _).1 ha
    obtain ⟨y, rfl, hy, -⟩ := (hasType_array _ _).1 hb
    obtain ⟨hl, hab⟩ := (array_equal_one t x y).1 hab
    exact (array_equal_one t y x).2 ⟨hl.symm, l2 x y hx hy hl hab⟩
  · intro a b c ha hb hc hab hbc
    obtain ⟨x, rfl, hx, -⟩ := (hasType_array _ _).1 ha
    obtain ⟨y, rfl, hy, -⟩ := (hasType_array _ _).1 hb
    obtain ⟨z, rfl, hz, -⟩ := (hasType_array _ _).1 hc
    obtain ⟨hl1, hab⟩ := (array_equal_one t x y).1 hab
    obtain ⟨hl2, hbc⟩ := (array_equal_one t y z).1 hbc
    exact (array_equal_one t x z).2 ⟨hl1.trans hl2, l3 x y z hx hy hz hl1 hl2 hab hbc⟩

theorem equiv_fixedarray (t : structs_type) (e : Descriptor) (alen : Nat)
    (h : EquivOn t (fun v => e.hasType v = true)) :
    EquivOn (STRUCTS_FIXEDARRAY_TYPE t alen)
      (fun v => (Descriptor.fixedarray e alen).hasType v = true) := by
  obtain ⟨l1, l2, l3⟩ := elems_equiv t _ h
  refine ⟨?_, ?_, ?_, ?_⟩
  · intro a ha
    obtain ⟨x, rfl, hl, hx⟩ := (hasType_fixedarray _ _ _).1 ha
    exact (fixedarray_equal_one t alen x x hl hl).2 (l1 x hx)
  · intro a b ha hb
    obtain ⟨x, rfl, hlx, hx⟩ := (hasType_fixedarray _ _ _).1 ha
    obtain ⟨y, rfl, hly, hy⟩ := (hasType_fixedarray _ _ _).1 hb
    simp only [STRUCTS_FIXEDARRAY_TYPE, structs_fixedarray_equal]
    split_ifs <;> simp
  · intro a b ha hb hab
    obtain ⟨x, rfl, hlx, hx⟩ := (hasType_fixedarray _ _ _).1 ha
    obtain ⟨y, rfl, hly, hy⟩ := (hasType_fixedarray _ _ _).1 hb
    have hab := (fixedarray_equal_one t alen x y hlx hly).1 hab
    exact (fixedarray_equal_one t alen y x hly hlx).2 (l2 x y hx hy (hlx.trans hly.symm) hab)
  · intro a b c ha hb hc hab hbc
    obtain ⟨x, rfl, hlx, hx⟩ := (hasType_fixedarray _ _ _).1 ha
    obtain ⟨y, rfl, hly, hy⟩ := (hasType_fixedarray _ _ _).1 hb
    obtain ⟨z, rfl, hlz, hz⟩ := (hasType_fixedarray _ _ _).1 hc
    have hab := (fixedarray_equal_one t alen x y hlx hly).1 hab
    have hbc := (fixedarray_equal_one t alen y z hly hlz).1 hbc
    exact (fixedarray_equal_one t alen x z hlx hlz).2
      (l3 x y z hx hy hz (hlx.trans hly.symm) (hly.trans hlz.symm) hab hbc)

theorem fields_index (bo : ByteOrder) : ∀ (fl : FieldList) (i : Nat) (f : structs_field),
    (fl.fields bo)[i]? = some f →
    ∃ name T, fl.toList[i]? = some (name, T) ∧ f = ⟨name, T.type bo⟩
  | .END, _, _, h => by simp [FieldList.fields] at h
  | .FIELD name type rest, 0, f, h => by
    simp [FieldList.fields] at h
    exact ⟨name, type, by simp [FieldList.toList], h.symm⟩
  | .FIELD name type rest, i + 1, f, h => by
    simp [FieldList.fields] at h
    obtain ⟨n, T, h1, h2⟩ := fields_index bo rest i f h
    exact ⟨n, T, by simpa [FieldList.toList] using h1, h2⟩

theorem toList_fields (bo : ByteOrder) : ∀ (fl : FieldList) (i : Nat) (name : List Nat)
    (T : Descriptor), fl.toList[i]? = some (name, T) →
    (fl.fields bo)[i]? = some ⟨name, T.type bo⟩
  | .END, _, _, _, h => by simp [FieldList.toList] at h
  | .FIELD name type rest, 0, n, T, h => by
    simp [FieldList.toList] at h
    simp [FieldList.fields, h.1, h.2]
  | .FIELD name type rest, i + 1, n, T, h => by
    simp [FieldList.toList] at h
    simpa [FieldList.fields] using toList_fields bo rest i n T h

theorem hasTypes_index : ∀ (fl : FieldList) (data : List Value), fl.hasTypes data = true →
    data.length = fl.length ∧
      ∀ (i : Nat) (name : List Nat) (T : Descriptor) (x : Value),
        fl.toList[i]? = some (name, T) → data[i]? = some x → T.hasType x = true
  | .END, [], _ => by simp [FieldList.length, FieldList.toList]
  | .END, _ :: _, h => by simp [FieldList.hasTypes] at h
  | .FIELD _ _ _, [], h => by simp [FieldList.hasTypes] at h
  | .FIELD name type rest, d :: data, h => by
    simp only [FieldList.hasTypes, Bool.and_eq_true] at h
    obtain ⟨ih1, ih2⟩ := hasTypes_index rest data h.2
    refine ⟨by simp [FieldList.length, ih1], ?_⟩
    intro i n T x hi hx
    cases i with
    | zero =>
      simp [FieldList.toList] at hi hx
      rw [← hi.2, ← hx]
      exact h.1
    | succ i =>
      simp [FieldList.toList] at hi hx
      exact ih2 i n T x hi hx

theorem lookup_index : ∀ (fl : FieldList) (name : List Nat) (T : Descriptor),
    fl.lookup name = some T → ∃ i : Nat, fl.toList[i]? = some (name, T)
  | .END, _, _, h => by simp [FieldList.lookup] at h
  | .FIELD fname type rest, name, T, h => by
    simp only [FieldList.lookup] at h
    split_ifs at h with hn
    · simp only [Option.some.injEq] at h
      exact ⟨0, by simp [FieldList.toList, hn, h]⟩
    · obtain ⟨i, hi⟩ := lookup_index rest name T h
      exact ⟨i + 1, by simpa [FieldList.toList] using hi⟩

theorem struct_equal_iff (bo : ByteOrder) (fl : FieldList) (v1 v2 : List Value)
    (h1 : fl.hasTypes v1 = true) (h2 : fl.hasTypes v2 = true) :
    (((Descriptor.structure fl).type bo).equal (.structure v1) (.structure v2) = 0 ∨
      ((Descriptor.structure fl).type bo).equal (.structure v1) (.structure v2) = 1) ∧
    (((Descriptor.structure fl).type bo).equal (.structure v1) (.structure v2) = 1 ↔
      ∀ (i : Nat) (name : List Nat) (T : Descriptor) (x y : Value),
        fl.toList[i]? = some (name, T) → v1[i]? = some x → v2[i]? = some y →
        (T.type bo).equal x y ≠ 0) := by
  have hl1 := (hasTypes_index fl v1 h1).1
  have hl2 := (hasTypes_index fl v2 h2).1
  have hloop := struct_loop_iff (fl.fields bo) v1 v2 (by rw [hl1, fields_length])
    (by rw [hl2, fields_length])
  simp only [Descriptor.type, STRUCTS_STRUCT_TYPE, structs_struct_equal, ne_eq,
    not_true_eq_false, if_false]
  refine ⟨hloop.1, ?_⟩
  rw [hloop.2]
  constructor
  · intro h i name T x y hi hx hy
    exact h i ⟨name, T.type bo⟩ x y (toList_fields bo fl i name T hi) hx hy
  · intro h i f x y hf hx hy
    obtain ⟨name, T, hi, rfl⟩ := fields_index bo fl i f hf
    exact h i name T x y hi hx hy

theorem equiv_structure (bo : ByteOrder) (fl : FieldList)
    (hF : ∀ (i : Nat) (name : List Nat) (T : Descriptor), fl.toList[i]? = some (name, T) →
      T.equiv bo) : (Descriptor.structure fl).equiv bo := by
  refine ⟨?_, ?_, ?_, ?_⟩
  · intro a ha
    obtain ⟨x, rfl, hx⟩ := (hasType_structure _ _).1 ha
    rw [(struct_equal_iff bo fl x x hx hx).2]
    intro i name T u w hi hu hw
    rw [hu] at hw
    cases hw
    rw [(hF i name T hi).1 u ((hasTypes_index fl x hx).2 i name T u hi hu)]
    decide
  · intro a b ha hb
    obtain ⟨x, rfl, hx⟩ := (hasType_structure _ _).1 ha
    obtain ⟨y, rfl, hy⟩ := (hasType_structure _ _).1 hb
    exact (struct_equal_iff bo fl x y hx hy).1
  · intro a b ha hb hab
    obtain ⟨x, rfl, hx⟩ := (hasType_structure _ _).1 ha
    obtain ⟨y, rfl, hy⟩ := (hasType_structure _ _).1 hb
    rw [(struct_equal_iff bo fl x y hx hy).2] at hab
    rw [(struct_equal_iff bo fl y x hy hx).2]
    intro i name T w u hi hw hu
    have hV1 := (hasTypes_index fl x hx).2 i name T u hi hu
    have hV2 := (hasTypes_index fl y hy).2 i name T w hi hw
    have := (equiv_one _ _ (hF i name T hi) u w hV1 hV2).1 (hab i name T u w hi hu hw)
    rw [(hF i name T hi).2.2.1 u w hV1 hV2 this]
    decide
  · intro a b c ha hb hc hab hbc
    obtain ⟨x, rfl, hx⟩ := (hasType_structure _ _).1 ha
    obtain ⟨y, rfl, hy⟩ := (hasType_structure _ _).1 hb
    obtain ⟨z, rfl, hz⟩ := (hasType_structure _ _).1 hc
    rw [(struct_equal_iff bo fl x y hx hy).2] at hab
    rw [(struct_equal_iff bo fl y z hy hz).2] at hbc
    rw [(struct_equal_iff bo fl x z hx hz).2]
    intro i name T u w hi hu hw
    have hi' : i < y.length := by
      rw [(hasTypes_index fl y hy).1, ← (hasTypes_index fl x hx).1]
      exact (List.getElem?_eq_some_iff.1 hu).1
    obtain ⟨m, hm⟩ := index_of_length y i y.length rfl hi'
    have hV1 := (hasTypes_index fl x hx).2 i name T u hi hu
    have hV2 := (hasTypes_index fl y hy).2 i name T m hi hm
    have hV3 := (hasTypes_index fl z hz).2 i name T w hi hw
    have e1 := (equiv_one _ _ (hF i name T hi) u m hV1 hV2).1 (hab i name T u m hi hu hm)
    have e2 := (equiv_one _ _ (hF i name T hi) m w hV2 hV3).1 (hbc i name T m w hi hm hw)
    rw [(hF i name T hi).2.2.2 u m w hV1 hV2 hV3 e1 e2]
    decide

theorem union_equal_iff (bo : ByteOrder) (fl : FieldList) (n1 n2 : List Nat) (u1 u2 : Value)
    (T : Descriptor) (hT : fl.lookup n1 = some T) :
    ((Descriptor.union fl).type bo).equal (.union (some n1) (some u1)) (.union (some n2) (some u2))
      = if n1 = n2 then (T.type bo).equal u1 u2 else 0 := by
  have hf := lookup_field bo fl n1 T hT
  simp only [Descriptor.type, STRUCTS_UNION_TYPE, structs_union_equal, hf]
  split_ifs <;> simp_all

theorem equiv_union (bo : ByteOrder) (fl : FieldList)
    (hL : ∀ (name : List Nat) (T : Descriptor), fl.lookup name = some T → T.equiv bo) :
    (Descriptor.union fl).equiv bo := by
  refine ⟨?_, ?_, ?_, ?_⟩
  · intro a ha
    obtain ⟨n, u, rfl, h1⟩ := (hasType_union _ _).1 ha
    obtain ⟨T, hT, hu⟩ := (hasVariant_iff_lookup _ _ _).1 h1
    rw [union_equal_iff bo fl n n u u T hT, if_pos rfl]
    exact (hL n T hT).1 u hu
  · intro a b ha hb
    obtain ⟨n, u, rfl, h1⟩ := (hasType_union _ _).1 ha
    obtain ⟨T, hT, hu⟩ := (hasVariant_iff_lookup _ _ _).1 h1
    obtain ⟨m, w, rfl, h2⟩ := (hasType_union _ _).1 hb
    obtain ⟨S, hS, hw⟩ := (hasVariant_iff_lookup _ _ _).1 h2
    rw [union_equal_iff bo fl n m u w T hT]
    split_ifs with hnm
    · subst hnm
      rw [hT] at hS
      cases hS
      exact (hL n T hT).2.1 u w hu hw
    · left; rfl
  · intro a b ha hb hab
    obtain ⟨n, u, rfl, h1⟩ := (hasType_union _ _).1 ha
    obtain ⟨T, hT, hu⟩ := (hasVariant_iff_lookup _ _ _).1 h1
    obtain ⟨m, w, rfl, h2⟩ := (hasType_union _ _).1 hb
    obtain ⟨S, hS, hw⟩ := (hasVariant_iff_lookup _ _ _).1 h2
    rw [union_equal_iff bo fl n m u w T hT] at hab
    split_ifs at hab with hnm
    · subst hnm
      rw [hT] at hS
      cases hS
      rw [union_equal_iff bo fl n n w u T hT, if_pos rfl]
      exact (hL n T hT).2.2.1 u w hu hw hab
    · exact absurd hab (by decide)
  · intro a b c ha hb hc hab hbc
    obtain ⟨n, u, rfl, h1⟩ := (hasType_union _ _).1 ha
    obtain ⟨T, hT, hu⟩ := (hasVariant_iff_lookup _ _ _).1 h1
    obtain ⟨m, w, rfl, h2⟩ := (hasType_union _ _).1 hb
    obtain ⟨S, hS, hw⟩ := (hasVariant_iff_lookup _ _ _).1 h2
    obtain ⟨k, z, rfl, h3⟩ := (hasType_union _ _).1 hc
    obtain ⟨R, hR, hz⟩ := (hasVariant_iff_lookup _ _ _).1 h3
    rw [union_equal_iff bo fl n m u w T hT] at hab
    rw [union_equal_iff bo fl m k w z S hS] at hbc
    split_ifs at hab with hnm
    · split_ifs at hbc with hmk
      · subst hnm hmk
        rw [hT] at hS hR
        cases hS
        cases hR
        rw [union_equal_iff bo fl n n u z T hT, if_pos rfl]
        exact (hL n T hT).2.2.2 u w z hu hw hz hab hbc
      · exact absurd hbc (by decide)
    · exact absurd hab (by decide)

mutual
theorem equiv_of_leaves (bo : ByteOrder) : ∀ T : Descriptor,
    T.leaf_types (fun L => L.equiv bo) → T.equiv bo
  | .pointer reftype, h =>
    equiv_pointer _ reftype (equiv_of_leaves bo reftype (by simpa [Descriptor.leaf_types] using h))
  | .array etype, h =>
    equiv_array _ etype (equiv_of_leaves bo etype (by simpa [Descriptor.leaf_types] using h))
  | .fixedarray etype alen, h =>
    equiv_fixedarray _ etype alen
      (equiv_of_leaves bo etype (by simpa [Descriptor.leaf_types] using h))
  | .structure flist, h =>
    equiv_structure bo flist
      (fun i name T hi =>
        equiv_of_fields bo flist (by simpa [Descriptor.leaf_types] using h) i name T hi)
  | .union flist, h =>
    equiv_union bo flist (fun name T hT => by
      obtain ⟨i, hi⟩ := lookup_index flist name T hT
      exact equiv_of_fields bo flist (by simpa [Descriptor.leaf_types] using h) i name T hi)
  | .int _ _, h => by simpa [Descriptor.leaf_types] using h
  | .string _, h => by simpa [Descriptor.leaf_types] using h
  | .data _, h => by simpa [Descriptor.leaf_types] using h
  | .fixeddata _, h => by simpa [Descriptor.leaf_types] using h
  | .null, h => by simpa [Descriptor.leaf_types] using h
  | .array_length, h => by simpa [Descriptor.leaf_types] using h
  | .union_field_name, h => by simpa [Descriptor.leaf_types] using h
theorem equiv_of_fields (bo : ByteOrder) : ∀ fl : FieldList,
    fl.leaf_types (fun L => L.equiv bo) →
    ∀ (i : Nat) (name : List Nat) (T : Descriptor), fl.toList[i]? = some (name, T) → T.equiv bo
  | .END, _, _, _, _, hi => by simp [FieldList.toList] at hi
  | .FIELD fname type rest, h, 0, name, T, hi => by
    simp [FieldList.toList] at hi
    rw [← hi.2]
    exact equiv_of_leaves bo type h.1
  | .FIELD fname type rest, h, i + 1, name, T, hi => by
    simp [FieldList.toList] at hi
    exact equiv_of_fields bo rest h.2 i name T hi
end

theorem equiv_region (t : structs_type) (size : Nat)
    (ht : t.equal = structs_region_equal size) (V : Value → Prop)
    (hV : ∀ v, V v → ∃ bytes, v = .region bytes) : EquivOn t V := by
  refine ⟨?_, ?_, ?_, ?_⟩
  · intro a ha
    obtain ⟨x, rfl⟩ := hV a ha
    simp [ht, structs_region_equal]
  · intro a b ha hb
    obtain ⟨x, rfl⟩ := hV a ha
    obtain ⟨y, rfl⟩ := hV b hb
    simp only [ht, structs_region_equal]
    split_ifs <;> simp
  · intro a b ha hb
    obtain ⟨x, rfl⟩ := hV a ha
    obtain ⟨y, rfl⟩ := hV b hb
    simp only [ht, structs_region_equal]
    split_ifs with h1 h2 h2 <;> simp_all
  · intro a b c ha hb hc
    obtain ⟨x, rfl⟩ := hV a ha
    obtain ⟨y, rfl⟩ := hV b hb
    obtain ⟨z, rfl⟩ := hV c hc
    simp only [ht, structs_region_equal]
    split_ifs with h1 h2 h3 h3 h2 h3 h3 <;> simp_all

theorem equiv_int (bo : ByteOrder) (name : String) (size : Nat) :
    (Descriptor.int name size).equiv bo :=
  equiv_region _ size rfl _ (fun v hv => by
    cases v <;> simp [Descriptor.hasType] at hv
    exact ⟨_, rfl⟩)

theorem equiv_fixeddata (bo : ByteOrder) (length : Nat) : (Descriptor.fixeddata length).equiv bo :=
  equiv_region _ length rfl _ (fun v hv => by
    cases v <;> simp [Descriptor.hasType] at hv
    exact ⟨_, rfl⟩)

theorem equiv_data (bo : ByteOrder) (charset : Option (List Nat)) :
    (Descriptor.data charset).equiv bo := by
  have hV : ∀ v, (Descriptor.data charset).hasType v = true → ∃ bytes, v = .data bytes := by
    intro v hv
    cases v <;> simp [Descriptor.hasType] at hv
    exact ⟨_, rfl⟩
  refine ⟨?_, ?_, ?_, ?_⟩
  · intro a ha
    obtain ⟨x, rfl⟩ := hV a ha
    simp [Descriptor.type, STRUCTS_DATA_TYPE, structs_data_equal]
  · intro a b ha hb
    obtain ⟨x, rfl⟩ := hV a ha
    obtain ⟨y, rfl⟩ := hV b hb
    simp only [Descriptor.type, STRUCTS_DATA_TYPE, structs_data_equal]
    split_ifs <;> simp
  · intro a b ha hb
    obtain ⟨x, rfl⟩ := hV a ha
    obtain ⟨y, rfl⟩ := hV b hb
    simp only [Descriptor.type, STRUCTS_DATA_TYPE, structs_data_equal]
    intro h
    split_ifs at h with h1
    · simp only [List.take_length] at h1
      have : x = y := by
        have h2 := h1.2
        rw [h1.1, List.take_length] at h2
        exact h2
      subst this
      simp
    · exact absurd h (by decide)
  · intro a b c ha hb hc
    obtain ⟨x, rfl⟩ := hV a ha
    obtain ⟨y, rfl⟩ := hV b hb
    obtain ⟨z, rfl⟩ := hV c hc
    simp only [Descriptor.type, STRUCTS_DATA_TYPE, structs_data_equal]
    intro h h'
    split_ifs at h with h1
    · have : x = y := by
        have h2 := h1.2
        rw [List.take_length, h1.1, List.take_length] at h2
        exact h2
      subst this
      exact h'
    · exact absurd h (by decide)

theorem equiv_string (bo : ByteOrder) (asnull : Bool) : (Descriptor.string asnull).equiv bo := by
  have hV : ∀ v, (Descriptor.string asnull).hasType v = true → ∃ s, v = .string s := by
    intro v hv
    cases v <;> simp [Descriptor.hasType] at hv
    exact ⟨_, rfl⟩
  refine ⟨?_, ?_, ?_, ?_⟩
  · intro a ha
    obtain ⟨x, rfl⟩ := hV a ha
    cases asnull <;> cases x <;>
      simp [Descriptor.type, STRUCTS_STRING_TYPE, structs_string_equal, Descriptor.hasType] at ha ⊢
  · intro a b ha hb
    obtain ⟨x, rfl⟩ := hV a ha
    obtain ⟨y, rfl⟩ := hV b hb
    simp only [Descriptor.type, STRUCTS_STRING_TYPE]
    exact string_equal_bool asnull _ _
  · intro a b ha hb
    obtain ⟨x, rfl⟩ := hV a ha
    obtain ⟨y, rfl⟩ := hV b hb
    simp only [Descriptor.type, STRUCTS_STRING_TYPE]
    intro h
    rw [string_equal_symm asnull]
    exact h
  · intro a b c ha hb hc
    obtain ⟨x, rfl⟩ := hV a ha
    obtain ⟨y, rfl⟩ := hV b hb
    obtain ⟨z, rfl⟩ := hV c hc
    simp only [Descriptor.type, STRUCTS_STRING_TYPE]
    intro h1 h2
    cases asnull <;> rcases x with _ | x <;> rcases y with _ | y <;> rcases z with _ | z <;>
      simp [structs_string_equal] at h1 h2 ⊢ <;> (try split_ifs at h1 h2 ⊢) <;> simp_all

/-- C38: derived equality is an equivalence.  For every descriptor built from
pointers, variable arrays, fixed arrays, structures and unions over leaves
whose `equal` is an equivalence relation on their live values, the `equal` of
the descriptor is one on its live values: it answers 0 or 1 and is reflexive,
symmetric and transitive.  Two live arrays (variable or fixed) are equal when
and only when their lengths are equal and their elements are equal index by
index, two live structures when and only when all their fields are equal,
two live unions when and only when they have the same active field and
equal payloads. -/
theorem derived_equal_equivalence (bo : ByteOrder) (T : Descriptor)
    (hleaf : T.leaf_types (fun L => EquivOn (L.type bo) (fun v => L.hasType v = true))) :
    EquivOn (T.type bo) (fun v => T.hasType v = true) ∧
    (∀ (e : Descriptor) (a b : List Value), T = .array e → T.hasType (.array a) = true →
      T.hasType (.array b) = true →
      ((T.type bo).equal (.array a) (.array b) = 1 ↔
        a.length = b.length ∧
          ∀ (i : Nat) (x y : Value), a[i]? = some x → b[i]? = some y →
            (e.type bo).equal x y = 1)) ∧
    (∀ (e : Descriptor) (alen : Nat) (a b : List Value), T = .fixedarray e alen →
      T.hasType (.fixedarray a) = true → T.hasType (.fixedarray b) = true →
      ((T.type bo).equal (.fixedarray a) (.fixedarray b) = 1 ↔
        a.length = b.length ∧
          ∀ (i : Nat) (x y : Value), a[i]? = some x → b[i]? = some y →
            (e.type bo).equal x y = 1)) ∧
    (∀ (fl : FieldList) (a b : List Value), T = .structure fl →
      T.hasType (.structure a) = true → T.hasType (.structure b) = true →
      ((T.type bo).equal (.structure a) (.structure b) = 1 ↔
        ∀ (i : Nat) (name : List Nat) (F : Descriptor) (x y : Value),
          fl.toList[i]? = some (name, F) → a[i]? = some x → b[i]? = some y →
          (F.type bo).equal x y = 1)) ∧
    (∀ (fl : FieldList) (n1 n2 : List Nat) (u1 u2 : Value), T = .union fl →
      T.hasType (.union (some n1) (some u1)) = true →
      T.hasType (.union (some n2) (some u2)) = true →
      ((T.type bo).equal (.union (some n1) (some u1)) (.union (some n2) (some u2)) = 1 ↔
        n1 = n2 ∧ ∃ F, fl.lookup n1 = some F ∧ (F.type bo).equal u1 u2 = 1)) := by
  refine ⟨equiv_of_leaves bo T hleaf, ?_, ?_, ?_, ?_⟩
  · rintro e a b rfl ha hb
    have he : e.equiv bo := equiv_of_leaves bo e (by simpa [Descriptor.leaf_types] using hleaf)
    obtain ⟨_, h1, ha', -⟩ := (hasType_array _ _).1 ha
    obtain ⟨_, h2, hb', -⟩ := (hasType_array _ _).1 hb
    cases h1
    cases h2
    rw [Descriptor.type, array_equal_one]
    constructor
    · rintro ⟨hl, hloop⟩
      rw [array_loop_iff _ a b hl] at hloop
      exact ⟨hl, fun i x y hx hy => (equiv_one _ _ he x y (ha' x (mem_of_index a i x hx))
        (hb' y (mem_of_index b i y hy))).1 (hloop i x y hx hy)⟩
    · rintro ⟨hl, hall⟩
      refine ⟨hl, (array_loop_iff _ a b hl).2 (fun i x y hx hy => ?_)⟩
      rw [hall i x y hx hy]
      decide
  · rintro e alen a b rfl ha hb
    have he : e.equiv bo := equiv_of_leaves bo e (by simpa [Descriptor.leaf_types] using hleaf)
    obtain ⟨_, h1, hla, ha'⟩ := (hasType_fixedarray _ _ _).1 ha
    obtain ⟨_, h2, hlb, hb'⟩ := (hasType_fixedarray _ _ _).1 hb
    cases h1
    cases h2
    have hl : a.length = b.length := hla.trans hlb.symm
    rw [Descriptor.type, fixedarray_equal_one _ alen a b hla hlb]
    constructor
    · intro hloop
      rw [array_loop_iff _ a b hl] at hloop
      exact ⟨hl, fun i x y hx hy => (equiv_one _ _ he x y (ha' x (mem_of_index a i x hx))
        (hb' y (mem_of_index b i y hy))).1 (hloop i x y hx hy)⟩
    · rintro ⟨-, hall⟩
      refine (array_loop_iff _ a b hl).2 (fun i x y hx hy => ?_)
      rw [hall i x y hx hy]
      decide
  · rintro fl a b rfl ha hb
    have hfl : fl.leaf_types (fun L => L.equiv bo) := by
      simpa [Descriptor.leaf_types] using hleaf
    obtain ⟨_, h1, ha'⟩ := (hasType_structure _ _).1 ha
    obtain ⟨_, h2, hb'⟩ := (hasType_structure _ _).1 hb
    cases h1
    cases h2
    rw [(struct_equal_iff bo fl a b ha' hb').2]
    constructor
    · intro h i name F x y hi hx hy
      exact (equiv_one _ _ (equiv_of_fields bo fl hfl i name F hi) x y
        ((hasTypes_index fl a ha').2 i name F x hi hx)
        ((hasTypes_index fl b hb').2 i name F y hi hy)).1 (h i name F x y hi hx hy)
    · intro h i name F x y hi hx hy
      rw [h i name F x y hi hx hy]
      decide
  · rintro fl n1 n2 u1 u2 rfl ha hb
    obtain ⟨_, _, h1, ha'⟩ := (hasType_union _ _).1 ha
    simp only [Value.union.injEq, Option.some.injEq] at h1
    obtain ⟨rfl, rfl⟩ := h1
    obtain ⟨F, hF, -⟩ := (hasVariant_iff_lookup _ _ _).1 ha'
    rw [union_equal_iff bo fl n1 n2 u1 u2 F hF]
    constructor
    · intro h
      split_ifs at h with hn
      · exact ⟨hn, F, hF, h⟩
      · exact absurd h (by decide)
    · rintro ⟨hn, F', hF', h⟩
      rw [hF] at hF'
      cases hF'
      rw [if_pos hn]
      exact h

theorem derived_equal_equivalence_witness :
    EquivOn (E2_type.type .BIG_ENDIAN) (fun v => E2_type.hasType v = true) ∧
    (∀ (e : Descriptor) (a b : List Value), E2_type = .array e →
      E2_type.hasType (.array a) = true → E2_type.hasType (.array b) = true →
      ((E2_type.type .BIG_ENDIAN).equal (.array a) (.array b) = 1 ↔
        a.length = b.length ∧
          ∀ (i : Nat) (x y : Value), a[i]? = some x → b[i]? = some y →
            (e.type .BIG_ENDIAN).equal x y = 1)) ∧
    (∀ (e : Descriptor) (alen : Nat) (a b : List Value), E2_type = .fixedarray e alen →
      E2_type.hasType (.fixedarray a) = true → E2_type.hasType (.fixedarray b) = true →
      ((E2_type.type .BIG_ENDIAN).equal (.fixedarray a) (.fixedarray b) = 1 ↔
        a.length = b.length ∧
          ∀ (i : Nat) (x y : Value), a[i]? = some x → b[i]? = some y →
            (e.type .BIG_ENDIAN).equal x y = 1)) ∧
    (∀ (fl : FieldList) (a b : List Value), E2_type = .structure fl →
      E2_type.hasType (.structure a) = true → E2_type.hasType (.structure b) = true →
      ((E2_type.type .BIG_ENDIAN).equal (.structure a) (.structure b) = 1 ↔
        ∀ (i : Nat) (name : List Nat) (F : Descriptor) (x y : Value),
          fl.toList[i]? = some (name, F) → a[i]? = some x → b[i]? = some y →
          (F.type .BIG_ENDIAN).equal x y = 1)) ∧
    (∀ (fl : FieldList) (n1 n2 : List Nat) (u1 u2 : Value), E2_type = .union fl →
      E2_type.hasType (.union (some n1) (some u1)) = true →
      E2_type.hasType (.union (some n2) (some u2)) = true →
      ((E2_type.type .BIG_ENDIAN).equal (.union (some n1) (some u1)) (.union (some n2) (some u2))
          = 1 ↔
        n1 = n2 ∧ ∃ F, fl.lookup n1 = some F ∧ (F.type .BIG_ENDIAN).equal u1 u2 = 1)) :=
  derived_equal_equivalence .BIG_ENDIAN E2_type
    ⟨equiv_int .BIG_ENDIAN _ _, equiv_string .BIG_ENDIAN _, equiv_int .BIG_ENDIAN _ _, trivial⟩

/-! ## The loader: frames and bounds -/

@[simp] theorem set_frame_depth (info : json_input_info) (i : Int) (f : json_input_stackframe) :
    (info.set_frame i f).depth = info.depth := rfl

@[simp] theorem set_frame_error (info : json_input_info) (i : Int) (f : json_input_stackframe) :
    (info.set_frame i f).error = info.error := rfl

@[simp] theorem set_frame_tag (info : json_input_info) (i : Int) (f : json_input_stackframe) :
    (info.set_frame i f).elem_tag = info.elem_tag := rfl

@[simp] theorem set_frame_length (info : json_input_info) (i : Int) (f : json_input_stackframe) :
    (info.set_frame i f).stack.length = info.stack.length := by
  simp [json_input_info.set_frame]

@[simp] theorem undefined_depth (info : json_input_info) :
    info.undefined.depth = info.depth := rfl

@[simp] theorem undefined_stack (info : json_input_info) :
    info.undefined.stack = info.stack := rfl

@[simp] theorem undefined_error (info : json_input_info) :
    info.undefined.error = some .undefined := rfl

theorem frame_some_iff (info : json_input_info) (i : Int) :
    (∃ f, info.frame i = some f) ↔ (0 ≤ i ∧ i < 32 ∧ i.toNat < info.stack.length) := by
  unfold json_input_info.frame MAX_JSON_INPUT_STACK
  constructor
  · rintro ⟨f, h⟩
    split_ifs at h with hi
    have := List.getElem?_eq_some_iff.mp h
    exact ⟨hi.1, by simpa using hi.2, this.1⟩
  · rintro ⟨h0, h1, h2⟩
    rw [if_pos ⟨h0, by simpa using h1⟩]
    exact ⟨_, List.getElem?_eq_getElem h2⟩

theorem frame_range (info : json_input_info) (i : Int) (f : json_input_stackframe)
    (h : info.frame i = some f) : 0 ≤ i ∧ i < 32 :=
  have := (frame_some_iff info i).mp ⟨f, h⟩
  ⟨this.1, this.2.1⟩

theorem pop_bounded (info : json_input_info) (h : info.bounded) :
    (structs_json_input_pop info).bounded := by
  unfold structs_json_input_pop
  cases hf : info.frame info.depth with
  | none => exact h
  | some f =>
    have := frame_range info _ f hf
    simp only [json_input_info.bounded, MAX_JSON_INPUT_STACK] at h ⊢
    simp only [set_frame_length, set_frame_depth]
    exact ⟨h.1, by omega, by omega⟩

theorem next_frame_bounded (info : json_input_info) (type : Descriptor) (data : Loc)
    (h : info.bounded) : (structs_json_input_next_frame info type data).bounded := by
  unfold structs_json_input_next_frame
  split_ifs with hd
  · exact h
  · cases hf : info.frame (info.depth + 1) with
    | none => exact h
    | some f =>
      have := frame_range info _ f hf
      simp only [json_input_info.bounded, MAX_JSON_INPUT_STACK] at h ⊢
      simp only [set_frame_length, set_frame_depth]
      exact ⟨h.1, by omega, by omega⟩

theorem set_frame_bounded (info : json_input_info) (i : Int) (f : json_input_stackframe)
    (h : info.bounded) : (info.set_frame i f).bounded := by
  simp only [json_input_info.bounded, set_frame_length, set_frame_depth] at h ⊢
  exact h

theorem with_error_bounded (info : json_input_info) (e : Option Errno) (h : info.bounded) :
    json_input_info.bounded { info with error := e } := h

theorem next_bounded (bo : ByteOrder) (info : json_input_info) (mem : loader_memory)
    (type : Descriptor) (data : Loc) (h : info.bounded) :
    (structs_json_input_next bo info mem type data).1.bounded := by
  unfold structs_json_input_next
  split
  · split
    · exact h
    · split
      · exact h
      · exact next_frame_bounded _ _ _ h
  · split
    · exact h
    · split
      · exact h
      · split
        · exact h
        · split
          · exact h
          · exact next_frame_bounded _ _ _ (set_frame_bounded _ _ _ h)
  · exact next_frame_bounded _ _ _ h

theorem nest_find_bounded (bo : ByteOrder) (info : json_input_info) (mem : loader_memory)
    (frame : json_input_stackframe) (type : Descriptor) (h : info.bounded) :
    (structs_json_input_nest_find bo info mem frame type).1.bounded := by
  unfold structs_json_input_nest_find
  split
  · exact h
  · split
    · exact h
    · split
      · split_ifs <;> exact h
      · exact h

theorem nest_bounded (bo : ByteOrder) (info : json_input_info) (mem : loader_memory)
    (h : info.bounded) : (structs_json_input_nest bo info mem).1.bounded := by
  unfold structs_json_input_nest
  split
  · exact h
  · split
    · exact h
    · exact h
    · exact nest_find_bounded _ _ _ _ _ h
    · exact nest_find_bounded _ _ _ _ _ h
    · split
      · exact h
      · split
        · split_ifs
          · exact h
          · split <;> exact h
        · exact h
    · split_ifs
      · exact h
      · split
        · exact h
        · exact set_frame_bounded _ _ _ h
    · exact h

theorem start_done_bounded (info : json_input_info) (d : Int) (h : info.bounded) :
    (structs_json_input_start_done info d).bounded := by
  unfold structs_json_input_start_done
  split
  · exact h
  · exact set_frame_bounded _ _ _ h

theorem start_top_bounded (bo : ByteOrder) (info : json_input_info) (mem : loader_memory)
    (frame : json_input_stackframe) (name : List Nat) (h : info.bounded) :
    (structs_json_input_start_top bo info mem frame name).1.bounded := by
  unfold structs_json_input_start_top
  split_ifs
  · exact start_done_bounded _ _ h
  · split
    · exact start_done_bounded _ _ (next_bounded _ _ _ _ _ h)
    · exact h

theorem start_sub_bounded (bo : ByteOrder) (info : json_input_info) (mem : loader_memory)
    (depth : Int) (item : Option (Descriptor × Loc)) (h : info.bounded) :
    (structs_json_input_start_sub bo info mem depth item).1.bounded := by
  unfold structs_json_input_start_sub
  split_ifs
  · exact start_done_bounded _ _ h
  · split
    · exact h
    · split_ifs
      · exact start_done_bounded _ _ (next_bounded _ _ _ _ _ h)
      · exact next_bounded _ _ _ _ _ h
      · exact start_done_bounded _ _ (next_bounded _ _ _ _ _ h)

theorem start_bounded (bo : ByteOrder) (info : json_input_info) (mem : loader_memory)
    (key : Option (List Nat)) (h : info.bounded) :
    (structs_json_input_start bo info mem key).1.bounded := by
  unfold structs_json_input_start
  split
  · exact h
  · split
    · exact h
    · split
      · exact h
      · split
        · exact start_top_bounded _ _ _ _ _ (set_frame_bounded _ _ _ h)
        · exact start_sub_bounded _ _ _ _ _ (nest_bounded _ _ _ (set_frame_bounded _ _ _ h))

theorem str_value_bounded (info : json_input_info) (mem : loader_memory) (s : List Nat)
    (h : info.bounded) : (structs_json_input_str_value info mem s).1.bounded := by
  unfold structs_json_input_str_value
  split
  · exact h
  · split_ifs
    · exact h
    · exact h
    · exact set_frame_bounded _ _ _ h

theorem unnest_set_bounded (bo : ByteOrder)
    (lb : Descriptor → List Nat → Except Errno Value) (info : json_input_info)
    (mem : loader_memory) (frame : json_input_stackframe) (type : Descriptor) (data : Loc)
    (h : info.bounded) :
    (structs_json_input_unnest_set bo lb info mem frame type data).1.bounded := by
  unfold structs_json_input_unnest_set
  split
  · exact h
  · split
    · exact h
    · exact pop_bounded _ h

theorem unnest_done_bounded (info : json_input_info) (mem : loader_memory)
    (frame : json_input_stackframe) (h : info.bounded) :
    (structs_json_input_unnest_done info mem frame).1.bounded := by
  unfold structs_json_input_unnest_done
  split_ifs
  · exact h
  · exact pop_bounded _ h

theorem unnest_bounded (bo : ByteOrder) (lb : Descriptor → List Nat → Except Errno Value)
    (info : json_input_info) (mem : loader_memory) (h : info.bounded) :
    (structs_json_input_unnest bo lb info mem).1.bounded := by
  unfold structs_json_input_unnest
  split
  · exact h
  · split
    · exact h
    · split
      · exact h
      · split
        · exact pop_bounded _ h
        · split
          · exact h
          · split
            · exact unnest_done_bounded _ _ _ h
            · split
              · exact h
              · split
                · exact h
                · split
                  · exact h
                  · exact unnest_set_bounded _ _ _ _ _ _ _ h
      · split
        · split
          · exact h
          · exact unnest_set_bounded _ _ _ _ _ _ _ h
        · exact unnest_done_bounded _ _ _ h

theorem event_bounded (bo : ByteOrder) (lb : Descriptor → List Nat → Except Errno Value)
    (event : loader_event) (s : json_input_info × loader_memory) (h : s.1.bounded) :
    (structs_json_input_event bo lb event s).1.bounded := by
  cases event with
  | start key => exact start_bounded _ _ _ _ h
  | str_value text => exact str_value_bounded _ _ _ h
  | finish => exact unnest_bounded _ _ _ _ h

theorem events_bounded (bo : ByteOrder) (lb : Descriptor → List Nat → Except Errno Value) :
    ∀ (events : List loader_event) (s : json_input_info × loader_memory), s.1.bounded →
      (structs_json_input_events bo lb events s).1.bounded
  | [], _, h => h
  | event :: events, s, h =>
    events_bounded bo lb events _ (event_bounded bo lb event s h)

theorem array_done_bounded (info : json_input_info) (h : info.bounded) :
    (structs_json_input_data_array_done info).bounded := by
  unfold structs_json_input_data_array_done
  split_ifs
  · split
    · exact h
    · split
      · exact h
      · exact set_frame_bounded _ _ _ h
  · exact h

mutual
theorem data_bounded (bo : ByteOrder) (lb : Descriptor → List Nat → Except Errno Value) :
    ∀ (obj : json_t) (s : json_input_info × loader_memory), s.1.bounded →
      (structs_json_input_data bo lb obj s).1.bounded
  | .JSON_OBJECT members, s, h => by
    simp only [structs_json_input_data]
    exact data_object_bounded bo lb members s h
  | .JSON_ARRAY .done, s, h => by
    simp only [structs_json_input_data]
    exact h
  | .JSON_ARRAY (.item jvalue rest), s, h => by
    simp only [structs_json_input_data]
    exact array_done_bounded _ (data_array_bounded bo lb (.item jvalue rest) s h)
  | .JSON_STRING str, s, h => by
    simp only [structs_json_input_data]
    exact str_value_bounded _ _ _ h
  | .JSON_INTEGER value, s, h => by
    simp only [structs_json_input_data]
    exact str_value_bounded _ _ _ h
  | .JSON_REAL text, s, h => by
    simp only [structs_json_input_data]
    exact str_value_bounded _ _ _ h
  | .JSON_TRUE, s, h => by
    simp only [structs_json_input_data]
    exact str_value_bounded _ _ _ h
  | .JSON_FALSE, s, h => by
    simp only [structs_json_input_data]
    exact str_value_bounded _ _ _ h
  | .JSON_NULL, s, h => by
    simp only [structs_json_input_data]
    exact h
theorem data_object_bounded (bo : ByteOrder)
    (lb : Descriptor → List Nat → Except Errno Value) :
    ∀ (members : json_members) (s : json_input_info × loader_memory), s.1.bounded →
      (structs_json_input_data_object bo lb members s).1.bounded
  | .done, s, h => by
    simp only [structs_json_input_data_object]
    exact h
  | .member key jvalue rest, s, h => by
    simp only [structs_json_input_data_object]
    exact data_object_bounded bo lb rest _
      (unnest_bounded _ _ _ _ (data_bounded bo lb jvalue _ (start_bounded _ _ _ _ h)))
theorem data_array_bounded (bo : ByteOrder)
    (lb : Descriptor → List Nat → Except Errno Value) :
    ∀ (items : json_items) (s : json_input_info × loader_memory), s.1.bounded →
      (structs_json_input_data_array bo lb items s).1.bounded
  | .done, s, h => by
    simp only [structs_json_input_data_array]
    exact h
  | .item jvalue rest, s, h => by
    simp only [structs_json_input_data_array]
    exact data_array_bounded bo lb rest _
      (unnest_bounded _ _ _ _ (data_bounded bo lb jvalue _ (start_bounded _ _ _ _ h)))
end

/-! ## The loader: the first error -/

theorem frame_isSome_iff (info : json_input_info) (i : Int) :
    (info.frame i).isSome = true ↔ (0 ≤ i ∧ i < 32 ∧ i.toNat < info.stack.length) := by
  rw [← frame_some_iff, Option.isSome_iff_exists]

theorem set_frame_frame_isSome (info : json_input_info) (i j : Int)
    (f : json_input_stackframe) :
    ((info.set_frame i f).frame j).isSome = true ↔ (info.frame j).isSome = true := by
  rw [frame_isSome_iff, frame_isSome_iff, set_frame_length]

theorem start_after_error (bo : ByteOrder) (info : json_input_info) (mem : loader_memory)
    (key : Option (List Nat)) (he : info.error ≠ none)
    (hf : (info.frame info.depth).isSome = true) :
    structs_json_input_start bo info mem key = (info, mem) := by
  obtain ⟨f, hf⟩ := Option.isSome_iff_exists.mp hf
  simp only [structs_json_input_start, hf, he, if_true, ne_eq, not_false_eq_true]

theorem str_value_after_error (info : json_input_info) (mem : loader_memory)
    (s : List Nat) (he : info.error ≠ none) (hf : (info.frame info.depth).isSome = true) :
    structs_json_input_str_value info mem s = (info, mem) := by
  obtain ⟨f, hf⟩ := Option.isSome_iff_exists.mp hf
  simp only [structs_json_input_str_value, hf, he, if_true, ne_eq, not_false_eq_true]

theorem unnest_after_error (bo : ByteOrder) (lb : Descriptor → List Nat → Except Errno Value)
    (info : json_input_info) (mem : loader_memory) (he : info.error ≠ none)
    (hf : (info.frame info.depth).isSome = true) :
    structs_json_input_unnest bo lb info mem = (info, mem) := by
  obtain ⟨f, hf⟩ := Option.isSome_iff_exists.mp hf
  simp only [structs_json_input_unnest, hf, he, if_true, ne_eq, not_false_eq_true]

theorem events_after_error (bo : ByteOrder) (lb : Descriptor → List Nat → Except Errno Value)
    (info : json_input_info) (mem : loader_memory) (he : info.error ≠ none)
    (hf : (info.frame info.depth).isSome = true) :
    ∀ events : List loader_event,
      structs_json_input_events bo lb events (info, mem) = (info, mem)
  | [] => rfl
  | .start key :: events => by
    simp only [structs_json_input_events, structs_json_input_event,
      start_after_error bo info mem key he hf]
    exact events_after_error bo lb info mem he hf events
  | .str_value text :: events => by
    simp only [structs_json_input_events, structs_json_input_event,
      str_value_after_error info mem text he hf]
    exact events_after_error bo lb info mem he hf events
  | .finish :: events => by
    simp only [structs_json_input_events, structs_json_input_event, structs_json_input_end,
      unnest_after_error bo lb info mem he hf]
    exact events_after_error bo lb info mem he hf events

theorem array_done_keeps (info : json_input_info)
    (hf : (info.frame info.depth).isSome = true) :
    (structs_json_input_data_array_done info).error = info.error ∧
      (structs_json_input_data_array_done info).depth = info.depth ∧
      ((structs_json_input_data_array_done info).frame
        (structs_json_input_data_array_done info).depth).isSome = true := by
  have hr := (frame_isSome_iff info info.depth).mp hf
  unfold structs_json_input_data_array_done
  split
  · rename_i hd
    cases hb : info.frame (info.depth - 1) with
    | none =>
      exfalso
      have : (info.frame (info.depth - 1)).isSome = true := by
        rw [frame_isSome_iff]
        refine ⟨by omega, by omega, ?_⟩
        have : (info.depth - 1).toNat ≤ info.depth.toNat := by omega
        omega
      rw [hb] at this
      exact absurd this (by simp)
    | some below =>
      simp only []
      split
      · exact ⟨rfl, rfl, hf⟩
      · refine ⟨rfl, rfl, ?_⟩
        simp only [set_frame_depth]
        rw [set_frame_frame_isSome]
        exact hf
  · exact ⟨rfl, rfl, hf⟩

theorem turn_after_error (bo : ByteOrder) (lb : Descriptor → List Nat → Except Errno Value)
    (key : Option (List Nat))
    (f : json_input_info × loader_memory → json_input_info × loader_memory)
    (hfn : ∀ s : json_input_info × loader_memory, s.1.error ≠ none →
      (s.1.frame s.1.depth).isSome = true →
      (f s).1.error = s.1.error ∧ (f s).1.depth = s.1.depth ∧ (f s).2 = s.2 ∧
        ((f s).1.frame (f s).1.depth).isSome = true)
    (s : json_input_info × loader_memory) (he : s.1.error ≠ none)
    (hf : (s.1.frame s.1.depth).isSome = true) :
    structs_json_input_end bo lb (f (structs_json_input_start bo s.1 s.2 key)).1
        (f (structs_json_input_start bo s.1 s.2 key)).2 = f s := by
  rw [start_after_error bo s.1 s.2 key he hf]
  obtain ⟨h1, _, _, h4⟩ := hfn s he hf
  unfold structs_json_input_end
  rw [unnest_after_error bo lb _ _ (by rw [h1]; exact he) h4]

mutual
theorem data_after_error (bo : ByteOrder) (lb : Descriptor → List Nat → Except Errno Value) :
    ∀ (obj : json_t) (s : json_input_info × loader_memory), s.1.error ≠ none →
      (s.1.frame s.1.depth).isSome = true →
      (structs_json_input_data bo lb obj s).1.error = s.1.error ∧
        (structs_json_input_data bo lb obj s).1.depth = s.1.depth ∧
        (structs_json_input_data bo lb obj s).2 = s.2 ∧
        ((structs_json_input_data bo lb obj s).1.frame
          (structs_json_input_data bo lb obj s).1.depth).isSome = true
  | .JSON_OBJECT members, s, he, hf => by
    rw [structs_json_input_data]
    exact data_object_after_error bo lb members s he hf
  | .JSON_ARRAY .done, s, _, hf => by
    rw [structs_json_input_data]
    exact ⟨rfl, rfl, rfl, hf⟩
  | .JSON_ARRAY (.item jvalue rest), s, he, hf => by
    rw [structs_json_input_data]
    obtain ⟨h1, h2, h3, h4⟩ := data_array_after_error bo lb (.item jvalue rest) s he hf
    obtain ⟨k1, k2, k3⟩ := array_done_keeps _ h4
    exact ⟨k1.trans h1, k2.trans h2, h3, k3⟩
  | .JSON_STRING str, s, he, hf => by
    rw [structs_json_input_data, str_value_after_error s.1 s.2 _ he hf]
    exact ⟨rfl, rfl, rfl, hf⟩
  | .JSON_INTEGER value, s, he, hf => by
    rw [structs_json_input_data, str_value_after_error s.1 s.2 _ he hf]
    exact ⟨rfl, rfl, rfl, hf⟩
  | .JSON_REAL text, s, he, hf => by
    rw [structs_json_input_data, str_value_after_error s.1 s.2 _ he hf]
    exact ⟨rfl, rfl, rfl, hf⟩
  | .JSON_TRUE, s, he, hf => by
    rw [structs_json_input_data, str_value_after_error s.1 s.2 _ he hf]
    exact ⟨rfl, rfl, rfl, hf⟩
  | .JSON_FALSE, s, he, hf => by
    rw [structs_json_input_data, str_value_after_error s.1 s.2 _ he hf]
    exact ⟨rfl, rfl, rfl, hf⟩
  | .JSON_NULL, s, _, hf => by
    rw [structs_json_input_data]
    exact ⟨rfl, rfl, rfl, hf⟩
theorem data_object_after_error (bo : ByteOrder)
    (lb : Descriptor → List Nat → Except Errno Value) :
    ∀ (members : json_members) (s : json_input_info × loader_memory), s.1.error ≠ none →
      (s.1.frame s.1.depth).isSome = true →
      (structs_json_input_data_object bo lb members s).1.error = s.1.error ∧
        (structs_json_input_data_object bo lb members s).1.depth = s.1.depth ∧
        (structs_json_input_data_object bo lb members s).2 = s.2 ∧
        ((structs_json_input_data_object bo lb members s).1.frame
          (structs_json_input_data_object bo lb members s).1.depth).isSome = true
  | .done, s, _, hf => by
    rw [structs_json_input_data_object]
    exact ⟨rfl, rfl, rfl, hf⟩
  | .member key jvalue rest, s, he, hf => by
    rw [structs_json_input_data_object]
    rw [turn_after_error bo lb (some key) (structs_json_input_data bo lb jvalue)
      (data_after_error bo lb jvalue) s he hf]
    obtain ⟨h1, h2, h3, h4⟩ := data_after_error bo lb jvalue s he hf
    obtain ⟨k1, k2, k3, k4⟩ := data_object_after_error bo lb rest
      (structs_json_input_data bo lb jvalue s) (by rw [h1]; exact he) h4
    exact ⟨k1.trans h1, k2.trans h2, k3.trans h3, k4⟩
theorem data_array_after_error (bo : ByteOrder)
    (lb : Descriptor → List Nat → Except Errno Value) :
    ∀ (items : json_items) (s : json_input_info × loader_memory), s.1.error ≠ none →
      (s.1.frame s.1.depth).isSome = true →
      (structs_json_input_data_array bo lb items s).1.error = s.1.error ∧
        (structs_json_input_data_array bo lb items s).1.depth = s.1.depth ∧
        (structs_json_input_data_array bo lb items s).2 = s.2 ∧
        ((structs_json_input_data_array bo lb items s).1.frame
          (structs_json_input_data_array bo lb items s).1.depth).isSome = true
  | .done, s, _, hf => by
    rw [structs_json_input_data_array]
    exact ⟨rfl, rfl, rfl, hf⟩
  | .item jvalue rest, s, he, hf => by
    rw [structs_json_input_data_array]
    rw [turn_after_error bo lb none (structs_json_input_data bo lb jvalue)
      (data_after_error bo lb jvalue) s he hf]
    obtain ⟨h1, h2, h3, h4⟩ := data_after_error bo lb jvalue s he hf
    obtain ⟨k1, k2, k3, k4⟩ := data_array_after_error bo lb rest
      (structs_json_input_data bo lb jvalue s) (by rw [h1]; exact he) h4
    exact ⟨k1.trans h1, k2.trans h2, k3.trans h3, k4⟩
end

theorem pop_error (info : json_input_info) (h : info.bounded) (hd : info.depth ≥ 0) :
    (structs_json_input_pop info).error = info.error := by
  unfold structs_json_input_pop
  cases hf : info.frame info.depth with
  | none =>
    exfalso
    have : (info.frame info.depth).isSome = true := by
      rw [frame_isSome_iff]
      simp only [json_input_info.bounded, MAX_JSON_INPUT_STACK] at h
      omega
    rw [hf] at this
    exact absurd this (by simp)
  | some f => rfl

theorem pop_all_error : ∀ (turns : Nat) (info : json_input_info), info.bounded →
    (structs_json_input_pop_all turns info).error = info.error
  | 0, _, _ => rfl
  | turns + 1, info, h => by
    unfold structs_json_input_pop_all
    split
    · rename_i hd
      rw [pop_all_error turns _ (pop_bounded info h), pop_error info h hd]
    · rfl

theorem input_info_bounded (type : Descriptor) (elem_tag : List Nat) :
    (structs_json_input_info type elem_tag).bounded := by
  simp [json_input_info.bounded, structs_json_input_info, MAX_JSON_INPUT_STACK]

theorem input_retval (bo : ByteOrder) (lb : Descriptor → List Nat → Except Errno Value)
    (type : Descriptor) (elem_tag : List Nat) (result : json_t) (errno : Option Errno)
    (data : Value) (hi : (type.type bo).init = .ok data) :
    structs_json_input bo lb type elem_tag (some result) errno =
      (if (structs_json_input_data bo lb result
            (structs_json_input_info type elem_tag, ⟨data, errno⟩)).1.error =
          some .undefined then .error .undefined
        else
          .ok ((if (structs_json_input_data bo lb result
              (structs_json_input_info type elem_tag, ⟨data, errno⟩)).1.error ≠ none
            then -1 else 0),
            (structs_json_input_data bo lb result
              (structs_json_input_info type elem_tag, ⟨data, errno⟩)).2)) := by
  simp only [structs_json_input, hi]
  rw [pop_all_error _ _ (data_bounded bo lb result _ (input_info_bounded type elem_tag))]

/-! ## The loader: one more step of a location -/

theorem read_snoc (bo : ByteOrder) (step : Step) (x : Value)
    (hr : ∀ b, x ≠ .region b) (hs : ∀ s, x ≠ .string s) :
    ∀ (loc : Loc) (v : Value), v.read bo loc = some x →
      v.read bo (loc ++ [step]) = x.read bo [step]
  | [], v, h => by
    simp only [Value.read, Option.some.injEq] at h
    rw [h, List.nil_append]
  | st :: loc, v, h => by
    cases v with
    | pointer pdata =>
      cases pdata with
      | none =>
        cases st with
        | args2 =>
          cases loc <;> simp [Value.read, uint_bytes] at h
          exact absurd h.symm (hr _)
        | _ => cases loc <;> simp [Value.read, uint_bytes] at h
      | some p =>
        cases st with
        | deref =>
          simp only [Value.read] at h
          simpa [Value.read] using read_snoc bo step x hr hs loc p h
        | args2 =>
          cases loc <;> simp [Value.read, uint_bytes] at h
          exact absurd h.symm (hr _)
        | _ => cases loc <;> simp [Value.read, uint_bytes] at h
    | array es =>
      cases st with
      | elem index =>
        simp only [Value.read] at h
        cases hget : es[index]? with
        | none => simp [hget] at h
        | some elem =>
          simp only [hget] at h
          simpa [Value.read, hget] using read_snoc bo step x hr hs loc elem h
      | args2 =>
        cases loc <;> simp [Value.read, uint_bytes] at h
        exact absurd h.symm (hr _)
      | length =>
        cases loc <;> simp [Value.read, uint_bytes] at h
        exact absurd h.symm (hr _)
      | _ => cases loc <;> simp [Value.read, uint_bytes] at h
    | fixedarray es =>
      cases st with
      | felem index =>
        simp only [Value.read] at h
        cases hget : es[index]? with
        | none => simp [hget] at h
        | some elem =>
          simp only [hget] at h
          simpa [Value.read, hget] using read_snoc bo step x hr hs loc elem h
      | args2 =>
        cases loc <;> simp [Value.read, uint_bytes] at h
        exact absurd h.symm (hr _)
      | _ => cases loc <;> simp [Value.read, uint_bytes] at h
    | «structure» es =>
      cases st with
      | member index =>
        simp only [Value.read] at h
        cases hget : es[index]? with
        | none => simp [hget] at h
        | some elem =>
          simp only [hget] at h
          simpa [Value.read, hget] using read_snoc bo step x hr hs loc elem h
      | args2 =>
        cases loc <;> simp [Value.read, uint_bytes] at h
        exact absurd h.symm (hr _)
      | _ => cases loc <;> simp [Value.read, uint_bytes] at h
    | union fn un =>
      cases st with
      | un =>
        cases un with
        | none => cases loc <;> cases fn <;> simp [Value.read, uint_bytes] at h
        | some u =>
          simp only [Value.read] at h
          simpa [Value.read] using read_snoc bo step x hr hs loc u h
      | args2 =>
        cases loc <;> simp [Value.read, uint_bytes] at h
        exact absurd h.symm (hr _)
      | field_name =>
        cases loc <;> cases fn <;> cases un <;> simp [Value.read, uint_bytes] at h
        all_goals exact absurd h.symm (hs _)
      | _ => cases loc <;> cases fn <;> cases un <;> simp [Value.read, uint_bytes] at h
    | region _ =>
      cases st with
      | args2 =>
        cases loc <;> simp [Value.read, uint_bytes] at h
        exact absurd h.symm (hr _)
      | _ => cases loc <;> simp [Value.read, uint_bytes] at h
    | string _ =>
      cases st with
      | args2 =>
        cases loc <;> simp [Value.read, uint_bytes] at h
        exact absurd h.symm (hr _)
      | _ => cases loc <;> simp [Value.read, uint_bytes] at h
    | data _ =>
      cases st with
      | args2 =>
        cases loc <;> simp [Value.read, uint_bytes] at h
        exact absurd h.symm (hr _)
      | _ => cases loc <;> simp [Value.read, uint_bytes] at h

theorem read_snoc_deref (bo : ByteOrder) (loc : Loc) (v p : Value)
    (h : v.read bo loc = some (.pointer (some p))) : v.read bo (loc ++ [.deref]) = some p := by
  rw [read_snoc bo .deref _ (by simp) (by simp) loc v h]
  simp [Value.read]

/-! ## The loader: the frame that a start pushes -/

theorem frame_set_frame_ne (info : json_input_info) (i j : Int) (f : json_input_stackframe)
    (hi : 0 ≤ i) (hij : j ≠ i) : (info.set_frame i f).frame j = info.frame j := by
  unfold json_input_info.frame json_input_info.set_frame
  split_ifs with hj
  · simp only []
    rw [List.getElem?_set_ne]
    omega
  · rfl

theorem frame_set_frame_self (info : json_input_info) (i : Int)
    (f : json_input_stackframe) (h : (info.frame i).isSome = true) :
    (info.set_frame i f).frame i = some f := by
  have hr := (frame_isSome_iff info i).mp h
  unfold json_input_info.frame json_input_info.set_frame MAX_JSON_INPUT_STACK
  rw [if_pos ⟨hr.1, by simpa using hr.2.1⟩]
  simp only []
  rw [List.getElem?_set_self hr.2.2]

theorem next_frame_pushes (info : json_input_info) (type : Descriptor) (data : Loc)
    (he : info.error = none) (hf : (info.frame (info.depth + 1)).isSome = true) :
    (structs_json_input_next_frame info type data).error = none ∧
      (structs_json_input_next_frame info type data).depth = info.depth + 1 ∧
      (∃ f, (structs_json_input_next_frame info type data).frame (info.depth + 1) = some f ∧
        f.type = some type ∧ f.data = some data) ∧
      ∀ j, j ≠ info.depth + 1 →
        (structs_json_input_next_frame info type data).frame j = info.frame j := by
  have hr := (frame_isSome_iff info _).mp hf
  obtain ⟨above, ha⟩ := Option.isSome_iff_exists.mp hf
  have hd : ¬ info.depth = (MAX_JSON_INPUT_STACK : Int) - 1 := by
    simp only [MAX_JSON_INPUT_STACK]
    omega
  have heq : structs_json_input_next_frame info type data =
      { info.set_frame (info.depth + 1) { above with type := some type, data := some data }
        with depth := info.depth + 1 } := by
    simp only [structs_json_input_next_frame, hd, if_false, ha]
  rw [heq]
  refine ⟨he, rfl, ⟨_, frame_set_frame_self info _ _ hf, rfl, rfl⟩, ?_⟩
  intro j hj
  exact frame_set_frame_ne info _ j _ hr.1 hj

theorem next_deref_type : ∀ (T : Descriptor) (loc : Loc),
    (structs_json_input_next_deref T loc).1 = T.deref
  | .pointer r, loc => by
    simp only [structs_json_input_next_deref, Descriptor.deref]
    exact next_deref_type r _
  | .int _ _, _ => rfl
  | .string _, _ => rfl
  | .data _, _ => rfl
  | .fixeddata _, _ => rfl
  | .null, _ => rfl
  | .array_length, _ => rfl
  | .union_field_name, _ => rfl
  | .array _, _ => rfl
  | .fixedarray _ _, _ => rfl
  | .structure _, _ => rfl
  | .union _, _ => rfl

theorem store_read (bo : ByteOrder) (mem : loader_memory) (loc : Loc) (x : Value)
    (elems : List Value) (h : mem.data.read bo loc = some (.array elems)) :
    (mem.store loc x).data.read bo loc = some x := by
  obtain ⟨v', hv⟩ := read_array_write bo x loc mem.data elems h
  simp only [loader_memory.store, hv, Option.getD_some]
  exact write_read bo loc _ _ _ hv

/-- What `structs_json_input_next` leaves for a live item below the last
frame: no error, one frame more, the type and the location of the item after
the pointers in the new frame, the other frames as they were. -/
theorem next_pushes (bo : ByteOrder) : ∀ (T : Descriptor) (info : json_input_info)
    (mem : loader_memory) (loc : Loc) (v d0 : Value), info.error = none →
    (info.frame (info.depth + 1)).isSome = true → mem.data.read bo loc = some v →
    T.hasType v = true → (T.type bo).init = .ok d0 →
    (structs_json_input_next bo info mem T loc).1.error = none ∧
      (structs_json_input_next bo info mem T loc).1.depth = info.depth + 1 ∧
      (∃ f, (structs_json_input_next bo info mem T loc).1.frame (info.depth + 1) = some f ∧
        f.type = some T.deref ∧ f.data = some (structs_json_input_next_deref T loc).2) ∧
      ∀ j, j ≠ info.depth + 1 →
        (structs_json_input_next bo info mem T loc).1.frame j = info.frame j
  | .pointer r, info, mem, loc, v, d0, he, hf, hv, ht, hi => by
    obtain ⟨p, rfl, hp⟩ := (hasType_pointer r v).mp ht
    have hi' : ∃ p0, (r.type bo).init = .ok p0 := by
      simp only [Descriptor.type, STRUCTS_POINTER_TYPE, structs_pointer_init] at hi
      cases hr : (r.type bo).init with
      | error e => simp [hr] at hi
      | ok p0 => exact ⟨p0, rfl⟩
    obtain ⟨p0, hp0⟩ := hi'
    have := next_pushes bo r info mem (loc ++ [.deref]) p p0 he hf
      (read_snoc_deref bo loc _ p hv) hp hp0
    simpa only [structs_json_input_next, structs_json_input_next_deref, Descriptor.deref]
      using this
  | .array e, info, mem, loc, v, d0, he, hf, hv, ht, hi => by
    obtain ⟨r, hr⟩ := uninit_defined bo (.array e) v ht
    simp only [structs_json_input_next, structs_json_input_next_deref, hv, hr,
      Descriptor.deref]
    exact next_frame_pushes info _ _ he hf
  | .fixedarray e n, info, mem, loc, v, d0, he, hf, hv, ht, hi => by
    obtain ⟨r, hr⟩ := uninit_defined bo (.fixedarray e n) v ht
    obtain ⟨above, ha⟩ := Option.isSome_iff_exists.mp hf
    have hrng := (frame_isSome_iff info _).mp hf
    simp only [structs_json_input_next, structs_json_input_next_deref, hv, hr, hi, ha,
      Descriptor.deref]
    have hf' : ((info.set_frame (info.depth + 1) { above with index := 0 }).frame
        ((info.set_frame (info.depth + 1) { above with index := 0 }).depth + 1)).isSome
        = true := by
      rw [set_frame_depth, set_frame_frame_isSome]
      exact hf
    obtain ⟨h1, h2, h3, h4⟩ := next_frame_pushes
      (info.set_frame (info.depth + 1) { above with index := 0 }) (.fixedarray e n) loc he hf'
    refine ⟨h1, h2, h3, ?_⟩
    intro j hj
    rw [h4 j hj]
    exact frame_set_frame_ne info _ j _ hrng.1 hj
  | .int _ _, info, mem, loc, v, d0, he, hf, hv, ht, hi =>
    next_frame_pushes info _ _ he hf
  | .string _, info, mem, loc, v, d0, he, hf, hv, ht, hi =>
    next_frame_pushes info _ _ he hf
  | .data _, info, mem, loc, v, d0, he, hf, hv, ht, hi =>
    next_frame_pushes info _ _ he hf
  | .fixeddata _, info, mem, loc, v, d0, he, hf, hv, ht, hi =>
    next_frame_pushes info _ _ he hf
  | .null, info, mem, loc, v, d0, he, hf, hv, ht, hi =>
    next_frame_pushes info _ _ he hf
  | .array_length, info, mem, loc, v, d0, he, hf, hv, ht, hi =>
    next_frame_pushes info _ _ he hf
  | .union_field_name, info, mem, loc, v, d0, he, hf, hv, ht, hi =>
    next_frame_pushes info _ _ he hf
  | .structure _, info, mem, loc, v, d0, he, hf, hv, ht, hi =>
    next_frame_pushes info _ _ he hf
  | .union _, info, mem, loc, v, d0, he, hf, hv, ht, hi =>
    next_frame_pushes info _ _ he hf

/-! ## The loader: the tag of the top level -/

theorem start_done_frame (info : json_input_info) (d : Int)
    (h : (info.frame d).isSome = true) :
    (structs_json_input_start_done info d).error = info.error ∧
      (structs_json_input_start_done info d).depth = info.depth ∧
      (∀ j, ((structs_json_input_start_done info d).frame j).isSome = (info.frame j).isSome) ∧
      ∀ j, j ≠ d → (structs_json_input_start_done info d).frame j = info.frame j := by
  obtain ⟨f, hf⟩ := Option.isSome_iff_exists.mp h
  have hr := (frame_isSome_iff info d).mp h
  simp only [structs_json_input_start_done, hf]
  refine ⟨rfl, rfl, ?_, ?_⟩
  · intro j
    rw [Bool.eq_iff_iff, set_frame_frame_isSome]
  · intro j hj
    exact frame_set_frame_ne info d j _ hr.1 hj

theorem start_top_mismatch (bo : ByteOrder) (info : json_input_info) (mem : loader_memory)
    (frame : json_input_stackframe) (key : Option (List Nat)) (he : info.error = none)
    (hd : info.depth = 0) (hf : info.frame 0 = some frame) (hk : key ≠ some info.elem_tag) :
    (structs_json_input_start bo info mem key).1.error = some .EINVAL ∧
      (structs_json_input_start bo info mem key).1.depth = 0 ∧
      (structs_json_input_start bo info mem key).2 = mem ∧
      ((structs_json_input_start bo info mem key).1.frame 0).isSome = true ∧
      ∀ j, j ≠ 0 → (structs_json_input_start bo info mem key).1.frame j = info.frame j := by
  obtain ⟨error, depth, tag, stack⟩ := info
  simp only at he hd hk
  subst he hd
  have hf0 : ((json_input_info.mk none 0 tag stack).frame 0).isSome = true := by rw [hf]; rfl
  cases key with
  | none =>
    have heq : structs_json_input_start bo ⟨none, 0, tag, stack⟩ mem none =
        (⟨some .EINVAL, 0, tag, stack⟩, mem) := by
      simp only [structs_json_input_start, hf, structs_json_input_start_name, ne_eq,
        not_true_eq_false, if_false, if_true]
    rw [heq]
    exact ⟨rfl, rfl, rfl, hf0, fun _ _ => rfl⟩
  | some k =>
    have hk' : k ≠ tag := fun h => hk (by rw [h])
    have heq : structs_json_input_start bo ⟨none, 0, tag, stack⟩ mem (some k) =
        (structs_json_input_start_done
          { (json_input_info.mk none 0 tag stack).set_frame 0 { frame with name := some k }
            with error := some .EINVAL } 0, mem) := by
      simp only [structs_json_input_start, hf, structs_json_input_start_name, ne_eq,
        not_true_eq_false, if_false, if_true, structs_json_input_start_top, set_frame_tag,
        hk', not_false_eq_true, set_frame_depth]
    have h1 : (json_input_info.frame
        { (json_input_info.mk none 0 tag stack).set_frame 0 { frame with name := some k }
            with error := some .EINVAL } 0).isSome = true := by
      rw [frame_isSome_iff]
      have := (frame_isSome_iff _ 0).mp hf0
      simpa using this
    have h2 := start_done_frame _ 0 h1
    rw [heq]
    refine ⟨h2.1, h2.2.1, rfl, ?_, ?_⟩
    · rw [h2.2.2.1 0]
      exact h1
    · intro j hj
      rw [h2.2.2.2 j hj]
      exact frame_set_frame_ne ⟨none, 0, tag, stack⟩ 0 j _ (le_refl 0) hj

theorem start_top_match (bo : ByteOrder) (info : json_input_info) (mem : loader_memory)
    (frame : json_input_stackframe) (T : Descriptor) (loc : Loc) (v d0 : Value)
    (he : info.error = none) (hd : info.depth = 0) (hf : info.frame 0 = some frame)
    (h1 : (info.frame 1).isSome = true) (ht : frame.type = some T)
    (hl : frame.data = some loc) (hv : mem.data.read bo loc = some v)
    (hty : T.hasType v = true) (hi : (T.type bo).init = .ok d0) :
    (structs_json_input_start bo info mem (some info.elem_tag)).1.error = none ∧
      (structs_json_input_start bo info mem (some info.elem_tag)).1.depth = 1 ∧
      ∃ f, (structs_json_input_start bo info mem (some info.elem_tag)).1.frame 1 = some f ∧
        f.type = some T.deref ∧ f.data = some (structs_json_input_next_deref T loc).2 := by
  obtain ⟨error, depth, tag, stack⟩ := info
  simp only at he hd
  subst he hd
  have hf0 : ((json_input_info.mk none 0 tag stack).frame 0).isSome = true := by rw [hf]; rfl
  have hs : (((json_input_info.mk none 0 tag stack).set_frame 0
      { frame with name := some tag }).frame
      (((json_input_info.mk none 0 tag stack).set_frame 0
        { frame with name := some tag }).depth + 1)).isSome = true := by
    rw [set_frame_depth, set_frame_frame_isSome]
    exact h1
  obtain ⟨n1, n2, ⟨f, n3, n4, n5⟩, n6⟩ := next_pushes bo T
    ((json_input_info.mk none 0 tag stack).set_frame 0 { frame with name := some tag })
    mem loc v d0 rfl hs hv hty hi
  simp only [set_frame_depth, zero_add] at n2 n3 n6
  have hz : ((structs_json_input_next bo
      ((json_input_info.mk none 0 tag stack).set_frame 0 { frame with name := some tag })
      mem T loc).1.frame 0).isSome = true := by
    rw [n6 0 (by decide), set_frame_frame_isSome]
    exact hf0
  have h2 := start_done_frame _ 0 hz
  have heq : structs_json_input_start bo ⟨none, 0, tag, stack⟩ mem (some tag) =
      (structs_json_input_start_done (structs_json_input_next bo
          ((json_input_info.mk none 0 tag stack).set_frame 0 { frame with name := some tag })
          mem T loc).1 0,
        (structs_json_input_next bo
          ((json_input_info.mk none 0 tag stack).set_frame 0 { frame with name := some tag })
          mem T loc).2) := by
    simp only [structs_json_input_start, hf, structs_json_input_start_name, ne_eq,
      not_true_eq_false, if_false, if_true, structs_json_input_start_top, set_frame_tag,
      set_frame_depth, ht, hl]
  rw [heq]
  refine ⟨h2.1.trans n1, h2.2.1.trans n2, f, ?_, n4, n5⟩
  rw [h2.2.2.2 1 (by decide)]
  exact n3

theorem input_info_frame (type : Descriptor) (elem_tag : List Nat) :
    (structs_json_input_info type elem_tag).frame 0 =
      some { json_input_stackframe.zero with type := some type, data := some [] } := rfl

theorem input_tag_mismatch (bo : ByteOrder) (lb : Descriptor → List Nat → Except Errno Value)
    (T : Descriptor) (tag : List Nat) (key : List Nat) (jvalue : json_t)
    (rest : json_members) (errno : Option Errno) (data : Value) (hk : key ≠ tag)
    (hi : (T.type bo).init = .ok data) :
    structs_json_input bo lb T tag (some (.JSON_OBJECT (.member key jvalue rest))) errno =
      .ok (-1, ⟨data, errno⟩) := by
  have hk' : some key ≠ some (structs_json_input_info T tag).elem_tag := by
    intro h
    exact hk (Option.some.inj h)
  obtain ⟨a1, a2, a3, a4, _⟩ := start_top_mismatch bo (structs_json_input_info T tag)
    ⟨data, errno⟩ _ (some key) rfl rfl (input_info_frame T tag) hk'
  have a4' : ((structs_json_input_start bo (structs_json_input_info T tag) ⟨data, errno⟩
      (some key)).1.frame (structs_json_input_start bo (structs_json_input_info T tag)
        ⟨data, errno⟩ (some key)).1.depth).isSome = true := by
    rw [a2]
    exact a4
  have a1' : (structs_json_input_start bo (structs_json_input_info T tag) ⟨data, errno⟩
      (some key)).1.error ≠ none := by
    rw [a1]
    simp
  obtain ⟨b1, b2, b3, b4⟩ := data_after_error bo lb jvalue _ a1' a4'
  have b1' : (structs_json_input_data bo lb jvalue
      (structs_json_input_start bo (structs_json_input_info T tag) ⟨data, errno⟩
        (some key))).1.error ≠ none := by
    rw [b1]
    exact a1'
  have c := unnest_after_error bo lb _ (structs_json_input_data bo lb jvalue
      (structs_json_input_start bo (structs_json_input_info T tag) ⟨data, errno⟩
        (some key))).2 b1' b4
  obtain ⟨d1, _, d3, _⟩ := data_object_after_error bo lb rest _ b1' b4
  have hr : (structs_json_input_data bo lb (.JSON_OBJECT (.member key jvalue rest))
        (structs_json_input_info T tag, ⟨data, errno⟩)).1.error = some .EINVAL ∧
      (structs_json_input_data bo lb (.JSON_OBJECT (.member key jvalue rest))
        (structs_json_input_info T tag, ⟨data, errno⟩)).2 = ⟨data, errno⟩ := by
    rw [structs_json_input_data, structs_json_input_data_object]
    simp only [structs_json_input_end]
    rw [c]
    exact ⟨d1.trans (b1.trans a1), d3.trans (b3.trans a3)⟩
  rw [input_retval bo lb T tag _ errno data hi, hr.1, hr.2]
  simp

/-- C33: the top-level tag.  In a state of the JSON machine at depth 0 with no
error, a start whose key is not the tag (or is null) records `EINVAL`, leaves
the depth at 0 and the memory and the frames above the first as they are; a
start whose key is the tag, on a live item of the first frame whose type can
be initialised, records no error and pushes one frame, which holds the type
and the location of the item after the pointers; and a load of a document
whose first key is not the tag returns -1 and leaves the value initialised. -/
theorem top_level_tag (bo : ByteOrder) (lb : Descriptor → List Nat → Except Errno Value)
    (info : json_input_info) (mem : loader_memory) (frame : json_input_stackframe)
    (he : info.error = none) (hd : info.depth = 0) (hf : info.frame 0 = some frame) :
    (∀ key : Option (List Nat), key ≠ some info.elem_tag →
      (structs_json_input_start bo info mem key).1.error = some .EINVAL ∧
        (structs_json_input_start bo info mem key).1.depth = 0 ∧
        (structs_json_input_start bo info mem key).2 = mem ∧
        ∀ j, j ≠ 0 → (structs_json_input_start bo info mem key).1.frame j = info.frame j) ∧
    (∀ (T : Descriptor) (loc : Loc) (v d0 : Value), (info.frame 1).isSome = true →
      frame.type = some T → frame.data = some loc → mem.data.read bo loc = some v →
      T.hasType v = true → (T.type bo).init = .ok d0 →
      (structs_json_input_start bo info mem (some info.elem_tag)).1.error = none ∧
        (structs_json_input_start bo info mem (some info.elem_tag)).1.depth = 1 ∧
        ∃ f, (structs_json_input_start bo info mem (some info.elem_tag)).1.frame 1 = some f ∧
          f.type = some T.deref ∧ f.data = some (structs_json_input_next_deref T loc).2) ∧
    (∀ (T : Descriptor) (key : List Nat) (jvalue : json_t) (rest : json_members)
      (errno : Option Errno) (data : Value), key ≠ info.elem_tag →
      (T.type bo).init = .ok data →
      structs_json_input bo lb T info.elem_tag
        (some (.JSON_OBJECT (.member key jvalue rest))) errno = .ok (-1, ⟨data, errno⟩)) := by
  refine ⟨?_, ?_, ?_⟩
  · intro key hk
    obtain ⟨a1, a2, a3, _, a5⟩ := start_top_mismatch bo info mem frame key he hd hf hk
    exact ⟨a1, a2, a3, a5⟩
  · intro T loc v d0 h1 ht hl hv hty hi
    exact start_top_match bo info mem frame T loc v d0 he hd hf h1 ht hl hv hty hi
  · intro T key jvalue rest errno data hk hi
    exact input_tag_mismatch bo lb T info.elem_tag key jvalue rest errno data hk hi

theorem top_level_tag_witness :
    (structs_json_input_start .BIG_ENDIAN (structs_json_input_info E2_type [114])
        ⟨E2_value .BIG_ENDIAN, none⟩ (some [115])).1.error = some .EINVAL ∧
      (structs_json_input_start .BIG_ENDIAN (structs_json_input_info E2_type [114])
        ⟨E2_value .BIG_ENDIAN, none⟩ (some [114])).1.depth = 1 :=
  ⟨(((top_level_tag .BIG_ENDIAN (fun _ _ => .error .EINVAL)
      (structs_json_input_info E2_type [114]) ⟨E2_value .BIG_ENDIAN, none⟩ _ rfl rfl
      (input_info_frame E2_type [114])).1) (some [115]) (by decide)).1,
    (((top_level_tag .BIG_ENDIAN (fun _ _ => .error .EINVAL)
      (structs_json_input_info E2_type [114]) ⟨E2_value .BIG_ENDIAN, none⟩ _ rfl rfl
      (input_info_frame E2_type [114])).2.1) E2_type [] (E2_value .BIG_ENDIAN)
      _ (by decide) rfl rfl rfl (by decide) rfl).2.1⟩

/-! ## The loader: the two machines -/

@[simp] theorem json_depth (u : unpack_info) : u.json.depth = u.depth := rfl

@[simp] theorem json_error (u : unpack_info) : u.json.error = u.error := rfl

@[simp] theorem json_tag (u : unpack_info) : u.json.elem_tag = u.elem_tag := rfl

theorem json_frame (u : unpack_info) (i : Int) :
    u.json.frame i = (u.frame i).map unpack_stackframe.json := by
  unfold json_input_info.frame unpack_info.frame unpack_info.json MAX_JSON_INPUT_STACK
    MAX_UNPACK_STACK
  split_ifs
  · simp only [List.getElem?_map]
  · rfl

theorem json_set_frame (u : unpack_info) (i : Int) (f : unpack_stackframe) :
    (u.set_frame i f).json = u.json.set_frame i f.json := by
  simp only [unpack_info.json, unpack_info.set_frame, json_input_info.set_frame, List.map_set]

theorem json_undefined (u : unpack_info) : u.undefined.json = u.json.undefined := rfl

theorem json_with_error (u : unpack_info) (e : Option Errno) :
    unpack_info.json { u with error := e } = { u.json with error := e } := rfl

theorem json_with_depth (u : unpack_info) (d : Int) :
    unpack_info.json { u with depth := d } = { u.json with depth := d } := rfl

theorem json_pop (u : unpack_info) :
    (structs_unpack_pop u).json = structs_json_input_pop u.json := by
  unfold structs_unpack_pop structs_json_input_pop
  rw [json_frame, json_depth]
  cases h : u.frame u.depth with
  | none => rfl
  | some f =>
    simp only [Option.map]
    rw [json_with_depth, json_set_frame]
    rfl

theorem json_next_deref : ∀ (T : Descriptor) (loc : Loc),
    structs_unpack_next_deref T loc = structs_json_input_next_deref T loc
  | .pointer r, loc => by
    simp only [structs_unpack_next_deref, structs_json_input_next_deref]
    exact json_next_deref r _
  | .int _ _, _ => rfl
  | .string _, _ => rfl
  | .data _, _ => rfl
  | .fixeddata _, _ => rfl
  | .null, _ => rfl
  | .array_length, _ => rfl
  | .union_field_name, _ => rfl
  | .array _, _ => rfl
  | .fixedarray _ _, _ => rfl
  | .structure _, _ => rfl
  | .union _, _ => rfl

theorem json_next_frame (u : unpack_info) (type : Descriptor) (data : Loc) :
    (structs_unpack_next_frame u type data).json =
      structs_json_input_next_frame u.json type data := by
  unfold structs_unpack_next_frame structs_json_input_next_frame
  rw [json_frame, json_depth]
  by_cases hd : u.depth = (MAX_UNPACK_STACK : Int) - 1
  · have hd' : u.depth = (MAX_JSON_INPUT_STACK : Int) - 1 := hd
    rw [if_pos hd, if_pos hd']
    rfl
  · have hd' : ¬ u.depth = (MAX_JSON_INPUT_STACK : Int) - 1 := hd
    rw [if_neg hd, if_neg hd']
    cases h : u.frame (u.depth + 1) with
    | none => rfl
    | some f =>
      simp only [Option.map]
      rw [json_with_depth, json_set_frame]
      rfl

theorem json_next (bo : ByteOrder) (u : unpack_info) (mem : loader_memory)
    (type : Descriptor) (data : Loc) :
    unpack_info.json_state (structs_unpack_next bo u mem type data) =
      structs_json_input_next bo u.json mem type data := by
  unfold structs_unpack_next structs_json_input_next
  rw [json_next_deref]
  split
  · rename_i etype data1 hd
    cases mem.data.read bo data1 with
    | none => rfl
    | some old =>
      simp only []
      cases (Descriptor.array etype).uninit bo old with
      | error e => rfl
      | ok r =>
        simp only [unpack_info.json_state, json_next_frame]
  · rename_i etype alen data1 hd
    cases ((Descriptor.fixedarray etype alen).type bo).init with
    | error e => rfl
    | ok fresh =>
      simp only []
      cases mem.data.read bo data1 with
      | none => rfl
      | some old =>
        simp only []
        cases (Descriptor.fixedarray etype alen).uninit bo old with
        | error e => rfl
        | ok r =>
          simp only []
          rw [json_frame, json_depth]
          cases h : u.frame (u.depth + 1) with
          | none => rfl
          | some above =>
            simp only [Option.map, unpack_info.json_state, json_next_frame, json_set_frame]
            rfl
  · simp only [unpack_info.json_state, json_next_frame]

theorem json_nest_find (bo : ByteOrder) (u : unpack_info) (mem : loader_memory)
    (frame : unpack_stackframe) (type : Descriptor) :
    ((structs_unpack_nest_find bo u mem frame type).1.json,
        (structs_unpack_nest_find bo u mem frame type).2) =
      structs_json_input_nest_find bo u.json mem frame.json type := by
  obtain ⟨ftype, fname, fdata, fvalue, flen, findex⟩ := frame
  unfold structs_unpack_nest_find structs_json_input_nest_find
  simp only [unpack_stackframe.json]
  cases fdata with
  | none => rfl
  | some data =>
    simp only []
    cases mem.data.read bo data with
    | none => rfl
    | some item =>
      simp only []
      rcases structs_find bo type fname item true with ⟨item1, e | ⟨ftype, loc⟩⟩
      · simp only []
        split_ifs <;> rfl
      · rfl

theorem json_nest (bo : ByteOrder) (u : unpack_info) (mem : loader_memory) :
    ((structs_unpack_nest bo u mem).1.json, (structs_unpack_nest bo u mem).2) =
      structs_json_input_nest bo u.json mem := by
  unfold structs_unpack_nest structs_json_input_nest
  rw [json_frame, json_depth]
  cases h : u.frame u.depth with
  | none => rfl
  | some frame =>
    have hnf := json_nest_find bo u mem frame
    obtain ⟨ftype, fname, fdata, fvalue, flen, findex⟩ := frame
    simp only [Option.map, unpack_stackframe.json] at hnf ⊢
    rcases ftype with _ | T
    · rfl
    · cases T with
      | pointer r => rfl
      | «structure» fl => exact hnf _
      | union fl => exact hnf _
      | array etype =>
        simp only []
        cases fdata with
        | none => rfl
        | some data =>
          simp only []
          rcases mem.data.read bo data with _ | v
          · rfl
          · cases v with
            | array elems =>
              simp only []
              split_ifs
              · rfl
              · cases (etype.type bo).init <;> rfl
            | _ => rfl
      | fixedarray etype alen =>
        simp only []
        split_ifs
        · rfl
        · cases fdata with
          | none => rfl
          | some data =>
            simp only [json_set_frame]
            rfl
      | _ => rfl

theorem json_start_done (u : unpack_info) (d : Int) :
    (structs_unpack_start_done u d).json = structs_json_input_start_done u.json d := by
  unfold structs_unpack_start_done structs_json_input_start_done
  rw [json_frame]
  cases h : u.frame d with
  | none => rfl
  | some frame =>
    simp only [Option.map, json_set_frame]
    rfl

theorem json_start_name (u : unpack_info) (key : Option (List Nat)) :
    structs_unpack_start_name u key = structs_json_input_start_name u.json key := by
  unfold structs_unpack_start_name structs_json_input_start_name
  cases key with
  | some k => rfl
  | none =>
    simp only [json_depth, json_frame]
    split_ifs
    · rfl
    · cases h : u.frame (u.depth - 1) with
      | none => rfl
      | some last_frame =>
        simp only [Option.map]
        rfl

theorem json_start_top (bo : ByteOrder) (u : unpack_info) (mem : loader_memory)
    (frame : unpack_stackframe) (name : List Nat) :
    unpack_info.json_state (structs_unpack_start_top bo u mem frame name) =
      structs_json_input_start_top bo u.json mem frame.json name := by
  obtain ⟨ftype, fname, fdata, fvalue, flen, findex⟩ := frame
  unfold structs_unpack_start_top structs_json_input_start_top
  simp only [unpack_stackframe.json, json_tag, json_depth]
  split_ifs
  · simp only [unpack_info.json_state, json_start_done, json_with_error]
    rfl
  · cases ftype with
    | none => rfl
    | some type =>
      cases fdata with
      | none => rfl
      | some data =>
        have := json_next bo u mem type data
        simp only [unpack_info.json_state] at this ⊢
        rw [json_start_done, ← this]

theorem json_start_item (frame : unpack_stackframe) (found : Option (Descriptor × Loc)) :
    structs_unpack_start_item frame found = structs_json_input_start_item frame.json found := by
  obtain ⟨ftype, fname, fdata, fvalue, flen, findex⟩ := frame
  rfl

theorem json_start_sub (bo : ByteOrder) (u : unpack_info) (mem : loader_memory)
    (depth : Int) (item : Option (Descriptor × Loc)) :
    unpack_info.json_state (structs_unpack_start_sub bo u mem depth item) =
      structs_json_input_start_sub bo u.json mem depth item := by
  unfold structs_unpack_start_sub structs_json_input_start_sub
  simp only [json_error]
  split_ifs with he
  · simp only [unpack_info.json_state, json_start_done]
  · rcases item with _ | ⟨type, data⟩
    · rfl
    · have hn := json_next bo u mem type data
      simp only [unpack_info.json_state] at hn ⊢
      rw [← hn]
      simp only [json_error]
      split_ifs
      · rw [json_start_done]
      · rfl
      · rw [json_start_done]

theorem json_start (bo : ByteOrder) (u : unpack_info) (mem : loader_memory)
    (key : Option (List Nat)) :
    unpack_info.json_state (structs_unpack_start bo u mem key) =
      structs_json_input_start bo u.json mem key := by
  unfold structs_unpack_start structs_json_input_start
  rw [json_frame, json_depth, json_error, ← json_start_name]
  cases h : u.frame u.depth with
  | none => rfl
  | some frame =>
    simp only [Option.map]
    split_ifs with he hd
    · rfl
    · cases hn : structs_unpack_start_name u key with
      | error e => rfl
      | ok name =>
        simp only []
        have := json_start_top bo (u.set_frame u.depth { frame with name := some name }) mem
          frame name
        rw [json_set_frame] at this
        exact this
    · cases hn : structs_unpack_start_name u key with
      | error e => rfl
      | ok name =>
        simp only []
        have h1 := json_nest bo (u.set_frame u.depth { frame with name := some name }) mem
        rw [json_set_frame] at h1
        have h2 := json_start_sub bo
          (structs_unpack_nest bo (u.set_frame u.depth { frame with name := some name }) mem).1
          (structs_unpack_nest bo (u.set_frame u.depth
            { frame with name := some name }) mem).2.1 u.depth
          (structs_unpack_start_item frame (structs_unpack_nest bo
            (u.set_frame u.depth { frame with name := some name }) mem).2.2)
        rw [h2, json_start_item]
        have e1 := congrArg Prod.fst h1
        have e2 := congrArg (fun p => p.2.1) h1
        have e3 := congrArg (fun p => p.2.2) h1
        simp only at e1 e2 e3
        rw [e1, e2, e3]
        rfl

theorem json_str_value (u : unpack_info) (mem : loader_memory) (s : List Nat) :
    unpack_info.json_state (structs_unpack_str_value u mem s) =
      structs_json_input_str_value u.json mem s := by
  unfold structs_unpack_str_value structs_json_input_str_value
  rw [json_frame, json_depth, json_error]
  cases h : u.frame u.depth with
  | none => rfl
  | some frame =>
    obtain ⟨ftype, fname, fdata, fvalue, flen, findex⟩ := frame
    simp only [Option.map, unpack_stackframe.json]
    split_ifs
    · rfl
    · rfl
    · simp only [unpack_info.json_state, json_set_frame]
      rfl

theorem json_unnest_set (bo : ByteOrder) (lb : Descriptor → List Nat → Except Errno Value)
    (u : unpack_info) (mem : loader_memory) (frame : unpack_stackframe) (type : Descriptor)
    (data : Loc) :
    unpack_info.json_state (structs_unpack_unnest_set bo lb u mem frame type data) =
      structs_json_input_unnest_set bo lb u.json mem frame.json type data := by
  obtain ⟨ftype, fname, fdata, fvalue, flen, findex⟩ := frame
  unfold structs_unpack_unnest_set structs_json_input_unnest_set
  simp only [unpack_stackframe.json]
  cases mem.data.read bo data with
  | none => rfl
  | some item =>
    simp only []
    rcases structs_set_string bo lb type none fvalue item with ⟨item1, e | r⟩
    · rfl
    · simp only [unpack_info.json_state, json_pop]

theorem json_unnest_done (u : unpack_info) (mem : loader_memory)
    (frame : unpack_stackframe) :
    unpack_info.json_state (structs_unpack_unnest_done u mem frame) =
      structs_json_input_unnest_done u.json mem frame.json := by
  obtain ⟨ftype, fname, fdata, fvalue, flen, findex⟩ := frame
  unfold structs_unpack_unnest_done structs_json_input_unnest_done
  have : unpack_stackframe.has_text ⟨ftype, fname, fdata, fvalue, flen, findex⟩ =
      json_input_stackframe.has_text
        (unpack_stackframe.json ⟨ftype, fname, fdata, fvalue, flen, findex⟩) := rfl
  rw [← this]
  split_ifs
  · rfl
  · simp only [unpack_info.json_state, json_pop]

theorem json_unnest (bo : ByteOrder) (lb : Descriptor → List Nat → Except Errno Value)
    (u : unpack_info) (mem : loader_memory) :
    unpack_info.json_state (structs_unpack_unnest bo lb u mem) =
      structs_json_input_unnest bo lb u.json mem := by
  unfold structs_unpack_unnest structs_json_input_unnest
  rw [json_frame, json_depth, json_error]
  cases h : u.frame u.depth with
  | none => rfl
  | some frame =>
    have hd := json_unnest_done u mem frame
    obtain ⟨ftype, fname, fdata, fvalue, flen, findex⟩ := frame
    simp only [Option.map, unpack_stackframe.json, unpack_stackframe.has_text,
      json_input_stackframe.has_text] at hd ⊢
    by_cases he : u.error ≠ none
    · rw [if_pos he, if_pos he]
      rfl
    · rw [if_neg he, if_neg he]
      rcases ftype with _ | T
      · rfl
      · cases T with
        | union flist =>
          simp only []
          split
          · simp only [unpack_info.json_state, json_pop]
          · cases flist with
            | END => rfl
            | FIELD fn ft rest =>
              simp only []
              split
              · exact hd
              · cases fdata with
                | none => rfl
                | some data =>
                  simp only []
                  cases mem.data.read bo data with
                  | none => rfl
                  | some item =>
                    simp only []
                    rcases structs_union_set bo (.union (.FIELD fn ft rest)) none item fn
                      with ⟨item1, e | r⟩
                    · rfl
                    · exact json_unnest_set bo lb u _ ⟨_, fname, _, fvalue, flen, findex⟩ _ _
        | _ =>
          simp only [Descriptor.tclass, if_true, if_false, reduceCtorEq]
          first
            | exact hd
            | (cases fdata with
              | none => rfl
              | some data =>
                exact json_unnest_set bo lb u _ ⟨_, fname, _, fvalue, flen, findex⟩ _ _)

theorem json_event (bo : ByteOrder) (lb : Descriptor → List Nat → Except Errno Value)
    (event : loader_event) (s : unpack_info × loader_memory) :
    unpack_info.json_state (structs_unpack_event bo lb event s) =
      structs_json_input_event bo lb event (unpack_info.json_state s) := by
  cases event with
  | start key => exact json_start bo s.1 s.2 key
  | str_value text => exact json_str_value s.1 s.2 text
  | finish => exact json_unnest bo lb s.1 s.2

theorem json_events (bo : ByteOrder) (lb : Descriptor → List Nat → Except Errno Value) :
    ∀ (events : List loader_event) (s : unpack_info × loader_memory),
      unpack_info.json_state (structs_unpack_events bo lb events s) =
        structs_json_input_events bo lb events (unpack_info.json_state s)
  | [], _ => rfl
  | event :: events, s => by
    simp only [structs_unpack_events, structs_json_input_events]
    rw [json_events bo lb events, json_event]

/-- C35: one shared state machine.  For every sequence of start, value and end
events and every state and memory, the MessagePack machine ends in the state
in which the JSON machine ends from the same state: the same error code, the
same depth, the same tag, the same frames member by member and the same
memory, the value in it in particular; and the two loaders set up the same
state for a descriptor and a tag. -/
theorem shared_state_machine (bo : ByteOrder)
    (lb : Descriptor → List Nat → Except Errno Value) (events : List loader_event)
    (u : unpack_info) (mem : loader_memory) :
    (structs_unpack_events bo lb events (u, mem)).1.error =
        (structs_json_input_events bo lb events (u.json, mem)).1.error ∧
      (structs_unpack_events bo lb events (u, mem)).1.depth =
        (structs_json_input_events bo lb events (u.json, mem)).1.depth ∧
      (structs_unpack_events bo lb events (u, mem)).1.elem_tag =
        (structs_json_input_events bo lb events (u.json, mem)).1.elem_tag ∧
      (structs_unpack_events bo lb events (u, mem)).1.stack.map unpack_stackframe.json =
        (structs_json_input_events bo lb events (u.json, mem)).1.stack ∧
      (structs_unpack_events bo lb events (u, mem)).2 =
        (structs_json_input_events bo lb events (u.json, mem)).2 ∧
      ∀ (type : Descriptor) (elem_tag : List Nat),
        (structs_unpack_info type elem_tag).json = structs_json_input_info type elem_tag := by
  have h := json_events bo lb events (u, mem)
  have h1 := congrArg Prod.fst h
  have h2 := congrArg Prod.snd h
  simp only [unpack_info.json_state] at h1 h2
  rw [← h1, ← h2]
  exact ⟨rfl, rfl, rfl, rfl, rfl, fun _ _ => rfl⟩

/-! ## The loader: the last frame of the stack -/

theorem next_fixedarray_last (bo : ByteOrder) (info : json_input_info) (mem : loader_memory)
    (etype : Descriptor) (alen : Nat) (data : Loc) (fresh old : Value) (r : Option Value)
    (hd : info.depth = 31)
    (hi : ((Descriptor.fixedarray etype alen).type bo).init = .ok fresh)
    (hv : mem.data.read bo data = some old)
    (hu : (Descriptor.fixedarray etype alen).uninit bo old = .ok r) :
    structs_json_input_next bo info mem (.fixedarray etype alen) data =
      (info.undefined, mem.store data fresh) := by
  have hf : info.frame (info.depth + 1) = none := by
    simp [json_input_info.frame, hd, MAX_JSON_INPUT_STACK]
  simp only [structs_json_input_next, structs_json_input_next_deref, hi, hv, hu, hf]

theorem next_array_last (bo : ByteOrder) (info : json_input_info) (mem : loader_memory)
    (etype : Descriptor) (data : Loc) (old : Value) (r : Option Value)
    (hd : info.depth = 31) (hv : mem.data.read bo data = some old)
    (hu : (Descriptor.array etype).uninit bo old = .ok r) :
    structs_json_input_next bo info mem (.array etype) data =
      ({ info with error := some .EMLINK }, mem.store data (.array [])) := by
  simp only [structs_json_input_next, structs_json_input_next_deref, hv, hu,
    structs_json_input_next_frame, hd, MAX_JSON_INPUT_STACK]
  rfl

theorem depth_chain_init (bo : ByteOrder) :
    ((depth_chain 31 (.fixedarray .uint32 1)).type bo).init =
      .ok (depth_chain_value 31 (.fixedarray [.region [0, 0, 0, 0]])) := by
  cases bo <;> rfl

set_option maxRecDepth 100000 in
theorem depth_chain_doc_error (bo : ByteOrder) :
    (structs_json_input_data bo (fun _ _ => .error .EINVAL)
      (.JSON_OBJECT (.member [114] (depth_chain_doc 31 .JSON_NULL) .done))
      (structs_json_input_info (depth_chain 31 (.fixedarray .uint32 1)) [114],
        ⟨depth_chain_value 31 (.fixedarray [.region [0, 0, 0, 0]]), none⟩)).1.error =
      some .undefined := by
  cases bo <;> decide!

set_option maxRecDepth 100000 in
/-- C34: the store of `structs_json_input_next` past the stack.  For the
descriptor of 31 structures, one inside the other, around a fixed array, the
32 start events of a document that is as deep leave the machine at depth 31
with no error after the first 31, where the frame of index 32 is outside the
stack, and the last start stores into that frame (`undefined`) and records no
`EMLINK`; the load of the document `{"r":{"f":{"f": ... null ... }}}` of 31
members "f" is undefined with it.  With an integer in the place of the fixed
array the same events end with `EMLINK` at depth 31. -/
theorem next_stores_past_stack (bo : ByteOrder) :
    ((depth_chain 31 (.fixedarray .uint32 1)).type bo).init =
        .ok (depth_chain_value 31 (.fixedarray [.region [0, 0, 0, 0]])) ∧
      (structs_json_input_events bo (fun _ _ => .error .EINVAL) (depth_chain_events 30)
        (structs_json_input_info (depth_chain 31 (.fixedarray .uint32 1)) [114],
          ⟨depth_chain_value 31 (.fixedarray [.region [0, 0, 0, 0]]), none⟩)).1.error = none ∧
      (structs_json_input_events bo (fun _ _ => .error .EINVAL) (depth_chain_events 30)
        (structs_json_input_info (depth_chain 31 (.fixedarray .uint32 1)) [114],
          ⟨depth_chain_value 31 (.fixedarray [.region [0, 0, 0, 0]]), none⟩)).1.depth = 31 ∧
      ((structs_json_input_events bo (fun _ _ => .error .EINVAL) (depth_chain_events 30)
        (structs_json_input_info (depth_chain 31 (.fixedarray .uint32 1)) [114],
          ⟨depth_chain_value 31 (.fixedarray [.region [0, 0, 0, 0]]), none⟩)).1.frame
            32).isSome = false ∧
      (structs_json_input_events bo (fun _ _ => .error .EINVAL) (depth_chain_events 31)
        (structs_json_input_info (depth_chain 31 (.fixedarray .uint32 1)) [114],
          ⟨depth_chain_value 31 (.fixedarray [.region [0, 0, 0, 0]]), none⟩)).1.error =
            some .undefined ∧
      structs_json_input bo (fun _ _ => .error .EINVAL)
        (depth_chain 31 (.fixedarray .uint32 1)) [114]
        (some (.JSON_OBJECT (.member [114] (depth_chain_doc 31 .JSON_NULL) .done))) none =
          .error .undefined ∧
      (structs_json_input_events bo (fun _ _ => .error .EINVAL) (depth_chain_events 31)
        (structs_json_input_info (depth_chain 31 .uint32) [114],
          ⟨depth_chain_value 31 (.region [0, 0, 0, 0]), none⟩)).1.error = some .EMLINK ∧
      (structs_json_input_events bo (fun _ _ => .error .EINVAL) (depth_chain_events 31)
        (structs_json_input_info (depth_chain 31 .uint32) [114],
          ⟨depth_chain_value 31 (.region [0, 0, 0, 0]), none⟩)).1.depth = 31 := by
  refine ⟨depth_chain_init bo, ?_, ?_, ?_, ?_, ?_, ?_, ?_⟩
  · cases bo <;> decide!
  · cases bo <;> decide!
  · cases bo <;> decide!
  · cases bo <;> decide!
  · rw [input_retval bo _ _ _ _ _ _ (depth_chain_init bo), if_pos (depth_chain_doc_error bo)]
  · cases bo <;> decide!
  · cases bo <;> decide!

/-! ## The loader: scenario E5 -/

theorem set_string_self (bo : ByteOrder) (lb : Descriptor → List Nat → Except Errno Value)
    (T : Descriptor) (ascii : Option (List Nat)) (item x : Value)
    (hb : T.binify lb (ascii.getD []) = .ok x) :
    structs_set_string bo lb T none ascii item = (x, .ok ()) := by
  simp [structs_set_string, structs_find, structs_find_head, hb, Value.write]

theorem unnest_primitive (bo : ByteOrder) (lb : Descriptor → List Nat → Except Errno Value)
    (info : json_input_info) (mem : loader_memory) (frame : json_input_stackframe)
    (T : Descriptor) (loc : Loc) (x : Value) (hf : info.frame info.depth = some frame)
    (he : info.error = none) (ht : frame.type = some T)
    (hp : T.tclass = .STRUCTS_TYPE_PRIMITIVE) (hl : frame.data = some loc)
    (hr : (mem.data.read bo loc).isSome = true)
    (hb : T.binify lb (frame.value.getD []) = .ok x) :
    structs_json_input_unnest bo lb info mem =
      (structs_json_input_pop info, mem.store loc x) := by
  obtain ⟨item, hi⟩ := Option.isSome_iff_exists.mp hr
  have hs : structs_json_input_unnest_set bo lb info mem frame T loc =
      (structs_json_input_pop info, mem.store loc x) := by
    simp only [structs_json_input_unnest_set, hi, set_string_self bo lb T _ item x hb]
  unfold structs_json_input_unnest
  simp only [hf, he, ht, hl, ne_eq, not_true_eq_false, if_false]
  cases T with
  | union fl => simp [Descriptor.tclass] at hp
  | _ => simp only [hp, if_true, hs]

theorem printf_lld_1 : printf_lld 1 = [49] := by decide

theorem printf_lld_2 : printf_lld 2 = [50] := by decide

theorem E5_step1 (bo : ByteOrder) (name : String) (size : Nat) (errno : Option Errno) :
    structs_json_input_start bo
        (structs_json_input_info (E5_type name size) [114, 111, 111, 116])
        (E5_memory [] errno) (some [114, 111, 111, 116]) =
      (E5_info 1
        [E5_frame (E5_type name size) none [] none,
          E5_frame (E5_type name size) none [] none],
        E5_memory [] errno) := by
  rfl

theorem E5_step2 (bo : ByteOrder) (name : String) (size : Nat) (errno : Option Errno) :
    structs_json_input_start bo
        (E5_info 1
        [E5_frame (E5_type name size) none [] none,
          E5_frame (E5_type name size) none [] none])
        (E5_memory [] errno) (some [97, 114, 114]) =
      (E5_info 2
        (E5_frames name size (some [97, 114, 114])),
        E5_memory [] errno) := by
  rfl

theorem E5_step3 (bo : ByteOrder) (name : String) (size : Nat) (errno : Option Errno) :
    structs_json_input_start bo
        (E5_info 2
        (E5_frames name size (some [97, 114, 114])))
        (E5_memory [] errno) none =
      (E5_info 3
        (E5_frames name size (some [97, 114, 114]) ++
          [E5_elem_frame name size 0]),
        E5_memory [E5_init size] errno) := by
  rfl

theorem E5_step4 (bo : ByteOrder) (name : String) (size : Nat) (errno : Option Errno) :
    structs_json_input_start bo
        (E5_info 3
        (E5_frames name size (some [97, 114, 114]) ++
          [E5_elem_frame name size 0]))
        (E5_memory [E5_init size] errno) (some [97]) =
      (E5_info 4
        (E5_frames name size (some [97, 114, 114]) ++
          [E5_elem_frame name size 0, E5_leaf_frame name size 0 none]),
        E5_memory [E5_init size] errno) := by
  rfl

theorem E5_step5 (name : String) (size : Nat) (errno : Option Errno) :
    structs_json_input_str_value
        (E5_info 4
        (E5_frames name size (some [97, 114, 114]) ++
          [E5_elem_frame name size 0, E5_leaf_frame name size 0 none]))
        (E5_memory [E5_init size] errno) [49] =
      (E5_info 4
        (E5_frames name size (some [97, 114, 114]) ++
          [E5_elem_frame name size 0, E5_leaf_frame name size 0 (some [49])]),
        E5_memory [E5_init size] errno) := by
  rfl

theorem E5_step6 (bo : ByteOrder) (name : String) (size : Nat) (errno : Option Errno)
    (lb : Descriptor → List Nat → Except Errno Value) (x1 : Value)
    (h1 : lb (.int name size) [49] = .ok x1) :
    structs_json_input_unnest bo lb
        (E5_info 4
        (E5_frames name size (some [97, 114, 114]) ++
          [E5_elem_frame name size 0, E5_leaf_frame name size 0 (some [49])]))
        (E5_memory [E5_init size] errno) =
      (E5_info 3
        (E5_frames name size (some [97, 114, 114]) ++
          [E5_elem_frame name size 0]),
        E5_memory [.structure [x1]] errno) := by
  rw [unnest_primitive bo lb
    (E5_info 4
        (E5_frames name size (some [97, 114, 114]) ++
          [E5_elem_frame name size 0, E5_leaf_frame name size 0 (some [49])]))
    (E5_memory [E5_init size] errno) (E5_leaf_frame name size 0 (some [49])) (.int name size)
    [.member 0, .elem 0, .member 0] x1 rfl rfl rfl rfl rfl rfl h1]
  rfl

theorem E5_step7 (bo : ByteOrder) (name : String) (size : Nat) (errno : Option Errno)
    (lb : Descriptor → List Nat → Except Errno Value) (x1 : Value) :
    structs_json_input_unnest bo lb
        (E5_info 3
        (E5_frames name size (some [97, 114, 114]) ++
          [E5_elem_frame name size 0]))
        (E5_memory [.structure [x1]] errno) =
      (E5_info 2
        (E5_frames name size (some [97, 114, 114])),
        E5_memory [.structure [x1]] errno) := by
  rfl

theorem E5_step8 (bo : ByteOrder) (name : String) (size : Nat) (errno : Option Errno) (x1 : Value) :
    structs_json_input_start bo
        (E5_info 2
        (E5_frames name size (some [97, 114, 114])))
        (E5_memory [.structure [x1]] errno) none =
      (E5_info 3
        (E5_frames name size (some [97, 114, 114]) ++
          [E5_elem_frame name size 1]),
        E5_memory [.structure [x1], E5_init size] errno) := by
  rfl

theorem E5_step9 (bo : ByteOrder) (name : String) (size : Nat) (errno : Option Errno) (x1 : Value) :
    structs_json_input_start bo
        (E5_info 3
        (E5_frames name size (some [97, 114, 114]) ++
          [E5_elem_frame name size 1]))
        (E5_memory [.structure [x1], E5_init size] errno) (some [97]) =
      (E5_info 4
        (E5_frames name size (some [97, 114, 114]) ++
          [E5_elem_frame name size 1, E5_leaf_frame name size 1 none]),
        E5_memory [.structure [x1], E5_init size] errno) := by
  rfl

theorem E5_step10 (name : String) (size : Nat) (errno : Option Errno) (x1 : Value) :
    structs_json_input_str_value
        (E5_info 4
        (E5_frames name size (some [97, 114, 114]) ++
          [E5_elem_frame name size 1, E5_leaf_frame name size 1 none]))
        (E5_memory [.structure [x1], E5_init size] errno) [50] =
      (E5_info 4
        (E5_frames name size (some [97, 114, 114]) ++
          [E5_elem_frame name size 1, E5_leaf_frame name size 1 (some [50])]),
        E5_memory [.structure [x1], E5_init size] errno) := by
  rfl

theorem E5_step11 (bo : ByteOrder) (name : String) (size : Nat) (errno : Option Errno)
    (lb : Descriptor → List Nat → Except Errno Value) (x1 x2 : Value)
    (h2 : lb (.int name size) [50] = .ok x2) :
    structs_json_input_unnest bo lb
        (E5_info 4
        (E5_frames name size (some [97, 114, 114]) ++
          [E5_elem_frame name size 1, E5_leaf_frame name size 1 (some [50])]))
        (E5_memory [.structure [x1], E5_init size] errno) =
      (E5_info 3
        (E5_frames name size (some [97, 114, 114]) ++
          [E5_elem_frame name size 1]),
        E5_memory [.structure [x1], .structure [x2]] errno) := by
  rw [unnest_primitive bo lb
    (E5_info 4
        (E5_frames name size (some [97, 114, 114]) ++
          [E5_elem_frame name size 1, E5_leaf_frame name size 1 (some [50])]))
    (E5_memory [.structure [x1], E5_init size] errno)
    (E5_leaf_frame name size 1 (some [50])) (.int name size)
    [.member 0, .elem 1, .member 0] x2 rfl rfl rfl rfl rfl rfl h2]
  rfl

theorem E5_step12 (bo : ByteOrder) (name : String) (size : Nat) (errno : Option Errno)
    (lb : Descriptor → List Nat → Except Errno Value) (x1 x2 : Value) :
    structs_json_input_unnest bo lb
        (E5_info 3
        (E5_frames name size (some [97, 114, 114]) ++
          [E5_elem_frame name size 1]))
        (E5_memory [.structure [x1], .structure [x2]] errno) =
      (E5_info 2
        (E5_frames name size (some [97, 114, 114])),
        E5_memory [.structure [x1], .structure [x2]] errno) := by
  rfl

theorem E5_step13 (name : String) (size : Nat) :
    structs_json_input_data_array_done
        (E5_info 2
        (E5_frames name size (some [97, 114, 114]))) =
      E5_info 2
        (E5_frames name size none) := by
  rfl

theorem E5_step14 (bo : ByteOrder) (name : String) (size : Nat) (errno : Option Errno)
    (lb : Descriptor → List Nat → Except Errno Value) (x1 x2 : Value) :
    structs_json_input_unnest bo lb
        (E5_info 2
        (E5_frames name size none))
        (E5_memory [.structure [x1], .structure [x2]] errno) =
      (E5_info 1
        [E5_frame (E5_type name size) none [] none,
          E5_frame (E5_type name size) none [] none],
        E5_memory [.structure [x1], .structure [x2]] errno) := by
  rfl

theorem E5_step15 (bo : ByteOrder) (name : String) (size : Nat) (errno : Option Errno)
    (lb : Descriptor → List Nat → Except Errno Value) (x1 x2 : Value) :
    structs_json_input_unnest bo lb
        (E5_info 1
        [E5_frame (E5_type name size) none [] none,
          E5_frame (E5_type name size) none [] none])
        (E5_memory [.structure [x1], .structure [x2]] errno) =
      (E5_info 0 [E5_frame (E5_type name size) none [] none],
        E5_memory [.structure [x1], .structure [x2]] errno) := by
  rfl

theorem E5_content (bo : ByteOrder) (lb : Descriptor → List Nat → Except Errno Value)
    (name : String) (size : Nat) (x1 x2 : Value) (errno : Option Errno)
    (h1 : lb (.int name size) [49] = .ok x1) (h2 : lb (.int name size) [50] = .ok x2) :
    structs_json_input_data bo lb (.JSON_OBJECT E5_members)
        (E5_info 1
          [E5_frame (E5_type name size) none [] none,
            E5_frame (E5_type name size) none [] none],
          E5_memory [] errno) =
      (E5_info 1
          [E5_frame (E5_type name size) none [] none,
            E5_frame (E5_type name size) none [] none],
        E5_memory [.structure [x1], .structure [x2]] errno) := by
  simp only [E5_members, structs_json_input_data, structs_json_input_data_object,
    structs_json_input_data_array, structs_json_input_end, printf_lld_1, printf_lld_2,
    E5_step2, E5_step3, E5_step4, E5_step5, E5_step6 bo name size errno lb x1 h1, E5_step7,
    E5_step8, E5_step9, E5_step10, E5_step11 bo name size errno lb x1 x2 h2, E5_step12,
    E5_step13, E5_step14]

theorem E5_whole (bo : ByteOrder) (lb : Descriptor → List Nat → Except Errno Value)
    (name : String) (size : Nat) (x1 x2 : Value) (errno : Option Errno)
    (h1 : lb (.int name size) [49] = .ok x1) (h2 : lb (.int name size) [50] = .ok x2) :
    structs_json_input_data bo lb E5_doc
        (structs_json_input_info (E5_type name size) [114, 111, 111, 116],
          E5_memory [] errno) =
      (E5_info 0 [E5_frame (E5_type name size) none [] none],
        E5_memory [.structure [x1], .structure [x2]] errno) := by
  rw [E5_doc, structs_json_input_data, structs_json_input_data_object]
  simp only [E5_step1, E5_content bo lb name size x1 x2 errno h1 h2, structs_json_input_end,
    E5_step15, structs_json_input_data_object]

/-! ## The loader: the items of an array -/

theorem write_snoc (bo : ByteOrder) (step : Step) (x y : Value)
    (hr : ∀ b, x ≠ .region b) (hs : ∀ s, x ≠ .string s) :
    ∀ (loc : Loc) (v : Value), v.read bo loc = some x →
      v.write (loc ++ [step]) y =
        match x.write [step] y with
        | some x1 => v.write loc x1
        | none => none
  | [], v, h => by
    simp only [Value.read, Option.some.injEq] at h
    rw [h, List.nil_append]
    cases x.write [step] y <;> simp [Value.write]
  | st :: loc, v, h => by
    cases v with
    | pointer pdata =>
      cases pdata with
      | none =>
        cases st with
        | args2 =>
          cases loc <;> simp [Value.read, uint_bytes] at h
          exact absurd h.symm (hr _)
        | _ => cases loc <;> simp [Value.read, uint_bytes] at h
      | some p =>
        cases st with
        | deref =>
          simp only [Value.read] at h
          have ih := write_snoc bo step x y hr hs loc p h
          rw [List.cons_append]
          simp only [Value.write, ih]
          cases x.write [step] y <;> rfl
        | args2 =>
          cases loc <;> simp [Value.read, uint_bytes] at h
          exact absurd h.symm (hr _)
        | _ => cases loc <;> simp [Value.read, uint_bytes] at h
    | array es =>
      cases st with
      | elem index =>
        simp only [Value.read] at h
        cases hget : es[index]? with
        | none => simp [hget] at h
        | some elem =>
          simp only [hget] at h
          have ih := write_snoc bo step x y hr hs loc elem h
          rw [List.cons_append]
          simp only [Value.write, hget, ih]
          cases x.write [step] y <;> rfl
      | args2 =>
        cases loc <;> simp [Value.read, uint_bytes] at h
        exact absurd h.symm (hr _)
      | length =>
        cases loc <;> simp [Value.read, uint_bytes] at h
        exact absurd h.symm (hr _)
      | _ => cases loc <;> simp [Value.read, uint_bytes] at h
    | fixedarray es =>
      cases st with
      | felem index =>
        simp only [Value.read] at h
        cases hget : es[index]? with
        | none => simp [hget] at h
        | some elem =>
          simp only [hget] at h
          have ih := write_snoc bo step x y hr hs loc elem h
          rw [List.cons_append]
          simp only [Value.write, hget, ih]
          cases x.write [step] y <;> rfl
      | args2 =>
        cases loc <;> simp [Value.read, uint_bytes] at h
        exact absurd h.symm (hr _)
      | _ => cases loc <;> simp [Value.read, uint_bytes] at h
    | «structure» es =>
      cases st with
      | member index =>
        simp only [Value.read] at h
        cases hget : es[index]? with
        | none => simp [hget] at h
        | some elem =>
          simp only [hget] at h
          have ih := write_snoc bo step x y hr hs loc elem h
          rw [List.cons_append]
          simp only [Value.write, hget, ih]
          cases x.write [step] y <;> rfl
      | args2 =>
        cases loc <;> simp [Value.read, uint_bytes] at h
        exact absurd h.symm (hr _)
      | _ => cases loc <;> simp [Value.read, uint_bytes] at h
    | union fn un =>
      cases st with
      | un =>
        cases un with
        | none => cases loc <;> cases fn <;> simp [Value.read, uint_bytes] at h
        | some u =>
          simp only [Value.read] at h
          have ih := write_snoc bo step x y hr hs loc u h
          rw [List.cons_append]
          simp only [Value.write, ih]
          cases x.write [step] y <;> rfl
      | args2 =>
        cases loc <;> simp [Value.read, uint_bytes] at h
        exact absurd h.symm (hr _)
      | field_name =>
        cases loc <;> cases fn <;> cases un <;> simp [Value.read, uint_bytes] at h
        all_goals exact absurd h.symm (hs _)
      | _ => cases loc <;> cases fn <;> cases un <;> simp [Value.read, uint_bytes] at h
    | region _ =>
      cases st with
      | args2 =>
        cases loc <;> simp [Value.read, uint_bytes] at h
        exact absurd h.symm (hr _)
      | _ => cases loc <;> simp [Value.read, uint_bytes] at h
    | string _ =>
      cases st with
      | args2 =>
        cases loc <;> simp [Value.read, uint_bytes] at h
        exact absurd h.symm (hr _)
      | _ => cases loc <;> simp [Value.read, uint_bytes] at h
    | data _ =>
      cases st with
      | args2 =>
        cases loc <;> simp [Value.read, uint_bytes] at h
        exact absurd h.symm (hr _)
      | _ => cases loc <;> simp [Value.read, uint_bytes] at h

theorem write_write : ∀ (loc : Loc) (v a b v1 : Value), v.write loc a = some v1 →
    v1.write loc b = v.write loc b
  | [], v, a, b, v1, _ => by simp [Value.write]
  | step :: loc, v, a, b, v1, h => by
    cases v with
    | pointer pdata =>
      cases pdata with
      | none => cases step <;> simp [Value.write] at h
      | some p =>
        cases step <;> simp [Value.write] at h
        cases hw : p.write loc a with
        | none => simp [hw] at h
        | some p' =>
          simp [hw] at h
          subst h
          simp [Value.write, write_write loc p a b p' hw]
    | array elems =>
      cases step <;> simp [Value.write] at h
      rename_i index
      cases hget : elems[index]? with
      | none => simp [hget] at h
      | some elem =>
        cases hw : elem.write loc a with
        | none => simp [hget, hw] at h
        | some e =>
          simp [hget, hw] at h
          subst h
          have hlt : index < elems.length := (List.getElem?_eq_some_iff.1 hget).1
          simp [Value.write, hget, List.getElem?_set_self hlt, write_write loc elem a b e hw]
    | fixedarray elems =>
      cases step <;> simp [Value.write] at h
      rename_i index
      cases hget : elems[index]? with
      | none => simp [hget] at h
      | some elem =>
        cases hw : elem.write loc a with
        | none => simp [hget, hw] at h
        | some e =>
          simp [hget, hw] at h
          subst h
          have hlt : index < elems.length := (List.getElem?_eq_some_iff.1 hget).1
          simp [Value.write, hget, List.getElem?_set_self hlt, write_write loc elem a b e hw]
    | «structure» elems =>
      cases step <;> simp [Value.write] at h
      rename_i index
      cases hget : elems[index]? with
      | none => simp [hget] at h
      | some elem =>
        cases hw : elem.write loc a with
        | none => simp [hget, hw] at h
        | some e =>
          simp [hget, hw] at h
          subst h
          have hlt : index < elems.length := (List.getElem?_eq_some_iff.1 hget).1
          simp [Value.write, hget, List.getElem?_set_self hlt, write_write loc elem a b e hw]
    | union fn un =>
      cases un with
      | none => cases step <;> simp [Value.write] at h
      | some u =>
        cases step <;> simp [Value.write] at h
        cases hw : u.write loc a with
        | none => simp [hw] at h
        | some u' =>
          simp [hw] at h
          subst h
          simp [Value.write, write_write loc u a b u' hw]
    | region _ => simp [Value.write] at h
    | string _ => simp [Value.write] at h
    | data _ => simp [Value.write] at h

theorem store_append_set (bo : ByteOrder) (mem : loader_memory) (loc : Loc)
    (elems : List Value) (e0 x : Value) (h : mem.data.read bo loc = some (.array elems)) :
    (mem.store loc (.array (elems ++ [e0]))).store (loc ++ [.elem elems.length]) x =
        mem.store loc (.array (elems ++ [x])) ∧
      ((mem.store loc (.array (elems ++ [e0]))).data.read bo
        (loc ++ [.elem elems.length])).isSome = true := by
  obtain ⟨v1, hv1⟩ := read_array_write bo (.array (elems ++ [e0])) loc mem.data elems h
  have hr1 := write_read bo loc _ _ _ hv1
  have hrd := read_snoc bo (.elem elems.length) (.array (elems ++ [e0])) (by simp) (by simp)
    loc v1 hr1
  have hwr := write_snoc bo (.elem elems.length) (.array (elems ++ [e0])) x (by simp)
    (by simp) loc v1 hr1
  have hw2 := write_write loc mem.data (.array (elems ++ [e0])) (.array (elems ++ [x])) v1 hv1
  simp only [Value.read, List.getElem?_concat_length] at hrd
  simp only [Value.write, List.getElem?_concat_length, List.set_append_right _ _ (le_refl _),
    Nat.sub_self, List.set_cons_zero] at hwr
  obtain ⟨v2, hv2⟩ := read_array_write bo (.array (elems ++ [x])) loc mem.data elems h
  constructor
  · simp only [loader_memory.store, hv1, Option.getD_some, hwr, hw2, hv2]
  · simp only [loader_memory.store, hv1, Option.getD_some, hrd, Option.isSome_some]

theorem frame_eq_iff (info : json_input_info) (i : Int) (f : json_input_stackframe) :
    info.frame i = some f ↔ 0 ≤ i ∧ i < 32 ∧ info.stack[i.toNat]? = some f := by
  unfold json_input_info.frame MAX_JSON_INPUT_STACK
  constructor
  · intro h
    split_ifs at h with hi
    exact ⟨hi.1, by simpa using hi.2, h⟩
  · rintro ⟨h0, h1, h2⟩
    rw [if_pos ⟨h0, by simpa using h1⟩]
    exact h2

theorem frame_isSome_of_eq (info : json_input_info) (i : Int) (f : json_input_stackframe)
    (h : info.frame i = some f) : (info.frame i).isSome = true := by
  rw [h]
  rfl

theorem set_frame_twice (info : json_input_info) (i : Int) (f g : json_input_stackframe) :
    (info.set_frame i f).set_frame i g = info.set_frame i g := by
  simp only [json_input_info.set_frame, List.set_set]

theorem scalar_turn (bo : ByteOrder) (lb : Descriptor → List Nat → Except Errno Value)
    (info : json_input_info) (mem : loader_memory) (etype : Descriptor) (loc : Loc)
    (text : List Nat) (x : Value) (he : info.error = none)
    (hf : info.frame info.depth =
      some { json_input_stackframe.zero with type := some etype, data := some loc })
    (hp : etype.tclass = .STRUCTS_TYPE_PRIMITIVE)
    (hr : (mem.data.read bo loc).isSome = true) (hb : etype.binify lb text = .ok x)
    (hlen : text.length + 1 < 2 ^ 31) :
    structs_json_input_unnest bo lb (structs_json_input_str_value info mem text).1
        (structs_json_input_str_value info mem text).2 =
      ({ info.set_frame info.depth json_input_stackframe.zero with depth := info.depth - 1 },
        mem.store loc x) := by
  have hl1 : ¬ (text.length ≥ 2 ^ 31 ∨ text.length + 1 ≥ 2 ^ 32) := by omega
  have hs : structs_json_input_str_value info mem text =
      (info.set_frame info.depth
        ⟨some etype, none, some loc, some text, text.length, 0⟩, mem) := by
    simp only [structs_json_input_str_value, hf, he, json_input_stackframe.zero,
      ne_eq, not_true_eq_false, if_false, Option.getD_none, List.nil_append, zero_add, hl1]
  have hs0 : (info.frame info.depth).isSome = true := frame_isSome_of_eq _ _ _ hf
  have hf2 : (info.set_frame info.depth
      ⟨some etype, none, some loc, some text, text.length, 0⟩).frame info.depth =
      some ⟨some etype, none, some loc, some text, text.length, 0⟩ :=
    frame_set_frame_self info _ _ hs0
  rw [hs]
  rw [unnest_primitive bo lb _ mem _ etype loc x hf2 he rfl hp rfl hr hb]
  simp only [structs_json_input_pop, set_frame_depth, hf2, set_frame_twice]

theorem write_self (bo : ByteOrder) (x : Value) (hr : ∀ b, x ≠ .region b)
    (hs : ∀ s, x ≠ .string s) :
    ∀ (loc : Loc) (v : Value), v.read bo loc = some x → v.write loc x = some v
  | [], v, h => by
    simp only [Value.read, Option.some.injEq] at h
    simp [Value.write, h]
  | st :: loc, v, h => by
    cases v with
    | pointer pdata =>
      cases pdata with
      | none =>
        cases st with
        | args2 =>
          cases loc <;> simp [Value.read, uint_bytes] at h
          exact absurd h.symm (hr _)
        | _ => cases loc <;> simp [Value.read, uint_bytes] at h
      | some p =>
        cases st with
        | deref =>
          simp only [Value.read] at h
          simp only [Value.write, write_self bo x hr hs loc p h]
        | args2 =>
          cases loc <;> simp [Value.read, uint_bytes] at h
          exact absurd h.symm (hr _)
        | _ => cases loc <;> simp [Value.read, uint_bytes] at h
    | array es =>
      cases st with
      | elem index =>
        simp only [Value.read] at h
        cases hget : es[index]? with
        | none => simp [hget] at h
        | some elem =>
          simp only [hget] at h
          simp only [Value.write, hget, write_self bo x hr hs loc elem h,
            set_get_self es index elem hget]
      | args2 =>
        cases loc <;> simp [Value.read, uint_bytes] at h
        exact absurd h.symm (hr _)
      | length =>
        cases loc <;> simp [Value.read, uint_bytes] at h
        exact absurd h.symm (hr _)
      | _ => cases loc <;> simp [Value.read, uint_bytes] at h
    | fixedarray es =>
      cases st with
      | felem index =>
        simp only [Value.read] at h
        cases hget : es[index]? with
        | none => simp [hget] at h
        | some elem =>
          simp only [hget] at h
          simp only [Value.write, hget, write_self bo x hr hs loc elem h,
            set_get_self es index elem hget]
      | args2 =>
        cases loc <;> simp [Value.read, uint_bytes] at h
        exact absurd h.symm (hr _)
      | _ => cases loc <;> simp [Value.read, uint_bytes] at h
    | «structure» es =>
      cases st with
      | member index =>
        simp only [Value.read] at h
        cases hget : es[index]? with
        | none => simp [hget] at h
        | some elem =>
          simp only [hget] at h
          simp only [Value.write, hget, write_self bo x hr hs loc elem h,
            set_get_self es index elem hget]
      | args2 =>
        cases loc <;> simp [Value.read, uint_bytes] at h
        exact absurd h.symm (hr _)
      | _ => cases loc <;> simp [Value.read, uint_bytes] at h
    | union fn un =>
      cases st with
      | un =>
        cases un with
        | none => cases loc <;> cases fn <;> simp [Value.read, uint_bytes] at h
        | some u =>
          simp only [Value.read] at h
          simp only [Value.write, write_self bo x hr hs loc u h]
      | args2 =>
        cases loc <;> simp [Value.read, uint_bytes] at h
        exact absurd h.symm (hr _)
      | field_name =>
        cases loc <;> cases fn <;> cases un <;> simp [Value.read, uint_bytes] at h
        all_goals exact absurd h.symm (hs _)
      | _ => cases loc <;> cases fn <;> cases un <;> simp [Value.read, uint_bytes] at h
    | region _ =>
      cases st with
      | args2 =>
        cases loc <;> simp [Value.read, uint_bytes] at h
        exact absurd h.symm (hr _)
      | _ => cases loc <;> simp [Value.read, uint_bytes] at h
    | string _ =>
      cases st with
      | args2 =>
        cases loc <;> simp [Value.read, uint_bytes] at h
        exact absurd h.symm (hr _)
      | _ => cases loc <;> simp [Value.read, uint_bytes] at h
    | data _ =>
      cases st with
      | args2 =>
        cases loc <;> simp [Value.read, uint_bytes] at h
        exact absurd h.symm (hr _)
      | _ => cases loc <;> simp [Value.read, uint_bytes] at h

theorem store_self (bo : ByteOrder) (mem : loader_memory) (loc : Loc) (elems : List Value)
    (h : mem.data.read bo loc = some (.array elems)) : mem.store loc (.array elems) = mem := by
  simp only [loader_memory.store, write_self bo _ (by simp) (by simp) loc mem.data h,
    Option.getD_some]

theorem store_store (bo : ByteOrder) (mem : loader_memory) (loc : Loc) (elems : List Value)
    (a b : Value) (h : mem.data.read bo loc = some (.array elems)) :
    (mem.store loc a).store loc b = mem.store loc b := by
  obtain ⟨v1, hv1⟩ := read_array_write bo a loc mem.data elems h
  simp only [loader_memory.store, hv1, Option.getD_some, write_write loc mem.data a b v1 hv1]
  obtain ⟨v2, hv2⟩ := read_array_write bo b loc mem.data elems h
  simp only [hv2, Option.getD_some]

theorem set_frame_same (info : json_input_info) (i : Int) (f : json_input_stackframe)
    (h : info.frame i = some f) : info.set_frame i f = info := by
  have r := (frame_eq_iff info i f).mp h
  obtain ⟨error, depth, tag, stack⟩ := info
  simp only [json_input_info.set_frame]
  rw [set_get_self stack _ f r.2.2]

theorem set_frame_comm (info : json_input_info) (i j : Int) (f g : json_input_stackframe)
    (hi : 0 ≤ i) (hj : 0 ≤ j) (hij : i ≠ j) :
    (info.set_frame i f).set_frame j g = (info.set_frame j g).set_frame i f := by
  simp only [json_input_info.set_frame]
  rw [List.set_comm _ _ _ (by omega : i.toNat ≠ j.toNat)]

theorem with_depth_self (info : json_input_info) (d : Int) (h : info.depth = d) :
    { info with depth := d } = info := by
  obtain ⟨error, depth, tag, stack⟩ := info
  simp only at h
  rw [h]

theorem frame_with_depth (info : json_input_info) (d k : Int) :
    ({ info with depth := d } : json_input_info).frame k = info.frame k := rfl

theorem next_plain (bo : ByteOrder) (info : json_input_info) (mem : loader_memory)
    (T : Descriptor) (loc : Loc)
    (hp : T.tclass = .STRUCTS_TYPE_PRIMITIVE ∨ T.tclass = .STRUCTS_TYPE_STRUCTURE ∨
      T.tclass = .STRUCTS_TYPE_UNION) :
    structs_json_input_next bo info mem T loc =
      (structs_json_input_next_frame info T loc, mem) := by
  cases T <;> first | rfl | simp [Descriptor.tclass] at hp

theorem next_frame_zero (info : json_input_info) (type : Descriptor) (data : Loc)
    (hd : info.depth + 1 < 32)
    (ha : info.frame (info.depth + 1) = some json_input_stackframe.zero) :
    structs_json_input_next_frame info type data =
      { info.set_frame (info.depth + 1)
          { json_input_stackframe.zero with type := some type, data := some data }
        with depth := info.depth + 1 } := by
  have hd31 : ¬ info.depth = (MAX_JSON_INPUT_STACK : Int) - 1 := by
    simp only [MAX_JSON_INPUT_STACK]
    omega
  simp only [structs_json_input_next_frame, hd31, if_false, ha]

theorem start_array_elem (bo : ByteOrder) (info : json_input_info) (mem : loader_memory)
    (frame below : json_input_stackframe) (etype : Descriptor) (loc : Loc)
    (elems : List Value) (key : List Nat) (e0 : Value) (he : info.error = none)
    (hf : info.frame info.depth = some frame) (ht : frame.type = some (.array etype))
    (hl : frame.data = some loc) (hn : frame.name = none)
    (hb : info.frame (info.depth - 1) = some below) (hk : below.name = some key)
    (ha : info.frame (info.depth + 1) = some json_input_stackframe.zero)
    (hp : etype.tclass = .STRUCTS_TYPE_PRIMITIVE ∨ etype.tclass = .STRUCTS_TYPE_STRUCTURE ∨
      etype.tclass = .STRUCTS_TYPE_UNION)
    (hi : (etype.type bo).init = .ok e0)
    (hr : mem.data.read bo loc = some (.array elems)) (hlen : elems.length + 1 < 2 ^ 32) :
    structs_json_input_start bo info mem none =
      ({ info.set_frame (info.depth + 1)
          { json_input_stackframe.zero with
            type := some etype, data := some (loc ++ [.elem elems.length]) }
        with depth := info.depth + 1 },
        mem.store loc (.array (elems ++ [e0]))) := by
  obtain ⟨ftype, fname, fdata, fvalue, flen, findex⟩ := frame
  simp only at ht hl hn
  subst ht hl hn
  have r0 := (frame_eq_iff info _ _).mp hf
  have rb := (frame_eq_iff info _ _).mp hb
  have ra := (frame_eq_iff info _ _).mp ha
  have hd0 : info.depth ≠ 0 := by omega
  have hs0 : (info.frame info.depth).isSome = true := frame_isSome_of_eq _ _ _ hf
  have hname : structs_json_input_start_name info none = .ok key := by
    simp only [structs_json_input_start_name, hd0, if_false, hb, hk]
  have hf1 : (info.set_frame info.depth
        ⟨some (.array etype), some key, some loc, fvalue, flen, findex⟩).frame
      (info.set_frame info.depth
        ⟨some (.array etype), some key, some loc, fvalue, flen, findex⟩).depth =
      some ⟨some (.array etype), some key, some loc, fvalue, flen, findex⟩ :=
    frame_set_frame_self info _ _ hs0
  have hnest : structs_json_input_nest bo
      (info.set_frame info.depth
        ⟨some (.array etype), some key, some loc, fvalue, flen, findex⟩) mem =
      (info.set_frame info.depth
          ⟨some (.array etype), some key, some loc, fvalue, flen, findex⟩,
        mem.store loc (.array (elems ++ [e0])),
        some (etype, loc ++ [.elem elems.length])) := by
    have hlen' : ¬ elems.length + 1 ≥ 2 ^ 32 := by omega
    simp only [structs_json_input_nest, hf1, hr, hlen', if_false, hi]
  have ha1 : (info.set_frame info.depth
        ⟨some (.array etype), some key, some loc, fvalue, flen, findex⟩).frame
      ((info.set_frame info.depth
        ⟨some (.array etype), some key, some loc, fvalue, flen, findex⟩).depth + 1) =
        some json_input_stackframe.zero := by
    rw [set_frame_depth, frame_set_frame_ne info _ _ _ r0.1 (by omega)]
    exact ha
  have hnext : structs_json_input_next bo
      (info.set_frame info.depth
        ⟨some (.array etype), some key, some loc, fvalue, flen, findex⟩)
      (mem.store loc (.array (elems ++ [e0]))) etype (loc ++ [.elem elems.length]) =
      ({ (info.set_frame info.depth
            ⟨some (.array etype), some key, some loc, fvalue, flen, findex⟩).set_frame
            (info.depth + 1) { json_input_stackframe.zero with
              type := some etype, data := some (loc ++ [.elem elems.length]) }
          with depth := info.depth + 1 },
        mem.store loc (.array (elems ++ [e0]))) := by
    rw [next_plain bo _ _ etype _ hp, next_frame_zero _ _ _ (by rw [set_frame_depth]; omega) ha1]
    rfl
  have hta : ¬ (etype.tclass = .STRUCTS_TYPE_ARRAY ∨
      etype.tclass = .STRUCTS_TYPE_FIXEDARRAY) := by
    rcases hp with h | h | h <;> rw [h] <;> simp
  have heq : structs_json_input_start bo info mem none =
      (structs_json_input_start_done
        { (info.set_frame info.depth
            ⟨some (.array etype), some key, some loc, fvalue, flen, findex⟩).set_frame
            (info.depth + 1) { json_input_stackframe.zero with
              type := some etype, data := some (loc ++ [.elem elems.length]) }
          with depth := info.depth + 1 } info.depth,
        mem.store loc (.array (elems ++ [e0]))) := by
    simp only [structs_json_input_start, hf, he, hname, hd0, hnest,
      structs_json_input_start_item, structs_json_input_start_sub, set_frame_error, hnext,
      hta, ne_eq, not_true_eq_false, if_false]
  have hfd : (json_input_info.frame
      { (info.set_frame info.depth
            ⟨some (.array etype), some key, some loc, fvalue, flen, findex⟩).set_frame
            (info.depth + 1) { json_input_stackframe.zero with
              type := some etype, data := some (loc ++ [.elem elems.length]) }
          with depth := info.depth + 1 } info.depth) =
      some ⟨some (.array etype), some key, some loc, fvalue, flen, findex⟩ := by
    show ((info.set_frame info.depth _).set_frame (info.depth + 1) _).frame info.depth = _
    rw [frame_set_frame_ne _ _ _ _ ra.1 (by omega)]
    exact frame_set_frame_self info _ _ hs0
  rw [heq]
  simp only [structs_json_input_start_done, hfd]
  congr 1
  show ({ ((info.set_frame info.depth _).set_frame (info.depth + 1) _).set_frame info.depth _
    with depth := info.depth + 1 } : json_input_info) = _
  rw [set_frame_comm _ _ _ _ _ ra.1 r0.1 (by omega), set_frame_twice,
    set_frame_same info _ _ hf]

theorem store_append_read (bo : ByteOrder) (mem : loader_memory) (loc : Loc)
    (elems : List Value) (e0 : Value) (h : mem.data.read bo loc = some (.array elems)) :
    (mem.store loc (.array (elems ++ [e0]))).data.read bo (loc ++ [.elem elems.length]) =
      some e0 := by
  obtain ⟨v1, hv1⟩ := read_array_write bo (.array (elems ++ [e0])) loc mem.data elems h
  have hr1 := write_read bo loc _ _ _ hv1
  have hrd := read_snoc bo (.elem elems.length) (.array (elems ++ [e0])) (by simp) (by simp)
    loc v1 hr1
  simp only [Value.read, List.getElem?_concat_length] at hrd
  simp only [loader_memory.store, hv1, Option.getD_some, hrd]

theorem array_elem_turn (bo : ByteOrder) (lb : Descriptor → List Nat → Except Errno Value)
    (info : json_input_info) (mem : loader_memory) (frame below : json_input_stackframe)
    (etype : Descriptor) (loc : Loc) (elems : List Value) (key : List Nat) (e0 : Value)
    (item : json_t) (y : Value) (he : info.error = none)
    (hf : info.frame info.depth = some frame) (ht : frame.type = some (.array etype))
    (hl : frame.data = some loc) (hn : frame.name = none)
    (hb : info.frame (info.depth - 1) = some below) (hk : below.name = some key)
    (ha : ∀ k : Int, info.depth < k → k < MAX_JSON_INPUT_STACK →
      info.frame k = some json_input_stackframe.zero)
    (hd : info.depth + 1 < MAX_JSON_INPUT_STACK)
    (hp : etype.tclass = .STRUCTS_TYPE_PRIMITIVE ∨ etype.tclass = .STRUCTS_TYPE_STRUCTURE ∨
      etype.tclass = .STRUCTS_TYPE_UNION)
    (hi : (etype.type bo).init = .ok e0)
    (hr : mem.data.read bo loc = some (.array elems)) (hlen : elems.length + 1 < 2 ^ 32)
    (hload : loads_item bo lb etype e0 (info.depth + 1) item y) :
    structs_json_input_end bo lb
        (structs_json_input_data bo lb item (structs_json_input_start bo info mem none)).1
        (structs_json_input_data bo lb item (structs_json_input_start bo info mem none)).2 =
      (info, mem.store loc (.array (elems ++ [y]))) := by
  have ha1 := ha (info.depth + 1) (by omega) hd
  have r0 := (frame_eq_iff info _ _).mp hf
  rw [start_array_elem bo info mem frame below etype loc elems key e0 he hf ht hl hn hb hk ha1
    hp hi hr hlen]
  have h1 := hload
    { info.set_frame (info.depth + 1)
        { json_input_stackframe.zero with
          type := some etype, data := some (loc ++ [.elem elems.length]) }
      with depth := info.depth + 1 }
    (mem.store loc (.array (elems ++ [e0]))) (loc ++ [.elem elems.length]) he rfl
    (by
      rw [frame_with_depth]
      exact frame_set_frame_self info _ _ (frame_isSome_of_eq _ _ _ ha1))
    (fun k h1 h2 => by
      rw [frame_with_depth, frame_set_frame_ne info _ _ _ (by omega) (by omega)]
      exact ha k (by omega) h2)
    (store_append_read bo mem loc elems e0 hr)
  rw [h1]
  congr 1
  · show ({ (info.set_frame (info.depth + 1) _).set_frame (info.depth + 1) _
      with depth := info.depth + 1 - 1 } : json_input_info) = info
    rw [set_frame_twice, set_frame_same info _ _ ha1]
    exact with_depth_self info _ (by omega)
  · exact (store_append_set bo mem loc elems e0 y hr).1

theorem array_elems (bo : ByteOrder) (lb : Descriptor → List Nat → Except Errno Value)
    (info : json_input_info) (frame below : json_input_stackframe)
    (etype : Descriptor) (loc : Loc) (key : List Nat) (e0 : Value)
    (he : info.error = none)
    (hf : info.frame info.depth = some frame) (ht : frame.type = some (.array etype))
    (hl : frame.data = some loc) (hn : frame.name = none)
    (hb : info.frame (info.depth - 1) = some below) (hk : below.name = some key)
    (ha : ∀ k : Int, info.depth < k → k < MAX_JSON_INPUT_STACK →
      info.frame k = some json_input_stackframe.zero)
    (hd : info.depth + 1 < MAX_JSON_INPUT_STACK)
    (hp : etype.tclass = .STRUCTS_TYPE_PRIMITIVE ∨ etype.tclass = .STRUCTS_TYPE_STRUCTURE ∨
      etype.tclass = .STRUCTS_TYPE_UNION)
    (hi : (etype.type bo).init = .ok e0) :
    ∀ (items : List json_t) (ys : List Value) (mem : loader_memory) (elems : List Value),
      List.Forall₂ (loads_item bo lb etype e0 (info.depth + 1)) items ys →
      mem.data.read bo loc = some (.array elems) → elems.length + items.length < 2 ^ 32 →
      structs_json_input_data_array bo lb (json_items_of items) (info, mem) =
        (info, mem.store loc (.array (elems ++ ys)))
  | [], ys, mem, elems, hx, hr, _ => by
    cases hx
    rw [json_items_of, structs_json_input_data_array, List.append_nil,
      store_self bo mem loc elems hr]
  | item :: items, ys, mem, elems, hx, hr, hlen => by
    cases hx with
    | cons h1 hrest =>
      rename_i y ys1
      simp only [List.length_cons] at hlen
      have hturn := array_elem_turn bo lb info mem frame below etype loc elems key e0 item y
        he hf ht hl hn hb hk ha hd hp hi hr (by omega) h1
      have hr1 : (mem.store loc (.array (elems ++ [y]))).data.read bo loc =
          some (.array (elems ++ [y])) := store_read bo mem loc _ elems hr
      have ih := array_elems bo lb info frame below etype loc key e0 he hf ht hl hn hb hk ha hd
        hp hi items ys1 (mem.store loc (.array (elems ++ [y]))) (elems ++ [y]) hrest hr1
        (by simp only [List.length_append, List.length_singleton]; omega)
      rw [json_items_of, structs_json_input_data_array]
      simp only []
      rw [hturn, ih, store_store bo mem loc elems _ _ hr, List.append_assoc,
        List.singleton_append]

theorem array_document (bo : ByteOrder) (lb : Descriptor → List Nat → Except Errno Value)
    (info : json_input_info) (mem : loader_memory) (frame below : json_input_stackframe)
    (etype : Descriptor) (loc : Loc) (key : List Nat) (e0 : Value)
    (items : List json_t) (ys elems : List Value)
    (he : info.error = none)
    (hf : info.frame info.depth = some frame) (ht : frame.type = some (.array etype))
    (hl : frame.data = some loc) (hn : frame.name = none)
    (hb : info.frame (info.depth - 1) = some below) (hk : below.name = some key)
    (ha : ∀ k : Int, info.depth < k → k < MAX_JSON_INPUT_STACK →
      info.frame k = some json_input_stackframe.zero)
    (hd : info.depth + 1 < MAX_JSON_INPUT_STACK)
    (hp : etype.tclass = .STRUCTS_TYPE_PRIMITIVE ∨ etype.tclass = .STRUCTS_TYPE_STRUCTURE ∨
      etype.tclass = .STRUCTS_TYPE_UNION)
    (hi : (etype.type bo).init = .ok e0)
    (hx : List.Forall₂ (loads_item bo lb etype e0 (info.depth + 1)) items ys)
    (hr : mem.data.read bo loc = some (.array elems))
    (hlen : elems.length + items.length < 2 ^ 32) :
    structs_json_input_data bo lb (.JSON_ARRAY (json_items_of items)) (info, mem) =
      ((if items.isEmpty = true then info
        else info.set_frame (info.depth - 1) { below with name := none }),
        mem.store loc (.array (elems ++ ys))) := by
  have hloop := array_elems bo lb info frame below etype loc key e0 he hf ht hl hn hb hk ha hd
    hp hi items ys mem elems hx hr hlen
  cases items with
  | nil =>
    rw [json_items_of, structs_json_input_data_array] at hloop
    rw [json_items_of, structs_json_input_data]
    simpa using hloop
  | cons item items =>
    have r0 := (frame_eq_iff info _ _).mp hf
    have hd0 : info.depth > 0 := by
      have rb := (frame_eq_iff info _ _).mp hb
      omega
    rw [json_items_of] at hloop ⊢
    rw [structs_json_input_data, hloop]
    simp only [structs_json_input_data_array_done, hd0, if_true, hb, hk, List.isEmpty_cons,
      Bool.false_eq_true, if_false]

theorem loads_string (bo : ByteOrder) (lb : Descriptor → List Nat → Except Errno Value)
    (etype : Descriptor) (e0 : Value) (depth : Int) (text : List Nat) (y : Value)
    (hp : etype.tclass = .STRUCTS_TYPE_PRIMITIVE) (hb : etype.binify lb text = .ok y)
    (hlen : text.length + 1 < 2 ^ 31) :
    loads_item bo lb etype e0 depth (.JSON_STRING text) y := by
  intro info mem loc he hd hf _ hr
  subst hd
  rw [structs_json_input_data, structs_json_input_end]
  exact scalar_turn bo lb info mem etype loc text y he hf hp (by rw [hr]; rfl) hb hlen

theorem loads_integer (bo : ByteOrder) (lb : Descriptor → List Nat → Except Errno Value)
    (etype : Descriptor) (e0 : Value) (depth : Int) (value : Int) (y : Value)
    (hp : etype.tclass = .STRUCTS_TYPE_PRIMITIVE)
    (hb : etype.binify lb (printf_lld value) = .ok y)
    (hlen : (printf_lld value).length + 1 < 2 ^ 31) :
    loads_item bo lb etype e0 depth (.JSON_INTEGER value) y := by
  intro info mem loc he hd hf _ hr
  subst hd
  rw [structs_json_input_data, structs_json_input_end]
  exact scalar_turn bo lb info mem etype loc _ y he hf hp (by rw [hr]; rfl) hb hlen

theorem store_same (bo : ByteOrder) (mem : loader_memory) (loc : Loc) (x : Value)
    (hr : ∀ b, x ≠ .region b) (hs : ∀ s, x ≠ .string s)
    (h : mem.data.read bo loc = some x) : mem.store loc x = mem := by
  simp only [loader_memory.store, write_self bo x hr hs loc mem.data h, Option.getD_some]

theorem unnest_aggregate (bo : ByteOrder) (lb : Descriptor → List Nat → Except Errno Value)
    (info : json_input_info) (mem : loader_memory) (frame : json_input_stackframe)
    (T : Descriptor) (he : info.error = none) (hf : info.frame info.depth = some frame)
    (ht : frame.type = some T)
    (hc : T.tclass = .STRUCTS_TYPE_STRUCTURE ∨ T.tclass = .STRUCTS_TYPE_ARRAY)
    (hv : frame.value = none) :
    structs_json_input_unnest bo lb info mem =
      ({ info.set_frame info.depth json_input_stackframe.zero with depth := info.depth - 1 },
        mem) := by
  have hdone : structs_json_input_unnest_done info mem frame =
      ({ info.set_frame info.depth json_input_stackframe.zero with depth := info.depth - 1 },
        mem) := by
    simp only [structs_json_input_unnest_done, json_input_stackframe.has_text, hv,
      structs_json_input_pop, hf]
    rfl
  unfold structs_json_input_unnest
  simp only [hf, he, ht, ne_eq, not_true_eq_false, if_false]
  cases T with
  | union fl => simp [Descriptor.tclass] at hc
  | _ =>
    first
    | (simp [Descriptor.tclass] at hc; done)
    | simp only [Descriptor.tclass, hdone, reduceCtorEq, if_false]

theorem start_member (bo : ByteOrder) (info : json_input_info) (mem : loader_memory)
    (frame : json_input_stackframe) (flist : FieldList) (loc : Loc) (fields : List Value)
    (key : List Nat) (ftype : Descriptor) (floc : Loc) (he : info.error = none)
    (hd0 : 0 < info.depth) (hd : info.depth + 1 < MAX_JSON_INPUT_STACK)
    (hf : info.frame info.depth = some frame) (ht : frame.type = some (.structure flist))
    (hl : frame.data = some loc) (hn : frame.name = none)
    (ha : info.frame (info.depth + 1) = some json_input_stackframe.zero)
    (hr : mem.data.read bo loc = some (.structure fields))
    (hfind : structs_find bo (.structure flist) (some key) (.structure fields) true =
      (.structure fields, .ok (ftype, floc)))
    (hp : ftype.tclass = .STRUCTS_TYPE_PRIMITIVE ∨ ftype.tclass = .STRUCTS_TYPE_STRUCTURE ∨
      ftype.tclass = .STRUCTS_TYPE_UNION) :
    structs_json_input_start bo info mem (some key) =
      ({ info.set_frame (info.depth + 1)
          { json_input_stackframe.zero with type := some ftype, data := some (loc ++ floc) }
        with depth := info.depth + 1 }, mem) := by
  obtain ⟨ftype0, fname, fdata, fvalue, flen, findex⟩ := frame
  simp only at ht hl hn
  subst ht hl hn
  have r0 := (frame_eq_iff info _ _).mp hf
  have ra := (frame_eq_iff info _ _).mp ha
  have hdz : info.depth ≠ 0 := by omega
  have hs0 : (info.frame info.depth).isSome = true := frame_isSome_of_eq _ _ _ hf
  have hf1 : (info.set_frame info.depth
        ⟨some (.structure flist), some key, some loc, fvalue, flen, findex⟩).frame
      (info.set_frame info.depth
        ⟨some (.structure flist), some key, some loc, fvalue, flen, findex⟩).depth =
      some ⟨some (.structure flist), some key, some loc, fvalue, flen, findex⟩ :=
    frame_set_frame_self info _ _ hs0
  have hst : mem.store loc (.structure fields) = mem :=
    store_same bo mem loc _ (by simp) (by simp) hr
  have hnest : structs_json_input_nest bo
      (info.set_frame info.depth
        ⟨some (.structure flist), some key, some loc, fvalue, flen, findex⟩) mem =
      (info.set_frame info.depth
          ⟨some (.structure flist), some key, some loc, fvalue, flen, findex⟩,
        mem, some (ftype, loc ++ floc)) := by
    simp only [structs_json_input_nest, hf1, structs_json_input_nest_find, hr, hfind, hst]
  have ha1 : (info.set_frame info.depth
        ⟨some (.structure flist), some key, some loc, fvalue, flen, findex⟩).frame
      ((info.set_frame info.depth
        ⟨some (.structure flist), some key, some loc, fvalue, flen, findex⟩).depth + 1) =
        some json_input_stackframe.zero := by
    rw [set_frame_depth, frame_set_frame_ne info _ _ _ r0.1 (by omega)]
    exact ha
  have hnext : structs_json_input_next bo
      (info.set_frame info.depth
        ⟨some (.structure flist), some key, some loc, fvalue, flen, findex⟩)
      mem ftype (loc ++ floc) =
      ({ (info.set_frame info.depth
            ⟨some (.structure flist), some key, some loc, fvalue, flen, findex⟩).set_frame
            (info.depth + 1) { json_input_stackframe.zero with
              type := some ftype, data := some (loc ++ floc) }
          with depth := info.depth + 1 }, mem) := by
    rw [next_plain bo _ _ ftype _ hp,
      next_frame_zero _ _ _ (by rw [set_frame_depth]; simpa [MAX_JSON_INPUT_STACK] using hd) ha1]
    rfl
  have hta : ¬ (ftype.tclass = .STRUCTS_TYPE_ARRAY ∨
      ftype.tclass = .STRUCTS_TYPE_FIXEDARRAY) := by
    rcases hp with h | h | h <;> rw [h] <;> simp
  have heq : structs_json_input_start bo info mem (some key) =
      (structs_json_input_start_done
        { (info.set_frame info.depth
            ⟨some (.structure flist), some key, some loc, fvalue, flen, findex⟩).set_frame
            (info.depth + 1) { json_input_stackframe.zero with
              type := some ftype, data := some (loc ++ floc) }
          with depth := info.depth + 1 } info.depth, mem) := by
    simp only [structs_json_input_start, hf, he, structs_json_input_start_name, hdz, hnest,
      structs_json_input_start_item, structs_json_input_start_sub, set_frame_error, hnext,
      hta, ne_eq, not_true_eq_false, if_false]
  have hfd : (json_input_info.frame
      { (info.set_frame info.depth
            ⟨some (.structure flist), some key, some loc, fvalue, flen, findex⟩).set_frame
            (info.depth + 1) { json_input_stackframe.zero with
              type := some ftype, data := some (loc ++ floc) }
          with depth := info.depth + 1 } info.depth) =
      some ⟨some (.structure flist), some key, some loc, fvalue, flen, findex⟩ := by
    show ((info.set_frame info.depth _).set_frame (info.depth + 1) _).frame info.depth = _
    rw [frame_set_frame_ne _ _ _ _ ra.1 (by omega)]
    exact frame_set_frame_self info _ _ hs0
  rw [heq]
  simp only [structs_json_input_start_done, hfd]
  congr 1
  show ({ ((info.set_frame info.depth _).set_frame (info.depth + 1) _).set_frame info.depth _
    with depth := info.depth + 1 } : json_input_info) = _
  rw [set_frame_comm _ _ _ _ _ ra.1 r0.1 (by omega), set_frame_twice,
    set_frame_same info _ _ hf]

theorem store_member (bo : ByteOrder) (mem : loader_memory) (loc : Loc) (r x : Value)
    (h : mem.data.read bo loc = some (.structure [r])) :
    mem.store (loc ++ [.member 0]) x = mem.store loc (.structure [x]) := by
  have hw := write_snoc bo (.member 0) (.structure [r]) x (by simp) (by simp) loc mem.data h
  simp only [Value.write, List.getElem?_cons_zero, List.set_cons_zero] at hw
  simp only [loader_memory.store, hw]

theorem loads_E5_item (bo : ByteOrder) (lb : Descriptor → List Nat → Except Errno Value)
    (name : String) (size : Nat) (depth : Int) (v : Int) (x : Value)
    (h0 : 0 < depth) (hd : depth + 1 < MAX_JSON_INPUT_STACK)
    (hb : lb (.int name size) (printf_lld v) = .ok x)
    (hlen : (printf_lld v).length + 1 < 2 ^ 31) :
    loads_item bo lb (E5_elem name size) (E5_init size) depth (E5_item v) (.structure [x]) := by
  intro info mem loc he hdep hf ha hr
  subst hdep
  have ha1 := ha (info.depth + 1) (by omega) hd
  have hstart := start_member bo info mem _ (.FIELD [97] (.int name size) .END) loc
    [.region (List.replicate size 0)] [97] (.int name size) [.member 0] he h0 hd hf rfl rfl rfl
    ha1 hr rfl (Or.inl rfl)
  obtain ⟨info1, hi1⟩ : ∃ i : json_input_info, i =
      { info.set_frame (info.depth + 1)
          { json_input_stackframe.zero with
            type := some (.int name size), data := some (loc ++ [.member 0]) }
        with depth := info.depth + 1 } := ⟨_, rfl⟩
  rw [← hi1] at hstart
  have hd1 : info1.depth = info.depth + 1 := by rw [hi1]
  have hleaf := scalar_turn bo lb info1 mem (.int name size) (loc ++ [.member 0])
    (printf_lld v) x (by rw [hi1]; exact he)
    (by
      rw [hd1, hi1, frame_with_depth]
      exact frame_set_frame_self info _ _ (frame_isSome_of_eq _ _ _ ha1))
    rfl
    (by
      rw [read_snoc bo (.member 0) _ (by simp [E5_init]) (by simp [E5_init]) loc mem.data hr]
      rfl)
    hb hlen
  have hinfo : ({ info1.set_frame info1.depth json_input_stackframe.zero
      with depth := info1.depth - 1 } : json_input_info) = info := by
    rw [hd1, hi1]
    show ({ (info.set_frame (info.depth + 1) _).set_frame (info.depth + 1) _
      with depth := info.depth + 1 - 1 } : json_input_info) = info
    rw [set_frame_twice, set_frame_same info _ _ ha1]
    exact with_depth_self info _ (by omega)
  rw [hinfo] at hleaf
  have e1 : structs_json_input_data bo lb (E5_item v) (info, mem) =
      structs_json_input_unnest bo lb
        (structs_json_input_str_value (structs_json_input_start bo info mem (some [97])).1
          (structs_json_input_start bo info mem (some [97])).2 (printf_lld v)).1
        (structs_json_input_str_value (structs_json_input_start bo info mem (some [97])).1
          (structs_json_input_start bo info mem (some [97])).2 (printf_lld v)).2 := by
    simp only [E5_item, structs_json_input_data, structs_json_input_data_object,
      structs_json_input_end]
  rw [e1, hstart, hleaf, structs_json_input_end]
  simp only []
  rw [unnest_aggregate bo lb info (mem.store (loc ++ [Step.member 0]) x) _
      (E5_elem name size) he hf rfl (Or.inl rfl) rfl,
    store_member bo mem loc _ x hr]

theorem start_array_field (bo : ByteOrder) (info : json_input_info) (mem : loader_memory)
    (frame : json_input_stackframe) (flist : FieldList) (loc : Loc) (fields : List Value)
    (key : List Nat) (etype : Descriptor) (floc : Loc) (old : List Value)
    (r : Option Value) (he : info.error = none)
    (hd0 : 0 < info.depth) (hd : info.depth + 1 < MAX_JSON_INPUT_STACK)
    (hf : info.frame info.depth = some frame) (ht : frame.type = some (.structure flist))
    (hl : frame.data = some loc)
    (ha : info.frame (info.depth + 1) = some json_input_stackframe.zero)
    (hr : mem.data.read bo loc = some (.structure fields))
    (hfind : structs_find bo (.structure flist) (some key) (.structure fields) true =
      (.structure fields, .ok (.array etype, floc)))
    (hold : mem.data.read bo (loc ++ floc) = some (.array old))
    (hun : (Descriptor.array etype).uninit bo (.array old) = .ok r) :
    structs_json_input_start bo info mem (some key) =
      ({ (info.set_frame info.depth { frame with name := some key }).set_frame
          (info.depth + 1)
          { json_input_stackframe.zero with
            type := some (.array etype), data := some (loc ++ floc) }
        with depth := info.depth + 1 }, mem.store (loc ++ floc) (.array [])) := by
  obtain ⟨ftype0, fname, fdata, fvalue, flen, findex⟩ := frame
  simp only at ht hl
  subst ht hl
  have r0 := (frame_eq_iff info _ _).mp hf
  have ra := (frame_eq_iff info _ _).mp ha
  have hdz : info.depth ≠ 0 := by omega
  have hs0 : (info.frame info.depth).isSome = true := frame_isSome_of_eq _ _ _ hf
  have hf1 : (info.set_frame info.depth
        ⟨some (.structure flist), some key, some loc, fvalue, flen, findex⟩).frame
      (info.set_frame info.depth
        ⟨some (.structure flist), some key, some loc, fvalue, flen, findex⟩).depth =
      some ⟨some (.structure flist), some key, some loc, fvalue, flen, findex⟩ :=
    frame_set_frame_self info _ _ hs0
  have hst : mem.store loc (.structure fields) = mem :=
    store_same bo mem loc _ (by simp) (by simp) hr
  have hnest : structs_json_input_nest bo
      (info.set_frame info.depth
        ⟨some (.structure flist), some key, some loc, fvalue, flen, findex⟩) mem =
      (info.set_frame info.depth
          ⟨some (.structure flist), some key, some loc, fvalue, flen, findex⟩,
        mem, some (.array etype, loc ++ floc)) := by
    simp only [structs_json_input_nest, hf1, structs_json_input_nest_find, hr, hfind, hst]
  have ha1 : (info.set_frame info.depth
        ⟨some (.structure flist), some key, some loc, fvalue, flen, findex⟩).frame
      ((info.set_frame info.depth
        ⟨some (.structure flist), some key, some loc, fvalue, flen, findex⟩).depth + 1) =
        some json_input_stackframe.zero := by
    rw [set_frame_depth, frame_set_frame_ne info _ _ _ r0.1 (by omega)]
    exact ha
  have hnext : structs_json_input_next bo
      (info.set_frame info.depth
        ⟨some (.structure flist), some key, some loc, fvalue, flen, findex⟩)
      mem (.array etype) (loc ++ floc) =
      ({ (info.set_frame info.depth
            ⟨some (.structure flist), some key, some loc, fvalue, flen, findex⟩).set_frame
            (info.depth + 1) { json_input_stackframe.zero with
              type := some (.array etype), data := some (loc ++ floc) }
          with depth := info.depth + 1 }, mem.store (loc ++ floc) (.array [])) := by
    simp only [structs_json_input_next, structs_json_input_next_deref, hold, hun]
    rw [next_frame_zero _ _ _ (by rw [set_frame_depth]; simpa [MAX_JSON_INPUT_STACK] using hd)
      ha1]
    rfl
  simp only [structs_json_input_start, hf, he, structs_json_input_start_name, hdz, hnest,
    structs_json_input_start_item, structs_json_input_start_sub, set_frame_error, hnext,
    Descriptor.tclass, ne_eq, not_true_eq_false, if_false, true_or, if_true]

theorem forall₂_json_items (P : json_t → Value → Prop) (f : Int → json_t) (g : Value → Value) :
    ∀ (values : List Int) (xs : List Value),
    List.Forall₂ (fun v x => P (f v) (g x)) values xs →
    List.Forall₂ P (values.map f) (xs.map g)
  | [], _, h => by
    cases h
    exact .nil
  | v :: values, _, h => by
    cases h with
    | cons h1 hrest => exact .cons h1 (forall₂_json_items P f g values _ hrest)

theorem array_member (bo : ByteOrder) (lb : Descriptor → List Nat → Except Errno Value)
    (info : json_input_info) (mem : loader_memory)
    (frame : json_input_stackframe) (flist : FieldList) (loc : Loc) (fields : List Value)
    (key : List Nat) (etype : Descriptor) (floc : Loc) (old : List Value)
    (r : Option Value) (e0 : Value) (items : List json_t) (ys : List Value)
    (rest : json_members) (he : info.error = none)
    (hd0 : 0 < info.depth) (hd : info.depth + 2 < MAX_JSON_INPUT_STACK)
    (hf : info.frame info.depth = some frame) (ht : frame.type = some (.structure flist))
    (hl : frame.data = some loc)
    (ha : ∀ k : Int, info.depth < k → k < MAX_JSON_INPUT_STACK →
      info.frame k = some json_input_stackframe.zero)
    (hr : mem.data.read bo loc = some (.structure fields))
    (hfind : structs_find bo (.structure flist) (some key) (.structure fields) true =
      (.structure fields, .ok (.array etype, floc)))
    (hold : mem.data.read bo (loc ++ floc) = some (.array old))
    (hun : (Descriptor.array etype).uninit bo (.array old) = .ok r)
    (hp : etype.tclass = .STRUCTS_TYPE_PRIMITIVE ∨ etype.tclass = .STRUCTS_TYPE_STRUCTURE ∨
      etype.tclass = .STRUCTS_TYPE_UNION)
    (hi : (etype.type bo).init = .ok e0)
    (hx : List.Forall₂ (loads_item bo lb etype e0 (info.depth + 2)) items ys)
    (hlen : items.length < 2 ^ 32) :
    structs_json_input_data_object bo lb
        (.member key (.JSON_ARRAY (json_items_of items)) rest) (info, mem) =
      structs_json_input_data_object bo lb rest
        (info.set_frame info.depth
          { frame with name := if items.isEmpty = true then some key else none },
          mem.store (loc ++ floc) (.array ys)) := by
  have r0 := (frame_eq_iff info _ _).mp hf
  have hM : (info.depth : Int) + 1 < MAX_JSON_INPUT_STACK := by omega
  have ha1 := ha (info.depth + 1) (by omega) hM
  have ra := (frame_eq_iff info _ _).mp ha1
  have hs0 : (info.frame info.depth).isSome = true := frame_isSome_of_eq _ _ _ hf
  have hstart := start_array_field bo info mem frame flist loc fields key etype floc old r he
    hd0 hM hf ht hl ha1 hr hfind hold hun
  obtain ⟨info2, hi2⟩ : ∃ i : json_input_info, i =
      { (info.set_frame info.depth { frame with name := some key }).set_frame
          (info.depth + 1)
          { json_input_stackframe.zero with
            type := some (.array etype), data := some (loc ++ floc) }
        with depth := info.depth + 1 } := ⟨_, rfl⟩
  rw [← hi2] at hstart
  have hd2 : info2.depth = info.depth + 1 := by rw [hi2]
  have he2 : info2.error = none := by rw [hi2]; exact he
  have hs1 : ((info.set_frame info.depth { frame with name := some key }).frame
      (info.depth + 1)).isSome = true := by
    rw [set_frame_frame_isSome]
    exact frame_isSome_of_eq _ _ _ ha1
  have hf2 : info2.frame info2.depth = some { json_input_stackframe.zero with
      type := some (.array etype), data := some (loc ++ floc) } := by
    rw [hd2, hi2, frame_with_depth]
    exact frame_set_frame_self _ _ _ hs1
  have hb2 : info2.frame (info2.depth - 1) = some { frame with name := some key } := by
    rw [hd2, hi2, frame_with_depth, frame_set_frame_ne _ _ _ _ ra.1 (by omega)]
    have e : info.depth + 1 - 1 = info.depth := by omega
    rw [e]
    exact frame_set_frame_self info _ _ hs0
  have ha2 : ∀ k : Int, info2.depth < k → k < MAX_JSON_INPUT_STACK →
      info2.frame k = some json_input_stackframe.zero := by
    intro k h1 h2
    rw [hd2] at h1
    rw [hi2, frame_with_depth, frame_set_frame_ne _ _ _ _ ra.1 (by omega),
      frame_set_frame_ne _ _ _ _ r0.1 (by omega)]
    exact ha k (by omega) h2
  have hr2 : (mem.store (loc ++ floc) (.array [])).data.read bo (loc ++ floc) =
      some (.array []) := store_read bo mem _ _ old hold
  have hdoc := array_document bo lb info2 (mem.store (loc ++ floc) (.array []))
    _ { frame with name := some key } etype (loc ++ floc) key e0 items ys [] he2 hf2 rfl rfl rfl
    hb2 rfl ha2 (by rw [hd2]; omega) hp hi
    (by
      have e : info.depth + 1 + 1 = info.depth + 2 := by omega
      rw [hd2, e]
      exact hx) hr2
    (by simpa using hlen)
  rw [store_store bo mem _ old _ _ hold, List.nil_append] at hdoc
  rw [structs_json_input_data_object]
  simp only []
  rw [hstart, hdoc, structs_json_input_end]
  simp only []
  congr 1
  cases items with
  | nil =>
    simp only [List.isEmpty_nil, if_true]
    rw [unnest_aggregate bo lb info2 _ _ (.array etype) he2 hf2 rfl (Or.inr rfl) rfl]
    congr 1
    rw [hd2, hi2]
    show ({ ((info.set_frame info.depth _).set_frame (info.depth + 1) _).set_frame
      (info.depth + 1) _ with depth := info.depth + 1 - 1 } : json_input_info) = _
    rw [set_frame_twice, set_frame_comm _ _ _ _ _ r0.1 ra.1 (by omega),
      set_frame_same info _ _ ha1]
    exact with_depth_self _ _ (by rw [set_frame_depth]; omega)
  | cons item items =>
    simp only [List.isEmpty_cons, Bool.false_eq_true, if_false]
    have hf3 : (info2.set_frame (info2.depth - 1)
        { ({ frame with name := some key } : json_input_stackframe) with name := none }).frame
        (info2.set_frame (info2.depth - 1)
          { ({ frame with name := some key } : json_input_stackframe) with
            name := none }).depth = some { json_input_stackframe.zero with
      type := some (.array etype), data := some (loc ++ floc) } := by
      rw [set_frame_depth, frame_set_frame_ne _ _ _ _ (by omega) (by omega)]
      exact hf2
    rw [unnest_aggregate bo lb _ _ _ (.array etype) (by rw [set_frame_error]; exact he2) hf3
      rfl (Or.inr rfl) rfl]
    congr 1
    rw [set_frame_depth, hd2, hi2]
    show ({ (((info.set_frame info.depth _).set_frame (info.depth + 1) _).set_frame
      (info.depth + 1 - 1) _).set_frame (info.depth + 1) _
      with depth := info.depth + 1 - 1 } : json_input_info) = _
    have e : info.depth + 1 - 1 = info.depth := by omega
    rw [e, set_frame_comm _ _ _ _ _ r0.1 ra.1 (by omega), set_frame_twice,
      set_frame_comm _ _ _ _ _ ra.1 r0.1 (by omega), set_frame_twice,
      set_frame_comm _ _ _ _ _ r0.1 ra.1 (by omega), set_frame_same info _ _ ha1]
    exact with_depth_self _ _ (by rw [set_frame_depth])

theorem E5_above (name : String) (size : Nat) (k : Int)
    (h1 : (E5_info 1 [E5_frame (E5_type name size) none [] none,
      E5_frame (E5_type name size) none [] none]).depth < k)
    (h2 : k < MAX_JSON_INPUT_STACK) :
    (E5_info 1 [E5_frame (E5_type name size) none [] none,
      E5_frame (E5_type name size) none [] none]).frame k =
      some json_input_stackframe.zero := by
  simp only [E5_info] at h1
  simp only [MAX_JSON_INPUT_STACK, Nat.cast_ofNat] at h2
  interval_cases k <;> rfl

theorem E5_loaded (bo : ByteOrder) (lb : Descriptor → List Nat → Except Errno Value)
    (name : String) (size : Nat) (values : List Int) (xs : List Value)
    (errno : Option Errno)
    (hx : List.Forall₂ (fun v x => lb (.int name size) (printf_lld v) = .ok x ∧
      (printf_lld v).length + 1 < 2 ^ 31) values xs)
    (hlen : values.length < 2 ^ 32) :
    structs_json_input_data bo lb (E5_doc_of values)
        (structs_json_input_info (E5_type name size) [114, 111, 111, 116],
          E5_memory [] errno) =
      (E5_info 0 [E5_frame (E5_type name size) none [] none],
        E5_memory (xs.map fun x => .structure [x]) errno) := by
  have hitems : List.Forall₂ (loads_item bo lb (E5_elem name size) (E5_init size)
      ((E5_info 1 [E5_frame (E5_type name size) none [] none,
        E5_frame (E5_type name size) none [] none]).depth + 2))
      (values.map E5_item) (xs.map fun x => .structure [x]) := by
    apply forall₂_json_items
    exact hx.imp fun {v x} h =>
      loads_E5_item bo lb name size _ v x (by show (0 : Int) < 1 + 2; omega)
        (by show (1 : Int) + 2 + 1 < ((32 : Nat) : Int); omega) h.1 h.2
  have hmem := array_member bo lb
    (E5_info 1 [E5_frame (E5_type name size) none [] none,
      E5_frame (E5_type name size) none [] none])
    (E5_memory [] errno) (E5_frame (E5_type name size) none [] none)
    (.FIELD [97, 114, 114] (.array (E5_elem name size)) .END) [] [.array []] [97, 114, 114]
    (E5_elem name size) [Step.member 0] [] _ (E5_init size) (values.map E5_item)
    (xs.map fun x => .structure [x]) .done rfl (by show (0 : Int) < 1; omega)
    (by show (1 : Int) + 2 < ((32 : Nat) : Int); omega) rfl rfl rfl
    (E5_above name size) rfl rfl rfl rfl (Or.inr (Or.inl rfl)) rfl hitems
    (by simpa using hlen)
  have hstore : (E5_memory [] errno).store ([] ++ [Step.member 0])
      (.array (xs.map fun x => .structure [x])) =
      E5_memory (xs.map fun x => .structure [x]) errno := rfl
  rw [hstore] at hmem
  generalize (if (List.map E5_item values).isEmpty = true then some [97, 114, 114]
    else none) = nm at hmem
  rw [E5_doc_of, structs_json_input_data, structs_json_input_data_object]
  simp only []
  unfold E5_items
  rw [E5_step1, structs_json_input_data, hmem]
  simp only [structs_json_input_data_object, structs_json_input_end]
  cases nm <;> rfl

theorem E5_input (bo : ByteOrder) (lb : Descriptor → List Nat → Except Errno Value)
    (name : String) (size : Nat) (values : List Int) (xs : List Value)
    (errno : Option Errno)
    (hx : List.Forall₂ (fun v x => lb (.int name size) (printf_lld v) = .ok x ∧
      (printf_lld v).length + 1 < 2 ^ 31) values xs)
    (hlen : values.length < 2 ^ 32) :
    structs_json_input bo lb (E5_type name size) [114, 111, 111, 116]
        (some (E5_doc_of values)) errno =
      .ok (0, ⟨.structure [.array (xs.map fun x => .structure [x])], errno⟩) := by
  have hw := E5_loaded bo lb name size values xs errno hx hlen
  simp only [E5_memory] at hw
  rw [input_retval bo lb (E5_type name size) _ (E5_doc_of values) errno
    (.structure [.array []]) rfl, hw]
  rfl

theorem E5_find (bo : ByteOrder) (name : String) (size : Nat) (x1 x2 : Value) :
    structs_find bo (E5_type name size) (some [97, 114, 114, 46, 108, 101, 110, 103, 116, 104])
        (.structure [.array [.structure [x1], .structure [x2]]]) false =
        (.structure [.array [.structure [x1], .structure [x2]]],
          .ok (.array_length, [.member 0, .length])) ∧
      structs_find bo (E5_type name size) (some [97, 114, 114, 46, 48, 46, 97])
        (.structure [.array [.structure [x1], .structure [x2]]]) false =
        (.structure [.array [.structure [x1], .structure [x2]]],
          .ok (.int name size, [.member 0, .elem 0, .member 0])) ∧
      structs_find bo (E5_type name size) (some [97, 114, 114, 46, 49, 46, 97])
        (.structure [.array [.structure [x1], .structure [x2]]]) false =
        (.structure [.array [.structure [x1], .structure [x2]]],
          .ok (.int name size, [.member 0, .elem 1, .member 0])) :=
  ⟨rfl, rfl, rfl⟩

/-! ## The loader: arrays of a document -/

/-- C32: loader scenario E5 and the rule for arrays.  For an integer
`binify` that reads the texts "1" and "2" as `x1` and `x2`, the opening start
of the document `{"root":{"arr":[{"a":1},{"a":2}]}}` with the tag "root" leaves
the depth at 1, the events of the object under "root" leave it at 1 again, and
the whole document ends with no error at depth 0, where it was before the
opening start; the value is then `{ arr: [{ a: x1 }, { a: x2 }] }`:
"arr.length" reads 2, "arr.0.a" is `x1` and "arr.1.a" is `x2`; and the load
returns 0.  The same holds for every number of items: the document
`{"root":{"arr":[{"a":v}, ...]}}` of `n` numbers, each read by `binify`, loads
with the result 0 into an array of exactly `n` elements, element `i` holding
what `binify` reads from item `i`.  In general, for the member `key` of an
object loaded into a structure whose field `key` is a variable array (found
by `structs_find` without a change of the structure), with an element type
of class primitive, structure or union: a document array of `n` items, each
of which loads its element (`loads_item`), leaves no error, the depth and the
frames as they were but for the name of the frame, and the array of exactly
the `n` elements loaded from the items, in their order; the same holds for the
items of the array alone, in a state with the frame of the array at the depth,
which appends one element for each item.  An item loads its element when it
is a string or an integer for an element of a primitive type that `binify`
reads, and when it is the object `{"a":v}` for the element `{ a: int }` of
scenario E5. -/
theorem array_items_loaded (bo : ByteOrder) (lb : Descriptor → List Nat → Except Errno Value)
    (name : String) (size : Nat) (x1 x2 : Value) (errno : Option Errno)
    (h1 : lb (.int name size) [49] = .ok x1) (h2 : lb (.int name size) [50] = .ok x2) :
    (structs_json_input_start bo
        (structs_json_input_info (E5_type name size) [114, 111, 111, 116])
        ⟨.structure [.array []], errno⟩ (some [114, 111, 111, 116])).1.depth = 1 ∧
      (structs_json_input_data bo lb (.JSON_OBJECT E5_members)
        (structs_json_input_start bo
          (structs_json_input_info (E5_type name size) [114, 111, 111, 116])
          ⟨.structure [.array []], errno⟩ (some [114, 111, 111, 116]))).1.depth = 1 ∧
      (structs_json_input_data bo lb E5_doc
        (structs_json_input_info (E5_type name size) [114, 111, 111, 116],
          ⟨.structure [.array []], errno⟩)).1.error = none ∧
      (structs_json_input_data bo lb E5_doc
        (structs_json_input_info (E5_type name size) [114, 111, 111, 116],
          ⟨.structure [.array []], errno⟩)).1.depth = 0 ∧
      (structs_json_input_data bo lb E5_doc
        (structs_json_input_info (E5_type name size) [114, 111, 111, 116],
          ⟨.structure [.array []], errno⟩)).2.data =
        .structure [.array [.structure [x1], .structure [x2]]] ∧
      structs_json_input bo lb (E5_type name size) [114, 111, 111, 116] (some E5_doc) errno =
        .ok (0, ⟨.structure [.array [.structure [x1], .structure [x2]]], errno⟩) ∧
      (structs_find bo (E5_type name size)
          (some [97, 114, 114, 46, 108, 101, 110, 103, 116, 104])
          (.structure [.array [.structure [x1], .structure [x2]]]) false).2 =
        .ok (.array_length, [.member 0, .length]) ∧
      (Value.structure [.array [.structure [x1], .structure [x2]]]).read bo
        [.member 0, .length] = some (.region (uint_bytes bo 2)) ∧
      (structs_find bo (E5_type name size) (some [97, 114, 114, 46, 48, 46, 97])
          (.structure [.array [.structure [x1], .structure [x2]]]) false).2 =
        .ok (.int name size, [.member 0, .elem 0, .member 0]) ∧
      (Value.structure [.array [.structure [x1], .structure [x2]]]).read bo
        [.member 0, .elem 0, .member 0] = some x1 ∧
      (structs_find bo (E5_type name size) (some [97, 114, 114, 46, 49, 46, 97])
          (.structure [.array [.structure [x1], .structure [x2]]]) false).2 =
        .ok (.int name size, [.member 0, .elem 1, .member 0]) ∧
      (Value.structure [.array [.structure [x1], .structure [x2]]]).read bo
        [.member 0, .elem 1, .member 0] = some x2 ∧
      (E5_doc_of [1, 2] = E5_doc ∧
        ∀ (values : List Int) (xs : List Value),
          List.Forall₂ (fun v x => lb (.int name size) (printf_lld v) = .ok x ∧
            (printf_lld v).length + 1 < 2 ^ 31) values xs →
          values.length < 2 ^ 32 →
          structs_json_input bo lb (E5_type name size) [114, 111, 111, 116]
              (some (E5_doc_of values)) errno =
            .ok (0, ⟨.structure [.array (xs.map fun x => .structure [x])], errno⟩) ∧
          xs.length = values.length ∧
          (Value.structure [.array (xs.map fun x => .structure [x])]).read bo
            [.member 0, .length] = some (.region (uint_bytes bo values.length)) ∧
          ∀ i x, xs[i]? = some x →
            (Value.structure [.array (xs.map fun x => .structure [x])]).read bo
              [.member 0, .elem i, .member 0] = some x) ∧
      (∀ (info : json_input_info) (mem : loader_memory)
        (frame : json_input_stackframe) (flist : FieldList) (loc : Loc)
        (fields : List Value) (key : List Nat) (etype : Descriptor) (floc : Loc)
        (old : List Value) (r : Option Value) (e0 : Value) (items : List json_t)
        (ys : List Value) (rest : json_members),
        info.error = none → 0 < info.depth → info.depth + 2 < MAX_JSON_INPUT_STACK →
        info.frame info.depth = some frame → frame.type = some (.structure flist) →
        frame.data = some loc →
        (∀ k : Int, info.depth < k → k < MAX_JSON_INPUT_STACK →
          info.frame k = some json_input_stackframe.zero) →
        mem.data.read bo loc = some (.structure fields) →
        structs_find bo (.structure flist) (some key) (.structure fields) true =
          (.structure fields, .ok (.array etype, floc)) →
        mem.data.read bo (loc ++ floc) = some (.array old) →
        (Descriptor.array etype).uninit bo (.array old) = .ok r →
        (etype.tclass = .STRUCTS_TYPE_PRIMITIVE ∨ etype.tclass = .STRUCTS_TYPE_STRUCTURE ∨
          etype.tclass = .STRUCTS_TYPE_UNION) →
        (etype.type bo).init = .ok e0 →
        List.Forall₂ (loads_item bo lb etype e0 (info.depth + 2)) items ys →
        items.length < 2 ^ 32 →
        structs_json_input_data_object bo lb
            (.member key (.JSON_ARRAY (json_items_of items)) rest) (info, mem) =
          structs_json_input_data_object bo lb rest
            (info.set_frame info.depth
              { frame with name := if items.isEmpty = true then some key else none },
              mem.store (loc ++ floc) (.array ys)) ∧
          (mem.store (loc ++ floc) (.array ys)).data.read bo (loc ++ floc) =
            some (.array ys) ∧
          ys.length = items.length) ∧
      (∀ (info : json_input_info) (mem : loader_memory)
        (frame below : json_input_stackframe) (etype : Descriptor) (loc : Loc)
        (key : List Nat) (e0 : Value) (items : List json_t) (ys elems : List Value),
        info.error = none → info.frame info.depth = some frame →
        frame.type = some (.array etype) → frame.data = some loc → frame.name = none →
        info.frame (info.depth - 1) = some below → below.name = some key →
        (∀ k : Int, info.depth < k → k < MAX_JSON_INPUT_STACK →
          info.frame k = some json_input_stackframe.zero) →
        info.depth + 1 < MAX_JSON_INPUT_STACK →
        (etype.tclass = .STRUCTS_TYPE_PRIMITIVE ∨ etype.tclass = .STRUCTS_TYPE_STRUCTURE ∨
          etype.tclass = .STRUCTS_TYPE_UNION) →
        (etype.type bo).init = .ok e0 →
        List.Forall₂ (loads_item bo lb etype e0 (info.depth + 1)) items ys →
        mem.data.read bo loc = some (.array elems) →
        elems.length + items.length < 2 ^ 32 →
        structs_json_input_data bo lb (.JSON_ARRAY (json_items_of items)) (info, mem) =
          ((if items.isEmpty = true then info
            else info.set_frame (info.depth - 1) { below with name := none }),
            mem.store loc (.array (elems ++ ys))) ∧
          (mem.store loc (.array (elems ++ ys))).data.read bo loc =
            some (.array (elems ++ ys)) ∧
          ys.length = items.length) ∧
      (∀ (etype : Descriptor) (e0 : Value) (depth : Int) (text : List Nat) (y : Value),
        etype.tclass = .STRUCTS_TYPE_PRIMITIVE → etype.binify lb text = .ok y →
        text.length + 1 < 2 ^ 31 →
        loads_item bo lb etype e0 depth (.JSON_STRING text) y) ∧
      (∀ (etype : Descriptor) (e0 : Value) (depth : Int) (value : Int) (y : Value),
        etype.tclass = .STRUCTS_TYPE_PRIMITIVE →
        etype.binify lb (printf_lld value) = .ok y →
        (printf_lld value).length + 1 < 2 ^ 31 →
        loads_item bo lb etype e0 depth (.JSON_INTEGER value) y) ∧
      ∀ (depth : Int) (v : Int) (x : Value), 0 < depth →
        depth + 1 < MAX_JSON_INPUT_STACK → lb (.int name size) (printf_lld v) = .ok x →
        (printf_lld v).length + 1 < 2 ^ 31 →
        loads_item bo lb (E5_elem name size) (E5_init size) depth (E5_item v)
          (.structure [x]) := by
  have hw := E5_whole bo lb name size x1 x2 errno h1 h2
  have hc := E5_content bo lb name size x1 x2 errno h1 h2
  have hs := E5_step1 bo name size errno
  have hf := E5_find bo name size x1 x2
  simp only [E5_memory] at hw hc hs
  refine ⟨?_, ?_, ?_, ?_, ?_, ?_, ?_, rfl, ?_, by simp [Value.read], ?_,
    by simp [Value.read], ⟨rfl, ?_⟩, ?_, ?_, ?_, ?_, ?_⟩
  · rw [hs]
    rfl
  · rw [hs, hc]
    rfl
  · rw [hw]
    rfl
  · rw [hw]
    rfl
  · rw [hw]
  · rw [input_retval bo lb (E5_type name size) _ E5_doc errno (.structure [.array []]) rfl, hw]
    rfl
  · rw [hf.1]
  · rw [hf.2.1]
  · rw [hf.2.2]
  · intro values xs hx hlen
    have hxl := hx.length_eq.symm
    refine ⟨E5_input bo lb name size values xs errno hx hlen, hxl, ?_, ?_⟩
    · simp [Value.read, hxl]
    · intro i x hi
      simp [Value.read, hi]
  · intro info mem frame flist loc fields key etype floc old r e0 items ys rest he hd0 hd hfr
      ht hl ha hr hfind hold hun hp hi hx hlen
    exact ⟨array_member bo lb info mem frame flist loc fields key etype floc old r e0 items ys
      rest he hd0 hd hfr ht hl ha hr hfind hold hun hp hi hx hlen,
      store_read bo mem _ _ old hold, hx.length_eq.symm⟩
  · intro info mem frame below etype loc key e0 items ys elems he hfr ht hl hn hb hk ha hd hp
      hi hx hr hlen
    exact ⟨array_document bo lb info mem frame below etype loc key e0 items ys elems he hfr ht
      hl hn hb hk ha hd hp hi hx hr hlen, store_read bo mem _ _ elems hr,
      hx.length_eq.symm⟩
  · intro etype e0 depth text y hp hb hlen
    exact loads_string bo lb etype e0 depth text y hp hb hlen
  · intro etype e0 depth value y hp hb hlen
    exact loads_integer bo lb etype e0 depth value y hp hb hlen
  · intro depth v x h0 hd hb hlen
    exact loads_E5_item bo lb name size depth v x h0 hd hb hlen

theorem array_items_loaded_witness :
    structs_json_input .BIG_ENDIAN E5_binify (E5_type "int" 4) [114, 111, 111, 116]
        (some E5_doc) none =
      .ok (0, ⟨.structure [.array [.structure [.region [0, 0, 0, 1]],
        .structure [.region [0, 0, 0, 2]]]], none⟩) ∧
    structs_json_input .BIG_ENDIAN E5_binify (E5_type "int" 4) [114, 111, 111, 116]
        (some (E5_doc_of [2, 1, 2])) none =
      .ok (0, ⟨.structure [.array ([Value.region [0, 0, 0, 2], .region [0, 0, 0, 1],
        .region [0, 0, 0, 2]].map fun x => .structure [x])], none⟩) ∧
    structs_json_input_data .BIG_ENDIAN E5_binify
        (.JSON_ARRAY (json_items_of [.JSON_STRING [104, 105], .JSON_STRING [104, 111]]))
        (E5_info 2
          [E5_frame (.structure (.FIELD [97, 114, 114] (.array (.string false)) .END)) none []
              none,
            E5_frame (.structure (.FIELD [97, 114, 114] (.array (.string false)) .END))
              (some [97, 114, 114]) [] none,
            E5_frame (.array (.string false)) none [.member 0] none],
          E5_memory [] none) =
      ((if [json_t.JSON_STRING [104, 105], .JSON_STRING [104, 111]].isEmpty = true then
          E5_info 2
            [E5_frame (.structure (.FIELD [97, 114, 114] (.array (.string false)) .END)) none
                [] none,
              E5_frame (.structure (.FIELD [97, 114, 114] (.array (.string false)) .END))
                (some [97, 114, 114]) [] none,
              E5_frame (.array (.string false)) none [.member 0] none]
        else
          (E5_info 2
            [E5_frame (.structure (.FIELD [97, 114, 114] (.array (.string false)) .END)) none
                [] none,
              E5_frame (.structure (.FIELD [97, 114, 114] (.array (.string false)) .END))
                (some [97, 114, 114]) [] none,
              E5_frame (.array (.string false)) none [.member 0] none]).set_frame
            ((E5_info 2
              [E5_frame (.structure (.FIELD [97, 114, 114] (.array (.string false)) .END))
                  none [] none,
                E5_frame (.structure (.FIELD [97, 114, 114] (.array (.string false)) .END))
                  (some [97, 114, 114]) [] none,
                E5_frame (.array (.string false)) none [.member 0] none]).depth - 1)
            { E5_frame (.structure (.FIELD [97, 114, 114] (.array (.string false)) .END))
                (some [97, 114, 114]) [] none with name := none }),
        (E5_memory [] none).store [.member 0]
          (.array ([] ++ [.string (some [104, 105]), .string (some [104, 111])]))) :=
  ⟨(array_items_loaded .BIG_ENDIAN E5_binify "int" 4 (.region [0, 0, 0, 1])
      (.region [0, 0, 0, 2]) none rfl rfl).2.2.2.2.2.1,
    ((array_items_loaded .BIG_ENDIAN E5_binify "int" 4 (.region [0, 0, 0, 1])
      (.region [0, 0, 0, 2]) none rfl rfl).2.2.2.2.2.2.2.2.2.2.2.2.1.2 [2, 1, 2]
      [.region [0, 0, 0, 2], .region [0, 0, 0, 1], .region [0, 0, 0, 2]]
      (.cons ⟨by rw [printf_lld_2]; rfl, by decide⟩
        (.cons ⟨by rw [printf_lld_1]; rfl, by decide⟩
          (.cons ⟨by rw [printf_lld_2]; rfl, by decide⟩ .nil))) (by decide)).1,
    ((array_items_loaded .BIG_ENDIAN E5_binify "int" 4 (.region [0, 0, 0, 1])
      (.region [0, 0, 0, 2]) none rfl rfl).2.2.2.2.2.2.2.2.2.2.2.2.2.2.1
      (E5_info 2
        [E5_frame (.structure (.FIELD [97, 114, 114] (.array (.string false)) .END)) none []
            none,
          E5_frame (.structure (.FIELD [97, 114, 114] (.array (.string false)) .END))
            (some [97, 114, 114]) [] none,
          E5_frame (.array (.string false)) none [.member 0] none])
      (E5_memory [] none) (E5_frame (.array (.string false)) none [.member 0] none)
      (E5_frame (.structure (.FIELD [97, 114, 114] (.array (.string false)) .END))
        (some [97, 114, 114]) [] none)
      (.string false) [.member 0] [97, 114, 114] (.string (some []))
      [.JSON_STRING [104, 105], .JSON_STRING [104, 111]]
      [.string (some [104, 105]), .string (some [104, 111])] []
      rfl rfl rfl rfl rfl rfl rfl
      (fun k h1 h2 => by
        simp only [E5_info] at h1
        simp only [MAX_JSON_INPUT_STACK, Nat.cast_ofNat] at h2
        interval_cases k <;> rfl)
      (by decide) (Or.inl rfl) rfl
      (.cons
        ((array_items_loaded .BIG_ENDIAN E5_binify "int" 4 (.region [0, 0, 0, 1])
          (.region [0, 0, 0, 2]) none rfl rfl).2.2.2.2.2.2.2.2.2.2.2.2.2.2.2.1
          (.string false) (.string (some [])) _ [104, 105] (.string (some [104, 105]))
          rfl rfl (by decide))
        (.cons
          ((array_items_loaded .BIG_ENDIAN E5_binify "int" 4 (.region [0, 0, 0, 1])
            (.region [0, 0, 0, 2]) none rfl rfl).2.2.2.2.2.2.2.2.2.2.2.2.2.2.2.1
            (.string false) (.string (some [])) _ [104, 111] (.string (some [104, 111]))
            rfl rfl (by decide))
          .nil))
      rfl (by decide)).1⟩

set_option maxRecDepth 100000 in
theorem loader_depth_after_document :
    (structs_json_input_data .BIG_ENDIAN E5_binify E5_doc
        (structs_json_input_info (E5_type "int" 4) [114, 111, 111, 116],
          ⟨.structure [.array []], none⟩)).1.error = none ∧
      (structs_json_input_start .BIG_ENDIAN
        (structs_json_input_info (E5_type "int" 4) [114, 111, 111, 116])
        ⟨.structure [.array []], none⟩ (some [114, 111, 111, 116])).1.depth = 1 ∧
      (structs_json_input_data .BIG_ENDIAN E5_binify E5_doc
        (structs_json_input_info (E5_type "int" 4) [114, 111, 111, 116],
          ⟨.structure [.array []], none⟩)).1.depth = 0 ∧
      ¬ (structs_json_input_data .BIG_ENDIAN E5_binify E5_doc
          (structs_json_input_info (E5_type "int" 4) [114, 111, 111, 116],
            ⟨.structure [.array []], none⟩)).1.depth =
        (structs_json_input_start .BIG_ENDIAN
          (structs_json_input_info (E5_type "int" 4) [114, 111, 111, 116])
          ⟨.structure [.array []], none⟩ (some [114, 111, 111, 116])).1.depth := by
  decide!

/-! ## The loader: where an error is recorded -/

theorem settled_of_valid (info : json_input_info)
    (h : (info.frame info.depth).isSome = true) : info.settled :=
  Or.inr (Or.inr h)

theorem settled_undefined (info : json_input_info) : info.undefined.settled :=
  Or.inr (Or.inl rfl)

theorem with_error_settled (info : json_input_info) (e : Option Errno)
    (h : (info.frame info.depth).isSome = true) :
    json_input_info.settled { info with error := e } :=
  Or.inr (Or.inr h)

theorem set_frame_settled (info : json_input_info) (i : Int) (f : json_input_stackframe)
    (h : info.settled) : (info.set_frame i f).settled := by
  rcases h with h | h | h
  · exact Or.inl h
  · exact Or.inr (Or.inl h)
  · refine Or.inr (Or.inr ?_)
    rw [set_frame_depth, set_frame_frame_isSome]
    exact h

theorem pop_settled (info : json_input_info) (he : info.error = none) :
    (structs_json_input_pop info).settled := by
  unfold structs_json_input_pop
  split
  · exact settled_undefined info
  · exact Or.inl he

theorem next_frame_settled (info : json_input_info) (type : Descriptor) (data : Loc)
    (he : info.error = none) (hv : (info.frame info.depth).isSome = true) :
    (structs_json_input_next_frame info type data).settled := by
  unfold structs_json_input_next_frame
  split
  · exact with_error_settled info _ hv
  · split
    · exact settled_undefined info
    · exact Or.inl he

theorem next_settled (bo : ByteOrder) (info : json_input_info) (mem : loader_memory)
    (type : Descriptor) (data : Loc) (he : info.error = none)
    (hv : (info.frame info.depth).isSome = true) :
    (structs_json_input_next bo info mem type data).1.settled := by
  unfold structs_json_input_next
  split
  · split
    · exact settled_undefined info
    · split
      · exact settled_undefined info
      · exact next_frame_settled _ _ _ he hv
  · split
    · exact with_error_settled info _ hv
    · split
      · exact settled_undefined info
      · split
        · exact settled_undefined info
        · split
          · exact settled_undefined info
          · refine next_frame_settled _ _ _ he ?_
            rw [set_frame_depth, set_frame_frame_isSome]
            exact hv
  · exact next_frame_settled _ _ _ he hv

theorem nest_find_valid (bo : ByteOrder) (info : json_input_info) (mem : loader_memory)
    (frame : json_input_stackframe) (type : Descriptor)
    (hv : (info.frame info.depth).isSome = true) :
    ((structs_json_input_nest_find bo info mem frame type).1.frame
      (structs_json_input_nest_find bo info mem frame type).1.depth).isSome = true := by
  unfold structs_json_input_nest_find
  split
  · exact hv
  · split
    · exact hv
    · split
      · split <;> exact hv
      · exact hv

theorem nest_valid (bo : ByteOrder) (info : json_input_info) (mem : loader_memory)
    (hv : (info.frame info.depth).isSome = true) :
    ((structs_json_input_nest bo info mem).1.frame
      (structs_json_input_nest bo info mem).1.depth).isSome = true := by
  unfold structs_json_input_nest
  split
  · exact hv
  · split
    · exact hv
    · exact hv
    · exact nest_find_valid _ _ _ _ _ hv
    · exact nest_find_valid _ _ _ _ _ hv
    · split
      · exact hv
      · split
        · split
          · exact hv
          · split <;> exact hv
        · exact hv
    · split
      · exact hv
      · split
        · exact hv
        · rw [set_frame_depth, set_frame_frame_isSome]
          exact hv
    · exact hv

theorem start_done_settled (info : json_input_info) (d : Int) (h : info.settled) :
    (structs_json_input_start_done info d).settled := by
  unfold structs_json_input_start_done
  split
  · exact settled_undefined info
  · exact set_frame_settled _ _ _ h

theorem start_top_settled (bo : ByteOrder) (info : json_input_info) (mem : loader_memory)
    (frame : json_input_stackframe) (name : List Nat) (he : info.error = none)
    (hv : (info.frame info.depth).isSome = true) :
    (structs_json_input_start_top bo info mem frame name).1.settled := by
  unfold structs_json_input_start_top
  split
  · exact start_done_settled _ _ (with_error_settled info _ hv)
  · split
    · exact start_done_settled _ _ (next_settled _ _ _ _ _ he hv)
    · exact settled_undefined info

theorem start_sub_settled (bo : ByteOrder) (info : json_input_info) (mem : loader_memory)
    (depth : Int) (item : Option (Descriptor × Loc))
    (hv : (info.frame info.depth).isSome = true) :
    (structs_json_input_start_sub bo info mem depth item).1.settled := by
  unfold structs_json_input_start_sub
  split
  · exact start_done_settled _ _ (settled_of_valid info hv)
  · rename_i he
    have he' : info.error = none := by
      by_contra h
      exact he h
    split
    · exact settled_undefined info
    · split
      · exact start_done_settled _ _ (next_settled _ _ _ _ _ he' hv)
      · split
        · exact next_settled _ _ _ _ _ he' hv
        · exact start_done_settled _ _ (next_settled _ _ _ _ _ he' hv)

theorem start_settled (bo : ByteOrder) (info : json_input_info) (mem : loader_memory)
    (key : Option (List Nat)) (h : info.settled) :
    (structs_json_input_start bo info mem key).1.settled := by
  unfold structs_json_input_start
  split
  · exact settled_undefined info
  · rename_i frame hf
    have hv : (info.frame info.depth).isSome = true := by
      rw [hf]
      rfl
    split
    · exact h
    · rename_i he
      have he' : info.error = none := by
        by_contra h'
        exact he h'
      split
      · exact with_error_settled info _ hv
      · split
        · refine start_top_settled _ _ _ _ _ he' ?_
          rw [set_frame_depth, set_frame_frame_isSome]
          exact hv
        · refine start_sub_settled _ _ _ _ _ (nest_valid _ _ _ ?_)
          rw [set_frame_depth, set_frame_frame_isSome]
          exact hv

theorem str_value_settled (info : json_input_info) (mem : loader_memory) (s : List Nat)
    (h : info.settled) : (structs_json_input_str_value info mem s).1.settled := by
  unfold structs_json_input_str_value
  split
  · exact settled_undefined info
  · split
    · exact h
    · split
      · exact settled_undefined info
      · exact set_frame_settled _ _ _ h

theorem unnest_set_settled (bo : ByteOrder)
    (lb : Descriptor → List Nat → Except Errno Value) (info : json_input_info)
    (mem : loader_memory) (frame : json_input_stackframe) (type : Descriptor) (data : Loc)
    (he : info.error = none) (hv : (info.frame info.depth).isSome = true) :
    (structs_json_input_unnest_set bo lb info mem frame type data).1.settled := by
  unfold structs_json_input_unnest_set
  split
  · exact settled_undefined info
  · split
    · exact with_error_settled info _ hv
    · exact pop_settled _ he

theorem unnest_done_settled (info : json_input_info) (mem : loader_memory)
    (frame : json_input_stackframe) (he : info.error = none)
    (hv : (info.frame info.depth).isSome = true) :
    (structs_json_input_unnest_done info mem frame).1.settled := by
  unfold structs_json_input_unnest_done
  split
  · exact with_error_settled info _ hv
  · exact pop_settled _ he

theorem unnest_settled (bo : ByteOrder) (lb : Descriptor → List Nat → Except Errno Value)
    (info : json_input_info) (mem : loader_memory) (h : info.settled) :
    (structs_json_input_unnest bo lb info mem).1.settled := by
  unfold structs_json_input_unnest
  split
  · exact settled_undefined info
  · rename_i frame hf
    have hv : (info.frame info.depth).isSome = true := by
      rw [hf]
      rfl
    split
    · exact h
    · rename_i he
      have he' : info.error = none := by
        by_contra h'
        exact he h'
      split
      · exact settled_undefined info
      · split
        · exact pop_settled _ he'
        · split
          · exact settled_undefined info
          · split
            · exact unnest_done_settled _ _ _ he' hv
            · split
              · exact settled_undefined info
              · split
                · exact settled_undefined info
                · split
                  · exact with_error_settled info _ hv
                  · exact unnest_set_settled _ _ _ _ _ _ _ he' hv
      · split
        · split
          · exact settled_undefined info
          · exact unnest_set_settled _ _ _ _ _ _ _ he' hv
        · exact unnest_done_settled _ _ _ he' hv

theorem events_settled (bo : ByteOrder) (lb : Descriptor → List Nat → Except Errno Value) :
    ∀ (events : List loader_event) (s : json_input_info × loader_memory), s.1.settled →
      (structs_json_input_events bo lb events s).1.settled
  | [], _, h => h
  | .start key :: events, s, h =>
    events_settled bo lb events _ (start_settled bo s.1 s.2 key h)
  | .str_value text :: events, s, h =>
    events_settled bo lb events _ (str_value_settled s.1 s.2 text h)
  | .finish :: events, s, h =>
    events_settled bo lb events _ (unnest_settled bo lb s.1 s.2 h)

/-- C36: first error wins.  Once the JSON machine, started without an error,
has recorded an error in the course of a sequence of start, value and end
events, every later sequence of such events leaves the whole state as it is,
the error code, the depth and the target value in particular; the walk of
`structs_json_input_data` over any document leaves the error code, the depth
and the memory as they are; and a load whose walk ends with an error recorded
returns -1. -/
theorem first_error_wins (bo : ByteOrder) (lb : Descriptor → List Nat → Except Errno Value)
    (info : json_input_info) (mem : loader_memory) (before : List loader_event) (e : Errno)
    (h0 : info.error = none)
    (he : (structs_json_input_events bo lb before (info, mem)).1.error = some e)
    (hne : e ≠ .undefined) :
    (∀ later : List loader_event,
      structs_json_input_events bo lb later
          (structs_json_input_events bo lb before (info, mem)) =
        structs_json_input_events bo lb before (info, mem)) ∧
    (∀ obj : json_t,
      (structs_json_input_data bo lb obj
          (structs_json_input_events bo lb before (info, mem))).1.error = some e ∧
        (structs_json_input_data bo lb obj
          (structs_json_input_events bo lb before (info, mem))).1.depth =
          (structs_json_input_events bo lb before (info, mem)).1.depth ∧
        (structs_json_input_data bo lb obj
          (structs_json_input_events bo lb before (info, mem))).2 =
          (structs_json_input_events bo lb before (info, mem)).2) ∧
    (∀ (type : Descriptor) (elem_tag : List Nat) (result : json_t) (errno : Option Errno)
      (data : Value) (e1 : Errno), (type.type bo).init = .ok data →
      (structs_json_input_data bo lb result
        (structs_json_input_info type elem_tag, ⟨data, errno⟩)).1.error = some e1 →
      e1 ≠ .undefined →
      structs_json_input bo lb type elem_tag (some result) errno =
        .ok (-1, (structs_json_input_data bo lb result
          (structs_json_input_info type elem_tag, ⟨data, errno⟩)).2)) := by
  have hs := events_settled bo lb before (info, mem) (Or.inl h0)
  have hv : ((structs_json_input_events bo lb before (info, mem)).1.frame
      (structs_json_input_events bo lb before (info, mem)).1.depth).isSome = true := by
    rcases hs with h | h | h
    · rw [he] at h
      exact absurd h (by simp)
    · rw [he] at h
      exact absurd (Option.some.inj h) hne
    · exact h
  have hn : (structs_json_input_events bo lb before (info, mem)).1.error ≠ none := by
    rw [he]
    simp
  refine ⟨?_, ?_, ?_⟩
  · intro later
    exact events_after_error bo lb _ _ hn hv later
  · intro obj
    obtain ⟨h1, h2, h3, _⟩ := data_after_error bo lb obj _ hn hv
    exact ⟨h1.trans he, h2, h3⟩
  · intro type elem_tag result errno data e1 hi hr hne1
    rw [input_retval bo lb type elem_tag result errno data hi, hr]
    simp [hne1]

theorem first_error_wins_witness :
    structs_json_input_events .BIG_ENDIAN E5_binify
        [.start (some [97]), .str_value [49], .finish]
        (structs_json_input_events .BIG_ENDIAN E5_binify [.start (some [115])]
          (structs_json_input_info (E5_type "int" 4) [114, 111, 111, 116],
            ⟨.structure [.array []], none⟩)) =
      structs_json_input_events .BIG_ENDIAN E5_binify [.start (some [115])]
        (structs_json_input_info (E5_type "int" 4) [114, 111, 111, 116],
          ⟨.structure [.array []], none⟩) :=
  (first_error_wins .BIG_ENDIAN E5_binify
    (structs_json_input_info (E5_type "int" 4) [114, 111, 111, 116])
    ⟨.structure [.array []], none⟩ [.start (some [115])] .EINVAL rfl (by decide)
    (by decide)).1 [.start (some [97]), .str_value [49], .finish]

end Structs
